import Mathlib

/-!
# Asynchronous windowed table cache: embedding and verified properties

Shallow embedding of the coordination core of the table cache
(`SqlQueryUtils`, `SyncSqlCache`, `AsyncSqlTableModelBase`).

Conventions of the embedding
* C++ `int` / `qint64` / `size_t` values are `Int` / `Nat`.  Row indexes are
  `int` throughout the source; the id vectors are assumed to hold fewer than
  `2^31` ids, so the `static_cast<int>` of a position is exact.  A statement
  that involves the sentinel `std::numeric_limits<int>::max()` names the bound
  it needs.  `RowRange::Expand` adds the window offset to `Bottom`, an `int`
  addition that is exact for `Bottom <= IntMax - offset`.
* `QVector`, `std::vector`, `QList` are `List`; `std::set<int>` is a strictly
  increasing `List Int`; `std::map` is an association list kept sorted by key;
  `std::unordered_map` and `QSet` are association lists / lists without
  repeated keys (their iteration order is never observable in the results
  proved here).
* A `mutable` member or a member function with side effects returns the
  updated object next to its result.
* Qt signals are collected in an output list.
* The SQL engine is an external collaborator: a table is the list of its rows,
  values are stored and read back verbatim (but for a NULL `id`, in whose
  place the engine stores the rowid it assigns), and a statement succeeds
  unless a failure is passed in (the re-selection `SELECT` takes its result,
  or its failure, from a `SelectEngine` parameter).  Clock readings are
  parameters.
* No operation handler (plugin hook) is installed: `mOperationHandler` is null.
* `Q_ASSERT` is compiled out (release build): the statements after it run.
* The single-shot `QTimer` calls its slot when it expires; the expiry is the
  call of `OnTimerExpired`.
-/

namespace AsyncQtTable

/-! ## QVariant -/

/-- Model of `QVariant`, restricted to the kinds of value the cache stores. -/
inductive QVariant where
  | invalid
  | longlong (v : Int)
  | string (s : String)
  deriving DecidableEq, Repr

namespace QVariant

/-- Model of `QVariant::isValid`. -/
def isValid : QVariant → Bool
  | invalid => false
  | _ => true

/-- Model of `QVariant::toLongLong`: an invalid variant and a text that is not
a number convert to `0`. -/
def toLongLong : QVariant → Int
  | longlong v => v
  | string s => s.toInt?.getD 0
  | invalid => 0

/-- Model of `QVariant::toString`. -/
def toQString : QVariant → String
  | longlong v => toString v
  | string s => s
  | invalid => ""

end QVariant

/-! ## RowRange (SqlQueryUtils.h / SqlQueryUtils.cpp) -/

/-- Value of `std::numeric_limits<int>::max()`. -/
def IntMax : Int := 2147483647

/-- Source: `SqlQueryUtils::SQLITE_MAX_VARIABLE_NUMBER`. -/
def SQLITE_MAX_VARIABLE_NUMBER : Int := 999

/-- Model of `struct RowRange`: `Top = Bottom = -1` is the empty range. -/
structure RowRange where
  Top : Int := -1
  Bottom : Int := -1
  deriving DecidableEq, Repr

namespace RowRange

/-- Source: `RowRange::IsValid`. -/
def IsValid (r : RowRange) : Bool :=
  decide (r.Top ≥ 0) && decide (r.Bottom ≥ 0) && decide (r.Bottom ≥ r.Top)

/-- Source: `RowRange::Contains(int)`. -/
def Contains (r : RowRange) (aRow : Int) : Bool :=
  decide (aRow ≥ r.Top) && decide (aRow ≤ r.Bottom)

/-- Source: `RowRange::Contains(const RowRange&, int)`. -/
def ContainsRange (r aOther : RowRange) (aPadding : Int) : Bool :=
  if !r.Contains aOther.Top || !r.Contains aOther.Bottom then false
  else if aOther.Top - r.Top < aPadding then false
  else if r.Bottom - aOther.Bottom < aPadding then false
  else true

/-- Source: `RowRange::Distance()` (`Bottom - Top`, `0` when invalid). -/
def Distance0 (r : RowRange) : Int :=
  if !r.IsValid then 0 else r.Bottom - r.Top

/-- Source: `RowRange::Expand`; `r.Bottom + aOffset` is the source's `int`
addition for `r.Bottom ≤ IntMax - aOffset`. -/
def Expand (r : RowRange) (aOffset : Int) : RowRange :=
  let top := max 0 (r.Top - aOffset)
  { Top := top, Bottom := max top (r.Bottom + aOffset) }

/-- Rows visited by `for (int i = s.Top; i <= s.Bottom; ++i)`. -/
def rows (r : RowRange) : List Int :=
  (List.range (r.Bottom - r.Top + 1).toNat).map (fun (k : Nat) => r.Top + (k : Int))

/-- Source: `RowRange::Intersects`. -/
def Intersects (r aOther : RowRange) : Bool :=
  r.Contains aOther.Top || r.Contains aOther.Bottom || aOther.Contains r.Top
    || aOther.Contains r.Bottom

/-- Source: `RowRange::Union`: one range when the two intersect, else the two
ranges, the one with the smaller `Top` first. -/
def Union (r aOther : RowRange) : List RowRange :=
  if r.Intersects aOther then
    [{ Top := min r.Top aOther.Top, Bottom := max r.Bottom aOther.Bottom }]
  else if aOther.Top < r.Top then [aOther, r]
  else [r, aOther]

/-- Source: `RowRange::Distance(int)`; `IntMax` for a range that is not valid. -/
def Distance (r : RowRange) (aRow : Int) : Int :=
  if !r.IsValid then IntMax
  else if r.Contains aRow then 0
  else if aRow < r.Top then r.Top - aRow
  else if aRow > r.Bottom then aRow - r.Bottom
  else 0

/-- Source: `RowRange::NearestRow`. -/
def NearestRow (r : RowRange) (aRow : Int) : Int :=
  if !r.IsValid || r.Contains aRow then aRow
  else if aRow < r.Top then r.Top
  else if aRow > r.Bottom then r.Bottom
  else aRow

/-- Source: `RowRange::Count`. -/
def Count (r : RowRange) : Int :=
  if !r.IsValid then 0 else r.Bottom - r.Top + 1

/-- Source: `RowRange::ScrollTo`. -/
def ScrollTo (r : RowRange) (aRow : Int) : RowRange :=
  let dst : Int :=
    if !r.IsValid then 0
    else if aRow < r.Top then aRow - r.Top
    else if aRow > r.Bottom then aRow - r.Bottom
    else 0
  { Top := r.Top + dst, Bottom := r.Bottom + dst }

/-- Source: `RowRange::ScrollToWithCorrection`. -/
def ScrollToWithCorrection (r : RowRange) (aRow : Int)
    (_aTopIsFullVisible aBottomIsFullVisible aBottomIsEnd : Bool) : RowRange :=
  let dst : Int :=
    if aRow < r.Top then aRow - r.Top
    else if aRow > r.Bottom then aRow - r.Bottom
    else 0
  let tmpRange : RowRange := { Top := r.Top + dst, Bottom := r.Bottom + dst }
  let corrected := decide (aRow = tmpRange.Bottom) && !aBottomIsFullVisible
  let dstTop : Int := if corrected then 1 else 0
  let dstBottom : Int := if corrected then (if aBottomIsEnd then 0 else 1) else 0
  { Top := max 0 (tmpRange.Top + dstTop), Bottom := tmpRange.Bottom + dstBottom }

end RowRange

/-- Source: `SqlQueryUtils::RowWindowOffset`. -/
def RowWindowOffset : Int := 50

/-- Source: `SqlQueryUtils::MakeUniqueName`; `aInstanceCounter` is the value of
the process-wide `mInstanceCounter` before the call, returned incremented.
The name is `QString("%1%2").arg(aName).arg(num + 1)`: for a base name without
a place marker, the base name followed by the decimal counter. -/
def MakeUniqueName (aInstanceCounter : Int) (aName : String) : String × Int :=
  (aName ++ toString (aInstanceCounter + 1), aInstanceCounter + 1)

/-! ## IdsInfo and RowTransformator (SyncSqlCache.h / SyncSqlCache.cpp) -/

/-- Model of `std::unordered_map<qlonglong, size_t>::emplace`: nothing happens
when the key is already present. -/
def umapEmplace (c : List (Int × Nat)) (k : Int) (v : Nat) : List (Int × Nat) :=
  match c.lookup k with
  | some _ => c
  | none => c ++ [(k, v)]

/-- Model of `SyncSqlCache::IdsInfo`: the id vector of one version and the
lazily built (`mutable`) id -> position index. -/
structure IdsInfo where
  Ids : List Int := []
  IdPositions : List (Int × Nat) := []
  deriving DecidableEq, Repr

namespace IdsInfo

/-- Source: `IdsInfo::IsOutOfRange`. -/
def IsOutOfRange (s : IdsInfo) (aI : Int) : Bool :=
  decide (aI < 0) || decide (aI.toNat ≥ s.Ids.length)

/-- Source: `IdsInfo::GetId`: an invalid variant for a row outside `Ids`. -/
def GetId (s : IdsInfo) (aI : Int) : QVariant :=
  if s.IsOutOfRange aI then QVariant.invalid
  else QVariant.longlong (s.Ids.getD aI.toNat 0)

/-- The loop of `IdsInfo::GetRow`,
`for (size_t i = IdPositions.size(); i < Ids.size(); ++i)`, run over the ids
from position `i` on. -/
def scan (id : Int) : List Int → Nat → List (Int × Nat) → Option Nat × List (Int × Nat)
  | [], _, c => (none, c)
  | value :: rest, i, c =>
    let c1 := umapEmplace c value i
    if value = id then (some i, c1) else scan id rest (i + 1) c1

/-- Source: `IdsInfo::GetRow`.  Returns the position and the object with its
updated index. -/
def GetRow (s : IdsInfo) (aId : QVariant) : Option Nat × IdsInfo :=
  let id := aId.toLongLong
  match s.IdPositions.lookup id with
  | some p => (some p, s)
  | none =>
    if s.IdPositions.length < s.Ids.length then
      let r := scan id (s.Ids.drop s.IdPositions.length) s.IdPositions.length s.IdPositions
      (r.1, { s with IdPositions := r.2 })
    else (none, s)

/-- Source: `IdsInfo::AddId`. -/
def AddId (s : IdsInfo) (aId : QVariant) : IdsInfo :=
  { s with Ids := s.Ids ++ [aId.toLongLong] }

/-- Representation invariant of the lazily built index: every entry maps an id
to its first position, keys are unique, and every id of the first
`IdPositions.size()` positions has an entry. -/
def CacheOK (s : IdsInfo) : Prop :=
  (∀ k p, (k, p) ∈ s.IdPositions → k ∈ s.Ids ∧ s.Ids.indexOf k = p) ∧
  (s.IdPositions.map Prod.fst).Nodup ∧
  (∀ x ∈ s.Ids.take s.IdPositions.length, x ∈ s.IdPositions.map Prod.fst)

end IdsInfo

namespace RowTransformator

/-- Source: `SyncSqlCache::RowTransformator::Transform(int)`.  `Old` and `New`
are the two id mappings; the result carries `New` with its updated index. -/
def Transform (Old New : IdsInfo) (aRow : Int) : Int × IdsInfo :=
  let r := New.GetRow (Old.GetId aRow)
  match r.1 with
  | none => (-1, r.2)
  | some row => ((row : Int), r.2)

end RowTransformator


/-! ## Plain data of SyncSqlCache.h -/

/-- Source: `enum class LoadingStatus`. -/
inductive LoadingStatus where
  | NotChanged
  | Finished
  | Started
  deriving DecidableEq, Repr

/-- Source: `struct SortParameters`. -/
structure SortParameters where
  Column : Int
  Order : Int
  deriving DecidableEq, Repr

/-- Source: `enum class EdgeRowHintType`. -/
inductive EdgeRowHintType where
  | Part
  | Full
  deriving DecidableEq, Repr

/-- Source: `enum class ScrollHintType`. -/
inductive ScrollHintType where
  | NoHint
  | EnsureVisible
  deriving DecidableEq, Repr

/-- Value of `Qt::AscendingOrder`; a `Qt::SortOrder` is kept as the integer it
is cast from (`static_cast<Qt::SortOrder>(aSorting->Order)`). -/
def AscendingOrder : Int := 0

/-- Value of `Qt::DescendingOrder`. -/
def DescendingOrder : Int := 1

/-- Source: `struct RowRequest`. -/
structure RowRequest where
  RowWindow : RowRange := {}
  RowWindowVisible : RowRange := {}
  Version : Int := 0
  deriving DecidableEq, Repr

/-- Source: `struct SelectionRequest`. -/
structure SelectionRequest where
  Selection : List RowRange := []
  CurrentRow : Int := -1
  Version : Int := 0
  deriving DecidableEq, Repr

/-- Source: `struct HintsRequest`. -/
structure HintsRequest where
  ScrollHint : ScrollHintType := ScrollHintType.NoHint
  TopRowHint : EdgeRowHintType := EdgeRowHintType.Full
  BottomRowHint : EdgeRowHintType := EdgeRowHintType.Full
  deriving DecidableEq, Repr

/-- Source: `struct ViewWindowValues` (value part). -/
structure ViewWindowValues where
  Data : List (List QVariant) := []
  RecordsCount : Int := 0
  Rows : RowRange := {}
  RowsVisible : RowRange := {}
  Selection : List RowRange := []
  CurrentRow : Int := -1
  ScrollHint : ScrollHintType := ScrollHintType.NoHint
  TopRowHint : EdgeRowHintType := EdgeRowHintType.Full
  BottomRowHint : EdgeRowHintType := EdgeRowHintType.Full
  Version : Int := 0
  RequestId : Int := -1
  ExtraData : QVariant := QVariant.invalid
  deriving DecidableEq, Repr

namespace ViewWindowValues

/-- Source: `ViewWindowValues::GetRow`. -/
def GetRow (v : ViewWindowValues) (aRow : Int) : Option (List QVariant) :=
  if aRow ≥ v.RecordsCount then none
  else if !v.Rows.Contains aRow then none
  else
    let index := aRow - v.Rows.Top
    if index ≥ (v.Data.length : Int) then none
    else v.Data.get? index.toNat

/-- Source: `ViewWindowValues::SetData`. -/
def SetData (v : ViewWindowValues) (aData : List (List QVariant)) (aRows aRowsVisible : RowRange)
    (aRecordsCount : Int) : ViewWindowValues :=
  { v with Data := aData, Rows := aRows, RowsVisible := aRowsVisible,
           RecordsCount := aRecordsCount }

/-- Source: `ViewWindowValues::PrepareRemoveRows`. -/
def PrepareRemoveRows (v : ViewWindowValues) (aRecordsCount : Int) : RowRange :=
  let n := max 0 aRecordsCount
  if n < v.RecordsCount then { Top := n, Bottom := v.RecordsCount - 1 } else {}

/-- Body of the `while` loop of `ViewWindowValues::RemoveRows`. -/
def removeRowsStep (v : ViewWindowValues) : ViewWindowValues :=
  let data := if (v.GetRow v.Rows.Bottom).isSome then v.Data.dropLast else v.Data
  let bottom := v.Rows.Bottom - 1
  { v with Data := data, Rows := { v.Rows with Bottom := bottom },
           RowsVisible := { v.RowsVisible with Top := min v.RowsVisible.Top bottom } }

/-- The loop `while (Rows.Bottom >= aRecordsCount)` of `RemoveRows`, run for at
most the given number of iterations. -/
def removeRowsLoop (aRecordsCount : Int) : Nat → ViewWindowValues → ViewWindowValues
  | 0, v => v
  | k + 1, v =>
    if v.Rows.Bottom ≥ aRecordsCount then removeRowsLoop aRecordsCount k v.removeRowsStep else v

/-- Source: `ViewWindowValues::RemoveRows`.  The loop lowers `Rows.Bottom` by
one per iteration, so `Rows.Bottom - aRecordsCount + 1` iterations end it. -/
def RemoveRows (v : ViewWindowValues) (aRecordsCount : Int) : ViewWindowValues :=
  let n := max 0 aRecordsCount
  let v1 := removeRowsLoop n (v.Rows.Bottom - n + 1).toNat v
  let v2 := if v1.Data.isEmpty then { v1 with Rows := {}, RowsVisible := {} } else v1
  { v2 with RecordsCount := min v2.RecordsCount n }

/-- Source: `ViewWindowValues::PrepareChangeRows`. -/
def PrepareChangeRows (v aNewValues : ViewWindowValues) : List RowRange :=
  let minRecordsCount := min aNewValues.RecordsCount v.RecordsCount
  (v.Rows.Union aNewValues.Rows).foldl
    (fun result it =>
      if it.Bottom < minRecordsCount then result ++ [it]
      else
        let changedRange : RowRange := { it with Bottom := minRecordsCount - 1 }
        if changedRange.IsValid then result ++ [changedRange] else result)
    []

/-- Source: `ViewWindowValues::ChangeRows`. -/
def ChangeRows (v aNewValues : ViewWindowValues) : ViewWindowValues :=
  { v with Rows := aNewValues.Rows, RowsVisible := aNewValues.RowsVisible,
           Data := aNewValues.Data }

/-- Source: `ViewWindowValues::PrepareAddRows`. -/
def PrepareAddRows (v : ViewWindowValues) (aRecordsCount : Int) : RowRange :=
  let n := max 0 aRecordsCount
  if n > v.RecordsCount then { Top := v.RecordsCount, Bottom := n - 1 } else {}

/-- Source: `ViewWindowValues::AddRows`. -/
def AddRows (v : ViewWindowValues) (aRecordsCount : Int) : ViewWindowValues :=
  { v with RecordsCount := max v.RecordsCount aRecordsCount }

end ViewWindowValues

/-! ## SqlCacheTable (SqlCacheTable.h / SqlCacheTable.cpp)

The SQL engine is an external collaborator.  A table is modelled by its
content: the list of stored rows, unique in the column named `id`, which the
field list declares `INTEGER PRIMARY KEY` and which the prepared `DELETE` /
`SELECT` statements address (`WHERE id = ?`).  Such a column is the rowid of
the table: a row inserted with a NULL `id` gets the rowid the engine assigns,
one more than the largest rowid stored (`1` in an empty table), and reads back
with that integer in its `id` column.  Statements are assumed to succeed unless
a failure is passed in explicitly.  The ids the cache handles are integers
(`DeleteRecord` takes a `qlonglong`, an id is read with `toLongLong`): a row
whose `id` is a text, or which has another number of values than the table has
columns, is outside the rows `Insert` describes. -/

/-- Value of column `k` of a row as an id. -/
def rowIdAt (k : Nat) (row : List QVariant) : Int :=
  (row.getD k QVariant.invalid).toLongLong

/-- Model of `SqlCacheTable` together with the content of its SQL table. -/
structure SqlCacheTable where
  mTableName : String := ""
  mFieldList : List String := []
  IdColumn : Nat := 0
  Rows : List (List QVariant) := []
  deriving DecidableEq, Repr

namespace SqlCacheTable

/-- Value of the `id` column of a row, as the engine compares it. -/
def rowId (t : SqlCacheTable) (row : List QVariant) : Int :=
  rowIdAt t.IdColumn row

/-- Rowid the engine assigns to a row inserted with a NULL `id`: one more than
the largest id stored, `1` in an empty table. -/
def nextRowId (t : SqlCacheTable) : Int :=
  match t.Rows.map t.rowId with
  | [] => 1
  | a :: l => l.foldl max a + 1

/-- The row as `INSERT OR REPLACE` stores it: a NULL `id` is replaced by the
rowid the engine assigns, every other value is stored as it was bound. -/
def storedRow (t : SqlCacheTable) (fields : List QVariant) : List QVariant :=
  if (fields.getD t.IdColumn QVariant.invalid).isValid then fields
  else fields.set t.IdColumn (QVariant.longlong t.nextRowId)

/-- Source: `PerformAction(Action::Insert, fields)`, i.e.
`INSERT OR REPLACE INTO t VALUES (...)`: the stored row replaces the row that
has its id, if there is one. -/
def Insert (t : SqlCacheTable) (fields : List QVariant) : SqlCacheTable :=
  let row := t.storedRow fields
  { t with Rows := t.Rows.filter (fun r => decide (t.rowId r ≠ t.rowId row)) ++ [row] }

/-- Source: `PerformAction(Action::Delete, id)`, i.e. `DELETE FROM t WHERE id = ?`. -/
def Delete (t : SqlCacheTable) (aId : Int) : SqlCacheTable :=
  { t with Rows := t.Rows.filter (fun r => decide (t.rowId r ≠ aId)) }

/-- Source: `PerformAction(Action::Select, id)` followed by `query.next()`:
the record with this id, if there is one. -/
def Select (t : SqlCacheTable) (aId : Int) : Option (List QVariant) :=
  t.Rows.find? (fun r => decide (t.rowId r = aId))

/-- Source: `PerformAction(Action::Clear)`, i.e. `DELETE FROM t`. -/
def Clear (t : SqlCacheTable) : SqlCacheTable :=
  { t with Rows := [] }

/-- Source: `SqlCacheTable::GetRowCount` (`SELECT count(1)`). -/
def GetRowCount (t : SqlCacheTable) : Nat := t.Rows.length

/-- Source: `SqlCacheTable::GetColumnCount`. -/
def GetColumnCount (t : SqlCacheTable) : Int := t.mFieldList.length

/-- Source: `SqlCacheTable::GetColumnName`. -/
def GetColumnName (t : SqlCacheTable) (aColumn : Int) : String :=
  t.mFieldList.getD aColumn.toNat ""

/-- Rows returned by `SELECT * FROM t ORDER BY id`. -/
def SelectAllOrderById (t : SqlCacheTable) : List (List QVariant) :=
  t.Rows.insertionSort (fun a b => t.rowId a ≤ t.rowId b)

end SqlCacheTable

/-- Result of the re-selection statement
`SELECT id FROM $table$ WHERE $filter$ <order by>` as the SQL engine computes
it from the table content, the filter and the ORDER BY clause: the values of
the `id` column in result order, or `none` when the statement fails. -/
abbrev SelectEngine := SqlCacheTable → String → String → Option (List QVariant)

/-- Signals emitted by `SyncSqlCache` (payloads that are clock readings or
driver texts are passed in or dropped). -/
inductive BackSignal where
  | InitializationCompleted
  | OperationCompleted (aSelectionDuration : Option Int) (aDbRowCount : Option Int)
      (aSuspendedUpdatesCount : Option Nat) (aValues : ViewWindowValues) (aUpdated : Bool)
      (aSelectedIds : Option (List Int))
  | ClearCompleted
  | ErrorOccured
  | PendingUpdatesProgressChanged (aProgress : Nat)
  deriving DecidableEq, Repr

/-- The snapshot a signal of the back carries, if it carries one. -/
def BackSignal.values : BackSignal → Option ViewWindowValues
  | BackSignal.OperationCompleted _ _ _ aValues _ _ => some aValues
  | _ => none

/-! ## SyncSqlCache (SyncSqlCache.h / SyncSqlCache.cpp) -/

/-- Model of the state of `class SyncSqlCache` with no operation handler
installed (`mOperationHandler` null). -/
structure SyncSqlCache where
  mCommonFieldsIndexes : List (Nat × List Nat) := []
  mFilter : String := ""
  mSortColumn : Int := -1
  mSortOrder : Int := AscendingOrder
  mRequestedRowRange : RowRange := {}
  mRequestedRowRangeVisible : RowRange := {}
  mIsAutoScroll : Bool := true
  mIsSelectionAllowed : Bool := false
  mTableOperationsCounter : Nat := 0
  mSuspendedRecordsCounter : Nat := 0
  mVersionedIds : List (Int × IdsInfo) := []
  mDefaultSortOrder : List (List Int) := []
  mDefaultSortDirection : Int := AscendingOrder
  mViewWindowValues : ViewWindowValues := {}
  mTable : SqlCacheTable := {}
  mSuspendedItemsTable : SqlCacheTable := {}
  mSuspendedDeletedIds : List Int := []
  Emitted : List BackSignal := []
  deriving DecidableEq, Repr

/-- Model of `std::set<int>::emplace` on a strictly increasing list. -/
def setEmplace : List Int → Int → List Int
  | [], x => [x]
  | y :: t, x => if x < y then x :: y :: t else if x = y then y :: t else y :: setEmplace t x

/-- Model of `std::map::try_emplace` on a list sorted by key, for an absent key. -/
def mapInsert (m : List (Int × IdsInfo)) (k : Int) (v : IdsInfo) : List (Int × IdsInfo) :=
  match m with
  | [] => [(k, v)]
  | e :: t => if k < e.1 then (k, v) :: e :: t else e :: mapInsert t k v

/-- Writes an id mapping (with its updated index) back to its slot of the map. -/
def mapReplace (m : List (Int × IdsInfo)) (k : Int) (v : IdsInfo) : List (Int × IdsInfo) :=
  m.map (fun e => if e.1 = k then (k, v) else e)

/-- Body of the second loop of `TransformSelection`: rows are appended to the
last range when they continue it, else they open a new range. -/
def coalesceStep (selection : List RowRange) (r : Int) : List RowRange :=
  match selection.getLast? with
  | some b =>
    if b.Bottom = r - 1 then selection.dropLast ++ [{ b with Bottom := r }]
    else selection ++ [{ Top := r, Bottom := r }]
  | none => selection ++ [{ Top := r, Bottom := r }]

namespace SyncSqlCache

/-- Source: `SyncSqlCache::GetRecordsCount`. -/
def GetRecordsCount (s : SyncSqlCache) : Int :=
  match s.mVersionedIds.lookup s.mViewWindowValues.Version with
  | none => 0
  | some ids => (ids.Ids.length : Int)

/-- Source: `SyncSqlCache::GetItem` (statement succeeds). -/
def GetItem (s : SyncSqlCache) (aId : QVariant) : Option (List QVariant) :=
  s.mTable.Select aId.toLongLong

/-- Source: `SyncSqlCache::GetRecord`; `none` is the empty `QSqlRecord`. -/
def GetRecord (s : SyncSqlCache) (aRow : Int) : Option (List QVariant) :=
  match s.mVersionedIds.lookup s.mViewWindowValues.Version with
  | none => none
  | some ids =>
    if ids.IsOutOfRange aRow then none
    else
      let rowId := ids.GetId aRow
      if !rowId.isValid then none else s.GetItem rowId

/-- Source: `SyncSqlCache::GetIdMapping` (mapping of the highest version). -/
def GetIdMapping (s : SyncSqlCache) : Option IdsInfo :=
  s.mVersionedIds.getLast?.map Prod.snd

/-- Source: `SyncSqlCache::GetSelectedIds`, first component (`std::set` as a
strictly increasing list). -/
def GetSelectedIds (s : SyncSqlCache) : Option (List Int) :=
  match s.GetIdMapping with
  | none => none
  | some ids =>
    some (s.mViewWindowValues.Selection.foldl
      (fun acc range =>
        if ids.IsOutOfRange range.Top || ids.IsOutOfRange range.Bottom then acc
        else range.rows.foldl (fun a row => setEmplace a (ids.Ids.getD row.toNat 0)) acc)
      [])

/-- Source: `SyncSqlCache::GetRowTransformation`: the pair `(Old, New)` of the
transformator, or `none`. -/
def GetRowTransformation (s : SyncSqlCache) (aVersion : Int) : Option (IdsInfo × IdsInfo) :=
  if s.mViewWindowValues.Version = aVersion then none
  else
    match s.mVersionedIds.lookup s.mViewWindowValues.Version with
    | none => none
    | some current =>
      if aVersion < s.mViewWindowValues.Version then
        match s.mVersionedIds.lookup aVersion with
        | none => none
        | some previous => some (previous, current)
      else some (current, current)

/-- First loop of `TransformSelection`: the set of transformed rows, with the
index of `New` threaded through the calls of `Transform`. -/
def transformRows (Old : IdsInfo) (outSelection : List RowRange) (New : IdsInfo) :
    List Int × IdsInfo :=
  outSelection.foldl
    (fun acc sel =>
      sel.rows.foldl
        (fun a i =>
          let t := RowTransformator.Transform Old a.2 i
          if t.1 ≥ 0 then (setEmplace a.1 t.1, t.2) else (a.1, t.2))
        acc)
    ([], New)

/-- Source: `SyncSqlCache::TransformSelection(qint64, QVector<RowRange>&, int&)`.
Returns the cache (the index of the current mapping may have grown), the new
selection and the new current row. -/
def TransformSelection (s : SyncSqlCache) (aVersion : Int) (outSelection : List RowRange)
    (outCurrentRow : Int) : SyncSqlCache × List RowRange × Int :=
  match s.GetRowTransformation aVersion with
  | none => (s, outSelection, outCurrentRow)
  | some (Old, New) =>
    let cur := RowTransformator.Transform Old New outCurrentRow
    let rows := transformRows Old outSelection cur.2
    let selection := rows.1.foldl coalesceStep []
    ({ s with mVersionedIds := mapReplace s.mVersionedIds s.mViewWindowValues.Version rows.2 },
      selection, cur.1)

/-- Source: `SyncSqlCache::TransformSelection(const SelectionRequest&)`. -/
def TransformSelectionRequest (s : SyncSqlCache) (aSelectionRequest : SelectionRequest) :
    SyncSqlCache × SelectionRequest :=
  let r := s.TransformSelection aSelectionRequest.Version aSelectionRequest.Selection
    aSelectionRequest.CurrentRow
  (r.1, { aSelectionRequest with Selection := r.2.1, CurrentRow := r.2.2 })

end SyncSqlCache

/-! ## SyncSqlCache: storing deltas, re-selection, heavy operation -/

/-- Source: `SqlQueryUtils::GetFullTextSearchValue(values, indexes)`. -/
def GetFullTextSearchValue (aValues : List QVariant) (aIndexes : List Nat) : String :=
  aIndexes.foldl
    (fun common i => common ++ "]" ++ (aValues.getD i QVariant.invalid).toQString) ""

/-- The loop of `SyncSqlCache::AddPendingValue` over `mCommonFieldsIndexes`:
each common column receives the full-text value of its index set. -/
def fillCommon (aCommonFieldsIndexes : List (Nat × List Nat)) (aValues : List QVariant) :
    List QVariant :=
  aCommonFieldsIndexes.foldl
    (fun vals e => vals.set e.1 (QVariant.string (GetFullTextSearchValue vals e.2))) aValues

/-- Model of `QSet<qlonglong>::insert`. -/
def qsetInsert (l : List Int) (x : Int) : List Int :=
  if x ∈ l then l else l ++ [x]

/-- The local state of `ResumeSuspendedItems` behind its `updateProgress`
lambda: the counter `i`, the last reported `progress`, the signals emitted. -/
structure ProgressState where
  i : Nat := 0
  progress : Nat := 0
  deriving DecidableEq, Repr

namespace SyncSqlCache

/-- Source: `SyncSqlCache::AddPendingValue` without an operation handler: the
common full-text columns are filled in; the row is never vetoed. -/
def AddPendingValue (s : SyncSqlCache) (aValues : List QVariant) : Bool × List QVariant :=
  (true, fillCommon s.mCommonFieldsIndexes aValues)

/-- Source: `SyncSqlCache::DeleteRecord`. -/
def DeleteRecord (s : SyncSqlCache) (aId : Int) (aSuspend : Bool) : SyncSqlCache :=
  if aSuspend then
    { s with mSuspendedItemsTable := s.mSuspendedItemsTable.Delete aId
             mSuspendedDeletedIds := qsetInsert s.mSuspendedDeletedIds aId }
  else { s with mTable := s.mTable.Delete aId }

/-- Source: `SyncSqlCache::InsertOrReplace`. -/
def InsertOrReplace (s : SyncSqlCache) (aFields : List QVariant) (aSuspend : Bool) :
    SyncSqlCache :=
  if aSuspend then { s with mSuspendedItemsTable := s.mSuspendedItemsTable.Insert aFields }
  else
    let r := s.AddPendingValue aFields
    if r.1 then { s with mTable := s.mTable.Insert r.2 } else s

/-- Body of the loop of `StoreItemsToDb`: a delta of more than one element is
an insert-or-replace, a delta of one element a delete by id (`item.at(0)`; a
delta is never empty). -/
def storeItem (aSuspend : Bool) (s : SyncSqlCache) (item : List QVariant) : SyncSqlCache :=
  if item.length > 1 then s.InsertOrReplace item aSuspend
  else s.DeleteRecord (item.getD 0 QVariant.invalid).toLongLong aSuspend

/-- Source: `SyncSqlCache::StoreItemsToDb`. -/
def StoreItemsToDb (s : SyncSqlCache) (aValues : List (List QVariant)) (aSuspend : Bool) :
    SyncSqlCache :=
  let s1 := aValues.foldl (storeItem aSuspend) s
  if aSuspend then
    { s1 with mSuspendedRecordsCounter := s1.mSuspendedRecordsCounter + aValues.length }
  else { s1 with mTableOperationsCounter := s1.mTableOperationsCounter + aValues.length }

/-- The `updateProgress` lambda of `ResumeSuspendedItems`. -/
def updateProgress (s : SyncSqlCache) (p : ProgressState) : SyncSqlCache × ProgressState :=
  if p.i ≥ s.mSuspendedRecordsCounter then (s, p)
  else
    let v := (p.i + 1) * 100 / s.mSuspendedRecordsCounter
    if v ≠ p.progress then
      ({ s with Emitted := s.Emitted ++ [BackSignal.PendingUpdatesProgressChanged v] },
        { i := p.i + 1, progress := v })
    else (s, { p with i := p.i + 1 })

/-- Body of the first loop of `ResumeSuspendedItems`. -/
def resumeDelete (st : SyncSqlCache × ProgressState) (id : Int) : SyncSqlCache × ProgressState :=
  (st.1.DeleteRecord id false).updateProgress st.2

/-- Body of the second loop of `ResumeSuspendedItems`. -/
def resumeInsert (st : SyncSqlCache × ProgressState) (row : List QVariant) :
    SyncSqlCache × ProgressState :=
  (st.1.InsertOrReplace row false).updateProgress st.2

/-- Source: `SyncSqlCache::ResumeSuspendedItems`. -/
def ResumeSuspendedItems (s : SyncSqlCache) : SyncSqlCache :=
  let s0 := { s with mSuspendedRecordsCounter :=
    s.mSuspendedItemsTable.GetRowCount + s.mSuspendedDeletedIds.length }
  let a := s0.mSuspendedDeletedIds.foldl resumeDelete (s0, {})
  let s1 := { a.1 with mSuspendedDeletedIds := [] }
  let b := s1.mSuspendedItemsTable.SelectAllOrderById.foldl resumeInsert (s1, a.2)
  { b.1 with
    mSuspendedItemsTable := b.1.mSuspendedItemsTable.Clear
    mSuspendedRecordsCounter := 0
    Emitted := b.1.Emitted ++ [BackSignal.PendingUpdatesProgressChanged 100] }

/-- Source: `SyncSqlCache::TryStoreItemsToDb`, every statement of the
transaction succeeding.  The flag is whether a result (the two durations) is
returned. -/
def TryStoreItemsToDb (s : SyncSqlCache) (aValues : List (List QVariant)) (aSuspend : Bool) :
    Bool × SyncSqlCache :=
  if aValues.isEmpty && (aSuspend || s.mSuspendedRecordsCounter == 0) then (false, s)
  else
    let s1 := if !aSuspend then s.ResumeSuspendedItems else s
    (true, s1.StoreItemsToDb aValues aSuspend)

/-- Source: `SyncSqlCache::SetSorting`. -/
def SetSorting (s : SyncSqlCache) (aSorting : Option SortParameters) : SyncSqlCache :=
  match aSorting with
  | none => s
  | some p => { s with mSortColumn := p.Column, mSortOrder := p.Order }

/-- Source: `SyncSqlCache::SetFilter`. -/
def SetFilter (s : SyncSqlCache) (aFilter : Option String) : SyncSqlCache :=
  match aFilter with
  | none => s
  | some f => { s with mFilter := f }

/-- Source: `SyncSqlCache::SetUpdatesFromDbAllowed`. -/
def SetUpdatesFromDbAllowed (s : SyncSqlCache) (aLoadingStatus : LoadingStatus) : SyncSqlCache :=
  if aLoadingStatus = LoadingStatus.NotChanged then s
  else { s with mIsSelectionAllowed := decide (aLoadingStatus = LoadingStatus.Finished) }

/-- The two column lists built by the loop of `OrderByClause`:
`(columnList, defaultColumnList)`, as column indexes. -/
def orderByLists (s : SyncSqlCache) : List Int × List Int :=
  s.mDefaultSortOrder.foldl
    (fun acc sortSequence =>
      if acc.1.isEmpty && sortSequence.contains s.mSortColumn then
        (acc.1 ++ sortSequence, acc.2)
      else (acc.1, acc.2 ++ sortSequence))
    ([], [])

/-- Text of a sort direction in `OrderByClause`. -/
def sortOrderText (aOrder : Int) : String :=
  if aOrder = AscendingOrder then "ASC" else "DESC"

/-- The items of the ORDER BY clause as `OrderByClause` composes them: each
column index with the direction text substituted for its `%1`; `none` when the
function returns the empty string. -/
def OrderByItems (s : SyncSqlCache) : Option (List (Int × String)) :=
  if (s.mSortColumn < 0 || s.mSortColumn ≥ s.mTable.GetColumnCount)
      && s.mDefaultSortOrder.isEmpty then none
  else
    let lists := s.orderByLists
    let sortOrder := sortOrderText s.mSortOrder
    let single := lists.1.isEmpty && decide (s.mSortColumn ≥ 0)
      && decide (s.mSortColumn < s.mTable.GetColumnCount)
    let columnList := if single then lists.1 ++ [s.mSortColumn] else lists.1
    let defaultSortOrder := if single then sortOrderText s.mDefaultSortDirection else sortOrder
    some (columnList.map (fun c => (c, sortOrder))
      ++ lists.2.map (fun c => (c, defaultSortOrder)))

/-- Source: `SyncSqlCache::OrderByClause`. -/
def OrderByClause (s : SyncSqlCache) : String :=
  match s.OrderByItems with
  | none => ""
  | some items =>
    "ORDER BY " ++ ", ".intercalate (items.map (fun e => s.mTable.GetColumnName e.1 ++ " " ++ e.2))

/-- Source: the static `SyncSqlCache::TransformRowRange`; returns the success
flag, the two ranges and `New` with its updated index. -/
def TransformRowRangeWith (Old New : IdsInfo) (outRange outRangeVisible : RowRange) :
    Bool × RowRange × RowRange × IdsInfo :=
  let t := RowTransformator.Transform Old New outRangeVisible.Top
  if t.1 < 0 then (false, outRange, outRangeVisible, t.2)
  else
    let vis : RowRange := { Top := t.1, Bottom := t.1 + outRangeVisible.Distance0 }
    (true, vis.Expand RowWindowOffset, vis, t.2)

/-- Source: `SyncSqlCache::UpdateRowWindow`. -/
def UpdateRowWindow (s : SyncSqlCache) : SyncSqlCache :=
  let s1 :=
    match s.GetRowTransformation (s.mViewWindowValues.Version - 1) with
    | some (Old, New) =>
      if s.mRequestedRowRange.IsValid && !s.mIsAutoScroll then
        let r := TransformRowRangeWith Old New s.mRequestedRowRange s.mRequestedRowRangeVisible
        { s with
          mRequestedRowRange := r.2.1
          mRequestedRowRangeVisible := r.2.2.1
          mVersionedIds := mapReplace s.mVersionedIds s.mViewWindowValues.Version r.2.2.2 }
      else s
    | none => s
  let s2 :=
    if s1.mRequestedRowRangeVisible.Top ≥ s1.GetRecordsCount then
      { s1 with mRequestedRowRangeVisible := {}, mRequestedRowRange := {} }
    else s1
  let s3 :=
    if !s2.mRequestedRowRangeVisible.IsValid then
      { s2 with mRequestedRowRangeVisible := s2.mRequestedRowRangeVisible.Expand RowWindowOffset }
    else s2
  if !s3.mRequestedRowRange.ContainsRange s3.mRequestedRowRangeVisible RowWindowOffset then
    { s3 with mRequestedRowRange := s3.mRequestedRowRangeVisible.Expand RowWindowOffset }
  else s3

/-- The row loop of `UpdateViewWindowValuesInternal`, leaving at the first row
for which `GetRecord` returns an empty record. -/
def fetchRows (s : SyncSqlCache) (aRefreshAll : Bool) :
    List Int → List (List QVariant) → List (List QVariant)
  | [], data => data
  | i :: rest, data =>
    match (if aRefreshAll then none else s.mViewWindowValues.GetRow i) with
    | some oldRow => fetchRows s aRefreshAll rest (data ++ [oldRow])
    | none =>
      match s.GetRecord i with
      | none => data
      | some rowData => fetchRows s aRefreshAll rest (data ++ [rowData])

/-- Source: `SyncSqlCache::UpdateViewWindowValuesInternal` (and
`UpdateViewWindowValues`, which adds nothing without an operation handler). -/
def UpdateViewWindowValues (s : SyncSqlCache) (aRefreshAll : Bool) : SyncSqlCache :=
  let data :=
    if s.mRequestedRowRange.IsValid then s.fetchRows aRefreshAll s.mRequestedRowRange.rows []
    else []
  let rows : RowRange :=
    if !data.isEmpty then
      { Top := s.mRequestedRowRange.Top, Bottom := s.mRequestedRowRange.Top + data.length - 1 }
    else {}
  let visible : RowRange :=
    if !data.isEmpty then
      let bottom := min s.mRequestedRowRangeVisible.Bottom rows.Bottom
      { Top := max 0 (bottom - s.mRequestedRowRangeVisible.Distance0), Bottom := bottom }
    else {}
  { s with mViewWindowValues := s.mViewWindowValues.SetData data rows visible s.GetRecordsCount }

/-- Source: `SyncSqlCache::UpdateIdMapping`; `aQuery` is the list of values the
query yields (`aQuery.next()` / `aQuery.value(0)`). -/
def UpdateIdMapping (s : SyncSqlCache) (aQuery : List QVariant) : SyncSqlCache :=
  match s.mVersionedIds.lookup s.mViewWindowValues.Version with
  | some _ => s
  | none =>
    let ids : IdsInfo := aQuery.foldl IdsInfo.AddId {}
    { s with mVersionedIds := mapInsert s.mVersionedIds s.mViewWindowValues.Version ids }

/-- Source: `SyncSqlCache::ProcessDataPopulation`. -/
def ProcessDataPopulation (s : SyncSqlCache) (aQuery : List QVariant) : SyncSqlCache :=
  let s1 := { s with mViewWindowValues :=
    { s.mViewWindowValues with Version := s.mViewWindowValues.Version + 1 } }
  let s2 := s1.UpdateIdMapping aQuery
  let t := s2.TransformSelection (s2.mViewWindowValues.Version - 1)
    s2.mViewWindowValues.Selection s2.mViewWindowValues.CurrentRow
  let s3 := { t.1 with mViewWindowValues :=
    { t.1.mViewWindowValues with Selection := t.2.1, CurrentRow := t.2.2 } }
  s3.UpdateRowWindow.UpdateViewWindowValues true

/-- Source: `SyncSqlCache::ReportError`. -/
def ReportError (s : SyncSqlCache) : SyncSqlCache :=
  { s with Emitted := s.Emitted ++ [BackSignal.ErrorOccured] }

/-- Source: `SyncSqlCache::PerformSelection`.  When the statement fails
(`engine` gives `none`) the exception is caught and reported, and
`mTable.GetLastQuery()` is the failed query, which yields no row. -/
def PerformSelection (s : SyncSqlCache) (engine : SelectEngine) : SyncSqlCache :=
  match engine s.mTable s.mFilter s.OrderByClause with
  | none => s.ReportError.ProcessDataPopulation []
  | some rows => s.ProcessDataPopulation rows

/-- Source: `SyncSqlCache::TryPerformSelection`; `aElapsedMs` is the clock
difference it returns when the selection ran. -/
def TryPerformSelection (s : SyncSqlCache) (engine : SelectEngine) (aMainTableUpdated : Bool)
    (aSorting : Option SortParameters) (aFilter : Option String) (aElapsedMs : Int) :
    Option Int × SyncSqlCache :=
  if !s.mIsSelectionAllowed then (none, s)
  else if aMainTableUpdated || aSorting.isSome || aFilter.isSome then
    (some aElapsedMs, s.PerformSelection engine)
  else (none, s)

/-- Source: `SyncSqlCache::EstimateDbRowCount`, first component. -/
def EstimateDbRowCount (s : SyncSqlCache) (aMainTableUpdated : Bool) : Option Int :=
  if aMainTableUpdated then
    if s.mIsSelectionAllowed then some (s.mTable.GetRowCount : Int)
    else some (s.mTableOperationsCounter : Int)
  else none

/-- Source: `SyncSqlCache::ProcessHeavyAction`. -/
def ProcessHeavyAction (s : SyncSqlCache) (engine : SelectEngine) (aRequestId : Int)
    (aValues : List (List QVariant)) (aLoadingStatus : LoadingStatus)
    (aSorting : Option SortParameters) (aFilter : Option String)
    (aReportSelected aSuspendUpdates : Bool) (aElapsedMs : Int) : SyncSqlCache :=
  let selectedRows := if aReportSelected then s.GetSelectedIds else none
  let s1 := (s.SetSorting aSorting).SetFilter aFilter
  let s2 := { s1 with mViewWindowValues := { s1.mViewWindowValues with RequestId := aRequestId } }
  let isSuspend := aSuspendUpdates && s2.mIsSelectionAllowed
  let s3 := s2.SetUpdatesFromDbAllowed aLoadingStatus
  let stored := s3.TryStoreItemsToDb aValues isSuspend
  let mainTableUpdated := stored.1 && !isSuspend
  let mainTableUpdatedOrLoadFinished :=
    mainTableUpdated || decide (aLoadingStatus = LoadingStatus.Finished)
  let sel := stored.2.TryPerformSelection engine mainTableUpdatedOrLoadFinished aSorting aFilter
    aElapsedMs
  let dbRecordCount := sel.2.EstimateDbRowCount mainTableUpdatedOrLoadFinished
  { sel.2 with Emitted := sel.2.Emitted ++
      [BackSignal.OperationCompleted sel.1 dbRecordCount (some sel.2.mSuspendedRecordsCounter)
        sel.2.mViewWindowValues sel.1.isSome selectedRows] }

/-- Source: `SyncSqlCache::ClearTable`. -/
def ClearTable (s : SyncSqlCache) : SyncSqlCache :=
  { s with
    mIsSelectionAllowed := false
    mVersionedIds := []
    mTable := s.mTable.Clear
    mSuspendedItemsTable := s.mSuspendedItemsTable.Clear
    mRequestedRowRange := {}
    mRequestedRowRangeVisible := {}
    mViewWindowValues := {}
    mSuspendedDeletedIds := []
    mTableOperationsCounter := 0
    mSuspendedRecordsCounter := 0
    Emitted := s.Emitted ++ [BackSignal.ClearCompleted] }

/-- Source: `SyncSqlCache::MakeDefaultSortOrder`; `none` is the thrown
`std::runtime_error`. -/
def MakeDefaultSortOrder (aSortOrder : List (List Int)) (aMaxColumn aIdColumn : Int) :
    Option (List (List Int)) :=
  let order := if aSortOrder.isEmpty then [[aIdColumn]] else aSortOrder
  let checked := order.foldl
    (fun (acc : Option (List Int)) sortSequence =>
      sortSequence.foldl
        (fun (a : Option (List Int)) column =>
          match a with
          | none => none
          | some fieldIndexes =>
            if fieldIndexes.contains column then none
            else if column ≥ aMaxColumn || column < 0 then none
            else some (setEmplace fieldIndexes column))
        acc)
    (some [])
  match checked with
  | none => none
  | some _ => some order

/-- Source: the constructor `SyncSqlCache::SyncSqlCache`.  `aFieldList` holds
the names of the field descriptions, `aInstanceCounter` the process-wide
counter `MakeUniqueName` reads.  `none` is an exception thrown from the member
initialiser list: by `MakeDefaultSortOrder`, or by the constructor of
`SqlCacheTable` (`InitFieldStrings`) for a field list of
`SQLITE_MAX_VARIABLE_NUMBER` fields or more. -/
def create (aInstanceCounter : Int) (aTableName : String) (aFieldList : List String)
    (aCommonFieldsIndexes : List (Nat × List Nat)) (aIdColumn : Int)
    (aDefaultSortOrder : List (List Int)) (aDefaultSortDirection : Int) : Option SyncSqlCache :=
  match MakeDefaultSortOrder aDefaultSortOrder (aFieldList.length : Int) aIdColumn with
  | none => none
  | some order =>
    if (aFieldList.length : Int) ≥ SQLITE_MAX_VARIABLE_NUMBER then none
    else
      let name := (MakeUniqueName aInstanceCounter aTableName).1
      some
        { mCommonFieldsIndexes := aCommonFieldsIndexes
          mSortOrder := aDefaultSortDirection
          mDefaultSortOrder := order
          mDefaultSortDirection := aDefaultSortDirection
          mTable := { mTableName := name, mFieldList := aFieldList,
                      IdColumn := aFieldList.indexOf "id" }
          mSuspendedItemsTable := { mTableName := name ++ "_ssp", mFieldList := aFieldList,
                                    IdColumn := aFieldList.indexOf "id" } }

/-- Source: `SyncSqlCache::TransformRowRange(const RowRequest&)`; the cache is
returned because the index of the current mapping may have grown. -/
def TransformRowRange (s : SyncSqlCache) (aRowRequest : RowRequest) :
    SyncSqlCache × Option RowRequest :=
  match s.GetRowTransformation aRowRequest.Version with
  | some (Old, New) =>
    let r := TransformRowRangeWith Old New aRowRequest.RowWindow aRowRequest.RowWindowVisible
    ({ s with mVersionedIds := mapReplace s.mVersionedIds s.mViewWindowValues.Version r.2.2.2 },
      some { aRowRequest with RowWindow := r.2.1, RowWindowVisible := r.2.2.1 })
  | none => (s, none)

/-- Source: `SyncSqlCache::SetRowWindow`. -/
def SetRowWindow (s : SyncSqlCache) (aRowRequest : RowRequest) : Bool × SyncSqlCache :=
  let t := if !s.mIsAutoScroll then s.TransformRowRange aRowRequest else (s, none)
  let rowRequestUpdated := t.2.getD aRowRequest
  if t.1.mRequestedRowRange ≠ rowRequestUpdated.RowWindow
      || t.1.mRequestedRowRangeVisible ≠ rowRequestUpdated.RowWindowVisible then
    (true, { t.1 with mRequestedRowRange := rowRequestUpdated.RowWindow
                      mRequestedRowRangeVisible := rowRequestUpdated.RowWindowVisible })
  else (false, t.1)

/-- Source: `SyncSqlCache::SetSelection`. -/
def SetSelection (s : SyncSqlCache) (aSelectionRequest : SelectionRequest) :
    Bool × SyncSqlCache :=
  let t := s.TransformSelectionRequest aSelectionRequest
  if t.1.mViewWindowValues.CurrentRow ≠ t.2.CurrentRow
      || t.1.mViewWindowValues.Selection ≠ t.2.Selection then
    (true, { t.1 with mViewWindowValues :=
      { t.1.mViewWindowValues with CurrentRow := t.2.CurrentRow, Selection := t.2.Selection } })
  else (false, t.1)

/-- The `correctVisibleRange` lambda of `ProcessEasyAction`: the row request
with its visible window scrolled to `aCurrentRow` and its window expanded
around it. -/
def correctVisibleRange (aRowRequest : RowRequest) (aHintsRequest : HintsRequest)
    (aCurrentRow : Int) (aBottomIsEnd : Bool) : RowRequest :=
  let newVisibleRange := aRowRequest.RowWindowVisible.ScrollToWithCorrection aCurrentRow
    (decide (aHintsRequest.TopRowHint = EdgeRowHintType.Full))
    (decide (aHintsRequest.BottomRowHint = EdgeRowHintType.Full)) aBottomIsEnd
  { aRowRequest with RowWindowVisible := newVisibleRange
                     RowWindow := newVisibleRange.Expand RowWindowOffset }

/-- The row request `ProcessEasyAction` passes to `SetRowWindow`, computed
after the selection has been applied. -/
def easyRowRequest (s : SyncSqlCache) (aRowRequest : RowRequest) (aHintsRequest : HintsRequest) :
    RowRequest :=
  let recordsCountMinesOne := s.GetRecordsCount - 1
  if aHintsRequest.ScrollHint = ScrollHintType.EnsureVisible then
    correctVisibleRange aRowRequest aHintsRequest s.mViewWindowValues.CurrentRow
      (decide (s.mViewWindowValues.CurrentRow = recordsCountMinesOne))
  else if aRowRequest.RowWindowVisible.Bottom = recordsCountMinesOne then
    correctVisibleRange aRowRequest aHintsRequest recordsCountMinesOne true
  else aRowRequest

/-- Source: `SyncSqlCache::ProcessEasyAction`. -/
def ProcessEasyAction (s : SyncSqlCache) (aRequestId : Int) (aRowRequest : RowRequest)
    (aSelectionRequest : SelectionRequest) (aHintsRequest : HintsRequest) : SyncSqlCache :=
  let s1 := { s with mViewWindowValues := { s.mViewWindowValues with RequestId := aRequestId } }
  if s1.mIsSelectionAllowed then
    let sel := s1.SetSelection aSelectionRequest
    let win := sel.2.SetRowWindow (sel.2.easyRowRequest aRowRequest aHintsRequest)
    let isUpdated := sel.1 || win.1
    let s2 := if isUpdated then win.2.UpdateViewWindowValues false else win.2
    { s2 with Emitted := s2.Emitted ++
        [BackSignal.OperationCompleted none none none s2.mViewWindowValues isUpdated none] }
  else
    { s1 with Emitted := s1.Emitted ++
        [BackSignal.OperationCompleted none none none s1.mViewWindowValues false none] }

/-- Source: `SyncSqlCache::ConfirmVersion`: erases the entries from `begin()`
up to `lower_bound(aVersion)`, the first entry whose key is not below
`aVersion` in the key order of the map. -/
def ConfirmVersion (s : SyncSqlCache) (aVersion : Int) : SyncSqlCache :=
  { s with mVersionedIds := s.mVersionedIds.dropWhile (fun e => decide (e.1 < aVersion)) }

end SyncSqlCache

/-! ## Event processor and front model (AsyncSqlTableModelBase.h / .cpp) -/

/-- Source: `AsyncSqlTableModelBase::Command`. -/
inductive Command where
  | DoNothing
  | SendUserActionRequest
  | SendUpdateRequest
  | SendUserQuery
  deriving DecidableEq, Repr

/-- Source: `AsyncSqlTableModelBase::Event`. -/
inductive Event where
  | SortOperation
  | FilterOperation
  | DeleteOperation
  | WindowOperation
  | SelectionOperation
  | SelectionAndWindowOperation
  | NewDataPackReceived
  | FrontEndStateChanged
  | BackEndStateChanged
  | LoadingFinished
  | TimerExpired
  | ClearCompleted
  | UserQueryRequested
  | UserQueryCompleted
  | ErrorOccured
  | UpdateSuspensionFlagChanged
  deriving DecidableEq, Repr

/-- Source: `AsyncSqlTableEventProcessing::MinUserTimerDurationMs`. -/
def MinUserTimerDurationMs : Int := 0

/-- Source: `AsyncSqlTableEventProcessing::TimerState`.  The single-shot
`QTimer UserActionTimer` is its `isActive()` flag and the interval of its last
`start`. -/
structure TimerState where
  UserActionTimerActive : Bool := false
  UserActionTimerInterval : Int := 0
  IsOperationSendAllowed : Bool := false
  LastUpdateDurationMs : Int := MinUserTimerDurationMs
  deriving DecidableEq, Repr

/-- Source: `class AsyncSqlTableEventProcessing` (own members). -/
structure AsyncSqlTableEventProcessing where
  mTimerState : TimerState := {}
  mIsErrorOccured : Bool := false
  deriving DecidableEq, Repr

/-- Source: `State::FrontendState`. -/
structure FrontendState where
  mIsFrontendReady : Bool := false
  deriving DecidableEq, Repr

/-- Source: `State::BackendState`. -/
structure BackendState where
  WritingNewItemsBuffer : List (List QVariant) := []
  PendingUpdate : Option Int := none
  IsPendingClear : Bool := false
  IsPendingUserQuery : Bool := false
  deriving DecidableEq, Repr

/-- Source: `State::PendingDataIncomingState`. -/
structure PendingDataIncomingState where
  PendingNewItemsBuffer : List (List QVariant) := []
  PendingLoadStatus : LoadingStatus := LoadingStatus.NotChanged
  ResumeUpdates : Bool := false
  deriving DecidableEq, Repr

/-- Source: `State::PendingUserHeavyActionState`. -/
structure PendingUserHeavyActionState where
  mPendingSorting : Option SortParameters := none
  mPendingFilter : Option String := none
  mReportSelected : Bool := false
  deriving DecidableEq, Repr

/-- Source: `State::PendingUserEasyActionState`. -/
structure PendingUserEasyActionState where
  RequestedRows : Option RowRequest := none
  RequestedSelection : Option SelectionRequest := none
  RequestedHints : Option HintsRequest := none
  deriving DecidableEq, Repr

/-- Source: `State::PendingUserQueryActionState`. -/
structure PendingUserQueryActionState where
  Query : Option (String × List QVariant) := none
  deriving DecidableEq, Repr

/-- Source: `struct State` (the two members used only for logging,
`mPreviousLoggedSize` and `mLastUpdateRequestTime`, are left out). -/
structure State where
  mFrontEndState : FrontendState := {}
  mBackEndState : BackendState := {}
  mPendingDataIncomingState : PendingDataIncomingState := {}
  mPendingUserHeavyActionState : PendingUserHeavyActionState := {}
  mPendingUserEasyActionState : PendingUserEasyActionState := {}
  mPendingUserQueryActionState : PendingUserQueryActionState := {}
  mEventProcessing : AsyncSqlTableEventProcessing := {}
  deriving DecidableEq, Repr

/-- Source: `FrontendState::IsFrontendReady`. -/
def FrontendState.IsFrontendReady (f : FrontendState) : Bool := f.mIsFrontendReady

/-- Source: `BackendState::IsBackendReady`. -/
def BackendState.IsBackendReady (b : BackendState) : Bool :=
  b.WritingNewItemsBuffer.isEmpty && !b.PendingUpdate.isSome && !b.IsPendingClear
    && !b.IsPendingUserQuery

/-- Source: `PendingDataIncomingState::IsUpdateOperationNeeded`. -/
def PendingDataIncomingState.IsUpdateOperationNeeded (p : PendingDataIncomingState) : Bool :=
  !p.PendingNewItemsBuffer.isEmpty || decide (p.PendingLoadStatus ≠ LoadingStatus.NotChanged)
    || p.ResumeUpdates

/-- Source: `PendingUserHeavyActionState::IsUpdateOperationNeeded`. -/
def PendingUserHeavyActionState.IsUpdateOperationNeeded (p : PendingUserHeavyActionState) : Bool :=
  p.mPendingSorting.isSome || p.mPendingFilter.isSome || p.mReportSelected

/-- Source: `PendingUserEasyActionState::IsNeeded`. -/
def PendingUserEasyActionState.IsNeeded (p : PendingUserEasyActionState) : Bool :=
  p.RequestedRows.isSome || p.RequestedSelection.isSome || p.RequestedHints.isSome

/-- Source: `PendingUserQueryActionState::IsNeeded`. -/
def PendingUserQueryActionState.IsNeeded (p : PendingUserQueryActionState) : Bool :=
  p.Query.isSome

namespace AsyncSqlTableEventProcessing

/-- Source: `AsyncSqlTableEventProcessing::GetCommand` (reads `*mState`). -/
def GetCommand (st : State) : Command :=
  if st.mEventProcessing.mIsErrorOccured then Command.DoNothing
  else
    let fromData :=
      if st.mEventProcessing.mTimerState.IsOperationSendAllowed
          && st.mPendingDataIncomingState.IsUpdateOperationNeeded then
        Command.SendUpdateRequest
      else Command.DoNothing
    if st.mBackEndState.IsBackendReady then
      if st.mFrontEndState.IsFrontendReady then
        if st.mPendingUserQueryActionState.IsNeeded then Command.SendUserQuery
        else if st.mPendingUserEasyActionState.IsNeeded then Command.SendUserActionRequest
        else if st.mEventProcessing.mTimerState.IsOperationSendAllowed
            && st.mPendingUserHeavyActionState.IsUpdateOperationNeeded then
          Command.SendUpdateRequest
        else fromData
      else fromData
    else Command.DoNothing

/-- Source: `AsyncSqlTableEventProcessing::IsBusy`. -/
def IsBusy (st : State) : Bool :=
  if !st.mFrontEndState.IsFrontendReady then false
  else if !st.mBackEndState.IsBackendReady
      || st.mPendingUserHeavyActionState.IsUpdateOperationNeeded
      || st.mPendingDataIncomingState.IsUpdateOperationNeeded then true
  else false

/-- Source: `AsyncSqlTableEventProcessing::SetLastUpdateDurationMs`. -/
def SetLastUpdateDurationMs (ep : AsyncSqlTableEventProcessing) (aMs : Int) :
    AsyncSqlTableEventProcessing :=
  { ep with mTimerState := { ep.mTimerState with LastUpdateDurationMs := aMs } }

/-- Source: `AsyncSqlTableEventProcessing::StartTimer`. -/
def StartTimer (ep : AsyncSqlTableEventProcessing) (aForce : Bool) :
    AsyncSqlTableEventProcessing :=
  if aForce
      || (!ep.mTimerState.IsOperationSendAllowed && !ep.mTimerState.UserActionTimerActive) then
    { ep with mTimerState :=
        { ep.mTimerState with
          IsOperationSendAllowed := false
          UserActionTimerActive := true
          UserActionTimerInterval := ep.mTimerState.LastUpdateDurationMs } }
  else ep

/-- Source: `AsyncSqlTableEventProcessing::ProcessEventInternal`. -/
def ProcessEventInternal (ep : AsyncSqlTableEventProcessing) (aEvent : Event) :
    AsyncSqlTableEventProcessing :=
  if ep.mIsErrorOccured then ep
  else
    match aEvent with
    | Event.LoadingFinished => ep.StartTimer false
    | Event.NewDataPackReceived => ep.StartTimer false
    | Event.UpdateSuspensionFlagChanged => ep.StartTimer false
    | Event.SortOperation => ep.StartTimer true
    | Event.FilterOperation => ep.StartTimer true
    | Event.DeleteOperation => ep.StartTimer true
    | Event.WindowOperation => ep.StartTimer true
    | Event.SelectionOperation => ep.StartTimer true
    | Event.SelectionAndWindowOperation => ep.StartTimer true
    | Event.FrontEndStateChanged => ep
    | Event.BackEndStateChanged => ep
    | Event.TimerExpired => ep
    | Event.ClearCompleted => ep
    | Event.UserQueryRequested => ep
    | Event.UserQueryCompleted => ep
    | Event.ErrorOccured => { ep with mIsErrorOccured := true }

/-- Source: `AsyncSqlTableEventProcessing::ProcessEvent`. -/
def ProcessEvent (st : State) (aEvent : Event) : Command × State :=
  let st1 := { st with mEventProcessing := st.mEventProcessing.ProcessEventInternal aEvent }
  (GetCommand st1, st1)

/-- Expiry of the single-shot timer, first statement of `OnTimerExpired`
(which then delivers `Event::TimerExpired` to the model). -/
def timerFired (ep : AsyncSqlTableEventProcessing) : AsyncSqlTableEventProcessing :=
  { ep with mTimerState :=
      { ep.mTimerState with UserActionTimerActive := false, IsOperationSendAllowed := true } }

/-- Source: `AsyncSqlTableEventProcessing::OnTimerExpired`, as far as the
processor is concerned: the flag is set, then `TimerExpired` is processed.
(The single-shot timer is inactive once it has fired.) -/
def OnTimerExpired (st : State) : Command × State :=
  ProcessEvent { st with mEventProcessing := timerFired st.mEventProcessing } Event.TimerExpired

/-- Delivery of an event to the processor: `TimerExpired` reaches it through
`OnTimerExpired` only, every other event through `ProcessEvent`. -/
def deliver (st : State) (aEvent : Event) : Command × State :=
  if aEvent = Event.TimerExpired then OnTimerExpired st else ProcessEvent st aEvent

/-- A run of deliveries: like `run`, with `TimerExpired` delivered by the
expiry of the timer. -/
def runDelivered (ep : AsyncSqlTableEventProcessing) :
    List (State × Event) → List Command × AsyncSqlTableEventProcessing
  | [] => ([], ep)
  | (st, ev) :: rest =>
    let r := deliver { st with mEventProcessing := ep } ev
    let t := runDelivered r.2.mEventProcessing rest
    (r.1 :: t.1, t.2)

/-- A run of the event processor: every step presents the buckets of a `State`
(any content) and an event; the processor's own members are carried from step
to step.  Returns the commands and the final processor. -/
def run (ep : AsyncSqlTableEventProcessing) :
    List (State × Event) → List Command × AsyncSqlTableEventProcessing
  | [] => ([], ep)
  | (st, ev) :: rest =>
    let r := ProcessEvent { st with mEventProcessing := ep } ev
    let t := run r.2.mEventProcessing rest
    (r.1 :: t.1, t.2)

end AsyncSqlTableEventProcessing

/-- Signals emitted by `AsyncSqlTableModelBase`, to the back (requests) and to
the view. -/
inductive FrontSignal where
  | ReportIsBusy (aIsBusy : Bool)
  | ProcessEasyActionAsync (aRequestId : Int) (aRowRequest : RowRequest)
      (aSelectionRequest : SelectionRequest) (aHintsRequest : HintsRequest)
  | ProcessHeavyActionAsync (aRequestId : Int) (aValues : List (List QVariant))
      (aLoadingStatus : LoadingStatus) (aSorting : Option SortParameters)
      (aFilter : Option String) (aReportSelected : Bool) (aSuspendUpdates : Bool)
  | PerformUserQueryAsync (aSql : String) (aParams : List QVariant)
  | ConfirmVersionAsync (aVersion : Int)
  | ClearTableAsync (aIsFinal : Bool)
  | SelectedIdsReported (aSelectedIds : List Int)
  | DbRecordsCountChanged
  | ReportSuspendedUpdatesCount (aCount : Nat)
  | RowsRemoved (aTop aBottom : Int)
  | DataChanged (aTop aBottom : Int)
  | RowsInserted (aTop aBottom : Int)
  | SelectionUpdated (aSelection : List RowRange) (aCurrentRow : Int)
  | ViewWindowValuesChanged
  | UserQueryPerformed (aResults : List QVariant)
  deriving DecidableEq, Repr

/-- A signal that sends a request to the back cache. -/
def FrontSignal.isRequest : FrontSignal → Bool
  | FrontSignal.ProcessEasyActionAsync _ _ _ _ => true
  | FrontSignal.ProcessHeavyActionAsync _ _ _ _ _ _ _ => true
  | FrontSignal.PerformUserQueryAsync _ _ => true
  | _ => false

/-- Model of the state of `class AsyncSqlTableModelBase`.  `mCursorKeeper` is
whether the pointer is set, `mCursorKeeperTimerActive` whether the cursor timer
runs; `Emitted` collects the signals. -/
structure AsyncSqlTableModelBase where
  mState : State := {}
  mOperationId : Int := 0
  mCursorKeeper : Bool := false
  mCursorKeeperTimerActive : Bool := false
  mViewData : ViewWindowValues := {}
  mDbRecordsCount : Int := 0
  mError : String := ""
  mBlockedUserActions : List Event := []
  mPendingViewWindowUpdate : Bool := false
  mSuspendUpdates : Bool := false
  Emitted : List FrontSignal := []
  deriving DecidableEq, Repr

namespace AsyncSqlTableModelBase

/-- Source: `AsyncSqlTableModelBase::IsBusy`. -/
def IsBusy (m : AsyncSqlTableModelBase) : Bool :=
  AsyncSqlTableEventProcessing.IsBusy m.mState

/-- Source: `AsyncSqlTableModelBase::TryEngageCursor`. -/
def TryEngageCursor (m : AsyncSqlTableModelBase) : AsyncSqlTableModelBase :=
  if !m.mCursorKeeper && !m.mCursorKeeperTimerActive then
    { m with mCursorKeeperTimerActive := true }
  else m

/-- Source: `AsyncSqlTableModelBase::TryRestoreCursor`. -/
def TryRestoreCursor (m : AsyncSqlTableModelBase) : AsyncSqlTableModelBase :=
  if m.mCursorKeeper || m.mCursorKeeperTimerActive then
    { m with mCursorKeeperTimerActive := false, mCursorKeeper := false }
  else m

/-- Source: `AsyncSqlTableModelBase::GetRowRequest`. -/
def GetRowRequest (m : AsyncSqlTableModelBase) : RowRequest :=
  m.mState.mPendingUserEasyActionState.RequestedRows.getD
    { RowWindow := m.mViewData.Rows, RowWindowVisible := m.mViewData.RowsVisible,
      Version := m.mViewData.Version }

/-- Source: `AsyncSqlTableModelBase::GetSelectionRequest`. -/
def GetSelectionRequest (m : AsyncSqlTableModelBase) : SelectionRequest :=
  m.mState.mPendingUserEasyActionState.RequestedSelection.getD
    { Selection := m.mViewData.Selection, CurrentRow := m.mViewData.CurrentRow,
      Version := m.mViewData.Version }

/-- Source: `AsyncSqlTableModelBase::GetHintsRequest`. -/
def GetHintsRequest (m : AsyncSqlTableModelBase) : HintsRequest :=
  m.mState.mPendingUserEasyActionState.RequestedHints.getD
    { ScrollHint := m.mViewData.ScrollHint, TopRowHint := m.mViewData.TopRowHint,
      BottomRowHint := m.mViewData.BottomRowHint }

/-- The `switch (command)` of `AsyncSqlTableModelBase::ProcessEvent`. -/
def dispatch (m : AsyncSqlTableModelBase) (command : Command) : AsyncSqlTableModelBase :=
  match command with
  | Command.SendUserActionRequest =>
    let opId := m.mOperationId + 1
    { m with
      mOperationId := opId
      Emitted := m.Emitted ++ [FrontSignal.ProcessEasyActionAsync opId m.GetRowRequest
        m.GetSelectionRequest m.GetHintsRequest]
      mState := { m.mState with
        mBackEndState := { m.mState.mBackEndState with PendingUpdate := some opId }
        mPendingUserEasyActionState := {} } }
  | Command.SendUpdateRequest =>
    let opId := m.mOperationId + 1
    let writing := m.mState.mPendingDataIncomingState.PendingNewItemsBuffer
    { m with
      mOperationId := opId
      Emitted := m.Emitted ++ [FrontSignal.ProcessHeavyActionAsync opId writing
        m.mState.mPendingDataIncomingState.PendingLoadStatus
        m.mState.mPendingUserHeavyActionState.mPendingSorting
        m.mState.mPendingUserHeavyActionState.mPendingFilter
        m.mState.mPendingUserHeavyActionState.mReportSelected
        m.mSuspendUpdates]
      mState := { m.mState with
        mBackEndState := { m.mState.mBackEndState with
          WritingNewItemsBuffer := writing
          PendingUpdate := some opId }
        mPendingDataIncomingState := {}
        mPendingUserHeavyActionState := {} } }
  | Command.SendUserQuery =>
    let query := m.mState.mPendingUserQueryActionState.Query.getD ("", [])
    { m with
      Emitted := m.Emitted ++ [FrontSignal.PerformUserQueryAsync query.1 query.2]
      mState := { m.mState with
        mBackEndState := { m.mState.mBackEndState with IsPendingUserQuery := true }
        mPendingUserQueryActionState := { Query := none } } }
  | Command.DoNothing => m

/-- Source: `AsyncSqlTableModelBase::ProcessEvent` (tracing left out). -/
def ProcessEvent (m : AsyncSqlTableModelBase) (aEvent : Event) :
    Command × AsyncSqlTableModelBase :=
  let m1 := { m with Emitted := m.Emitted ++ [FrontSignal.ReportIsBusy m.IsBusy] }
  let r := AsyncSqlTableEventProcessing.ProcessEvent m1.mState aEvent
  let m2 := { m1 with mState := r.2 }
  let m3 := m2.dispatch r.1
  (r.1, if m3.mState |> AsyncSqlTableEventProcessing.IsBusy then m3.TryEngageCursor
        else m3.TryRestoreCursor)

/-- Source: `AsyncSqlTableModelBase::CorrectSelection`.  The pair carried by
the loop is `(resultCurrentRow, distance)`. -/
def CorrectSelection (aSelection : List RowRange) (aCurrentRow : Int) : List RowRange × Int :=
  let r := aSelection.foldl
    (fun (acc : Int × Int) range =>
      let newDistance := range.Distance aCurrentRow
      if newDistance < acc.2 then (range.NearestRow aCurrentRow, newDistance) else acc)
    (aCurrentRow, IntMax)
  if r.2 = IntMax then ([], -1) else (aSelection, r.1)

/-- Appends signals to the output of the model. -/
def emit (m : AsyncSqlTableModelBase) (aSignals : List FrontSignal) : AsyncSqlTableModelBase :=
  { m with Emitted := m.Emitted ++ aSignals }

/-- Model of `std::set<Event>::insert`. -/
def blockUserAction (m : AsyncSqlTableModelBase) (aEvent : Event) : AsyncSqlTableModelBase :=
  if aEvent ∈ m.mBlockedUserActions then m
  else { m with mBlockedUserActions := m.mBlockedUserActions ++ [aEvent] }

/-- First part of `AsyncSqlTableModelBase::OnViewWindowValuesChanged`, entered
with no error recorded and no clear pending: the statements before the call of
`ProcessEvent`.  An argument that is an invalid `QVariant` is `none`. -/
def acceptResponse (m : AsyncSqlTableModelBase) (aSelectionDuration aDbRowCount : Option Int)
    (aSuspendedUpdatesCount : Option Nat) : AsyncSqlTableModelBase :=
  let m1 := { m with mState := { m.mState with
    mBackEndState := { m.mState.mBackEndState with
      PendingUpdate := none, WritingNewItemsBuffer := [] } } }
  let m2 :=
    match aSelectionDuration with
    | some d => { m1 with mState := { m1.mState with
        mEventProcessing :=
          m1.mState.mEventProcessing.SetLastUpdateDurationMs (max d MinUserTimerDurationMs) } }
    | none => m1
  let m3 :=
    match aDbRowCount with
    | some c => ({ m2 with mDbRecordsCount := c }).emit [FrontSignal.DbRecordsCountChanged]
    | none => m2
  match aSuspendedUpdatesCount with
  | some c => m3.emit [FrontSignal.ReportSuspendedUpdatesCount c]
  | none => m3

/-- The three row-level diffs of `OnViewWindowValuesChanged`, in source order:
remove tail (`beginRemoveRows` / `RemoveRows` / `endRemoveRows`), change rows
(`ChangeRows`, then one `dataChanged` per valid changed range), add tail
(`beginInsertRows` / `AddRows` / `endInsertRows`). -/
def applyRowDiffs (m : AsyncSqlTableModelBase) (aValues : ViewWindowValues) :
    AsyncSqlTableModelBase :=
  let removeRange := m.mViewData.PrepareRemoveRows aValues.RecordsCount
  let m1 :=
    if removeRange.IsValid then
      ({ m with mViewData := m.mViewData.RemoveRows aValues.RecordsCount }).emit
        [FrontSignal.RowsRemoved removeRange.Top removeRange.Bottom]
    else m
  let changedRanges := m1.mViewData.PrepareChangeRows aValues
  let m2 := ({ m1 with mViewData := m1.mViewData.ChangeRows aValues }).emit
    ((changedRanges.filter RowRange.IsValid).map
      (fun (it : RowRange) => FrontSignal.DataChanged it.Top it.Bottom))
  let newRange := m2.mViewData.PrepareAddRows aValues.RecordsCount
  if newRange.IsValid then
    ({ m2 with mViewData := m2.mViewData.AddRows aValues.RecordsCount }).emit
      [FrontSignal.RowsInserted newRange.Top newRange.Bottom]
  else m2

/-- The statements of `OnViewWindowValuesChanged` after the row-level diffs:
selection, current row and hints (with `SelectionUpdated` when one of them
differs), extra data, version (with `ConfirmVersionAsync` when it differs),
request id, `ViewWindowValuesChanged`, and the release of the blocked user
actions. -/
def applySelectionAndVersion (m : AsyncSqlTableModelBase) (aValues : ViewWindowValues) :
    AsyncSqlTableModelBase :=
  let m1 :=
    if m.mViewData.Selection ≠ aValues.Selection
        || m.mViewData.CurrentRow ≠ aValues.CurrentRow
        || m.mViewData.ScrollHint ≠ aValues.ScrollHint
        || m.mViewData.TopRowHint ≠ aValues.TopRowHint
        || m.mViewData.BottomRowHint ≠ aValues.BottomRowHint then
      ({ m with mViewData := { m.mViewData with
          Selection := aValues.Selection
          CurrentRow := aValues.CurrentRow
          ScrollHint := aValues.ScrollHint
          TopRowHint := aValues.TopRowHint
          BottomRowHint := aValues.BottomRowHint } }).emit
        [FrontSignal.SelectionUpdated aValues.Selection aValues.CurrentRow]
    else m
  let m2 :=
    if m1.mViewData.ExtraData ≠ aValues.ExtraData then
      { m1 with mViewData := { m1.mViewData with ExtraData := aValues.ExtraData } }
    else m1
  let m3 :=
    if m2.mViewData.Version ≠ aValues.Version then
      ({ m2 with mViewData := { m2.mViewData with Version := aValues.Version } }).emit
        [FrontSignal.ConfirmVersionAsync aValues.Version]
    else m2
  let m4 := ({ m3 with mViewData := { m3.mViewData with RequestId := aValues.RequestId } }).emit
    [FrontSignal.ViewWindowValuesChanged]
  { m4 with mBlockedUserActions := [] }

/-- Last part of `AsyncSqlTableModelBase::OnViewWindowValuesChanged`: the
statements that apply the snapshot `aValues`, after the test that may skip
them. -/
def applyValues (m : AsyncSqlTableModelBase) (aValues : ViewWindowValues) :
    AsyncSqlTableModelBase :=
  let m1 := ({ m with mPendingViewWindowUpdate := false }).blockUserAction
    Event.SelectionOperation
  let m2 :=
    if m1.mViewData.RecordsCount = aValues.RecordsCount then
      m1.blockUserAction Event.WindowOperation
    else m1
  (m2.applyRowDiffs aValues).applySelectionAndVersion aValues

/-- Source: `AsyncSqlTableModelBase::OnViewWindowValuesChanged`, the slot that
receives `OperationCompleted` from the back. -/
def OnViewWindowValuesChanged (m : AsyncSqlTableModelBase)
    (aSelectionDuration aDbRowCount : Option Int) (aSuspendedUpdatesCount : Option Nat)
    (aValues : ViewWindowValues) (aIsUpdated : Bool) (aSelectedIds : Option (List Int)) :
    AsyncSqlTableModelBase :=
  if !m.mError.isEmpty then m
  else
    let m1 :=
      match aSelectedIds with
      | some ids => m.emit [FrontSignal.SelectedIdsReported ids]
      | none => m
    if m1.mState.mBackEndState.IsPendingClear then m1
    else
      let r := (m1.acceptResponse aSelectionDuration aDbRowCount aSuspendedUpdatesCount).ProcessEvent
        Event.BackEndStateChanged
      if r.1 = Command.SendUserActionRequest
          || (!aIsUpdated && !r.2.mPendingViewWindowUpdate) then
        { r.2 with mPendingViewWindowUpdate := r.2.mPendingViewWindowUpdate || aIsUpdated }
      else r.2.applyValues aValues

/-- Source: `AsyncSqlTableModelBase::SetRowWindowInternal`. -/
def SetRowWindowInternal (m : AsyncSqlTableModelBase) (aTopRow aBottomRow : Int)
    (aScrollHint : ScrollHintType) (aTopRowHint aBottomRowHint : EdgeRowHintType) :
    AsyncSqlTableModelBase :=
  let top := max 0 aTopRow
  let newRange : RowRange := { Top := top, Bottom := max top aBottomRow }
  let rowRequest : RowRequest :=
    { RowWindowVisible := newRange, RowWindow := newRange.Expand RowWindowOffset,
      Version := m.mViewData.Version }
  let hintsRequest : HintsRequest :=
    { ScrollHint := aScrollHint, TopRowHint := aTopRowHint, BottomRowHint := aBottomRowHint }
  { m with mState := { m.mState with
      mPendingUserEasyActionState := { m.mState.mPendingUserEasyActionState with
        RequestedRows := some rowRequest, RequestedHints := some hintsRequest } } }

/-- Source: `AsyncSqlTableModelBase::SetRowWindow`. -/
def SetRowWindow (m : AsyncSqlTableModelBase) (aTopRow aBottomRow : Int)
    (aScrollHint : ScrollHintType) (aTopRowHint aBottomRowHint : EdgeRowHintType) :
    AsyncSqlTableModelBase :=
  if Event.WindowOperation ∈ m.mBlockedUserActions then m
  else
    ((m.SetRowWindowInternal aTopRow aBottomRow aScrollHint aTopRowHint
      aBottomRowHint).ProcessEvent Event.WindowOperation).2

/-- Source: `AsyncSqlTableModelBase::SetSelectionInternal`; `aSelection` is the
list of the `(top, bottom)` pairs of the selection ranges. -/
def SetSelectionInternal (m : AsyncSqlTableModelBase) (aSelection : List RowRange)
    (aCurrentRow : Int) (aCustomEvent : Bool) (aScrollHint : ScrollHintType)
    (aTopRowHint aBottomRowHint : EdgeRowHintType) : AsyncSqlTableModelBase :=
  let corrected := CorrectSelection aSelection aCurrentRow
  let selectionRequest : SelectionRequest :=
    { Selection := corrected.1, CurrentRow := corrected.2, Version := m.mViewData.Version }
  let hintsRequest : HintsRequest :=
    { ScrollHint := aScrollHint, TopRowHint := aTopRowHint, BottomRowHint := aBottomRowHint }
  let m1 := { m with mState := { m.mState with
      mPendingUserEasyActionState := { m.mState.mPendingUserEasyActionState with
        RequestedSelection := some selectionRequest, RequestedHints := some hintsRequest } } }
  if !aCustomEvent then
    { m1 with mViewData := { m1.mViewData with
        Selection := corrected.1, CurrentRow := corrected.2 } }
  else m1

/-- Source: `AsyncSqlTableModelBase::SetSelection`. -/
def SetSelection (m : AsyncSqlTableModelBase) (aSelection : List RowRange)
    (aCurrentRow : Int) (aCustomEvent : Bool) (aScrollHint : ScrollHintType)
    (aTopRowHint aBottomRowHint : EdgeRowHintType) : AsyncSqlTableModelBase :=
  if Event.SelectionOperation ∈ m.mBlockedUserActions then m
  else
    ((m.SetSelectionInternal aSelection aCurrentRow aCustomEvent aScrollHint aTopRowHint
      aBottomRowHint).ProcessEvent Event.SelectionOperation).2

/-- Source: `AsyncSqlTableModelBase::SetSelectionAndRowWindow`. -/
def SetSelectionAndRowWindow (m : AsyncSqlTableModelBase) (aSelection : List RowRange)
    (aCurrentRow : Int) (aCustomEvent : Bool) (aTopRow aBottomRow : Int)
    (aScrollHint : ScrollHintType) (aTopRowHint aBottomRowHint : EdgeRowHintType) :
    AsyncSqlTableModelBase :=
  (((m.SetSelectionInternal aSelection aCurrentRow aCustomEvent aScrollHint aTopRowHint
      aBottomRowHint).SetRowWindowInternal aTopRow aBottomRow aScrollHint aTopRowHint
      aBottomRowHint).ProcessEvent Event.SelectionAndWindowOperation).2

/-- Source: `AsyncSqlTableModelBase::SetLoadingFinished`. -/
def SetLoadingFinished (m : AsyncSqlTableModelBase) (aFinished : Bool) :
    AsyncSqlTableModelBase :=
  let m1 := { m with mState := { m.mState with
      mPendingDataIncomingState := { m.mState.mPendingDataIncomingState with
        PendingLoadStatus := if aFinished then LoadingStatus.Finished else LoadingStatus.Started }
      mFrontEndState := { mIsFrontendReady := aFinished } } }
  let m2 := (m1.ProcessEvent Event.FrontEndStateChanged).2
  if aFinished then (m2.ProcessEvent Event.LoadingFinished).2 else m2

/-- Source: `AsyncSqlTableEventProcessing::OnTimerExpired`, with the model's
`ProcessEvent` it calls. -/
def OnTimerExpired (m : AsyncSqlTableModelBase) : AsyncSqlTableModelBase :=
  (({ m with mState := { m.mState with
      mEventProcessing := AsyncSqlTableEventProcessing.timerFired m.mState.mEventProcessing } }
        : AsyncSqlTableModelBase).ProcessEvent Event.TimerExpired).2

/-- The model with its `mBackEndState` replaced. -/
def withBackend (m : AsyncSqlTableModelBase) (b : BackendState) : AsyncSqlTableModelBase :=
  { m with mState := { m.mState with mBackEndState := b } }

/-- A run of `ProcessEvent` in which, between two events, everything but the
backend bucket may change (each step presents a whole model, of which the
backend bucket is replaced by the one carried from the previous step).
Returns the commands, the requests sent, and the final backend bucket. -/
def run (b : BackendState) :
    List (AsyncSqlTableModelBase × Event) → List Command × List FrontSignal × BackendState
  | [] => ([], [], b)
  | (m, ev) :: rest =>
    let r := ({ m.withBackend b with Emitted := [] }).ProcessEvent ev
    let t := run r.2.mState.mBackEndState rest
    (r.1 :: t.1, r.2.Emitted.filter FrontSignal.isRequest ++ t.2.1, t.2.2)

end AsyncSqlTableModelBase

/-! ## Vocabulary of the statements -/

/-- Invariant kept by the loop of `GetRow` at loop index `pre.length`. -/
structure ScanInv (pre rest : List Int) (c : List (Int × Nat)) : Prop where
  entries : ∀ k p, (k, p) ∈ c → k ∈ pre ++ rest ∧ (pre ++ rest).indexOf k = p
  nodup : (c.map Prod.fst).Nodup
  size : c.length ≤ pre.length
  seen : ∀ x ∈ pre, x ∈ c.map Prod.fst


/-- A row is covered by a selection when one of its ranges contains it. -/
def Covers (sel : List RowRange) (p : Int) : Prop :=
  ∃ r ∈ sel, r.Contains p = true

/-- Result of `Transform` expressed by a linear search, without the index:
the first position of the id of `aRow` in the new id vector, `-1` when the id
does not occur.  (The id of a row outside `Old` is the id an invalid variant
converts to.) -/
def TransformPure (Old : IdsInfo) (newIds : List Int) (aRow : Int) : Int :=
  if (Old.GetId aRow).toLongLong ∈ newIds then
    (newIds.indexOf (Old.GetId aRow).toLongLong : Int)
  else -1

/-- The id vector retained for a version, if the version is retained. -/
def idsOf (m : List (Int × IdsInfo)) (v : Int) : Option (List Int) :=
  (m.lookup v).map IdsInfo.Ids

/-- The value of `isSelectionAllowed` a loading status leads to: `true` on
`Finished`, `false` on `Started`, the previous value on `NotChanged`. -/
def selectionAllowedAfter (aLoadingStatus : LoadingStatus) (before : Bool) : Bool :=
  match aLoadingStatus with
  | LoadingStatus.Finished => true
  | LoadingStatus.Started => false
  | LoadingStatus.NotChanged => before

/-- The part of the cache the storing of deltas reads and writes: the
full-text configuration, the two tables, the suspended-deleted ids and the
two counters. -/
def storePart (s : SyncSqlCache) :
    List (Nat × List Nat) × SqlCacheTable × SqlCacheTable × List Int × Nat × Nat :=
  (s.mCommonFieldsIndexes, s.mTable, s.mSuspendedItemsTable, s.mSuspendedDeletedIds,
    s.mSuspendedRecordsCounter, s.mTableOperationsCounter)

/-- The range `r` translated so that it reaches `row`, in the words of the
stated scroll rule: by `row - r.Top` when the row lies above the range, by
`row - r.Bottom` when it lies below, and `r` itself otherwise. -/
def translatedTo (r : RowRange) (row : Int) : RowRange :=
  if row < r.Top then { Top := r.Top + (row - r.Top), Bottom := r.Bottom + (row - r.Top) }
  else if row > r.Bottom then
    { Top := r.Top + (row - r.Bottom), Bottom := r.Bottom + (row - r.Bottom) }
  else r

/-- The part of a snapshot the row-level diffs leave alone: selection, current
row, hints, version, request id and extra data. -/
def selectionPart (v : ViewWindowValues) :
    List RowRange × Int × ScrollHintType × EdgeRowHintType × EdgeRowHintType × Int × Int
      × QVariant :=
  (v.Selection, v.CurrentRow, v.ScrollHint, v.TopRowHint, v.BottomRowHint, v.Version,
    v.RequestId, v.ExtraData)

/-- The id mapping after a sequence of earlier `GetRow` calls. -/
def getRowCalls (s : IdsInfo) (aCalls : List QVariant) : IdsInfo :=
  aCalls.foldl (fun a aId => (a.GetRow aId).2) s

/-- Linear search written from the stated equivalence: the index of the first
occurrence of `aId` in `ids`, no value when it does not occur. -/
def linearSearch : List Int → Int → Option Nat
  | [], _ => none
  | x :: rest, aId => if x = aId then some 0 else (linearSearch rest aId).map (fun i => i + 1)

/-- The effective default sort order validated at construction: the given
order, or the single sequence `[idColumn]` when the given order is empty. -/
def effectiveSortOrder (aSortOrder : List (List Int)) (aIdColumn : Int) : List (List Int) :=
  if aSortOrder.isEmpty then [[aIdColumn]] else aSortOrder

/-- The user events of the timer rule: sort, filter, delete, window, selection,
selection and window. -/
def Event.isUserEvent : Event → Bool
  | Event.SortOperation => true
  | Event.FilterOperation => true
  | Event.DeleteOperation => true
  | Event.WindowOperation => true
  | Event.SelectionOperation => true
  | Event.SelectionAndWindowOperation => true
  | _ => false

/-- The data events of the timer rule: new data pack, loading finished,
suspension flag changed. -/
def Event.isDataEvent : Event → Bool
  | Event.NewDataPackReceived => true
  | Event.LoadingFinished => true
  | Event.UpdateSuspensionFlagChanged => true
  | _ => false

/-- The state events: front-end and back-end state changes, timer expiry, clear
completed, user query requested and completed. -/
def Event.isStateEvent : Event → Bool
  | Event.FrontEndStateChanged => true
  | Event.BackEndStateChanged => true
  | Event.TimerExpired => true
  | Event.ClearCompleted => true
  | Event.UserQueryRequested => true
  | Event.UserQueryCompleted => true
  | _ => false

/-- The timer state right after a start of the timer from the state `t`: the
flag is cleared, the timer runs, its interval is the last reported duration. -/
def TimerState.started (t : TimerState) : TimerState :=
  { t with IsOperationSendAllowed := false, UserActionTimerActive := true,
           UserActionTimerInterval := t.LastUpdateDurationMs }

/-- The interval in the words of the stated adaptive-timeout rule: twice the
reported duration, bounded below by `0` and above by `aMax`. -/
def clampedTimeout (aDuration aMax : Int) : Int :=
  min (max (2 * aDuration) 0) aMax

/-- The names returned by a sequence of calls of `MakeUniqueName`, one per base
name, starting with the given value of the instance counter. -/
def makeUniqueNames : Int → List String → List String
  | _, [] => []
  | aInstanceCounter, aName :: rest =>
    (MakeUniqueName aInstanceCounter aName).1
      :: makeUniqueNames (MakeUniqueName aInstanceCounter aName).2 rest

/-- The ids of the rows of the main table. -/
def mainIds (s : SyncSqlCache) : List Int :=
  s.mTable.Rows.map s.mTable.rowId

/-- The ids of the rows of the suspended (shadow) table. -/
def shadowIds (s : SyncSqlCache) : List Int :=
  s.mSuspendedItemsTable.Rows.map s.mSuspendedItemsTable.rowId

/-- Back states reachable from a newly constructed cache by heavy operations,
easy operations, version confirmations and clears, with any arguments. -/
inductive BackReachable : SyncSqlCache → Prop where
  | created (aInstanceCounter : Int) (aTableName : String) (aFieldList : List String)
      (aCommonFieldsIndexes : List (Nat × List Nat)) (aIdColumn : Int)
      (aDefaultSortOrder : List (List Int)) (aDefaultSortDirection : Int) (s : SyncSqlCache) :
      SyncSqlCache.create aInstanceCounter aTableName aFieldList aCommonFieldsIndexes aIdColumn
        aDefaultSortOrder aDefaultSortDirection = some s → BackReachable s
  | heavy (s : SyncSqlCache) (engine : SelectEngine) (aRequestId : Int)
      (aValues : List (List QVariant)) (aLoadingStatus : LoadingStatus)
      (aSorting : Option SortParameters) (aFilter : Option String)
      (aReportSelected aSuspendUpdates : Bool) (aElapsedMs : Int) :
      BackReachable s →
      BackReachable (s.ProcessHeavyAction engine aRequestId aValues aLoadingStatus aSorting
        aFilter aReportSelected aSuspendUpdates aElapsedMs)
  | easy (s : SyncSqlCache) (aRequestId : Int) (aRowRequest : RowRequest)
      (aSelectionRequest : SelectionRequest) (aHintsRequest : HintsRequest) :
      BackReachable s →
      BackReachable (s.ProcessEasyAction aRequestId aRowRequest aSelectionRequest aHintsRequest)
  | confirm (s : SyncSqlCache) (aVersion : Int) :
      BackReachable s → BackReachable (s.ConfirmVersion aVersion)
  | clear (s : SyncSqlCache) : BackReachable s → BackReachable s.ClearTable

/-- Back states a cache reaches from the state `s0` by heavy operations, easy
operations, version confirmations and clears, with any arguments. -/
inductive BackReachableFrom (s0 : SyncSqlCache) : SyncSqlCache → Prop where
  | start : BackReachableFrom s0 s0
  | heavy (s : SyncSqlCache) (engine : SelectEngine) (aRequestId : Int)
      (aValues : List (List QVariant)) (aLoadingStatus : LoadingStatus)
      (aSorting : Option SortParameters) (aFilter : Option String)
      (aReportSelected aSuspendUpdates : Bool) (aElapsedMs : Int) :
      BackReachableFrom s0 s →
      BackReachableFrom s0 (s.ProcessHeavyAction engine aRequestId aValues aLoadingStatus
        aSorting aFilter aReportSelected aSuspendUpdates aElapsedMs)
  | easy (s : SyncSqlCache) (aRequestId : Int) (aRowRequest : RowRequest)
      (aSelectionRequest : SelectionRequest) (aHintsRequest : HintsRequest) :
      BackReachableFrom s0 s →
      BackReachableFrom s0
        (s.ProcessEasyAction aRequestId aRowRequest aSelectionRequest aHintsRequest)
  | confirm (s : SyncSqlCache) (aVersion : Int) :
      BackReachableFrom s0 s → BackReachableFrom s0 (s.ConfirmVersion aVersion)
  | clear (s : SyncSqlCache) : BackReachableFrom s0 s → BackReachableFrom s0 s.ClearTable

/-- The members `OrderByClause` reads that are fixed at construction: the
stored default order, the default direction and the field list. -/
def sortPart (s : SyncSqlCache) : List (List Int) × Int × List String :=
  (s.mDefaultSortOrder, s.mDefaultSortDirection, s.mTable.mFieldList)

/-! ## Concrete states used to instantiate the statements -/

/-- The cache constructed by
`create 0 "t" ["id", "name"] [] 0 [] DescendingOrder`. -/
def descendingCache : SyncSqlCache :=
  { mSortOrder := DescendingOrder,
    mDefaultSortOrder := [[0]],
    mDefaultSortDirection := DescendingOrder,
    mTable := { mTableName := "t1", mFieldList := ["id", "name"] },
    mSuspendedItemsTable := { mTableName := "t1_ssp", mFieldList := ["id", "name"] } }

/-- Back state of the re-sort scenario: version 1 holds `[1,2,3]`, the current
version 2 holds `[3,2,1]`. -/
def resortCache : SyncSqlCache :=
  { mVersionedIds := [(1, { Ids := [1, 2, 3] }), (2, { Ids := [3, 2, 1] })],
    mViewWindowValues := { Version := 2 } }

/-- A row of the schema `[id, name, common]` of the end-to-end scenarios. -/
def scenarioRow (aId : Int) (aName : String) : List QVariant :=
  [QVariant.longlong aId, QVariant.string aName, QVariant.string ""]

/-- Back state after the initial load of the end-to-end scenarios: the main
table holds ids 1, 2, 3, version 1 maps `[1,2,3]`, selection is allowed. -/
def loadedCache : SyncSqlCache :=
  { mCommonFieldsIndexes := [(2, [0, 1])],
    mIsSelectionAllowed := true,
    mDefaultSortOrder := [[0]],
    mVersionedIds := [(1, { Ids := [1, 2, 3] })],
    mViewWindowValues := { Version := 1, RecordsCount := 3 },
    mTable := { mTableName := "t1", mFieldList := ["id", "name", "common"],
                Rows := [[QVariant.longlong 1, QVariant.string "a", QVariant.string "]1]a"],
                         [QVariant.longlong 2, QVariant.string "b", QVariant.string "]2]b"],
                         [QVariant.longlong 3, QVariant.string "c", QVariant.string "]3]c"]] },
    mSuspendedItemsTable := { mTableName := "t1_ssp", mFieldList := ["id", "name", "common"] } }

/-- Back state before the initial load (selection not yet allowed), with the
schema `[id, name, common]` of the end-to-end scenarios. -/
def emptyCache : SyncSqlCache :=
  { mCommonFieldsIndexes := [(2, [0, 1])],
    mDefaultSortOrder := [[0]],
    mTable := { mTableName := "t1", mFieldList := ["id", "name", "common"] },
    mSuspendedItemsTable := { mTableName := "t1_ssp", mFieldList := ["id", "name", "common"] } }

/-- An engine for the scenarios: no filter, rows in ascending id order. -/
def scenarioEngine : SelectEngine :=
  fun t _ _ => some (t.SelectAllOrderById.map (fun r => r.getD t.IdColumn QVariant.invalid))

/-- An engine whose re-selection statement fails. -/
def failingEngine : SelectEngine := fun _ _ _ => none

/-- A cache with default sort order `[[0], [1, 2]]` (ascending) whose user sort
column `2` lies in the second default sequence. -/
def sortInSecondSequence : SyncSqlCache :=
  { mSortColumn := 2, mDefaultSortOrder := [[0], [1, 2]],
    mTable := { mFieldList := ["id", "name", "common"] } }

/-- A cache with default sort order `[[0], [1]]`, default direction ascending,
and a descending user sort on column `0`, which lies in the first sequence. -/
def sortDescInFirstSequence : SyncSqlCache :=
  { mSortColumn := 0, mSortOrder := DescendingOrder, mDefaultSortOrder := [[0], [1]],
    mDefaultSortDirection := AscendingOrder, mTable := { mFieldList := ["id", "name"] } }

/-- A cache with default sort order `[[0]]`, default direction ascending, and a
descending user sort on column `1`, which lies in no default sequence. -/
def sortDescOutsideDefault : SyncSqlCache :=
  { mSortColumn := 1, mSortOrder := DescendingOrder, mDefaultSortOrder := [[0]],
    mDefaultSortDirection := AscendingOrder, mTable := { mFieldList := ["id", "name"] } }

/-- A front model whose front end is ready, with a pending selection request
and an idle backend. -/
def busyExampleModel : AsyncSqlTableModelBase :=
  { mState := { mFrontEndState := { mIsFrontendReady := true },
                mPendingUserEasyActionState := { RequestedSelection := some {} } } }

/-- A front model whose front end is ready, whose timer has expired and which
holds unsent deltas. -/
def pendingDataModel : AsyncSqlTableModelBase :=
  { mState := { mFrontEndState := { mIsFrontendReady := true },
                mPendingDataIncomingState :=
                  { PendingNewItemsBuffer := [[QVariant.longlong 7, QVariant.string "g"]] },
                mEventProcessing := { mTimerState := { IsOperationSendAllowed := true } } } }

/-- A back state whose current version 2 holds the id `0`: version 1 maps
`[1,2,3]`, version 2 maps `[0,1]`. -/
def idZeroCache : SyncSqlCache :=
  { mVersionedIds := [(1, { Ids := [1, 2, 3] }), (2, { Ids := [0, 1] })],
    mViewWindowValues := { Version := 2 } }

/-- Row request of the ensure-visible scenario on `loadedCache`: visible rows
`0..1`, window `0..51`, version 1. -/
def scenarioRowRequest : RowRequest :=
  { RowWindow := { Top := 0, Bottom := 51 }, RowWindowVisible := { Top := 0, Bottom := 1 },
    Version := 1 }

/-- Selection request of version 1 that selects one row and makes it current. -/
def selectRow (aRow : Int) : SelectionRequest :=
  { Selection := [{ Top := aRow, Bottom := aRow }], CurrentRow := aRow, Version := 1 }

/-- Hints of the ensure-visible scenario: the bottom row is partly visible. -/
def ensureVisiblePartBottom : HintsRequest :=
  { ScrollHint := ScrollHintType.EnsureVisible, BottomRowHint := EdgeRowHintType.Part }

/-- The loaded cache with the window `0..60` requested around the visible rows
`0..10`. -/
def loadedCacheWindow : SyncSqlCache :=
  { loadedCache with
    mRequestedRowRange := { Top := 0, Bottom := 60 }
    mRequestedRowRangeVisible := { Top := 0, Bottom := 10 } }

/-- A cache holding the 60 records of ids 1..60, in id order, with the window
`0..52` requested around the visible rows `0..2`. -/
def wideCache : SyncSqlCache :=
  { mIsSelectionAllowed := true,
    mDefaultSortOrder := [[0]],
    mVersionedIds := [(1, { Ids := (List.range 60).map (fun (i : Nat) => (i : Int) + 1) })],
    mViewWindowValues := { Version := 1, RecordsCount := 60 },
    mRequestedRowRange := { Top := 0, Bottom := 52 },
    mRequestedRowRangeVisible := { Top := 0, Bottom := 2 },
    mTable := { mTableName := "t1", mFieldList := ["id", "name"],
                Rows := (List.range 60).map
                  (fun (i : Nat) => [QVariant.longlong ((i : Int) + 1), QVariant.string "r"]) },
    mSuspendedItemsTable := { mTableName := "t1_ssp", mFieldList := ["id", "name"] } }

/-- The back state after the initial load of ids 1, 2, 3 into the empty cache,
followed by a suspended heavy operation that updates the row of id 1. -/
def suspendedUpdateCache : SyncSqlCache :=
  (emptyCache.ProcessHeavyAction scenarioEngine 1
      [scenarioRow 1 "a", scenarioRow 2 "b", scenarioRow 3 "c"] LoadingStatus.Finished none none
      false false 0).ProcessHeavyAction scenarioEngine 2 [scenarioRow 1 "x"]
    LoadingStatus.NotChanged none none false true 0

/-- Front trace, step 1: a new model is told that loading has finished and its
timer expires; the first heavy request is in flight. -/
def frontLoading : AsyncSqlTableModelBase :=
  (({} : AsyncSqlTableModelBase).SetLoadingFinished true).OnTimerExpired

/-- A front model right after the response to a heavy request that reported a
selection duration of `aDuration` milliseconds. -/
def afterReportedDuration (aDuration : Int) : AsyncSqlTableModelBase :=
  frontLoading.OnViewWindowValuesChanged (some aDuration) (some 3) (some 0)
    { Version := 1, RecordsCount := 3, RequestId := 1 } true none

/-! # Verified properties -/

/-! ## Lemmas on the id index -/

theorem lookup_some_mem {c : List (Int × Nat)} {k : Int} {p : Nat}
    (h : c.lookup k = some p) : (k, p) ∈ c := by
  induction c with
  | nil => simp at h
  | cons a t ih =>
    obtain ⟨k1, p1⟩ := a
    rw [List.lookup_cons] at h
    by_cases hk : k = k1
    · subst hk
      simp at h
      simp [h]
    · have : (k == k1) = false := by simpa using hk
      rw [this] at h
      exact List.mem_cons_of_mem _ (ih h)

theorem lookup_none_keys {c : List (Int × Nat)} {k : Int} :
    c.lookup k = none ↔ k ∉ c.map Prod.fst := by
  rw [List.lookup_eq_none_iff]
  constructor
  · intro h hk
    obtain ⟨q, hq, rfl⟩ := List.mem_map.1 hk
    simpa using h q hq
  · intro h q hq
    have : q.1 ∈ c.map Prod.fst := List.mem_map.2 ⟨q, hq, rfl⟩
    simp only [bne_iff_ne, ne_eq]
    rintro rfl
    exact h this

theorem lookup_isSome_of_key {c : List (Int × Nat)} {k : Int}
    (h : k ∈ c.map Prod.fst) : ∃ p, c.lookup k = some p := by
  cases hl : c.lookup k with
  | none => exact absurd h (lookup_none_keys.1 hl)
  | some p => exact ⟨p, rfl⟩

theorem ScanInv_step {pre rest : List Int} {c : List (Int × Nat)} {value : Int}
    (h : ScanInv pre (value :: rest) c) :
    ScanInv (pre ++ [value]) rest (umapEmplace c value pre.length) := by
  have happ : pre ++ [value] ++ rest = pre ++ value :: rest := by simp
  unfold umapEmplace
  cases hl : c.lookup value with
  | some p =>
    refine ⟨?_, h.nodup, ?_, ?_⟩
    · rw [happ]; exact h.entries
    · have := h.size; simp; omega
    · intro x hx
      rcases List.mem_append.1 hx with hx | hx
      · exact h.seen x hx
      · have : x = value := by simpa using hx
        subst this
        exact List.mem_map.2 ⟨(x, p), lookup_some_mem hl, rfl⟩
  | none =>
    have hnk : value ∉ c.map Prod.fst := lookup_none_keys.1 hl
    have hnp : value ∉ pre := fun hp => hnk (h.seen value hp)
    refine ⟨?_, ?_, ?_, ?_⟩
    · intro k p hkp
      rw [happ]
      rcases List.mem_append.1 hkp with hkp | hkp
      · exact h.entries k p hkp
      · have : k = value ∧ p = pre.length := by simpa using hkp
        obtain ⟨rfl, rfl⟩ := this
        refine ⟨by simp, ?_⟩
        rw [List.indexOf_append_of_not_mem hnp, List.indexOf_cons_self]
        rfl
    · rw [List.map_append, List.nodup_append]
      refine ⟨h.nodup, by simp, ?_⟩
      intro a ha hb
      have : a = value := by simpa using hb
      subst this
      exact hnk ha
    · have := h.size; simp; omega
    · intro x hx
      rw [List.map_append, List.mem_append]
      rcases List.mem_append.1 hx with hx | hx
      · exact Or.inl (h.seen x hx)
      · right; simpa using hx

theorem scan_spec (id : Int) (rest : List Int) :
    ∀ (pre : List Int) (c : List (Int × Nat)), ScanInv pre rest c → id ∉ pre →
      (IdsInfo.scan id rest pre.length c).1
          = (if id ∈ rest then some ((pre ++ rest).indexOf id) else none) ∧
      IdsInfo.CacheOK ⟨pre ++ rest, (IdsInfo.scan id rest pre.length c).2⟩ := by
  induction rest with
  | nil =>
    intro pre c h hid
    refine ⟨by simp [IdsInfo.scan], ?_, ?_, ?_⟩
    · simpa [IdsInfo.scan] using h.entries
    · simpa [IdsInfo.scan] using h.nodup
    · intro x hx
      simp only [IdsInfo.scan] at hx ⊢
      exact h.seen x (by simpa using List.mem_of_mem_take hx)
  | cons value rest ih =>
    intro pre c h hid
    have hs := ScanInv_step h
    have happ : pre ++ [value] ++ rest = pre ++ value :: rest := by simp
    have hlen : (pre ++ [value]).length = pre.length + 1 := by simp
    by_cases hv : value = id
    · subst hv
      simp only [IdsInfo.scan, if_true, List.mem_cons, true_or]
      refine ⟨?_, ?_, hs.nodup, ?_⟩
      · rw [List.indexOf_append_of_not_mem hid, List.indexOf_cons_self]; rfl
      · intro k p hkp
        have := hs.entries k p hkp
        rwa [happ] at this
      · intro x hx
        apply hs.seen
        have hsz := hs.size
        have : x ∈ List.take (pre.length + 1) (pre ++ value :: rest) := by
          have hle : (umapEmplace c value pre.length).length ≤ pre.length + 1 := by
            simpa using hsz
          exact (List.take_subset_take_left _ hle) hx
        rw [← happ, List.take_left' hlen] at this
        exact this
    · have hid2 : id ∉ pre ++ [value] := by
        simp only [List.mem_append, List.mem_singleton, not_or]
        exact ⟨hid, fun e => hv e.symm⟩
      have := ih (pre ++ [value]) _ hs hid2
      rw [hlen, happ] at this
      simp only [IdsInfo.scan, hv, if_false]
      have hmem : (id ∈ value :: rest) ↔ id ∈ rest := by
        simp only [List.mem_cons]
        constructor
        · rintro (e | e)
          · exact absurd e.symm hv
          · exact e
        · exact Or.inr
      simp only [hmem]
      exact this

theorem GetRow_spec (s : IdsInfo) (aId : QVariant) (h : s.CacheOK) :
    (s.GetRow aId).1
        = (if aId.toLongLong ∈ s.Ids then some (s.Ids.indexOf aId.toLongLong) else none) ∧
      (s.GetRow aId).2.CacheOK ∧ (s.GetRow aId).2.Ids = s.Ids := by
  obtain ⟨h1, h2, h3⟩ := h
  cases hl : s.IdPositions.lookup aId.toLongLong with
  | some p =>
    have := h1 _ _ (lookup_some_mem hl)
    simp only [IdsInfo.GetRow, hl, this.1, if_true, this.2]
    exact ⟨trivial, ⟨h1, h2, h3⟩, trivial⟩
  | none =>
    have hnk := lookup_none_keys.1 hl
    have hnp : aId.toLongLong ∉ s.Ids.take s.IdPositions.length := fun hx => hnk (h3 _ hx)
    by_cases hlt : s.IdPositions.length < s.Ids.length
    · simp only [IdsInfo.GetRow, hl, hlt, if_true]
      have hinv : ScanInv (s.Ids.take s.IdPositions.length) (s.Ids.drop s.IdPositions.length)
          s.IdPositions := by
        refine ⟨?_, h2, ?_, h3⟩
        · rw [List.take_append_drop]; exact h1
        · simp; omega
      have hlen : (s.Ids.take s.IdPositions.length).length = s.IdPositions.length := by
        simp; omega
      have := scan_spec aId.toLongLong _ _ _ hinv hnp
      rw [hlen, List.take_append_drop] at this
      refine ⟨?_, this.2, trivial⟩
      rw [this.1]
      have hmem : aId.toLongLong ∈ s.Ids.drop s.IdPositions.length ↔ aId.toLongLong ∈ s.Ids := by
        constructor
        · exact fun hx => List.mem_of_mem_drop hx
        · intro hx
          rw [← List.take_append_drop s.IdPositions.length s.Ids] at hx
          rcases List.mem_append.1 hx with hx | hx
          · exact absurd hx hnp
          · exact hx
      simp only [hmem]
    · have hall : aId.toLongLong ∉ s.Ids := by
        intro hx
        apply hnp
        rwa [List.take_of_length_le (by omega)]
      simp only [IdsInfo.GetRow, hl, hlt, if_false, hall]
      exact ⟨trivial, ⟨h1, h2, h3⟩, trivial⟩

section

open SyncSqlCache

/-! ## Lemmas on the selection transformation -/

theorem Transform_eq_pure (Old New : IdsInfo) (aRow : Int) (h : New.CacheOK) :
    (RowTransformator.Transform Old New aRow).1 = TransformPure Old New.Ids aRow ∧
      (RowTransformator.Transform Old New aRow).2.CacheOK ∧
      (RowTransformator.Transform Old New aRow).2.Ids = New.Ids := by
  have hg := GetRow_spec New (Old.GetId aRow) h
  unfold RowTransformator.Transform TransformPure
  by_cases hm : (Old.GetId aRow).toLongLong ∈ New.Ids
  · simp only [hm, if_true] at hg ⊢
    simp only [hg.1]
    exact ⟨trivial, hg.2⟩
  · simp only [hm, if_false] at hg ⊢
    simp only [hg.1]
    exact ⟨trivial, hg.2⟩

theorem mem_setEmplace (l : List Int) (x y : Int) :
    y ∈ setEmplace l x ↔ y = x ∨ y ∈ l := by
  induction l with
  | nil => simp [setEmplace]
  | cons a t ih =>
    unfold setEmplace
    by_cases h1 : x < a
    · simp [h1]
    · by_cases h2 : x = a
      · subst h2; simp
      · simp only [h1, h2, if_false, List.mem_cons, ih]
        tauto

theorem transformRows_inner (Old : IdsInfo) (ids : List Int) (l : List Int) :
    ∀ a : List Int × IdsInfo, a.2.CacheOK → a.2.Ids = ids →
      (l.foldl (fun a i =>
          let t := RowTransformator.Transform Old a.2 i
          if t.1 ≥ 0 then (setEmplace a.1 t.1, t.2) else (a.1, t.2)) a).2.CacheOK ∧
      (l.foldl (fun a i =>
          let t := RowTransformator.Transform Old a.2 i
          if t.1 ≥ 0 then (setEmplace a.1 t.1, t.2) else (a.1, t.2)) a).2.Ids = ids ∧
      ∀ x, x ∈ (l.foldl (fun a i =>
          let t := RowTransformator.Transform Old a.2 i
          if t.1 ≥ 0 then (setEmplace a.1 t.1, t.2) else (a.1, t.2)) a).1 ↔
        x ∈ a.1 ∨ ∃ i ∈ l, TransformPure Old ids i = x ∧ x ≥ 0 := by
  induction l with
  | nil => intro a h1 h2; simp [h1, h2]
  | cons i t ih =>
    intro a h1 h2
    have ht := Transform_eq_pure Old a.2 i h1
    rw [h2] at ht
    simp only [List.foldl_cons]
    by_cases hge : (RowTransformator.Transform Old a.2 i).1 ≥ 0
    · simp only [hge, if_true]
      have := ih (setEmplace a.1 (RowTransformator.Transform Old a.2 i).1,
        (RowTransformator.Transform Old a.2 i).2) ht.2.1 ht.2.2
      refine ⟨this.1, this.2.1, ?_⟩
      intro x
      rw [this.2.2 x, mem_setEmplace, ht.1]
      simp only [List.mem_cons, exists_eq_or_imp]
      rw [ht.1] at hge
      constructor
      · rintro ((h | h) | h)
        · exact Or.inr (Or.inl ⟨h.symm, h ▸ hge⟩)
        · exact Or.inl h
        · exact Or.inr (Or.inr h)
      · rintro (h | h | h)
        · exact Or.inl (Or.inr h)
        · exact Or.inl (Or.inl h.1.symm)
        · exact Or.inr h
    · simp only [hge, if_false]
      have := ih (a.1, (RowTransformator.Transform Old a.2 i).2) ht.2.1 ht.2.2
      refine ⟨this.1, this.2.1, ?_⟩
      intro x
      rw [this.2.2 x]
      simp only [List.mem_cons, exists_eq_or_imp]
      rw [ht.1] at hge
      constructor
      · rintro (h | h)
        · exact Or.inl h
        · exact Or.inr (Or.inr h)
      · rintro (h | h | h)
        · exact Or.inl h
        · exact absurd (h.1 ▸ h.2) hge
        · exact Or.inr h

theorem transformRows_outer (Old : IdsInfo) (ids : List Int) (sel : List RowRange) :
    ∀ a : List Int × IdsInfo, a.2.CacheOK → a.2.Ids = ids →
      (sel.foldl (fun acc s => s.rows.foldl (fun a i =>
          let t := RowTransformator.Transform Old a.2 i
          if t.1 ≥ 0 then (setEmplace a.1 t.1, t.2) else (a.1, t.2)) acc) a).2.CacheOK ∧
      (sel.foldl (fun acc s => s.rows.foldl (fun a i =>
          let t := RowTransformator.Transform Old a.2 i
          if t.1 ≥ 0 then (setEmplace a.1 t.1, t.2) else (a.1, t.2)) acc) a).2.Ids = ids ∧
      ∀ x, x ∈ (sel.foldl (fun acc s => s.rows.foldl (fun a i =>
          let t := RowTransformator.Transform Old a.2 i
          if t.1 ≥ 0 then (setEmplace a.1 t.1, t.2) else (a.1, t.2)) acc) a).1 ↔
        x ∈ a.1 ∨ ∃ r ∈ sel, ∃ i ∈ r.rows, TransformPure Old ids i = x ∧ x ≥ 0 := by
  induction sel with
  | nil => intro a h1 h2; simp [h1, h2]
  | cons r t ih =>
    intro a h1 h2
    have hin := transformRows_inner Old ids r.rows a h1 h2
    simp only [List.foldl_cons]
    have := ih _ hin.1 hin.2.1
    refine ⟨this.1, this.2.1, ?_⟩
    intro x
    rw [this.2.2 x, hin.2.2 x]
    simp only [List.mem_cons, exists_eq_or_imp]
    rw [or_assoc]

theorem transformRows_spec (Old New : IdsInfo) (sel : List RowRange) (h : New.CacheOK) :
    (SyncSqlCache.transformRows Old sel New).2.CacheOK ∧
    (SyncSqlCache.transformRows Old sel New).2.Ids = New.Ids ∧
    ∀ x, x ∈ (SyncSqlCache.transformRows Old sel New).1 ↔
      ∃ r ∈ sel, ∃ i ∈ r.rows, TransformPure Old New.Ids i = x ∧ x ≥ 0 := by
  have := transformRows_outer Old New.Ids sel ([], New) h rfl
  refine ⟨this.1, this.2.1, ?_⟩
  intro x
  have h3 := this.2.2 x
  simp only [List.not_mem_nil, false_or] at h3
  exact h3

theorem mem_rows_iff (r : RowRange) (i : Int) :
    i ∈ r.rows ↔ r.Contains i = true := by
  unfold RowRange.rows RowRange.Contains
  rw [List.mem_map, Bool.and_eq_true, decide_eq_true_eq, decide_eq_true_eq]
  constructor
  · rintro ⟨k, hk, rfl⟩
    rw [List.mem_range] at hk
    omega
  · rintro ⟨h1, h2⟩
    refine ⟨(i - r.Top).toNat, ?_, ?_⟩
    · rw [List.mem_range]; omega
    · omega


theorem coalesceStep_spec (acc : List RowRange) (r : Int)
    (hv : ∀ x ∈ acc, x.Top ≤ x.Bottom) :
    (∀ x ∈ coalesceStep acc r, x.Top ≤ x.Bottom) ∧
      ∀ p, Covers (coalesceStep acc r) p ↔ Covers acc p ∨ p = r := by
  unfold coalesceStep
  cases hl : acc.getLast? with
  | none =>
    have : acc = [] := List.getLast?_eq_none_iff.1 hl
    subst this
    simp [Covers, RowRange.Contains]
    intro p; omega
  | some b =>
    have hacc : acc.dropLast ++ [b] = acc := List.dropLast_append_getLast? b hl
    have hb : b.Top ≤ b.Bottom := hv b (by rw [← hacc]; simp)
    by_cases hbr : b.Bottom = r - 1
    · simp only [hbr, if_true]
      constructor
      · intro x hx
        rcases List.mem_append.1 hx with hx | hx
        · exact hv x (by rw [← hacc]; exact List.mem_append_left _ hx)
        · have : x = { b with Bottom := r } := by simpa using hx
          subst this
          simp only
          omega
      · intro p
        have hcov : Covers acc p ↔ Covers acc.dropLast p ∨ b.Contains p = true := by
          conv_lhs => rw [← hacc]
          simp [Covers, List.mem_append, or_and_right, exists_or]
        rw [hcov]
        simp only [Covers, List.mem_append, List.mem_singleton, or_and_right, exists_or,
          exists_eq_left, RowRange.Contains, Bool.and_eq_true, decide_eq_true_eq]
        constructor
        · rintro (h | h)
          · exact Or.inl (Or.inl h)
          · by_cases hp : p = r
            · exact Or.inr hp
            · exact Or.inl (Or.inr ⟨h.1, by omega⟩)
        · rintro ((h | h) | h)
          · exact Or.inl h
          · exact Or.inr ⟨h.1, by omega⟩
          · exact Or.inr ⟨by omega, by omega⟩
    · simp only [hbr, if_false]
      constructor
      · intro x hx
        rcases List.mem_append.1 hx with hx | hx
        · exact hv x hx
        · have : x = { Top := r, Bottom := r } := by simpa using hx
          subst this
          simp
      · intro p
        simp only [Covers, List.mem_append, List.mem_singleton, or_and_right, exists_or,
          exists_eq_left, RowRange.Contains, Bool.and_eq_true, decide_eq_true_eq]
        constructor
        · rintro (h | h)
          · exact Or.inl h
          · exact Or.inr (by omega)
        · rintro (h | h)
          · exact Or.inl h
          · exact Or.inr ⟨by omega, by omega⟩

theorem coalesce_spec (rows : List Int) :
    ∀ acc : List RowRange, (∀ x ∈ acc, x.Top ≤ x.Bottom) →
      (∀ x ∈ rows.foldl coalesceStep acc, x.Top ≤ x.Bottom) ∧
        ∀ p, Covers (rows.foldl coalesceStep acc) p ↔ Covers acc p ∨ p ∈ rows := by
  induction rows with
  | nil => intro acc hv; simp [hv]; exact hv
  | cons r t ih =>
    intro acc hv
    have hs := coalesceStep_spec acc r hv
    have := ih _ hs.1
    simp only [List.foldl_cons]
    refine ⟨this.1, ?_⟩
    intro p
    rw [this.2 p, hs.2 p, List.mem_cons, or_assoc]

theorem TransformPure_in_range (Old : IdsInfo) (newIds : List Int) (i : Int)
    (h0 : 0 ≤ i) (h1 : i < Old.Ids.length) (hn : newIds.Nodup) (x : Int) :
    (TransformPure Old newIds i = x ∧ x ≥ 0) ↔
      ∃ (q : Nat) (id : Int), Old.Ids[i.toNat]? = some id ∧ newIds[q]? = some id ∧ x = q := by
  have hlt : i.toNat < Old.Ids.length := by omega
  have hget : Old.GetId i = QVariant.longlong (Old.Ids[i.toNat]) := by
    unfold IdsInfo.GetId IdsInfo.IsOutOfRange
    have h2 : ¬ (i < 0) := by omega
    have h3 : ¬ (i.toNat ≥ Old.Ids.length) := by omega
    simp only [h2, h3, decide_False, Bool.or_self, Bool.false_eq_true, if_false]
    rw [List.getD_eq_getElem _ _ hlt]
  unfold TransformPure
  rw [hget]
  simp only [QVariant.toLongLong, List.getElem?_eq_getElem hlt, Option.some.injEq]
  constructor
  · rintro ⟨h, _⟩
    by_cases hm : Old.Ids[i.toNat] ∈ newIds
    · simp only [hm, if_true] at h
      have hl := List.indexOf_lt_length.2 hm
      refine ⟨_, _, rfl, ?_, h.symm⟩
      rw [List.getElem?_eq_getElem hl, List.getElem_indexOf hl]
    · simp only [hm, if_false] at h
      omega
  · rintro ⟨q, id, rfl, hq, rfl⟩
    obtain ⟨hq1, hq2⟩ := List.getElem?_eq_some_iff.1 hq
    have hm : Old.Ids[i.toNat] ∈ newIds := hq2 ▸ List.getElem_mem hq1
    simp only [hm, if_true]
    refine ⟨?_, by omega⟩
    have := List.indexOf_getElem hn q hq1
    rw [hq2] at this
    rw [this]


theorem CacheOK_empty (ids : List Int) : IdsInfo.CacheOK { Ids := ids, IdPositions := [] } := by
  refine ⟨?_, ?_, ?_⟩ <;> simp

/-! ## Claims -/

/-- C1: `TransformSelection` keeps the selected id set.  When a transformation
from `Old` to `New` applies, `New` has no repeated id and the ranges of the
selection lie inside `[0, len(Old))`, a row `p` is covered by the transformed
selection exactly when `p` is the position in `New` of the id `Old[i]` of some
row `i` covered by the input selection. -/
theorem C1_TransformSelection_keeps_selected_ids
    (s : SyncSqlCache) (aVersion : Int) (sel : List RowRange) (cur : Int) (Old New : IdsInfo)
    (hT : s.GetRowTransformation aVersion = some (Old, New))
    (hNew : New.Ids.Nodup) (hc : New.CacheOK)
    (hsel : ∀ r ∈ sel, 0 ≤ r.Top ∧ r.Bottom < Old.Ids.length) (p : Int) :
    Covers (s.TransformSelection aVersion sel cur).2.1 p ↔
      ∃ (i q : Nat) (id : Int),
        Covers sel i ∧ Old.Ids[i]? = some id ∧ New.Ids[q]? = some id ∧ p = q := by
  have hcur := Transform_eq_pure Old New cur hc
  have hrows := transformRows_spec Old (RowTransformator.Transform Old New cur).2 sel hcur.2.1
  rw [hcur.2.2] at hrows
  have hco := (coalesce_spec
    (SyncSqlCache.transformRows Old sel (RowTransformator.Transform Old New cur).2).1 []
    (by simp)).2 p
  simp only [SyncSqlCache.TransformSelection, hT]
  rw [hco, hrows.2.2 p]
  simp only [Covers, List.not_mem_nil, false_and, exists_false, false_or]
  constructor
  · rintro ⟨r, hr, i, hi, ht⟩
    have hci := (mem_rows_iff r i).1 hi
    have hb := hsel r hr
    have hci2 := hci
    simp only [RowRange.Contains, Bool.and_eq_true, decide_eq_true_eq] at hci2
    obtain ⟨q, id, h1, h2, h3⟩ :=
      (TransformPure_in_range Old New.Ids i (by omega) (by omega) hNew p).1 ht
    refine ⟨i.toNat, q, id, ⟨r, hr, ?_⟩, h1, h2, h3⟩
    rw [Int.toNat_of_nonneg (by omega)]
    exact hci
  · rintro ⟨i, q, id, ⟨r, hr, hci⟩, h1, h2, h3⟩
    have hb := hsel r hr
    have hci2 := hci
    simp only [RowRange.Contains, Bool.and_eq_true, decide_eq_true_eq] at hci2
    refine ⟨r, hr, (i : Int), (mem_rows_iff r i).2 hci, ?_⟩
    exact (TransformPure_in_range Old New.Ids i (by omega) (by omega) hNew p).2
      ⟨q, id, by simpa using h1, h2, h3⟩

/-- Witness of C1 on the re-sort scenario: `Old = [1,2,3]`, `New = [3,2,1]`,
selection `{[0,0]}`, current row `0` give selection `{[2,2]}`, current row `2`. -/
theorem C1_TransformSelection_keeps_selected_ids_witness :
    (resortCache.TransformSelection 1 [{ Top := 0, Bottom := 0 }] 0).2
        = ([{ Top := 2, Bottom := 2 }], 2) ∧
      (Covers (resortCache.TransformSelection 1 [{ Top := 0, Bottom := 0 }] 0).2.1 2 ↔
        ∃ (i q : Nat) (id : Int),
          Covers [{ Top := 0, Bottom := 0 }] i ∧ [(1 : Int), 2, 3][i]? = some id ∧
            [(3 : Int), 2, 1][q]? = some id ∧ (2 : Int) = q) :=
  ⟨by decide,
    C1_TransformSelection_keeps_selected_ids resortCache 1 [{ Top := 0, Bottom := 0 }] 0
      { Ids := [1, 2, 3] } { Ids := [3, 2, 1] } (by decide) (by decide) (CacheOK_empty _)
      (by intro r hr; simp at hr; subst hr; decide) 2⟩

/-- C2 (failing input): for a row outside `Old` (`aRow = -1`), `GetId` yields
an invalid variant, which `GetRow` converts to id `0`; when `New` contains the
id `0` the result of `Transform` is its position, not `-1`.  Through
`TransformSelection` an unset current row (`-1`) so becomes row `0`. -/
theorem C2_Transform_row_outside_old_finds_id_zero :
    IdsInfo.GetId { Ids := [1, 2, 3] } (-1) = QVariant.invalid ∧
    (RowTransformator.Transform { Ids := [1, 2, 3] } { Ids := [0, 1] } (-1)).1 = 0 ∧
    (idZeroCache.TransformSelection 1 [] (-1)).2 = ([], 0) := by
  decide

end

section

open AsyncSqlTableEventProcessing

/-- C3: decision table of the event processor's command. -/
theorem C3_GetCommand_decision_table (st : State) :
    ((st.mEventProcessing.mIsErrorOccured = true ∨ st.mBackEndState.IsBackendReady = false) →
        GetCommand st = Command.DoNothing) ∧
    (st.mEventProcessing.mIsErrorOccured = false → st.mBackEndState.IsBackendReady = true →
      (st.mFrontEndState.mIsFrontendReady = true → st.mPendingUserQueryActionState.Query.isSome →
          GetCommand st = Command.SendUserQuery) ∧
      (st.mFrontEndState.mIsFrontendReady = true → st.mPendingUserQueryActionState.Query = none →
        (st.mPendingUserEasyActionState.RequestedRows.isSome ∨
          st.mPendingUserEasyActionState.RequestedSelection.isSome ∨
          st.mPendingUserEasyActionState.RequestedHints.isSome) →
          GetCommand st = Command.SendUserActionRequest) ∧
      (st.mFrontEndState.mIsFrontendReady = true → st.mPendingUserQueryActionState.Query = none →
        st.mPendingUserEasyActionState = {} →
        st.mEventProcessing.mTimerState.IsOperationSendAllowed = true →
        (st.mPendingUserHeavyActionState.mPendingSorting.isSome ∨
          st.mPendingUserHeavyActionState.mPendingFilter.isSome ∨
          st.mPendingUserHeavyActionState.mReportSelected = true) →
          GetCommand st = Command.SendUpdateRequest) ∧
      ((st.mFrontEndState.mIsFrontendReady = false ∨
          (st.mPendingUserQueryActionState.Query = none ∧
            st.mPendingUserEasyActionState = {} ∧
            ¬ (st.mEventProcessing.mTimerState.IsOperationSendAllowed = true ∧
              (st.mPendingUserHeavyActionState.mPendingSorting.isSome ∨
                st.mPendingUserHeavyActionState.mPendingFilter.isSome ∨
                st.mPendingUserHeavyActionState.mReportSelected = true)))) →
        GetCommand st =
          if st.mEventProcessing.mTimerState.IsOperationSendAllowed = true ∧
              (st.mPendingDataIncomingState.PendingNewItemsBuffer ≠ [] ∨
                st.mPendingDataIncomingState.PendingLoadStatus ≠ LoadingStatus.NotChanged ∨
                st.mPendingDataIncomingState.ResumeUpdates = true)
          then Command.SendUpdateRequest else Command.DoNothing)) ∧
    (st.mFrontEndState.mIsFrontendReady = false →
      GetCommand st ≠ Command.SendUserQuery ∧ GetCommand st ≠ Command.SendUserActionRequest) := by
  have hdata : st.mPendingDataIncomingState.IsUpdateOperationNeeded = true ↔
      (st.mPendingDataIncomingState.PendingNewItemsBuffer ≠ [] ∨
        st.mPendingDataIncomingState.PendingLoadStatus ≠ LoadingStatus.NotChanged ∨
        st.mPendingDataIncomingState.ResumeUpdates = true) := by
    simp [PendingDataIncomingState.IsUpdateOperationNeeded, List.isEmpty_iff, or_assoc]
  have hheavy : st.mPendingUserHeavyActionState.IsUpdateOperationNeeded = true ↔
      (st.mPendingUserHeavyActionState.mPendingSorting.isSome ∨
        st.mPendingUserHeavyActionState.mPendingFilter.isSome ∨
        st.mPendingUserHeavyActionState.mReportSelected = true) := by
    simp [PendingUserHeavyActionState.IsUpdateOperationNeeded, or_assoc]
  have heasy : st.mPendingUserEasyActionState.IsNeeded = true ↔
      (st.mPendingUserEasyActionState.RequestedRows.isSome ∨
        st.mPendingUserEasyActionState.RequestedSelection.isSome ∨
        st.mPendingUserEasyActionState.RequestedHints.isSome) := by
    simp [PendingUserEasyActionState.IsNeeded, or_assoc]
  have heasy0 : st.mPendingUserEasyActionState = {} →
      st.mPendingUserEasyActionState.IsNeeded = false := by
    intro h; rw [h]; rfl
  refine ⟨?_, ?_, ?_⟩
  · rintro (h | h)
    · simp [GetCommand, h]
    · simp [GetCommand, h]
  · intro herr hbe
    refine ⟨?_, ?_, ?_, ?_⟩
    · intro hf hq
      simp [GetCommand, herr, hbe, FrontendState.IsFrontendReady, hf,
        PendingUserQueryActionState.IsNeeded, hq]
    · intro hf hq he
      simp [GetCommand, herr, hbe, FrontendState.IsFrontendReady, hf,
        PendingUserQueryActionState.IsNeeded, hq, heasy.2 he]
    · intro hf hq he hal hh
      simp [GetCommand, herr, hbe, FrontendState.IsFrontendReady, hf,
        PendingUserQueryActionState.IsNeeded, hq, heasy0 he, hal, hheavy.2 hh]
    · intro h
      have hd : (st.mEventProcessing.mTimerState.IsOperationSendAllowed
            && st.mPendingDataIncomingState.IsUpdateOperationNeeded) = true ↔
          (st.mEventProcessing.mTimerState.IsOperationSendAllowed = true ∧
            (st.mPendingDataIncomingState.PendingNewItemsBuffer ≠ [] ∨
              st.mPendingDataIncomingState.PendingLoadStatus ≠ LoadingStatus.NotChanged ∨
              st.mPendingDataIncomingState.ResumeUpdates = true)) := by
        rw [Bool.and_eq_true, hdata]
      rcases h with hf | ⟨hq, he, hnh⟩
      · simp only [GetCommand, herr, hbe, FrontendState.IsFrontendReady, hf, if_true,
          Bool.false_eq_true, if_false, hd]
      · have hnh2 : (st.mEventProcessing.mTimerState.IsOperationSendAllowed
            && st.mPendingUserHeavyActionState.IsUpdateOperationNeeded) = false := by
          rw [Bool.eq_false_iff]
          intro hc
          rw [Bool.and_eq_true, hheavy] at hc
          exact hnh hc
        simp only [GetCommand, herr, hbe, PendingUserQueryActionState.IsNeeded, hq,
          Option.isSome_none, heasy0 he, hnh2, Bool.false_eq_true, if_false, if_true, hd,
          ite_self]
  · intro hf
    by_cases herr : st.mEventProcessing.mIsErrorOccured = true
    · simp [GetCommand, herr]
    · by_cases hbe : st.mBackEndState.IsBackendReady = true
      · simp only [GetCommand, herr, hbe, FrontendState.IsFrontendReady, hf, if_true,
          Bool.false_eq_true, if_false]
        split <;> simp
      · simp [GetCommand, herr, hbe]

/-- Witness of C3: a ready front end with a pending selection request and no
pending query gets `SendUserActionRequest`. -/
theorem C3_GetCommand_decision_table_witness :
    GetCommand { mFrontEndState := { mIsFrontendReady := true },
                 mPendingUserEasyActionState := { RequestedSelection := some {} } }
      = Command.SendUserActionRequest :=
  ((C3_GetCommand_decision_table
      { mFrontEndState := { mIsFrontendReady := true },
        mPendingUserEasyActionState := { RequestedSelection := some {} } }).2.1
    rfl rfl).2.1 rfl rfl (Or.inr (Or.inl rfl))


/-! ## Lemmas on the event processor -/

theorem GetCommand_error (st : State) (h : st.mEventProcessing.mIsErrorOccured = true) :
    GetCommand st = Command.DoNothing := by
  simp [GetCommand, h]

theorem GetCommand_not_ready (st : State) (h : st.mBackEndState.IsBackendReady = false) :
    GetCommand st = Command.DoNothing := by
  simp [GetCommand, h]

theorem ProcessEventInternal_error (ep : AsyncSqlTableEventProcessing) (ev : Event)
    (h : ep.mIsErrorOccured = true) : ep.ProcessEventInternal ev = ep := by
  simp [ProcessEventInternal, h]

theorem ProcessEvent_backend (st : State) (ev : Event) :
    (ProcessEvent st ev).2.mBackEndState = st.mBackEndState := rfl

theorem run_error (steps : List (State × Event)) :
    ∀ ep : AsyncSqlTableEventProcessing, ep.mIsErrorOccured = true →
      (∀ c ∈ (run ep steps).1, c = Command.DoNothing) ∧
      (run ep steps).1.length = steps.length ∧ (run ep steps).2 = ep := by
  induction steps with
  | nil => intro ep _; simp [run]
  | cons a t ih =>
    intro ep h
    obtain ⟨st, ev⟩ := a
    have h1 : (ProcessEvent { st with mEventProcessing := ep } ev).2.mEventProcessing = ep := by
      simp [ProcessEvent, ProcessEventInternal_error ep ev h]
    have h2 : (ProcessEvent { st with mEventProcessing := ep } ev).1 = Command.DoNothing := by
      simp only [ProcessEvent]
      apply GetCommand_error
      simp [ProcessEventInternal_error ep ev h, h]
    have := ih ep h
    simp only [run, h1, h2, List.mem_cons, List.length_cons]
    refine ⟨?_, by rw [this.2.1], this.2.2⟩
    rintro c (hc | hc)
    · exact hc
    · exact this.1 c hc

/-- C5: the error state of the event processor is terminal.  Processing
`ErrorOccured` yields `DoNothing`; in every run of later `ProcessEvent` calls
(any events, any bucket contents) every command is `DoNothing` and the
processor's members stay as they are; in particular the timer state - the
flag `IsOperationSendAllowed` and whether the timer runs - is the one the
processor had before `ErrorOccured`, so no event changes the flag or starts
the timer. -/
theorem C5_error_state_is_terminal (st0 : State) (steps : List (State × Event)) :
    (ProcessEvent st0 Event.ErrorOccured).1 = Command.DoNothing ∧
    (∀ c ∈ (run (ProcessEvent st0 Event.ErrorOccured).2.mEventProcessing steps).1,
        c = Command.DoNothing) ∧
    (run (ProcessEvent st0 Event.ErrorOccured).2.mEventProcessing steps).1.length
        = steps.length ∧
    (run (ProcessEvent st0 Event.ErrorOccured).2.mEventProcessing steps).2
        = (ProcessEvent st0 Event.ErrorOccured).2.mEventProcessing ∧
    (run (ProcessEvent st0 Event.ErrorOccured).2.mEventProcessing steps).2.mTimerState
        = st0.mEventProcessing.mTimerState := by
  have herr : (ProcessEvent st0 Event.ErrorOccured).2.mEventProcessing.mIsErrorOccured = true := by
    simp only [ProcessEvent, ProcessEventInternal]
    split <;> simp_all
  have htimer : (ProcessEvent st0 Event.ErrorOccured).2.mEventProcessing.mTimerState
      = st0.mEventProcessing.mTimerState := by
    simp only [ProcessEvent, ProcessEventInternal]
    split <;> rfl
  have hr := run_error steps _ herr
  refine ⟨?_, hr.1, hr.2.1, hr.2.2, by rw [hr.2.2, htimer]⟩
  exact GetCommand_error _ herr

/-! ## Lemmas on the front model -/

theorem TryEngageCursor_state (m : AsyncSqlTableModelBase) :
    m.TryEngageCursor.mState = m.mState ∧ m.TryEngageCursor.Emitted = m.Emitted := by
  unfold AsyncSqlTableModelBase.TryEngageCursor
  split <;> simp

theorem TryRestoreCursor_state (m : AsyncSqlTableModelBase) :
    m.TryRestoreCursor.mState = m.mState ∧ m.TryRestoreCursor.Emitted = m.Emitted := by
  unfold AsyncSqlTableModelBase.TryRestoreCursor
  split <;> simp

theorem model_ProcessEvent_fields (m : AsyncSqlTableModelBase) (ev : Event) :
    (m.ProcessEvent ev).1 = (ProcessEvent m.mState ev).1 ∧
    (m.ProcessEvent ev).2.mState =
      (AsyncSqlTableModelBase.dispatch
        { m with Emitted := m.Emitted ++ [FrontSignal.ReportIsBusy m.IsBusy],
                 mState := (ProcessEvent m.mState ev).2 }
        (ProcessEvent m.mState ev).1).mState ∧
    (m.ProcessEvent ev).2.Emitted =
      (AsyncSqlTableModelBase.dispatch
        { m with Emitted := m.Emitted ++ [FrontSignal.ReportIsBusy m.IsBusy],
                 mState := (ProcessEvent m.mState ev).2 }
        (ProcessEvent m.mState ev).1).Emitted := by
  refine ⟨rfl, ?_, ?_⟩
  · simp only [AsyncSqlTableModelBase.ProcessEvent]
    split
    · exact (TryEngageCursor_state _).1
    · exact (TryRestoreCursor_state _).1
  · simp only [AsyncSqlTableModelBase.ProcessEvent]
    split
    · exact (TryEngageCursor_state _).2
    · exact (TryRestoreCursor_state _).2

theorem model_ProcessEvent_not_ready (m : AsyncSqlTableModelBase) (ev : Event)
    (h : m.mState.mBackEndState.IsBackendReady = false) :
    (m.ProcessEvent ev).1 = Command.DoNothing ∧
    (m.ProcessEvent ev).2.Emitted = m.Emitted ++ [FrontSignal.ReportIsBusy m.IsBusy] ∧
    (m.ProcessEvent ev).2.mState.mBackEndState = m.mState.mBackEndState := by
  have hf := model_ProcessEvent_fields m ev
  have hc : (ProcessEvent m.mState ev).1 = Command.DoNothing := by
    simp only [ProcessEvent]
    exact GetCommand_not_ready _ h
  rw [hc] at hf
  refine ⟨hf.1, ?_, ?_⟩
  · rw [hf.2.2]; rfl
  · rw [hf.2.1]; rfl

theorem model_ProcessEvent_sent (m : AsyncSqlTableModelBase) (ev : Event)
    (h : (m.ProcessEvent ev).1 ≠ Command.DoNothing) :
    (m.ProcessEvent ev).2.mState.mBackEndState.IsBackendReady = false := by
  have hf := model_ProcessEvent_fields m ev
  rw [hf.1] at h
  rw [hf.2.1]
  cases hc : (ProcessEvent m.mState ev).1 with
  | DoNothing => exact absurd hc h
  | SendUserActionRequest =>
    simp [AsyncSqlTableModelBase.dispatch, BackendState.IsBackendReady]
  | SendUpdateRequest =>
    simp [AsyncSqlTableModelBase.dispatch, BackendState.IsBackendReady]
  | SendUserQuery =>
    simp [AsyncSqlTableModelBase.dispatch, BackendState.IsBackendReady]

theorem model_run_not_ready (steps : List (AsyncSqlTableModelBase × Event)) :
    ∀ b : BackendState, b.IsBackendReady = false →
      (∀ c ∈ (AsyncSqlTableModelBase.run b steps).1, c = Command.DoNothing) ∧
      (AsyncSqlTableModelBase.run b steps).1.length = steps.length ∧
      (AsyncSqlTableModelBase.run b steps).2.1 = [] ∧
      (AsyncSqlTableModelBase.run b steps).2.2 = b := by
  induction steps with
  | nil => intro b _; simp [AsyncSqlTableModelBase.run]
  | cons a t ih =>
    intro b hb
    obtain ⟨m, ev⟩ := a
    have hnr := model_ProcessEvent_not_ready ({ m.withBackend b with Emitted := [] }) ev hb
    have hbk : (({ m.withBackend b with Emitted := [] } : AsyncSqlTableModelBase).ProcessEvent
        ev).2.mState.mBackEndState = b := by
      rw [hnr.2.2]; rfl
    have := ih b hb
    simp only [AsyncSqlTableModelBase.run, hbk, hnr.1, hnr.2.1, List.mem_cons,
      List.length_cons]
    refine ⟨?_, by rw [this.2.1], ?_, this.2.2.2⟩
    · rintro c (hc | hc)
      · exact hc
      · exact this.1 c hc
    · rw [this.2.2.1]
      simp [FrontSignal.isRequest]

/-- C4: no request is sent while another is in flight.  If the backend bucket
is not ready, `ProcessEvent` returns `DoNothing`, emits nothing but the busy
report and leaves the backend bucket as it is; after a command other than
`DoNothing` the backend bucket is not ready, and then every later event, with
anything but the backend bucket changed in between, yields `DoNothing` and
sends no request. -/
theorem C4_no_request_while_in_flight (m : AsyncSqlTableModelBase) (ev : Event)
    (steps : List (AsyncSqlTableModelBase × Event)) :
    (m.mState.mBackEndState.IsBackendReady = false →
      (m.ProcessEvent ev).1 = Command.DoNothing ∧
      (m.ProcessEvent ev).2.Emitted = m.Emitted ++ [FrontSignal.ReportIsBusy m.IsBusy] ∧
      (m.ProcessEvent ev).2.mState.mBackEndState = m.mState.mBackEndState) ∧
    ((m.ProcessEvent ev).1 ≠ Command.DoNothing →
      (m.ProcessEvent ev).2.mState.mBackEndState.IsBackendReady = false ∧
      (∀ c ∈ (AsyncSqlTableModelBase.run (m.ProcessEvent ev).2.mState.mBackEndState steps).1,
        c = Command.DoNothing) ∧
      (AsyncSqlTableModelBase.run (m.ProcessEvent ev).2.mState.mBackEndState steps).1.length
        = steps.length ∧
      (AsyncSqlTableModelBase.run (m.ProcessEvent ev).2.mState.mBackEndState steps).2.1 = []) := by
  refine ⟨model_ProcessEvent_not_ready m ev, ?_⟩
  intro h
  have hs := model_ProcessEvent_sent m ev h
  have hr := model_run_not_ready steps _ hs
  exact ⟨hs, hr.1, hr.2.1, hr.2.2.1⟩


/-- Witness of C4: a ready model with a pending selection request sends the
easy request on `SelectionOperation`; the backend bucket is then not ready and
a following `TimerExpired`, with incoming data pending, yields `DoNothing`. -/
theorem C4_no_request_while_in_flight_witness :
    (busyExampleModel.ProcessEvent Event.SelectionOperation).1 = Command.SendUserActionRequest ∧
    (busyExampleModel.ProcessEvent
        Event.SelectionOperation).2.mState.mBackEndState.IsBackendReady = false ∧
    (AsyncSqlTableModelBase.run
        (busyExampleModel.ProcessEvent Event.SelectionOperation).2.mState.mBackEndState
        [(pendingDataModel, Event.TimerExpired)]).1 = [Command.DoNothing] :=
  ⟨by decide,
    ((C4_no_request_while_in_flight busyExampleModel Event.SelectionOperation
      [(pendingDataModel, Event.TimerExpired)]).2 (by decide)).1,
    by decide⟩

end

section

open SyncSqlCache

/-! ## Lemmas on the tables -/

theorem updateProgress_fields (s : SyncSqlCache) (p : ProgressState) :
    (s.updateProgress p).1.mTable = s.mTable ∧
    (s.updateProgress p).1.mSuspendedItemsTable = s.mSuspendedItemsTable ∧
    (s.updateProgress p).1.mSuspendedDeletedIds = s.mSuspendedDeletedIds ∧
    (s.updateProgress p).1.mCommonFieldsIndexes = s.mCommonFieldsIndexes := by
  unfold updateProgress
  by_cases h1 : p.i ≥ s.mSuspendedRecordsCounter
  · simp only [h1, if_true]
    exact ⟨trivial, trivial, trivial, trivial⟩
  · by_cases h2 : (p.i + 1) * 100 / s.mSuspendedRecordsCounter ≠ p.progress
    · rw [if_neg h1]
      simp only [if_pos h2]
      exact ⟨trivial, trivial, trivial, trivial⟩
    · rw [if_neg h1]
      simp only [if_neg h2]
      exact ⟨trivial, trivial, trivial, trivial⟩

theorem resumeInsert_fold (l : List (List QVariant)) :
    ∀ st : SyncSqlCache × ProgressState,
      (l.foldl resumeInsert st).1.mTable =
        l.foldl (fun t x => t.Insert (fillCommon st.1.mCommonFieldsIndexes x)) st.1.mTable ∧
      (l.foldl resumeInsert st).1.mSuspendedItemsTable = st.1.mSuspendedItemsTable ∧
      (l.foldl resumeInsert st).1.mSuspendedDeletedIds = st.1.mSuspendedDeletedIds ∧
      (l.foldl resumeInsert st).1.mCommonFieldsIndexes = st.1.mCommonFieldsIndexes := by
  induction l with
  | nil => intro st; exact ⟨rfl, rfl, rfl, rfl⟩
  | cons x t ih =>
    intro st
    simp only [List.foldl_cons]
    have h := ih (resumeInsert st x)
    have hu := updateProgress_fields (st.1.InsertOrReplace x false) st.2
    have hd : (resumeInsert st x).1.mTable
          = st.1.mTable.Insert (fillCommon st.1.mCommonFieldsIndexes x) ∧
        (resumeInsert st x).1.mSuspendedItemsTable = st.1.mSuspendedItemsTable ∧
        (resumeInsert st x).1.mSuspendedDeletedIds = st.1.mSuspendedDeletedIds ∧
        (resumeInsert st x).1.mCommonFieldsIndexes = st.1.mCommonFieldsIndexes := by
      unfold resumeInsert
      rw [hu.1, hu.2.1, hu.2.2.1, hu.2.2.2]
      simp [InsertOrReplace, AddPendingValue]
    rw [h.1, h.2.1, h.2.2.1, h.2.2.2, hd.1, hd.2.1, hd.2.2.1, hd.2.2.2]
    exact ⟨rfl, rfl, rfl, rfl⟩

end

section

open SyncSqlCache

/-! ## Frame lemmas of the heavy operation -/

theorem foldl_proj_congr {α β γ : Type} (proj : α → γ) (f : α → β → α)
    (h : ∀ a b x, proj a = proj b → proj (f a x) = proj (f b x)) (l : List β) :
    ∀ a b, proj a = proj b → proj (l.foldl f a) = proj (l.foldl f b) := by
  induction l with
  | nil => intro a b hab; exact hab
  | cons x t ih => intro a b hab; exact ih _ _ (h a b x hab)

theorem foldl_proj_keep {α β γ : Type} (proj : α → γ) (f : α → β → α)
    (h : ∀ a x, proj (f a x) = proj a) (l : List β) :
    ∀ a, proj (l.foldl f a) = proj a := by
  induction l with
  | nil => intro a; rfl
  | cons x t ih => intro a; simp only [List.foldl_cons]; rw [ih, h]

theorem storePart_eq {a b : SyncSqlCache} :
    storePart a = storePart b ↔
      a.mCommonFieldsIndexes = b.mCommonFieldsIndexes ∧ a.mTable = b.mTable ∧
      a.mSuspendedItemsTable = b.mSuspendedItemsTable ∧
      a.mSuspendedDeletedIds = b.mSuspendedDeletedIds ∧
      a.mSuspendedRecordsCounter = b.mSuspendedRecordsCounter ∧
      a.mTableOperationsCounter = b.mTableOperationsCounter := by
  simp [storePart, Prod.ext_iff]

theorem storeItem_storePart (aSuspend : Bool) (a b : SyncSqlCache) (item : List QVariant)
    (h : storePart a = storePart b) :
    storePart (storeItem aSuspend a item) = storePart (storeItem aSuspend b item) := by
  obtain ⟨h1, h2, h3, h4, h5, h6⟩ := storePart_eq.1 h
  rw [storePart_eq]
  unfold storeItem InsertOrReplace DeleteRecord AddPendingValue
  cases aSuspend <;> by_cases hl : item.length > 1 <;> simp [hl, h1, h2, h3, h4, h5, h6]

theorem StoreItemsToDb_storePart (aSuspend : Bool) (a b : SyncSqlCache)
    (v : List (List QVariant)) (h : storePart a = storePart b) :
    storePart (a.StoreItemsToDb v aSuspend) = storePart (b.StoreItemsToDb v aSuspend) := by
  have hf := foldl_proj_congr storePart (storeItem aSuspend)
    (fun a b x => storeItem_storePart aSuspend a b x) v a b h
  obtain ⟨h1, h2, h3, h4, h5, h6⟩ := storePart_eq.1 hf
  rw [storePart_eq]
  unfold StoreItemsToDb
  cases aSuspend <;> simp [h1, h2, h3, h4, h5, h6]

theorem updateProgress_storePart (a b : SyncSqlCache) (p : ProgressState)
    (h : storePart a = storePart b) :
    storePart (a.updateProgress p).1 = storePart (b.updateProgress p).1 ∧
      (a.updateProgress p).2 = (b.updateProgress p).2 := by
  obtain ⟨h1, h2, h3, h4, h5, h6⟩ := storePart_eq.1 h
  unfold updateProgress
  by_cases c1 : p.i ≥ b.mSuspendedRecordsCounter
  · have c1a : p.i ≥ a.mSuspendedRecordsCounter := by rw [h5]; exact c1
    rw [if_pos c1, if_pos c1a]
    exact ⟨h, rfl⟩
  · have c1a : ¬ p.i ≥ a.mSuspendedRecordsCounter := by rw [h5]; exact c1
    rw [if_neg c1, if_neg c1a]
    by_cases c2 : (p.i + 1) * 100 / b.mSuspendedRecordsCounter ≠ p.progress
    · have c2a : (p.i + 1) * 100 / a.mSuspendedRecordsCounter ≠ p.progress := by
        rw [h5]; exact c2
      simp only [if_pos c2, if_pos c2a]
      refine ⟨storePart_eq.2 ⟨h1, h2, h3, h4, h5, h6⟩, ?_⟩
      rw [h5]
    · have c2a : ¬ (p.i + 1) * 100 / a.mSuspendedRecordsCounter ≠ p.progress := by
        rw [h5]; exact c2
      simp only [if_neg c2, if_neg c2a]
      exact ⟨storePart_eq.2 ⟨h1, h2, h3, h4, h5, h6⟩, trivial⟩

theorem resumeDelete_storePart (a b : SyncSqlCache × ProgressState) (id : Int)
    (h : (storePart a.1, a.2) = (storePart b.1, b.2)) :
    (storePart (resumeDelete a id).1, (resumeDelete a id).2)
      = (storePart (resumeDelete b id).1, (resumeDelete b id).2) := by
  have h1 : storePart a.1 = storePart b.1 := (Prod.ext_iff.1 h).1
  have h2 : a.2 = b.2 := (Prod.ext_iff.1 h).2
  have hd : storePart (a.1.DeleteRecord id false) = storePart (b.1.DeleteRecord id false) := by
    obtain ⟨g1, g2, g3, g4, g5, g6⟩ := storePart_eq.1 h1
    rw [storePart_eq]
    simp [DeleteRecord, g1, g2, g3, g4, g5, g6]
  have := updateProgress_storePart _ _ a.2 hd
  unfold resumeDelete
  rw [← h2, this.1, this.2]

theorem resumeInsert_storePart (a b : SyncSqlCache × ProgressState) (row : List QVariant)
    (h : (storePart a.1, a.2) = (storePart b.1, b.2)) :
    (storePart (resumeInsert a row).1, (resumeInsert a row).2)
      = (storePart (resumeInsert b row).1, (resumeInsert b row).2) := by
  have h1 : storePart a.1 = storePart b.1 := (Prod.ext_iff.1 h).1
  have h2 : a.2 = b.2 := (Prod.ext_iff.1 h).2
  have hd : storePart (a.1.InsertOrReplace row false)
      = storePart (b.1.InsertOrReplace row false) := by
    obtain ⟨g1, g2, g3, g4, g5, g6⟩ := storePart_eq.1 h1
    rw [storePart_eq]
    simp [InsertOrReplace, AddPendingValue, g1, g2, g3, g4, g5, g6]
  have := updateProgress_storePart _ _ a.2 hd
  unfold resumeInsert
  rw [← h2, this.1, this.2]

theorem ResumeSuspendedItems_storePart (a b : SyncSqlCache) (h : storePart a = storePart b) :
    storePart a.ResumeSuspendedItems = storePart b.ResumeSuspendedItems := by
  obtain ⟨g1, g2, g3, g4, g5, g6⟩ := storePart_eq.1 h
  let a0 : SyncSqlCache := { a with mSuspendedRecordsCounter :=
    a.mSuspendedItemsTable.GetRowCount + a.mSuspendedDeletedIds.length }
  let b0 : SyncSqlCache := { b with mSuspendedRecordsCounter :=
    b.mSuspendedItemsTable.GetRowCount + b.mSuspendedDeletedIds.length }
  have h0 : storePart a0 = storePart b0 := by
    rw [storePart_eq]
    exact ⟨g1, g2, g3, g4, by show _ + _ = _ + _; rw [g3, g4], g6⟩
  let fa := List.foldl resumeDelete (a0, {}) a.mSuspendedDeletedIds
  let fb := List.foldl resumeDelete (b0, {}) b.mSuspendedDeletedIds
  have hA : (storePart fa.1, fa.2) = (storePart fb.1, fb.2) := by
    have hc : (storePart (List.foldl resumeDelete (a0, {}) a.mSuspendedDeletedIds).1,
          (List.foldl resumeDelete (a0, {}) a.mSuspendedDeletedIds).2)
        = (storePart (List.foldl resumeDelete (b0, {}) a.mSuspendedDeletedIds).1,
          (List.foldl resumeDelete (b0, {}) a.mSuspendedDeletedIds).2) :=
      foldl_proj_congr (fun st : SyncSqlCache × ProgressState => (storePart st.1, st.2))
        resumeDelete resumeDelete_storePart a.mSuspendedDeletedIds (a0, {}) (b0, {})
        (by simp only [h0])
    exact hc.trans (by rw [g4])
  have hA1 := storePart_eq.1 (Prod.ext_iff.1 hA).1
  have hA2 : fa.2 = fb.2 := (Prod.ext_iff.1 hA).2
  let a1 : SyncSqlCache := { fa.1 with mSuspendedDeletedIds := [] }
  let b1 : SyncSqlCache := { fb.1 with mSuspendedDeletedIds := [] }
  have h1 : storePart a1 = storePart b1 := by
    rw [storePart_eq]
    exact ⟨hA1.1, hA1.2.1, hA1.2.2.1, rfl, hA1.2.2.2.2.1, hA1.2.2.2.2.2⟩
  let ga := List.foldl resumeInsert (a1, fa.2) a1.mSuspendedItemsTable.SelectAllOrderById
  let gb := List.foldl resumeInsert (b1, fb.2) b1.mSuspendedItemsTable.SelectAllOrderById
  have hB : (storePart ga.1, ga.2) = (storePart gb.1, gb.2) := by
    have e : a1.mSuspendedItemsTable = b1.mSuspendedItemsTable := hA1.2.2.1
    have hc : (storePart (List.foldl resumeInsert (a1, fa.2)
            a1.mSuspendedItemsTable.SelectAllOrderById).1,
          (List.foldl resumeInsert (a1, fa.2) a1.mSuspendedItemsTable.SelectAllOrderById).2)
        = (storePart (List.foldl resumeInsert (b1, fb.2)
            a1.mSuspendedItemsTable.SelectAllOrderById).1,
          (List.foldl resumeInsert (b1, fb.2) a1.mSuspendedItemsTable.SelectAllOrderById).2) :=
      foldl_proj_congr (fun st : SyncSqlCache × ProgressState => (storePart st.1, st.2))
        resumeInsert resumeInsert_storePart a1.mSuspendedItemsTable.SelectAllOrderById
        (a1, fa.2) (b1, fb.2) (by simp only [h1, hA2])
    exact hc.trans (by rw [e])
  have hB1 := storePart_eq.1 (Prod.ext_iff.1 hB).1
  rw [storePart_eq]
  refine ⟨hB1.1, hB1.2.1, ?_, hB1.2.2.2.1, rfl, hB1.2.2.2.2.2⟩
  show ga.1.mSuspendedItemsTable.Clear = gb.1.mSuspendedItemsTable.Clear
  rw [hB1.2.2.1]

theorem TryStoreItemsToDb_storePart (a b : SyncSqlCache) (v : List (List QVariant))
    (aSuspend : Bool) (h : storePart a = storePart b) :
    (a.TryStoreItemsToDb v aSuspend).1 = (b.TryStoreItemsToDb v aSuspend).1 ∧
    storePart (a.TryStoreItemsToDb v aSuspend).2 = storePart (b.TryStoreItemsToDb v aSuspend).2 := by
  have h5 := (storePart_eq.1 h).2.2.2.2.1
  unfold TryStoreItemsToDb
  rw [h5]
  split
  · exact ⟨rfl, h⟩
  · refine ⟨rfl, ?_⟩
    cases aSuspend
    · exact StoreItemsToDb_storePart false _ _ v (ResumeSuspendedItems_storePart a b h)
    · exact StoreItemsToDb_storePart true _ _ v h


theorem storeItem_allowed (aSuspend : Bool) (s : SyncSqlCache) (item : List QVariant) :
    (storeItem aSuspend s item).mIsSelectionAllowed = s.mIsSelectionAllowed := by
  unfold storeItem InsertOrReplace DeleteRecord AddPendingValue
  cases aSuspend <;> by_cases hl : item.length > 1 <;> simp [hl]

theorem updateProgress_allowed (s : SyncSqlCache) (p : ProgressState) :
    (s.updateProgress p).1.mIsSelectionAllowed = s.mIsSelectionAllowed := by
  unfold updateProgress
  by_cases c1 : p.i ≥ s.mSuspendedRecordsCounter
  · rw [if_pos c1]
  · rw [if_neg c1]
    by_cases c2 : (p.i + 1) * 100 / s.mSuspendedRecordsCounter ≠ p.progress
    · simp only [if_pos c2]
    · simp only [if_neg c2]

theorem ResumeSuspendedItems_allowed (s : SyncSqlCache) :
    s.ResumeSuspendedItems.mIsSelectionAllowed = s.mIsSelectionAllowed := by
  let s0 : SyncSqlCache := { s with mSuspendedRecordsCounter :=
    s.mSuspendedItemsTable.GetRowCount + s.mSuspendedDeletedIds.length }
  let a := List.foldl resumeDelete (s0, {}) s.mSuspendedDeletedIds
  let s1 : SyncSqlCache := { a.1 with mSuspendedDeletedIds := [] }
  let b := List.foldl resumeInsert (s1, a.2) s1.mSuspendedItemsTable.SelectAllOrderById
  have ha : a.1.mIsSelectionAllowed = s.mIsSelectionAllowed :=
    foldl_proj_keep (fun st : SyncSqlCache × ProgressState => st.1.mIsSelectionAllowed)
      resumeDelete
      (fun st id => by
        show ((st.1.DeleteRecord id false).updateProgress st.2).1.mIsSelectionAllowed = _
        rw [updateProgress_allowed]; simp [DeleteRecord])
      s.mSuspendedDeletedIds (s0, {})
  have hb : b.1.mIsSelectionAllowed = a.1.mIsSelectionAllowed :=
    foldl_proj_keep (fun st : SyncSqlCache × ProgressState => st.1.mIsSelectionAllowed)
      resumeInsert
      (fun st row => by
        show ((st.1.InsertOrReplace row false).updateProgress st.2).1.mIsSelectionAllowed = _
        rw [updateProgress_allowed]; simp [InsertOrReplace, AddPendingValue])
      s1.mSuspendedItemsTable.SelectAllOrderById (s1, a.2)
  show b.1.mIsSelectionAllowed = _
  rw [hb, ha]

theorem TryStoreItemsToDb_allowed (s : SyncSqlCache) (v : List (List QVariant))
    (aSuspend : Bool) :
    (s.TryStoreItemsToDb v aSuspend).2.mIsSelectionAllowed = s.mIsSelectionAllowed := by
  have hf : ∀ st : SyncSqlCache,
      (st.StoreItemsToDb v aSuspend).mIsSelectionAllowed = st.mIsSelectionAllowed := by
    intro st
    have := foldl_proj_keep (fun st : SyncSqlCache => st.mIsSelectionAllowed)
      (storeItem aSuspend) (fun a x => storeItem_allowed aSuspend a x) v st
    unfold StoreItemsToDb
    cases aSuspend <;> exact this
  unfold TryStoreItemsToDb
  split
  · rfl
  · cases aSuspend
    · show (s.ResumeSuspendedItems.StoreItemsToDb v false).mIsSelectionAllowed = _
      rw [hf, ResumeSuspendedItems_allowed]
    · exact hf s

/-- The part of the cache the re-selection leaves alone. -/
theorem TransformSelection_keep (s : SyncSqlCache) (aVersion : Int) (sel : List RowRange)
    (cur : Int) :
    storePart (s.TransformSelection aVersion sel cur).1 = storePart s ∧
    (s.TransformSelection aVersion sel cur).1.mIsSelectionAllowed = s.mIsSelectionAllowed ∧
    (s.TransformSelection aVersion sel cur).1.mViewWindowValues = s.mViewWindowValues := by
  unfold TransformSelection
  split <;> exact ⟨rfl, rfl, rfl⟩

theorem UpdateRowWindow_keep (s : SyncSqlCache) :
    storePart s.UpdateRowWindow = storePart s ∧
    s.UpdateRowWindow.mIsSelectionAllowed = s.mIsSelectionAllowed ∧
    s.UpdateRowWindow.mViewWindowValues = s.mViewWindowValues := by
  unfold UpdateRowWindow
  simp only
  split <;> split <;> split <;> split <;> (try split) <;> exact ⟨rfl, rfl, rfl⟩

theorem UpdateViewWindowValues_keep (s : SyncSqlCache) (aRefreshAll : Bool) :
    storePart (s.UpdateViewWindowValues aRefreshAll) = storePart s ∧
    (s.UpdateViewWindowValues aRefreshAll).mIsSelectionAllowed = s.mIsSelectionAllowed ∧
    (s.UpdateViewWindowValues aRefreshAll).mViewWindowValues.Version
      = s.mViewWindowValues.Version ∧
    (s.UpdateViewWindowValues aRefreshAll).mVersionedIds = s.mVersionedIds := 
  ⟨rfl, rfl, rfl, rfl⟩

theorem UpdateIdMapping_keep (s : SyncSqlCache) (q : List QVariant) :
    storePart (s.UpdateIdMapping q) = storePart s ∧
    (s.UpdateIdMapping q).mIsSelectionAllowed = s.mIsSelectionAllowed ∧
    (s.UpdateIdMapping q).mViewWindowValues = s.mViewWindowValues := by
  unfold UpdateIdMapping
  split <;> exact ⟨rfl, rfl, rfl⟩

theorem ProcessDataPopulation_keep (s : SyncSqlCache) (q : List QVariant) :
    storePart (s.ProcessDataPopulation q) = storePart s ∧
    (s.ProcessDataPopulation q).mIsSelectionAllowed = s.mIsSelectionAllowed ∧
    (s.ProcessDataPopulation q).mViewWindowValues.Version = s.mViewWindowValues.Version + 1 := by
  unfold ProcessDataPopulation
  simp only
  generalize hs1 : ({ s with mViewWindowValues :=
    { s.mViewWindowValues with Version := s.mViewWindowValues.Version + 1 } } : SyncSqlCache) = s1
  have e1 : storePart s1 = storePart s := by rw [← hs1]; rfl
  have e2 : s1.mIsSelectionAllowed = s.mIsSelectionAllowed := by rw [← hs1]
  have e3 : s1.mViewWindowValues.Version = s.mViewWindowValues.Version + 1 := by rw [← hs1]
  have hu := UpdateIdMapping_keep s1 q
  generalize s1.UpdateIdMapping q = s2 at hu ⊢
  have ht := TransformSelection_keep s2 (s2.mViewWindowValues.Version - 1)
    s2.mViewWindowValues.Selection s2.mViewWindowValues.CurrentRow
  generalize s2.TransformSelection (s2.mViewWindowValues.Version - 1)
    s2.mViewWindowValues.Selection s2.mViewWindowValues.CurrentRow = t at ht ⊢
  generalize hs3 : ({ t.1 with mViewWindowValues :=
    { t.1.mViewWindowValues with Selection := t.2.1, CurrentRow := t.2.2 } } : SyncSqlCache) = s3
  have g1 : storePart s3 = storePart t.1 := by rw [← hs3]; rfl
  have g2 : s3.mIsSelectionAllowed = t.1.mIsSelectionAllowed := by rw [← hs3]
  have g3 : s3.mViewWindowValues.Version = t.1.mViewWindowValues.Version := by rw [← hs3]
  have hw := UpdateRowWindow_keep s3
  have hv := UpdateViewWindowValues_keep s3.UpdateRowWindow true
  refine ⟨?_, ?_, ?_⟩
  · rw [hv.1, hw.1, g1, ht.1, hu.1, e1]
  · rw [hv.2.1, hw.2.1, g2, ht.2.1, hu.2.1, e2]
  · rw [hv.2.2.1, hw.2.2, g3, ht.2.2, hu.2.2, e3]

theorem PerformSelection_keep (s : SyncSqlCache) (engine : SelectEngine) :
    storePart (s.PerformSelection engine) = storePart s ∧
    (s.PerformSelection engine).mIsSelectionAllowed = s.mIsSelectionAllowed ∧
    (s.PerformSelection engine).mViewWindowValues.Version = s.mViewWindowValues.Version + 1 := by
  unfold PerformSelection
  split
  · exact ProcessDataPopulation_keep s.ReportError []
  · exact ProcessDataPopulation_keep s _

theorem TryPerformSelection_keep (s : SyncSqlCache) (engine : SelectEngine) (u : Bool)
    (aSorting : Option SortParameters) (aFilter : Option String) (ms : Int) :
    storePart (s.TryPerformSelection engine u aSorting aFilter ms).2 = storePart s ∧
    (s.TryPerformSelection engine u aSorting aFilter ms).2.mIsSelectionAllowed
      = s.mIsSelectionAllowed := by
  unfold TryPerformSelection
  split
  · exact ⟨rfl, rfl⟩
  · split
    · exact ⟨(PerformSelection_keep s engine).1, (PerformSelection_keep s engine).2.1⟩
    · exact ⟨rfl, rfl⟩


theorem heavy_prefix_keep (s : SyncSqlCache) (aRequestId : Int)
    (aSorting : Option SortParameters) (aFilter : Option String) :
    storePart ({ (s.SetSorting aSorting).SetFilter aFilter with
        mViewWindowValues := { ((s.SetSorting aSorting).SetFilter aFilter).mViewWindowValues with
          RequestId := aRequestId } } : SyncSqlCache) = storePart s ∧
    ({ (s.SetSorting aSorting).SetFilter aFilter with
        mViewWindowValues := { ((s.SetSorting aSorting).SetFilter aFilter).mViewWindowValues with
          RequestId := aRequestId } } : SyncSqlCache).mIsSelectionAllowed
      = s.mIsSelectionAllowed := by
  cases aSorting <;> cases aFilter <;> exact ⟨rfl, rfl⟩

theorem SetUpdatesFromDbAllowed_spec (s : SyncSqlCache) (aLoadingStatus : LoadingStatus) :
    storePart (s.SetUpdatesFromDbAllowed aLoadingStatus) = storePart s ∧
    (s.SetUpdatesFromDbAllowed aLoadingStatus).mIsSelectionAllowed =
      selectionAllowedAfter aLoadingStatus s.mIsSelectionAllowed := by
  cases aLoadingStatus <;> exact ⟨rfl, rfl⟩

/-- C7: in a heavy operation the batch is diverted to the shadow table exactly
when `suspendUpdates` holds and selection was allowed before the operation's
loading status is applied; `isSelectionAllowed` afterwards is `true` on
`Finished`, `false` on `Started` and unchanged on `NotChanged`.  In particular,
when selection is not yet allowed, a heavy operation with `Finished` stores its
batch as the non-suspended store does (into the main table), whatever
`suspendUpdates` is, and selection is allowed afterwards. -/
theorem C7_suspend_decided_before_loading_status (s : SyncSqlCache) (engine : SelectEngine)
    (aRequestId : Int) (aValues : List (List QVariant)) (aLoadingStatus : LoadingStatus)
    (aSorting : Option SortParameters) (aFilter : Option String)
    (aReportSelected aSuspendUpdates : Bool) (aElapsedMs : Int) :
    (s.ProcessHeavyAction engine aRequestId aValues aLoadingStatus aSorting aFilter
        aReportSelected aSuspendUpdates aElapsedMs).mIsSelectionAllowed =
      selectionAllowedAfter aLoadingStatus s.mIsSelectionAllowed ∧
    storePart (s.ProcessHeavyAction engine aRequestId aValues aLoadingStatus aSorting aFilter
        aReportSelected aSuspendUpdates aElapsedMs) =
      storePart (s.TryStoreItemsToDb aValues (aSuspendUpdates && s.mIsSelectionAllowed)).2 ∧
    (s.mIsSelectionAllowed = false → aLoadingStatus = LoadingStatus.Finished →
      storePart (s.ProcessHeavyAction engine aRequestId aValues aLoadingStatus aSorting aFilter
          aReportSelected aSuspendUpdates aElapsedMs) =
        storePart (s.TryStoreItemsToDb aValues false).2 ∧
      (s.ProcessHeavyAction engine aRequestId aValues aLoadingStatus aSorting aFilter
          aReportSelected aSuspendUpdates aElapsedMs).mIsSelectionAllowed = true) := by
  have hp := heavy_prefix_keep s aRequestId aSorting aFilter
  generalize hs2 : ({ (s.SetSorting aSorting).SetFilter aFilter with
        mViewWindowValues := { ((s.SetSorting aSorting).SetFilter aFilter).mViewWindowValues with
          RequestId := aRequestId } } : SyncSqlCache) = s2 at hp
  have h3 := SetUpdatesFromDbAllowed_spec s2 aLoadingStatus
  have hst := TryStoreItemsToDb_storePart (s2.SetUpdatesFromDbAllowed aLoadingStatus) s aValues
    (aSuspendUpdates && s2.mIsSelectionAllowed) (by rw [h3.1, hp.1])
  have hal := TryStoreItemsToDb_allowed (s2.SetUpdatesFromDbAllowed aLoadingStatus) aValues
    (aSuspendUpdates && s2.mIsSelectionAllowed)
  have key : ∀ u : Bool,
      (s.ProcessHeavyAction engine aRequestId aValues aLoadingStatus aSorting aFilter
        aReportSelected aSuspendUpdates aElapsedMs).mIsSelectionAllowed =
        (((s2.SetUpdatesFromDbAllowed aLoadingStatus).TryStoreItemsToDb aValues
          (aSuspendUpdates && s2.mIsSelectionAllowed)).2.TryPerformSelection engine
          (((s2.SetUpdatesFromDbAllowed aLoadingStatus).TryStoreItemsToDb aValues
              (aSuspendUpdates && s2.mIsSelectionAllowed)).1
            && !(aSuspendUpdates && s2.mIsSelectionAllowed)
            || decide (aLoadingStatus = LoadingStatus.Finished))
          aSorting aFilter aElapsedMs).2.mIsSelectionAllowed ∧
      storePart (s.ProcessHeavyAction engine aRequestId aValues aLoadingStatus aSorting aFilter
        aReportSelected aSuspendUpdates aElapsedMs) =
        storePart (((s2.SetUpdatesFromDbAllowed aLoadingStatus).TryStoreItemsToDb aValues
          (aSuspendUpdates && s2.mIsSelectionAllowed)).2.TryPerformSelection engine
          (((s2.SetUpdatesFromDbAllowed aLoadingStatus).TryStoreItemsToDb aValues
              (aSuspendUpdates && s2.mIsSelectionAllowed)).1
            && !(aSuspendUpdates && s2.mIsSelectionAllowed)
            || decide (aLoadingStatus = LoadingStatus.Finished))
          aSorting aFilter aElapsedMs).2 := by
    intro _
    rw [← hs2]
    exact ⟨rfl, rfl⟩
  have hk := key true
  have hsel := TryPerformSelection_keep
    ((s2.SetUpdatesFromDbAllowed aLoadingStatus).TryStoreItemsToDb aValues
      (aSuspendUpdates && s2.mIsSelectionAllowed)).2 engine
    (((s2.SetUpdatesFromDbAllowed aLoadingStatus).TryStoreItemsToDb aValues
        (aSuspendUpdates && s2.mIsSelectionAllowed)).1
      && !(aSuspendUpdates && s2.mIsSelectionAllowed)
      || decide (aLoadingStatus = LoadingStatus.Finished))
    aSorting aFilter aElapsedMs
  have r1 : (s.ProcessHeavyAction engine aRequestId aValues aLoadingStatus aSorting aFilter
        aReportSelected aSuspendUpdates aElapsedMs).mIsSelectionAllowed =
      selectionAllowedAfter aLoadingStatus s.mIsSelectionAllowed := by
    rw [hk.1, hsel.2, hal, h3.2, hp.2]
  have r2 : storePart (s.ProcessHeavyAction engine aRequestId aValues aLoadingStatus aSorting
        aFilter aReportSelected aSuspendUpdates aElapsedMs) =
      storePart (s.TryStoreItemsToDb aValues (aSuspendUpdates && s.mIsSelectionAllowed)).2 := by
    rw [hk.2, hsel.1, hst.2, hp.2]
  refine ⟨r1, r2, ?_⟩
  intro hna hfin
  subst hfin
  refine ⟨?_, r1⟩
  rw [r2, hna, Bool.and_false]

/-- Witness of C7: the initial load.  Selection is not yet allowed, the heavy
operation carries `Finished` and `suspendUpdates = true`; the three rows land
in the main table, nothing is staged, and selection is allowed afterwards. -/
theorem C7_suspend_decided_before_loading_status_witness :
    (emptyCache.ProcessHeavyAction scenarioEngine 1
        [scenarioRow 1 "a", scenarioRow 2 "b", scenarioRow 3 "c"]
        LoadingStatus.Finished none none false true 5).mTable.Rows.map (rowIdAt 0) = [1, 2, 3] ∧
    (emptyCache.ProcessHeavyAction scenarioEngine 1
        [scenarioRow 1 "a", scenarioRow 2 "b", scenarioRow 3 "c"]
        LoadingStatus.Finished none none false true 5).mSuspendedItemsTable.Rows = [] ∧
    (storePart (emptyCache.ProcessHeavyAction scenarioEngine 1
        [scenarioRow 1 "a", scenarioRow 2 "b", scenarioRow 3 "c"]
        LoadingStatus.Finished none none false true 5) =
      storePart (emptyCache.TryStoreItemsToDb
        [scenarioRow 1 "a", scenarioRow 2 "b", scenarioRow 3 "c"] false).2 ∧
    (emptyCache.ProcessHeavyAction scenarioEngine 1
        [scenarioRow 1 "a", scenarioRow 2 "b", scenarioRow 3 "c"]
        LoadingStatus.Finished none none false true 5).mIsSelectionAllowed = true) :=
  ⟨by decide, by decide,
    (C7_suspend_decided_before_loading_status emptyCache scenarioEngine 1
      [scenarioRow 1 "a", scenarioRow 2 "b", scenarioRow 3 "c"]
      LoadingStatus.Finished none none false true 5).2.2 rfl rfl⟩

end

section

open SyncSqlCache

/-! ## Lemmas on the versioned id mappings -/

theorem lookup_mapInsert (m : List (Int × IdsInfo)) (k : Int) (x : IdsInfo) (v : Int)
    (h : m.lookup k = none) :
    (mapInsert m k x).lookup v = if v = k then some x else m.lookup v := by
  induction m with
  | nil =>
    by_cases hv : v = k
    · subst hv; simp [mapInsert, List.lookup]
    · have : (v == k) = false := by simpa using hv
      simp [mapInsert, List.lookup, hv, this]
  | cons e t ih =>
    obtain ⟨ek, ei⟩ := e
    have hek : k ≠ ek := by
      intro he
      subst he
      simp [List.lookup] at h
    have hkb : (k == ek) = false := by simpa using hek
    have ht : List.lookup k t = none := by
      simpa [List.lookup, hkb] using h
    unfold mapInsert
    by_cases hlt : k < ek
    · simp only [hlt, if_true]
      by_cases hv : v = k
      · subst hv; simp [List.lookup]
      · have : (v == k) = false := by simpa using hv
        simp [List.lookup, hv, this]
    · simp only [hlt, if_false]
      by_cases hve : v = ek
      · subst hve
        have : v ≠ k := fun e => hek e.symm
        simp [List.lookup, this]
      · have hb : (v == ek) = false := by simpa using hve
        simp only [List.lookup, hb]
        exact ih ht

theorem lookup_mapReplace (m : List (Int × IdsInfo)) (k : Int) (x : IdsInfo) (v : Int) :
    (mapReplace m k x).lookup v =
      if v = k then (m.lookup k).map (fun _ => x) else m.lookup v := by
  unfold mapReplace
  induction m with
  | nil => simp
  | cons e t ih =>
    obtain ⟨ek, ei⟩ := e
    rw [List.map_cons]
    by_cases hek : ek = k
    · rw [if_pos hek, List.lookup_cons, List.lookup_cons, List.lookup_cons]
      subst hek
      by_cases hv : v = ek
      · subst hv; simp
      · have hb : (v == ek) = false := by simpa using hv
        rw [hb, if_neg hv]
        rw [if_neg hv] at ih
        exact ih
    · rw [if_neg hek, List.lookup_cons, List.lookup_cons, List.lookup_cons]
      have hkb : (k == ek) = false := by simpa using (fun e : k = ek => hek e.symm)
      rw [hkb]
      by_cases hve : v = ek
      · subst hve
        have : ¬ v = k := hek
        simp [this]
      · have hb : (v == ek) = false := by simpa using hve
        rw [hb]
        exact ih

theorem idsOf_mapReplace (m : List (Int × IdsInfo)) (k : Int) (x old : IdsInfo) (v : Int)
    (hold : m.lookup k = some old) (hx : x.Ids = old.Ids) :
    idsOf (mapReplace m k x) v = idsOf m v := by
  unfold idsOf
  rw [lookup_mapReplace]
  by_cases hv : v = k
  · subst hv; simp [hold, hx]
  · simp [hv]

theorem scan_snd_ids (s : IdsInfo) (aId : QVariant) : (s.GetRow aId).2.Ids = s.Ids := by
  unfold IdsInfo.GetRow
  simp only
  split
  · rfl
  · split <;> rfl

theorem Transform_ids (Old New : IdsInfo) (aRow : Int) :
    (RowTransformator.Transform Old New aRow).2.Ids = New.Ids := by
  unfold RowTransformator.Transform
  simp only
  split <;> exact scan_snd_ids _ _

theorem transformRows_ids (Old New : IdsInfo) (sel : List RowRange) :
    (transformRows Old sel New).2.Ids = New.Ids := by
  unfold transformRows
  have inner : ∀ (l : List Int) (a : List Int × IdsInfo),
      (l.foldl (fun a i =>
          let t := RowTransformator.Transform Old a.2 i
          if t.1 ≥ 0 then (setEmplace a.1 t.1, t.2) else (a.1, t.2)) a).2.Ids = a.2.Ids := by
    intro l
    induction l with
    | nil => intro a; rfl
    | cons i t ih =>
      intro a
      simp only [List.foldl_cons]
      rw [ih]
      split <;> exact Transform_ids _ _ _
  have outer : ∀ (l : List RowRange) (a : List Int × IdsInfo),
      (l.foldl (fun acc s => s.rows.foldl (fun a i =>
          let t := RowTransformator.Transform Old a.2 i
          if t.1 ≥ 0 then (setEmplace a.1 t.1, t.2) else (a.1, t.2)) acc) a).2.Ids = a.2.Ids := by
    intro l
    induction l with
    | nil => intro a; rfl
    | cons r t ih =>
      intro a
      simp only [List.foldl_cons]
      rw [ih, inner]
  exact outer sel ([], New)

theorem GetRowTransformation_new (s : SyncSqlCache) (aVersion : Int) (Old New : IdsInfo)
    (h : s.GetRowTransformation aVersion = some (Old, New)) :
    s.mVersionedIds.lookup s.mViewWindowValues.Version = some New := by
  unfold GetRowTransformation at h
  split at h
  · simp at h
  · split at h
    · simp at h
    · rename_i current hc
      split at h
      · split at h
        · simp at h
        · simp only [Option.some.injEq, Prod.mk.injEq] at h
          rw [hc, h.2]
      · simp only [Option.some.injEq, Prod.mk.injEq] at h
        rw [hc, h.2]

theorem TransformSelection_map (s : SyncSqlCache) (aVersion : Int) (sel : List RowRange)
    (cur : Int) (v : Int) :
    idsOf (s.TransformSelection aVersion sel cur).1.mVersionedIds v = idsOf s.mVersionedIds v ∧
    (s.TransformSelection aVersion sel cur).1.Emitted = s.Emitted := by
  unfold TransformSelection
  split
  · exact ⟨rfl, rfl⟩
  · rename_i Old New hT
    refine ⟨?_, rfl⟩
    exact idsOf_mapReplace _ _ _ New v (GetRowTransformation_new s aVersion Old New hT)
      (by rw [transformRows_ids, Transform_ids])

theorem UpdateRowWindow_map (s : SyncSqlCache) (v : Int) :
    idsOf s.UpdateRowWindow.mVersionedIds v = idsOf s.mVersionedIds v ∧
    s.UpdateRowWindow.Emitted = s.Emitted := by
  have h1 : ∀ s1 : SyncSqlCache,
      idsOf s1.mVersionedIds v = idsOf s.mVersionedIds v ∧ s1.Emitted = s.Emitted →
      idsOf (if s1.mRequestedRowRangeVisible.Top ≥ s1.GetRecordsCount then
          { s1 with mRequestedRowRangeVisible := {}, mRequestedRowRange := {} }
        else s1).mVersionedIds v = idsOf s.mVersionedIds v ∧
      (if s1.mRequestedRowRangeVisible.Top ≥ s1.GetRecordsCount then
          { s1 with mRequestedRowRangeVisible := {}, mRequestedRowRange := {} }
        else s1).Emitted = s.Emitted := by
    intro s1 h; split <;> exact h
  have h2 : ∀ s2 : SyncSqlCache,
      idsOf s2.mVersionedIds v = idsOf s.mVersionedIds v ∧ s2.Emitted = s.Emitted →
      idsOf (if !s2.mRequestedRowRangeVisible.IsValid then
          { s2 with mRequestedRowRangeVisible :=
              s2.mRequestedRowRangeVisible.Expand RowWindowOffset }
        else s2).mVersionedIds v = idsOf s.mVersionedIds v ∧
      (if !s2.mRequestedRowRangeVisible.IsValid then
          { s2 with mRequestedRowRangeVisible :=
              s2.mRequestedRowRangeVisible.Expand RowWindowOffset }
        else s2).Emitted = s.Emitted := by
    intro s2 h; split <;> exact h
  have h3 : ∀ s3 : SyncSqlCache,
      idsOf s3.mVersionedIds v = idsOf s.mVersionedIds v ∧ s3.Emitted = s.Emitted →
      idsOf (if !s3.mRequestedRowRange.ContainsRange s3.mRequestedRowRangeVisible RowWindowOffset
        then { s3 with mRequestedRowRange := s3.mRequestedRowRangeVisible.Expand RowWindowOffset }
        else s3).mVersionedIds v = idsOf s.mVersionedIds v ∧
      (if !s3.mRequestedRowRange.ContainsRange s3.mRequestedRowRangeVisible RowWindowOffset
        then { s3 with mRequestedRowRange := s3.mRequestedRowRangeVisible.Expand RowWindowOffset }
        else s3).Emitted = s.Emitted := by
    intro s3 h; split <;> exact h
  unfold UpdateRowWindow
  apply h3
  apply h2
  apply h1
  split
  · rename_i Old New hT
    split
    · refine ⟨?_, rfl⟩
      refine idsOf_mapReplace _ _ _ New v (GetRowTransformation_new s _ Old New hT) ?_
      unfold TransformRowRangeWith
      simp only
      split <;> exact Transform_ids _ _ _
    · exact ⟨rfl, rfl⟩
  · exact ⟨rfl, rfl⟩


theorem UpdateIdMapping_map (s : SyncSqlCache) (q : List QVariant) (v : Int) :
    (v ≠ s.mViewWindowValues.Version →
      idsOf (s.UpdateIdMapping q).mVersionedIds v = idsOf s.mVersionedIds v) ∧
    (idsOf s.mVersionedIds s.mViewWindowValues.Version = none →
      idsOf (s.UpdateIdMapping q).mVersionedIds s.mViewWindowValues.Version
        = some (q.foldl IdsInfo.AddId {}).Ids) ∧
    (s.UpdateIdMapping q).Emitted = s.Emitted := by
  unfold UpdateIdMapping
  cases hl : s.mVersionedIds.lookup s.mViewWindowValues.Version with
  | some info =>
    refine ⟨fun _ => rfl, ?_, rfl⟩
    intro h
    simp [idsOf, hl] at h
  | none =>
    refine ⟨?_, ?_, rfl⟩
    · intro hv
      simp only [idsOf]
      rw [lookup_mapInsert _ _ _ _ hl, if_neg hv]
    · intro _
      simp only [idsOf]
      rw [lookup_mapInsert _ _ _ _ hl, if_pos rfl]
      rfl

theorem ProcessDataPopulation_map (s : SyncSqlCache) (q : List QVariant) :
    (∀ v, v ≠ s.mViewWindowValues.Version + 1 →
      idsOf (s.ProcessDataPopulation q).mVersionedIds v = idsOf s.mVersionedIds v) ∧
    (idsOf s.mVersionedIds (s.mViewWindowValues.Version + 1) = none →
      idsOf (s.ProcessDataPopulation q).mVersionedIds (s.mViewWindowValues.Version + 1)
        = some (q.foldl IdsInfo.AddId {}).Ids) ∧
    (s.ProcessDataPopulation q).Emitted = s.Emitted := by
  unfold ProcessDataPopulation
  simp only
  generalize hs1 : ({ s with mViewWindowValues :=
    { s.mViewWindowValues with Version := s.mViewWindowValues.Version + 1 } } : SyncSqlCache) = s1
  have e1 : s1.mVersionedIds = s.mVersionedIds := by rw [← hs1]
  have e2 : s1.Emitted = s.Emitted := by rw [← hs1]
  have e3 : s1.mViewWindowValues.Version = s.mViewWindowValues.Version + 1 := by rw [← hs1]
  have hu := fun v => UpdateIdMapping_map s1 q v
  rw [e3] at hu
  generalize s1.UpdateIdMapping q = s2 at hu ⊢
  have ht := fun v => TransformSelection_map s2 (s2.mViewWindowValues.Version - 1)
    s2.mViewWindowValues.Selection s2.mViewWindowValues.CurrentRow v
  generalize s2.TransformSelection (s2.mViewWindowValues.Version - 1)
    s2.mViewWindowValues.Selection s2.mViewWindowValues.CurrentRow = t at ht ⊢
  generalize hs3 : ({ t.1 with mViewWindowValues :=
    { t.1.mViewWindowValues with Selection := t.2.1, CurrentRow := t.2.2 } } : SyncSqlCache) = s3
  have g1 : s3.mVersionedIds = t.1.mVersionedIds := by rw [← hs3]
  have g2 : s3.Emitted = t.1.Emitted := by rw [← hs3]
  have hw := fun v => UpdateRowWindow_map s3 v
  have hv : (s3.UpdateRowWindow.UpdateViewWindowValues true).mVersionedIds
      = s3.UpdateRowWindow.mVersionedIds := rfl
  have hve : (s3.UpdateRowWindow.UpdateViewWindowValues true).Emitted
      = s3.UpdateRowWindow.Emitted := rfl
  refine ⟨?_, ?_, ?_⟩
  · intro v hne
    rw [hv, (hw v).1, g1, (ht v).1, (hu v).1 hne, e1]
  · intro hnone
    rw [hv, (hw _).1, g1, (ht _).1]
    exact (hu 0).2.1 (by rw [e1]; exact hnone)
  · rw [hve, (hw 0).2, g2, (ht 0).2, (hu 0).2.2, e2]

/-- C8 (counterexample): the re-selection statement fails on the loaded cache
(version 1, one mapping), and still the version becomes 2 and a mapping for
version 2 is retained. -/
theorem C8_failed_select_advances_version :
    loadedCache.mViewWindowValues.Version = 1 ∧
    loadedCache.mVersionedIds.map Prod.fst = [1] ∧
    failingEngine loadedCache.mTable loadedCache.mFilter loadedCache.OrderByClause = none ∧
    (loadedCache.PerformSelection failingEngine).mViewWindowValues.Version = 2 ∧
    (loadedCache.PerformSelection failingEngine).mVersionedIds.map Prod.fst = [1, 2] := by
  decide

/-- C8 (amended): `PerformSelection` advances the version counter also when its
SELECT fails.  In that case the error is reported, the id vectors of all other
versions are retained unchanged, and the mapping added for the new version is
empty. -/
theorem C8_failed_select_adds_empty_mapping (s : SyncSqlCache) (engine : SelectEngine)
    (hfail : engine s.mTable s.mFilter s.OrderByClause = none) :
    (s.PerformSelection engine).mViewWindowValues.Version = s.mViewWindowValues.Version + 1 ∧
    BackSignal.ErrorOccured ∈ (s.PerformSelection engine).Emitted ∧
    (∀ v, v ≠ s.mViewWindowValues.Version + 1 →
      idsOf (s.PerformSelection engine).mVersionedIds v = idsOf s.mVersionedIds v) ∧
    (idsOf s.mVersionedIds (s.mViewWindowValues.Version + 1) = none →
      idsOf (s.PerformSelection engine).mVersionedIds (s.mViewWindowValues.Version + 1)
        = some []) := by
  have hk := (PerformSelection_keep s engine).2.2
  have hp : s.PerformSelection engine = s.ReportError.ProcessDataPopulation [] := by
    unfold PerformSelection
    rw [hfail]
  have hm := ProcessDataPopulation_map s.ReportError []
  refine ⟨hk, ?_, ?_, ?_⟩
  · rw [hp, hm.2.2]
    simp [ReportError]
  · intro v hv
    rw [hp]
    exact hm.1 v hv
  · intro hn
    rw [hp]
    exact hm.2.1 hn

/-- Witness of the amended C8 on the loaded cache with a failing engine. -/
theorem C8_failed_select_adds_empty_mapping_witness :
    (loadedCache.PerformSelection failingEngine).mViewWindowValues.Version = 2 ∧
    idsOf (loadedCache.PerformSelection failingEngine).mVersionedIds 2 = some [] ∧
    idsOf (loadedCache.PerformSelection failingEngine).mVersionedIds 1 = some [1, 2, 3] :=
  ⟨(C8_failed_select_adds_empty_mapping loadedCache failingEngine rfl).1,
    (C8_failed_select_adds_empty_mapping loadedCache failingEngine rfl).2.2.2 (by decide),
    ((C8_failed_select_adds_empty_mapping loadedCache failingEngine rfl).2.2.1 1
      (by decide)).trans (by decide)⟩

end

section

open SyncSqlCache

/-! ## Lemmas on the ORDER BY composition -/

theorem orderBy_fold_default (c : Int) (l : List (List Int)) :
    ∀ acc : List Int × List Int, (acc.1 ≠ [] ∨ ∀ q ∈ l, c ∉ q) →
      l.foldl (fun acc sortSequence =>
          if acc.1.isEmpty && sortSequence.contains c then (acc.1 ++ sortSequence, acc.2)
          else (acc.1, acc.2 ++ sortSequence)) acc
        = (acc.1, acc.2 ++ l.flatten) := by
  induction l with
  | nil => intro acc _; simp
  | cons q t ih =>
    intro acc h
    have hstep : (if acc.1.isEmpty && q.contains c then (acc.1 ++ q, acc.2)
        else (acc.1, acc.2 ++ q)) = (acc.1, acc.2 ++ q) := by
      rcases h with h | h
      · have : acc.1.isEmpty = false := by
          cases hq : acc.1 with
          | nil => exact absurd hq h
          | cons _ _ => rfl
        simp [this]
      · have hnm : c ∉ q := h q (List.mem_cons_self _ _)
        simp [hnm]
    simp only [List.foldl_cons, hstep]
    rw [ih]
    · simp
    · rcases h with h | h
      · exact Or.inl h
      · exact Or.inr (fun q' hq' => h q' (List.mem_cons_of_mem _ hq'))

theorem orderByLists_of_mem (s : SyncSqlCache) (pre post : List (List Int)) (seq : List Int)
    (ho : s.mDefaultSortOrder = pre ++ seq :: post) (hc : s.mSortColumn ∈ seq)
    (hpre : ∀ q ∈ pre, s.mSortColumn ∉ q) :
    s.orderByLists = (seq, pre.flatten ++ post.flatten) := by
  unfold orderByLists
  rw [ho, List.foldl_append, orderBy_fold_default _ _ _ (Or.inr hpre), List.foldl_cons]
  have hne : seq ≠ [] := List.ne_nil_of_mem hc
  have hcont : seq.contains s.mSortColumn = true := by simpa using hc
  simp only [List.isEmpty_nil, hcont, Bool.and_self, if_true, List.nil_append]
  rw [orderBy_fold_default _ _ _ (Or.inl hne)]

theorem orderByLists_of_not_mem (s : SyncSqlCache)
    (h : ∀ q ∈ s.mDefaultSortOrder, s.mSortColumn ∉ q) :
    s.orderByLists = ([], s.mDefaultSortOrder.flatten) := by
  unfold orderByLists
  rw [orderBy_fold_default _ _ _ (Or.inr h)]
  simp

/-- C9: when the user sort column belongs to a sequence `seq` of a default sort
order without repeated column, the ORDER BY clause is not empty and lists the
columns of `seq` first, in the order of `seq`, followed by the columns of the
other default sequences in their order; no column is listed twice. -/
theorem C9_OrderByClause_sequence_first_once (s : SyncSqlCache) (seq : List Int)
    (hseq : seq ∈ s.mDefaultSortOrder) (hc : s.mSortColumn ∈ seq)
    (hnd : s.mDefaultSortOrder.flatten.Nodup) :
    ∃ (pre post : List (List Int)) (items : List (Int × String)),
      s.mDefaultSortOrder = pre ++ seq :: post ∧
      s.OrderByItems = some items ∧
      items.map Prod.fst = seq ++ (pre ++ post).flatten ∧
      (items.map Prod.fst).Nodup ∧
      (∀ c ∈ seq, (items.map Prod.fst).count c = 1) ∧
      (∀ c ∈ s.mDefaultSortOrder.flatten, (items.map Prod.fst).count c = 1) ∧
      s.OrderByClause = "ORDER BY " ++ ", ".intercalate
        (items.map (fun e => s.mTable.GetColumnName e.1 ++ " " ++ e.2)) := by
  obtain ⟨pre, post, ho⟩ := List.append_of_mem hseq
  have hnd2 : (pre.flatten ++ (seq ++ post.flatten)).Nodup := by
    rw [ho] at hnd
    simpa using hnd
  have hpre : ∀ q ∈ pre, s.mSortColumn ∉ q := by
    intro q hq hmem
    have h1 : s.mSortColumn ∈ pre.flatten := List.mem_flatten.2 ⟨q, hq, hmem⟩
    have h2 : s.mSortColumn ∈ seq ++ post.flatten := List.mem_append_left _ hc
    exact (List.nodup_append.1 hnd2).2.2 h1 h2
  have hl := orderByLists_of_mem s pre post seq ho hc hpre
  have hne : s.mDefaultSortOrder.isEmpty = false := by rw [ho]; cases pre <;> rfl
  have hseqne : seq.isEmpty = false := by
    cases seq with
    | nil => simp at hc
    | cons _ _ => rfl
  have hitems : s.OrderByItems =
      some (seq.map (fun c => (c, sortOrderText s.mSortOrder))
        ++ (pre.flatten ++ post.flatten).map (fun c => (c, sortOrderText s.mSortOrder))) := by
    unfold OrderByItems
    simp [hne, hl, hseqne]
  have hcols : (seq.map (fun c => (c, sortOrderText s.mSortOrder))
        ++ (pre.flatten ++ post.flatten).map (fun c => (c, sortOrderText s.mSortOrder))).map
        Prod.fst = seq ++ (pre ++ post).flatten := by
    simp [List.map_append, Function.comp_def]
  have hperm : List.Perm (seq ++ (pre ++ post).flatten) (pre.flatten ++ (seq ++ post.flatten)) := by
    rw [List.flatten_append, ← List.append_assoc, ← List.append_assoc]
    exact List.Perm.append_right _ List.perm_append_comm
  have hnd3 : (seq ++ (pre ++ post).flatten).Nodup := hperm.nodup_iff.2 hnd2
  refine ⟨pre, post, _, ho, hitems, hcols, by rw [hcols]; exact hnd3, ?_, ?_, ?_⟩
  · intro c hcm
    rw [hcols]
    exact List.count_eq_one_of_mem hnd3 (List.mem_append_left _ hcm)
  · intro c hcm
    rw [hcols]
    apply List.count_eq_one_of_mem hnd3
    apply hperm.mem_iff.2
    rw [ho] at hcm
    simpa using hcm
  · unfold OrderByClause
    rw [hitems]

/-- Witness of C9: default order `[[0], [1, 2]]`, user sort column `2`. -/
theorem C9_OrderByClause_sequence_first_once_witness :
    sortInSecondSequence.OrderByClause = "ORDER BY name ASC, common ASC, id ASC" ∧
    ∃ (pre post : List (List Int)) (items : List (Int × String)),
      sortInSecondSequence.mDefaultSortOrder = pre ++ [1, 2] :: post ∧
      sortInSecondSequence.OrderByItems = some items ∧
      items.map Prod.fst = [1, 2] ++ (pre ++ post).flatten :=
  ⟨by decide,
    let ⟨pre, post, items, h1, h2, h3, _⟩ := C9_OrderByClause_sequence_first_once
      sortInSecondSequence [1, 2] (by decide) (by decide) (by decide)
    ⟨pre, post, items, h1, h2, h3⟩⟩

/-- C10 (counterexample): default order `[[0], [1]]` with default direction
ascending, user sort on column `0` descending.  Column `1`, of the other
default sequence, is emitted with the user direction `DESC`, not with the
default direction `ASC`. -/
theorem C10_other_sequences_take_user_direction :
    sortOrderText sortDescInFirstSequence.mDefaultSortDirection = "ASC" ∧
    sortDescInFirstSequence.OrderByItems = some [(0, "DESC"), (1, "DESC")] ∧
    sortDescInFirstSequence.OrderByClause = "ORDER BY id DESC, name DESC" := by
  decide

/-- C10 (amended): when the user sort column belongs to a default sequence,
every column of the clause - the columns of that sequence and those of all
other default sequences - carries the user direction; when the user sort
column is set (inside `[0, columnCount)`) but belongs to no default sequence,
the clause is that column with the user direction followed by all default
sequences with the configured default direction. -/
theorem C10_OrderByClause_directions (s : SyncSqlCache) :
    ((∃ seq ∈ s.mDefaultSortOrder, s.mSortColumn ∈ seq) →
      ∃ items, s.OrderByItems = some items ∧
        items.map Prod.fst ≠ [] ∧
        ∀ e ∈ items, e.2 = sortOrderText s.mSortOrder) ∧
    ((0 ≤ s.mSortColumn ∧ s.mSortColumn < s.mTable.GetColumnCount) →
      (∀ seq ∈ s.mDefaultSortOrder, s.mSortColumn ∉ seq) →
      s.OrderByItems = some ((s.mSortColumn, sortOrderText s.mSortOrder) ::
        s.mDefaultSortOrder.flatten.map (fun c => (c, sortOrderText s.mDefaultSortDirection)))) := by
  constructor
  · rintro ⟨seq, hseq, hc⟩
    -- the first sequence that contains the column
    have hex : ∃ (pre post : List (List Int)) (q : List Int),
        s.mDefaultSortOrder = pre ++ q :: post ∧ s.mSortColumn ∈ q ∧
          ∀ p ∈ pre, s.mSortColumn ∉ p := by
      generalize s.mDefaultSortOrder = order at hseq
      induction order with
      | nil => simp at hseq
      | cons a t ih =>
        by_cases ha : s.mSortColumn ∈ a
        · exact ⟨[], t, a, rfl, ha, by simp⟩
        · have hseq2 : seq ∈ t := by
            rcases List.mem_cons.1 hseq with h | h
            · subst h; exact absurd hc ha
            · exact h
          obtain ⟨pre, post, q, h1, h2, h3⟩ := ih hseq2
          refine ⟨a :: pre, post, q, by rw [h1]; rfl, h2, ?_⟩
          intro p hp
          rcases List.mem_cons.1 hp with h | h
          · subst h; exact ha
          · exact h3 p h
    obtain ⟨pre, post, q, ho, hq, hpre⟩ := hex
    have hl := orderByLists_of_mem s pre post q ho hq hpre
    have hne : s.mDefaultSortOrder.isEmpty = false := by rw [ho]; cases pre <;> rfl
    have hqne : q.isEmpty = false := by
      cases q with
      | nil => simp at hq
      | cons _ _ => rfl
    have hitems : s.OrderByItems =
        some (q.map (fun c => (c, sortOrderText s.mSortOrder))
          ++ (pre.flatten ++ post.flatten).map (fun c => (c, sortOrderText s.mSortOrder))) := by
      unfold OrderByItems
      simp [hne, hl, hqne]
    refine ⟨_, hitems, ?_, ?_⟩
    · cases q with
      | nil => simp at hq
      | cons _ _ => simp
    · intro e he
      rcases List.mem_append.1 he with h | h
      · obtain ⟨c, _, rfl⟩ := List.mem_map.1 h
        rfl
      · obtain ⟨c, _, rfl⟩ := List.mem_map.1 h
        rfl
  · rintro ⟨h0, h1⟩ hno
    have hl := orderByLists_of_not_mem s hno
    have hn0 : ¬ s.mSortColumn < 0 := by omega
    have hn1 : ¬ s.mSortColumn ≥ s.mTable.GetColumnCount := by omega
    unfold OrderByItems
    simp [hl, hn0, hn1, h0, h1]

/-- Witness of the amended C10: both cases on concrete caches. -/
theorem C10_OrderByClause_directions_witness :
    (∃ items, sortDescInFirstSequence.OrderByItems = some items ∧
        items.map Prod.fst ≠ [] ∧ ∀ e ∈ items, e.2 = sortOrderText DescendingOrder) ∧
    sortDescOutsideDefault.OrderByItems = some [(1, "DESC"), (0, "ASC")] :=
  ⟨(C10_OrderByClause_directions sortDescInFirstSequence).1 ⟨[0], by decide, by decide⟩,
    ((C10_OrderByClause_directions sortDescOutsideDefault).2 (by decide) (by decide)).trans
      (by decide)⟩

end

section

open SyncSqlCache

/-! ## The ORDER BY clause of a constructed cache -/

theorem MakeDefaultSortOrder_empty (aMaxColumn aIdColumn : Int)
    (h : 0 ≤ aIdColumn ∧ aIdColumn < aMaxColumn) :
    MakeDefaultSortOrder [] aMaxColumn aIdColumn = some [[aIdColumn]] := by
  have h1 : ¬ (aMaxColumn ≤ aIdColumn) := by omega
  have h2 : ¬ (aIdColumn < 0) := by omega
  simp [MakeDefaultSortOrder, h1, h2, setEmplace]

theorem MakeDefaultSortOrder_ne_nil (aSortOrder order : List (List Int))
    (aMaxColumn aIdColumn : Int)
    (h : MakeDefaultSortOrder aSortOrder aMaxColumn aIdColumn = some order) : order ≠ [] := by
  unfold MakeDefaultSortOrder at h
  simp only at h
  split at h
  · exact absurd h (by simp)
  · cases hs : aSortOrder with
    | nil =>
      rw [hs] at h
      simp only [List.isEmpty_nil, if_true, Option.some.injEq] at h
      rw [← h]; simp
    | cons a t =>
      rw [hs] at h
      simp only [List.isEmpty_cons, Option.some.injEq] at h
      rw [← h]; simp

theorem create_some (aInstanceCounter : Int) (aTableName : String)
    (aFieldList : List String) (aCommonFieldsIndexes : List (Nat × List Nat)) (aIdColumn : Int)
    (aDefaultSortOrder : List (List Int)) (aDefaultSortDirection : Int) (s : SyncSqlCache)
    (h : SyncSqlCache.create aInstanceCounter aTableName aFieldList aCommonFieldsIndexes
      aIdColumn aDefaultSortOrder aDefaultSortDirection = some s) :
    (∃ order, MakeDefaultSortOrder aDefaultSortOrder (aFieldList.length : Int) aIdColumn
        = some order ∧ s.mDefaultSortOrder = order) ∧
    (aFieldList.length : Int) < SQLITE_MAX_VARIABLE_NUMBER ∧
    s.mSortColumn = -1 ∧ s.mSortOrder = aDefaultSortDirection ∧
    s.mDefaultSortDirection = aDefaultSortDirection ∧ s.mTable.mFieldList = aFieldList := by
  unfold SyncSqlCache.create at h
  split at h
  · exact absurd h (by simp)
  · rename_i order hm
    split at h
    · exact absurd h (by simp)
    · rename_i hn
      simp only [Option.some.injEq] at h
      rw [← h]
      exact ⟨⟨order, hm, rfl⟩, by omega, rfl, rfl, rfl, rfl⟩

theorem TransformSelection_sortPart (s : SyncSqlCache) (aVersion : Int) (sel : List RowRange)
    (cur : Int) : sortPart (s.TransformSelection aVersion sel cur).1 = sortPart s := by
  unfold TransformSelection
  split <;> rfl

theorem TransformRowRange_sortPart (s : SyncSqlCache) (aRowRequest : RowRequest) :
    sortPart (s.TransformRowRange aRowRequest).1 = sortPart s := by
  unfold TransformRowRange
  split <;> rfl

theorem UpdateRowWindow_sortPart (s : SyncSqlCache) :
    sortPart s.UpdateRowWindow = sortPart s := by
  unfold UpdateRowWindow
  simp only
  split <;> split <;> split <;> split <;> (try split) <;> rfl

theorem UpdateIdMapping_sortPart (s : SyncSqlCache) (q : List QVariant) :
    sortPart (s.UpdateIdMapping q) = sortPart s := by
  unfold UpdateIdMapping
  split <;> rfl

theorem ProcessDataPopulation_sortPart (s : SyncSqlCache) (q : List QVariant) :
    sortPart (s.ProcessDataPopulation q) = sortPart s := by
  unfold ProcessDataPopulation
  simp only
  have h1 := UpdateIdMapping_sortPart
    ({ s with mViewWindowValues :=
      { s.mViewWindowValues with Version := s.mViewWindowValues.Version + 1 } }) q
  generalize (({ s with mViewWindowValues :=
    { s.mViewWindowValues with Version := s.mViewWindowValues.Version + 1 } }
      : SyncSqlCache).UpdateIdMapping q) = s2 at h1 ⊢
  have h2 := TransformSelection_sortPart s2 (s2.mViewWindowValues.Version - 1)
    s2.mViewWindowValues.Selection s2.mViewWindowValues.CurrentRow
  generalize s2.TransformSelection (s2.mViewWindowValues.Version - 1)
    s2.mViewWindowValues.Selection s2.mViewWindowValues.CurrentRow = t at h2 ⊢
  have h3 := UpdateRowWindow_sortPart
    ({ t.1 with mViewWindowValues :=
      { t.1.mViewWindowValues with Selection := t.2.1, CurrentRow := t.2.2 } })
  show sortPart (({ t.1 with mViewWindowValues :=
      { t.1.mViewWindowValues with Selection := t.2.1, CurrentRow := t.2.2 } }
        : SyncSqlCache).UpdateRowWindow) = _
  rw [h3]
  exact h2.trans h1

theorem TryPerformSelection_sortPart (s : SyncSqlCache) (engine : SelectEngine) (u : Bool)
    (aSorting : Option SortParameters) (aFilter : Option String) (ms : Int) :
    sortPart (s.TryPerformSelection engine u aSorting aFilter ms).2 = sortPart s := by
  have hp : sortPart (s.PerformSelection engine) = sortPart s := by
    unfold PerformSelection
    split
    · exact ProcessDataPopulation_sortPart s.ReportError []
    · exact ProcessDataPopulation_sortPart s _
  unfold TryPerformSelection
  split
  · rfl
  · split
    · exact hp
    · rfl

theorem storeItem_sortPart (aSuspend : Bool) (s : SyncSqlCache) (item : List QVariant) :
    sortPart (storeItem aSuspend s item) = sortPart s := by
  unfold storeItem InsertOrReplace DeleteRecord AddPendingValue
  cases aSuspend <;> by_cases hl : item.length > 1 <;>
    simp [hl, sortPart, SqlCacheTable.Insert, SqlCacheTable.Delete]

theorem StoreItemsToDb_sortPart (s : SyncSqlCache) (aValues : List (List QVariant))
    (aSuspend : Bool) : sortPart (s.StoreItemsToDb aValues aSuspend) = sortPart s := by
  have h := foldl_proj_keep sortPart (storeItem aSuspend)
    (fun a x => storeItem_sortPart aSuspend a x) aValues s
  unfold StoreItemsToDb
  cases aSuspend <;> exact h

theorem updateProgress_sortPart (s : SyncSqlCache) (p : ProgressState) :
    sortPart (s.updateProgress p).1 = sortPart s := by
  unfold updateProgress
  by_cases h1 : p.i ≥ s.mSuspendedRecordsCounter
  · simp only [h1, if_true]
  · by_cases h2 : (p.i + 1) * 100 / s.mSuspendedRecordsCounter ≠ p.progress
    · rw [if_neg h1]
      simp only [if_pos h2]
      rfl
    · rw [if_neg h1]
      simp only [if_neg h2]

theorem ResumeSuspendedItems_sortPart (s : SyncSqlCache) :
    sortPart s.ResumeSuspendedItems = sortPart s := by
  have hd : ∀ (l : List Int) (a : SyncSqlCache × ProgressState),
      sortPart (l.foldl resumeDelete a).1 = sortPart a.1 :=
    foldl_proj_keep (fun st : SyncSqlCache × ProgressState => sortPart st.1)
      resumeDelete
      (fun a x => by
        show sortPart ((a.1.DeleteRecord x false).updateProgress a.2).1 = _
        rw [updateProgress_sortPart]
        rfl)
  have hi : ∀ (l : List (List QVariant)) (a : SyncSqlCache × ProgressState),
      sortPart (l.foldl resumeInsert a).1 = sortPart a.1 :=
    foldl_proj_keep (fun st : SyncSqlCache × ProgressState => sortPart st.1)
      resumeInsert
      (fun a x => by
        show sortPart ((a.1.InsertOrReplace x false).updateProgress a.2).1 = _
        rw [updateProgress_sortPart]
        unfold InsertOrReplace AddPendingValue
        simp [sortPart, SqlCacheTable.Insert])
  show sortPart (List.foldl resumeInsert _ _).1 = _
  rw [hi]
  show sortPart (List.foldl resumeDelete _ _).1 = _
  rw [hd]
  rfl

theorem TryStoreItemsToDb_sortPart (s : SyncSqlCache) (aValues : List (List QVariant))
    (aSuspend : Bool) : sortPart (s.TryStoreItemsToDb aValues aSuspend).2 = sortPart s := by
  unfold TryStoreItemsToDb
  split
  · rfl
  · cases aSuspend
    · show sortPart (s.ResumeSuspendedItems.StoreItemsToDb aValues false) = _
      rw [StoreItemsToDb_sortPart, ResumeSuspendedItems_sortPart]
    · show sortPart (s.StoreItemsToDb aValues true) = _
      rw [StoreItemsToDb_sortPart]

theorem ProcessHeavyAction_sortPart (s : SyncSqlCache) (engine : SelectEngine)
    (aRequestId : Int) (aValues : List (List QVariant)) (aLoadingStatus : LoadingStatus)
    (aSorting : Option SortParameters) (aFilter : Option String)
    (aReportSelected aSuspendUpdates : Bool) (aElapsedMs : Int) :
    sortPart (s.ProcessHeavyAction engine aRequestId aValues aLoadingStatus aSorting aFilter
      aReportSelected aSuspendUpdates aElapsedMs) = sortPart s := by
  have hp : sortPart ({ (s.SetSorting aSorting).SetFilter aFilter with
        mViewWindowValues := { ((s.SetSorting aSorting).SetFilter aFilter).mViewWindowValues with
          RequestId := aRequestId } } : SyncSqlCache) = sortPart s := by
    cases aSorting <;> cases aFilter <;> rfl
  generalize hs2 : ({ (s.SetSorting aSorting).SetFilter aFilter with
        mViewWindowValues := { ((s.SetSorting aSorting).SetFilter aFilter).mViewWindowValues with
          RequestId := aRequestId } } : SyncSqlCache) = s2 at hp
  have h3 : sortPart (s2.SetUpdatesFromDbAllowed aLoadingStatus) = sortPart s2 := by
    cases aLoadingStatus <;> rfl
  have hst := TryStoreItemsToDb_sortPart (s2.SetUpdatesFromDbAllowed aLoadingStatus) aValues
    (aSuspendUpdates && s2.mIsSelectionAllowed)
  have key : sortPart (s.ProcessHeavyAction engine aRequestId aValues aLoadingStatus aSorting
        aFilter aReportSelected aSuspendUpdates aElapsedMs) =
        sortPart (((s2.SetUpdatesFromDbAllowed aLoadingStatus).TryStoreItemsToDb aValues
          (aSuspendUpdates && s2.mIsSelectionAllowed)).2.TryPerformSelection engine
          (((s2.SetUpdatesFromDbAllowed aLoadingStatus).TryStoreItemsToDb aValues
              (aSuspendUpdates && s2.mIsSelectionAllowed)).1
            && !(aSuspendUpdates && s2.mIsSelectionAllowed)
            || decide (aLoadingStatus = LoadingStatus.Finished))
          aSorting aFilter aElapsedMs).2 := by
    rw [← hs2]
    rfl
  rw [key, TryPerformSelection_sortPart, hst, h3, hp]

theorem ProcessEasyAction_sortPart (s : SyncSqlCache) (aRequestId : Int)
    (aRowRequest : RowRequest) (aSelectionRequest : SelectionRequest)
    (aHintsRequest : HintsRequest) :
    sortPart (s.ProcessEasyAction aRequestId aRowRequest aSelectionRequest aHintsRequest)
      = sortPart s := by
  have hsel : ∀ x : SyncSqlCache,
      sortPart (x.SetSelection aSelectionRequest).2 = sortPart x := by
    intro x
    have hk := TransformSelection_sortPart x aSelectionRequest.Version
      aSelectionRequest.Selection aSelectionRequest.CurrentRow
    unfold SetSelection
    simp only [TransformSelectionRequest]
    split
    · exact hk
    · exact hk
  have hwin : ∀ (x : SyncSqlCache) (r : RowRequest),
      sortPart (x.SetRowWindow r).2 = sortPart x := by
    intro x r
    have ht : sortPart (if !x.mIsAutoScroll then x.TransformRowRange r else (x, none)).1
        = sortPart x := by
      split
      · exact TransformRowRange_sortPart x r
      · rfl
    unfold SetRowWindow
    simp only
    generalize (if !x.mIsAutoScroll then x.TransformRowRange r else (x, none)) = t at ht ⊢
    split <;> exact ht
  unfold ProcessEasyAction
  simp only
  split
  · have h1 := hsel
      ({ s with mViewWindowValues := { s.mViewWindowValues with RequestId := aRequestId } })
    generalize (({ s with mViewWindowValues :=
      { s.mViewWindowValues with RequestId := aRequestId } } : SyncSqlCache).SetSelection
        aSelectionRequest) = sel at h1 ⊢
    have h2 := hwin sel.2 (sel.2.easyRowRequest aRowRequest aHintsRequest)
    generalize (sel.2.SetRowWindow (sel.2.easyRowRequest aRowRequest aHintsRequest)) = win
      at h2 ⊢
    cases hu : (sel.1 || win.1)
    · simp only [Bool.false_eq_true, if_false]
      show sortPart win.2 = _
      rw [h2, h1]
      rfl
    · simp only [if_true]
      show sortPart (win.2.UpdateViewWindowValues false) = _
      show sortPart win.2 = _
      rw [h2, h1]
      rfl
  · rfl

/-- The members fixed at construction keep their values in every state the
cache reaches. -/
theorem BackReachableFrom_sortPart (s0 s : SyncSqlCache) (h : BackReachableFrom s0 s) :
    sortPart s = sortPart s0 := by
  induction h with
  | start => rfl
  | heavy s engine rid v ls so fi rep susp ms _ ih =>
    rw [ProcessHeavyAction_sortPart, ih]
  | easy s rid rr sr hr _ ih =>
    rw [ProcessEasyAction_sortPart, ih]
  | confirm s v _ ih => exact ih
  | clear s _ ih => exact ih

theorem BackReachable_from_created (s : SyncSqlCache) (h : BackReachable s) :
    ∃ (aInstanceCounter : Int) (aTableName : String) (aFieldList : List String)
      (aCommonFieldsIndexes : List (Nat × List Nat)) (aIdColumn : Int)
      (aDefaultSortOrder : List (List Int)) (aDefaultSortDirection : Int) (s0 : SyncSqlCache),
      SyncSqlCache.create aInstanceCounter aTableName aFieldList aCommonFieldsIndexes aIdColumn
        aDefaultSortOrder aDefaultSortDirection = some s0 ∧ BackReachableFrom s0 s := by
  induction h with
  | created a b c d e f g s hc => exact ⟨a, b, c, d, e, f, g, s, hc, BackReachableFrom.start⟩
  | heavy s engine rid v ls so fi rep susp ms _ ih =>
    obtain ⟨a, b, c, d, e, f, g, s0, hc, hr⟩ := ih
    exact ⟨a, b, c, d, e, f, g, s0, hc, BackReachableFrom.heavy s engine rid v ls so fi rep
      susp ms hr⟩
  | easy s rid rr sr hr _ ih =>
    obtain ⟨a, b, c, d, e, f, g, s0, hc, hr2⟩ := ih
    exact ⟨a, b, c, d, e, f, g, s0, hc, BackReachableFrom.easy s rid rr sr hr hr2⟩
  | confirm s v _ ih =>
    obtain ⟨a, b, c, d, e, f, g, s0, hc, hr⟩ := ih
    exact ⟨a, b, c, d, e, f, g, s0, hc, BackReachableFrom.confirm s v hr⟩
  | clear s _ ih =>
    obtain ⟨a, b, c, d, e, f, g, s0, hc, hr⟩ := ih
    exact ⟨a, b, c, d, e, f, g, s0, hc, BackReachableFrom.clear s hr⟩

/-- `OrderByClause` is the empty string exactly on its early return. -/
theorem OrderByClause_eq_empty_iff (s : SyncSqlCache) :
    s.OrderByClause = "" ↔
      s.mDefaultSortOrder = [] ∧ (s.mSortColumn < 0 ∨ s.mSortColumn ≥ s.mTable.GetColumnCount) := by
  unfold OrderByClause OrderByItems
  by_cases hc : (s.mSortColumn < 0 ∨ s.mSortColumn ≥ s.mTable.GetColumnCount)
  · cases hd : s.mDefaultSortOrder with
    | nil =>
      have hb : (decide (s.mSortColumn < 0) || decide (s.mSortColumn ≥ s.mTable.GetColumnCount))
          = true := by
        rcases hc with hc | hc <;> simp [hc]
      simp [hb, hc]
    | cons a t =>
      simp only [List.isEmpty_cons, Bool.and_false, Bool.false_eq_true, if_false]
      constructor
      · intro h
        have := congrArg String.length h
        simp only [String.length_append] at this
        have h9 : ("ORDER BY " : String).length = 9 := by decide
        rw [h9] at this
        have h0 : ("" : String).length = 0 := by decide
        rw [h0] at this
        omega
      · rintro ⟨h, _⟩
        exact absurd h (by simp)
  · have hb : (decide (s.mSortColumn < 0) || decide (s.mSortColumn ≥ s.mTable.GetColumnCount))
        = false := by
      rw [not_or] at hc
      simp [hc.1, hc.2]
    simp only [hb, Bool.false_and, Bool.false_eq_true, if_false]
    constructor
    · intro h
      have := congrArg String.length h
      simp only [String.length_append] at this
      have h9 : ("ORDER BY " : String).length = 9 := by decide
      rw [h9] at this
      have h0 : ("" : String).length = 0 := by decide
      rw [h0] at this
      omega
    · rintro ⟨_, h⟩
      exact absurd h hc

/-- The clause of a state whose stored default order is the single column `k`
and whose user sort column is unset or out of range. -/
theorem OrderByClause_single_default (s : SyncSqlCache) (k : Int)
    (hd : s.mDefaultSortOrder = [[k]]) (hk : 0 ≤ k ∧ k < s.mTable.GetColumnCount)
    (hc : s.mSortColumn < 0 ∨ s.mSortColumn ≥ s.mTable.GetColumnCount) :
    s.OrderByClause = "ORDER BY " ++ (s.mTable.mFieldList.getD k.toNat "" ++ " " ++
      sortOrderText s.mSortOrder) := by
  have hne : ¬ (s.mSortColumn = k) := by omega
  have hb : (decide (s.mSortColumn ≥ 0) && decide (s.mSortColumn < s.mTable.GetColumnCount))
      = false := by
    rcases hc with hc | hc
    · have : ¬ (s.mSortColumn ≥ 0) := by omega
      simp [this]
    · have : ¬ (s.mSortColumn < s.mTable.GetColumnCount) := by omega
      simp [this]
  have hne2 : (s.mSortColumn == k) = false := by simpa using hne
  simp [OrderByClause, OrderByItems, orderByLists, SqlCacheTable.GetColumnName,
    String.intercalate, String.intercalate.go, hd, hne2, hb, Bool.and_assoc, hne]

/-- C11 (counterexample): a cache constructed with an empty default sort order
(fields `id`, `name`, id column 0, ascending), with no user sort column set,
composes the clause `ORDER BY id ASC`, not the empty string. -/
theorem C11_constructed_cache_orders_by_id :
    (SyncSqlCache.create 0 "t" ["id", "name"] [] 0 [] AscendingOrder).map
        (fun s => (decide (s.mSortColumn < 0), s.OrderByClause, decide (s.OrderByClause = "")))
      = some (true, "ORDER BY id ASC", false) := by
  decide

/-- C11 (amended): construction with an empty default sort order succeeds
exactly when the id column lies in `[0, fieldCount)` and there are fewer than
999 fields, and then the stored default order is `[[idColumn]]`, no user sort
column is set, the sort direction is the default direction given, and the
clause is `ORDER BY <id column name> <that direction>`.  In every state the
cache reaches afterwards the stored default order is still `[[idColumn]]`, and
whenever the user sort column is unset or out of range the clause is
`ORDER BY <id column name> <direction>` with the direction of the current sort
order.  `OrderByClause` returns the empty string exactly when the stored
default order is empty and the user sort column is unset or out of range; no
state reachable from any construction has an empty stored default order, so
its clause is never empty. -/
theorem C11_OrderByClause_of_constructed_cache (aInstanceCounter : Int) (aTableName : String)
    (aFieldList : List String) (aCommonFieldsIndexes : List (Nat × List Nat)) (aIdColumn : Int)
    (aDefaultSortDirection : Int) :
    ((SyncSqlCache.create aInstanceCounter aTableName aFieldList aCommonFieldsIndexes
          aIdColumn [] aDefaultSortDirection).isSome = true ↔
        (0 ≤ aIdColumn ∧ aIdColumn < (aFieldList.length : Int)) ∧
          (aFieldList.length : Int) < SQLITE_MAX_VARIABLE_NUMBER) ∧
    (∀ s0 : SyncSqlCache,
      SyncSqlCache.create aInstanceCounter aTableName aFieldList aCommonFieldsIndexes
          aIdColumn [] aDefaultSortDirection = some s0 →
        s0.mSortColumn = -1 ∧ s0.mSortOrder = aDefaultSortDirection ∧
        s0.mDefaultSortOrder = [[aIdColumn]] ∧
        s0.OrderByClause = "ORDER BY " ++ (aFieldList.getD aIdColumn.toNat "" ++ " " ++
          sortOrderText aDefaultSortDirection) ∧
        ∀ s : SyncSqlCache, BackReachableFrom s0 s →
          s.mDefaultSortOrder = [[aIdColumn]] ∧
          (s.mSortColumn < 0 ∨ s.mSortColumn ≥ s.mTable.GetColumnCount →
            s.OrderByClause = "ORDER BY " ++ (aFieldList.getD aIdColumn.toNat "" ++ " " ++
              sortOrderText s.mSortOrder))) ∧
    (∀ s : SyncSqlCache, s.OrderByClause = "" ↔
      s.mDefaultSortOrder = [] ∧
        (s.mSortColumn < 0 ∨ s.mSortColumn ≥ s.mTable.GetColumnCount)) ∧
    (∀ s : SyncSqlCache, BackReachable s →
      s.mDefaultSortOrder ≠ [] ∧ s.OrderByClause ≠ "") := by
  refine ⟨?_, ?_, OrderByClause_eq_empty_iff, ?_⟩
  · constructor
    · intro h
      obtain ⟨s0, hs0⟩ := Option.isSome_iff_exists.1 h
      obtain ⟨⟨order, hm, _⟩, hn, _⟩ := create_some _ _ _ _ _ _ _ _ hs0
      refine ⟨?_, hn⟩
      by_contra hid
      have hbad : (aFieldList.length : Int) ≤ aIdColumn ∨ aIdColumn < 0 := by omega
      have : MakeDefaultSortOrder [] (aFieldList.length : Int) aIdColumn = none := by
        rcases hbad with hb | hb <;> simp [MakeDefaultSortOrder, hb]
      rw [this] at hm
      exact absurd hm (by simp)
    · rintro ⟨hid, hn⟩
      have hn2 : ¬ ((aFieldList.length : Int) ≥ SQLITE_MAX_VARIABLE_NUMBER) := by omega
      simp only [SyncSqlCache.create, MakeDefaultSortOrder_empty _ _ hid, if_neg hn2]
      rfl
  · intro s0 hs0
    obtain ⟨⟨order, hm, ho⟩, hn, hcol, hord, _, hfl⟩ := create_some _ _ _ _ _ _ _ _ hs0
    have hid : 0 ≤ aIdColumn ∧ aIdColumn < (aFieldList.length : Int) := by
      by_contra hid
      have hbad : (aFieldList.length : Int) ≤ aIdColumn ∨ aIdColumn < 0 := by omega
      have : MakeDefaultSortOrder [] (aFieldList.length : Int) aIdColumn = none := by
        rcases hbad with hb | hb <;> simp [MakeDefaultSortOrder, hb]
      rw [this] at hm
      exact absurd hm (by simp)
    rw [MakeDefaultSortOrder_empty _ _ hid] at hm
    have hd0 : s0.mDefaultSortOrder = [[aIdColumn]] := by
      rw [ho]; exact (Option.some.inj hm).symm
    have hcc0 : s0.mTable.GetColumnCount = (aFieldList.length : Int) := by
      unfold SqlCacheTable.GetColumnCount; rw [hfl]
    refine ⟨hcol, hord, hd0, ?_, ?_⟩
    · rw [OrderByClause_single_default s0 aIdColumn hd0 (by rw [hcc0]; exact hid)
        (Or.inl (by rw [hcol]; decide)), hfl, hord]
    · intro s hr
      have hsp := BackReachableFrom_sortPart s0 s hr
      unfold sortPart at hsp
      simp only [Prod.mk.injEq] at hsp
      obtain ⟨h1, _, h3⟩ := hsp
      have hd : s.mDefaultSortOrder = [[aIdColumn]] := by rw [h1, hd0]
      have hcc : s.mTable.GetColumnCount = (aFieldList.length : Int) := by
        unfold SqlCacheTable.GetColumnCount; rw [h3, hfl]
      refine ⟨hd, fun hc => ?_⟩
      rw [OrderByClause_single_default s aIdColumn hd (by rw [hcc]; exact hid) hc, h3, hfl]
  · intro s hs
    obtain ⟨a, b, c, d, e, f, g, s0, hc, hr⟩ := BackReachable_from_created s hs
    obtain ⟨⟨order, hm, ho⟩, _⟩ := create_some _ _ _ _ _ _ _ _ hc
    have hsp := BackReachableFrom_sortPart s0 s hr
    unfold sortPart at hsp
    simp only [Prod.mk.injEq] at hsp
    have hne : s.mDefaultSortOrder ≠ [] := by
      rw [hsp.1, ho]
      exact MakeDefaultSortOrder_ne_nil _ _ _ _ hm
    refine ⟨hne, fun he => ?_⟩
    exact hne ((OrderByClause_eq_empty_iff s).1 he).1

/-- Witness of C11: the cache constructed with fields `id`, `name`, id column
0 and descending default direction, after a heavy operation that asks for
ascending order without a sort column, composes `ORDER BY id ASC`. -/
theorem C11_OrderByClause_of_constructed_cache_witness :
    SyncSqlCache.create 0 "t" ["id", "name"] [] 0 [] DescendingOrder = some descendingCache ∧
    descendingCache.OrderByClause = "ORDER BY id DESC" ∧
    (descendingCache.ProcessHeavyAction scenarioEngine 1 [] LoadingStatus.NotChanged
        (some { Column := -1, Order := AscendingOrder }) none false false 0).OrderByClause
      = "ORDER BY id ASC" :=
  ⟨by decide,
    ((C11_OrderByClause_of_constructed_cache 0 "t" ["id", "name"] [] 0 DescendingOrder).2.1
      descendingCache (by decide)).2.2.2.1.trans (by decide),
    ((((C11_OrderByClause_of_constructed_cache 0 "t" ["id", "name"] [] 0 DescendingOrder).2.1
        descendingCache (by decide)).2.2.2.2
      (descendingCache.ProcessHeavyAction scenarioEngine 1 [] LoadingStatus.NotChanged
        (some { Column := -1, Order := AscendingOrder }) none false false 0)
      (BackReachableFrom.heavy descendingCache scenarioEngine 1 [] LoadingStatus.NotChanged
        (some { Column := -1, Order := AscendingOrder }) none false false 0
        BackReachableFrom.start)).2 (Or.inl (by decide))).trans (by decide)⟩

end

section

open SyncSqlCache

/-! ## Window re-materialization -/

theorem GetRow_some_lt (v : ViewWindowValues) (i : Int) (row : List QVariant)
    (h : v.GetRow i = some row) : i < v.RecordsCount := by
  unfold ViewWindowValues.GetRow at h
  by_cases hc : i ≥ v.RecordsCount
  · simp [hc] at h
  · omega

theorem GetRecord_some_lt (s : SyncSqlCache) (i : Int) (row : List QVariant)
    (h : s.GetRecord i = some row) : 0 ≤ i ∧ i < s.GetRecordsCount := by
  unfold GetRecord at h
  unfold GetRecordsCount
  cases hl : s.mVersionedIds.lookup s.mViewWindowValues.Version with
  | none => simp [hl] at h
  | some ids =>
    simp only [hl] at h ⊢
    by_cases ho : ids.IsOutOfRange i = true
    · simp [ho] at h
    · simp only [IdsInfo.IsOutOfRange, Bool.or_eq_true, decide_eq_true_eq, not_or, not_lt,
        ge_iff_le, not_le] at ho
      omega

/-- The row loop of the re-materialization appends the records of a prefix of
the rows it is given, each of them a row below the record count. -/
theorem fetchRows_bound (s : SyncSqlCache) (aRefreshAll : Bool)
    (hprev : aRefreshAll = false → s.mViewWindowValues.RecordsCount ≤ s.GetRecordsCount)
    (l : List Int) :
    ∀ data : List (List QVariant), ∃ k : Nat, k ≤ l.length ∧
      (s.fetchRows aRefreshAll l data).length = data.length + k ∧
      ∀ j, j < k → ∀ i, l[j]? = some i → i < s.GetRecordsCount := by
  induction l with
  | nil => intro data; exact ⟨0, le_refl _, rfl, fun j hj => absurd hj (Nat.not_lt_zero _)⟩
  | cons a t ih =>
    intro data
    have hstep : ∀ row : List QVariant, a < s.GetRecordsCount →
        ∃ k : Nat, k ≤ (a :: t).length ∧
          (s.fetchRows aRefreshAll t (data ++ [row])).length = data.length + k ∧
          ∀ j, j < k → ∀ i, (a :: t)[j]? = some i → i < s.GetRecordsCount := by
      intro row ha
      obtain ⟨k, hk, hlen, hall⟩ := ih (data ++ [row])
      refine ⟨k + 1, by simp; omega, by rw [hlen]; simp; omega, ?_⟩
      intro j hj i hi
      cases j with
      | zero =>
        simp only [List.getElem?_cons_zero, Option.some.injEq] at hi
        rw [← hi]; exact ha
      | succ j =>
        simp only [List.getElem?_cons_succ] at hi
        exact hall j (by omega) i hi
    unfold fetchRows
    cases hold : (if aRefreshAll then none else s.mViewWindowValues.GetRow a) with
    | some oldRow =>
      simp only
      apply hstep
      cases hr : aRefreshAll with
      | true => simp [hr] at hold
      | false =>
        simp only [hr, Bool.false_eq_true, if_false] at hold
        exact lt_of_lt_of_le (GetRow_some_lt _ _ _ hold) (hprev hr)
    | none =>
      simp only
      cases hrec : s.GetRecord a with
      | none =>
        exact ⟨0, Nat.zero_le _, rfl, fun j hj => absurd hj (Nat.not_lt_zero _)⟩
      | some rowData =>
        simp only
        exact hstep rowData (GetRecord_some_lt s a rowData hrec).2

theorem rows_getElem (r : RowRange) (j : Nat) (i : Int) (h : r.rows[j]? = some i) :
    i = r.Top + j := by
  unfold RowRange.rows at h
  rw [List.getElem?_map] at h
  cases hg : (List.range (r.Bottom - r.Top + 1).toNat)[j]? with
  | none => rw [hg] at h; simp at h
  | some x =>
    rw [hg] at h
    simp only [Option.map_some', Option.some.injEq] at h
    have hx := List.getElem?_eq_some_iff.1 hg
    obtain ⟨hlt, hx⟩ := hx
    rw [List.getElem_range] at hx
    rw [← h, ← hx]

theorem rows_getElem_lt (r : RowRange) (j : Nat) (h : j < r.rows.length) :
    r.rows[j]? = some (r.Top + j) := by
  have hsome := List.getElem?_eq_getElem h
  rw [hsome]
  have := rows_getElem r j _ hsome
  rw [this]

/-- C12: every snapshot produced by window re-materialization is consistent
with the current id mapping.  Its record count is the length of the id vector
of the current version (`0` when the version is not retained); either its
`Rows` is the empty range and `Data` is empty, or `Rows.Top` is the requested
top, `len(Data) = Rows.Bottom - Rows.Top + 1` and `Rows.Bottom` is below the
record count; a requested window whose top is at or beyond the record count
yields empty `Rows`.  When rows are reused (no refresh of all rows), the
record count of the previous snapshot is assumed not to exceed the length of
the current id vector; the new snapshot satisfies this again. -/
theorem C12_snapshot_consistent_with_id_mapping (s : SyncSqlCache) (aRefreshAll : Bool)
    (hprev : aRefreshAll = false → s.mViewWindowValues.RecordsCount ≤ s.GetRecordsCount) :
    (s.UpdateViewWindowValues aRefreshAll).mViewWindowValues.RecordsCount = s.GetRecordsCount ∧
    (∀ ids, s.mVersionedIds.lookup s.mViewWindowValues.Version = some ids →
      (s.UpdateViewWindowValues aRefreshAll).mViewWindowValues.RecordsCount
        = (ids.Ids.length : Int)) ∧
    (((s.UpdateViewWindowValues aRefreshAll).mViewWindowValues.Rows = {} ∧
        (s.UpdateViewWindowValues aRefreshAll).mViewWindowValues.Data = []) ∨
      ((s.UpdateViewWindowValues aRefreshAll).mViewWindowValues.Rows.Top
          = s.mRequestedRowRange.Top ∧
        ((s.UpdateViewWindowValues aRefreshAll).mViewWindowValues.Data.length : Int)
          = (s.UpdateViewWindowValues aRefreshAll).mViewWindowValues.Rows.Bottom
            - (s.UpdateViewWindowValues aRefreshAll).mViewWindowValues.Rows.Top + 1 ∧
        (s.UpdateViewWindowValues aRefreshAll).mViewWindowValues.Rows.Bottom
          < (s.UpdateViewWindowValues aRefreshAll).mViewWindowValues.RecordsCount)) ∧
    (s.mRequestedRowRange.Top ≥ s.GetRecordsCount →
      (s.UpdateViewWindowValues aRefreshAll).mViewWindowValues.Rows = {}) ∧
    (s.UpdateViewWindowValues aRefreshAll).mViewWindowValues.RecordsCount
      = (s.UpdateViewWindowValues aRefreshAll).GetRecordsCount := by
  have hdata : ∃ data : List (List QVariant),
      (if s.mRequestedRowRange.IsValid then
          s.fetchRows aRefreshAll s.mRequestedRowRange.rows []
        else []) = data ∧
      (data ≠ [] → s.mRequestedRowRange.Top + (data.length : Int) - 1 < s.GetRecordsCount) := by
    refine ⟨_, rfl, ?_⟩
    intro hne
    by_cases hv : s.mRequestedRowRange.IsValid = true
    · simp only [hv, if_true] at hne ⊢
      obtain ⟨k, hk, hlen, hall⟩ := fetchRows_bound s aRefreshAll hprev s.mRequestedRowRange.rows []
      have hk0 : 0 < k := by
        rcases Nat.eq_zero_or_pos k with h0 | h0
        · rw [h0] at hlen
          simp only [List.length_nil, add_zero, List.length_eq_zero] at hlen
          exact absurd hlen hne
        · exact h0
      have := hall (k - 1) (by omega) _ (rows_getElem_lt _ (k - 1) (by omega))
      rw [hlen]
      simp only [List.length_nil, zero_add]
      have hcast : ((k - 1 : Nat) : Int) = (k : Int) - 1 := by omega
      rw [hcast] at this
      omega
    · simp [hv] at hne
  obtain ⟨data, hd, hbound⟩ := hdata
  have hcount : (s.UpdateViewWindowValues aRefreshAll).GetRecordsCount = s.GetRecordsCount := rfl
  unfold UpdateViewWindowValues
  simp only [hd, ViewWindowValues.SetData]
  refine ⟨trivial, ?_, ?_, ?_, ?_⟩
  · intro ids hids
    simp [GetRecordsCount, hids]
  · cases hdd : data with
    | nil => left; simp
    | cons a t =>
      right
      have := hbound (by rw [hdd]; simp)
      rw [hdd] at this
      simp only [List.isEmpty_cons, Bool.not_false, if_true]
      refine ⟨trivial, by omega, by omega⟩
  · intro hge
    cases hdd : data with
    | nil => simp
    | cons a t =>
      have := hbound (by rw [hdd]; simp)
      rw [hdd] at this
      simp only [List.length_cons] at this
      omega
  · rfl

theorem C12_snapshot_consistent_with_id_mapping_witness :
    (loadedCacheWindow.UpdateViewWindowValues false).mViewWindowValues.RecordsCount = 3 ∧
    (loadedCacheWindow.UpdateViewWindowValues false).mViewWindowValues.Rows
      = { Top := 0, Bottom := 2 } :=
  ⟨(C12_snapshot_consistent_with_id_mapping loadedCacheWindow false (by decide)).1.trans
      (by decide), by decide⟩

/-- `UpdateRowWindow` leaves a valid requested visible window and a requested
window that contains it expanded by the window offset. -/
theorem UpdateRowWindow_relation (s : SyncSqlCache) :
    s.UpdateRowWindow.mRequestedRowRangeVisible.IsValid = true ∧
    s.UpdateRowWindow.mRequestedRowRange.Top
      ≤ max 0 (s.UpdateRowWindow.mRequestedRowRangeVisible.Top - RowWindowOffset) ∧
    s.UpdateRowWindow.mRequestedRowRange.Bottom
      ≥ s.UpdateRowWindow.mRequestedRowRangeVisible.Bottom + RowWindowOffset := by
  have hexp : ∀ r : RowRange, (r.Expand RowWindowOffset).IsValid = true := by
    intro r
    simp only [RowRange.Expand, RowRange.IsValid, RowWindowOffset, Bool.and_eq_true,
      decide_eq_true_eq]
    omega
  have hfin : ∀ s3 : SyncSqlCache, s3.mRequestedRowRangeVisible.IsValid = true →
      (if !s3.mRequestedRowRange.ContainsRange s3.mRequestedRowRangeVisible RowWindowOffset then
          { s3 with mRequestedRowRange := s3.mRequestedRowRangeVisible.Expand RowWindowOffset }
        else s3).mRequestedRowRangeVisible.IsValid = true ∧
      (if !s3.mRequestedRowRange.ContainsRange s3.mRequestedRowRangeVisible RowWindowOffset then
          { s3 with mRequestedRowRange := s3.mRequestedRowRangeVisible.Expand RowWindowOffset }
        else s3).mRequestedRowRange.Top
        ≤ max 0 ((if !s3.mRequestedRowRange.ContainsRange s3.mRequestedRowRangeVisible
              RowWindowOffset then
            { s3 with mRequestedRowRange := s3.mRequestedRowRangeVisible.Expand RowWindowOffset }
          else s3).mRequestedRowRangeVisible.Top - RowWindowOffset) ∧
      (if !s3.mRequestedRowRange.ContainsRange s3.mRequestedRowRangeVisible RowWindowOffset then
          { s3 with mRequestedRowRange := s3.mRequestedRowRangeVisible.Expand RowWindowOffset }
        else s3).mRequestedRowRange.Bottom
        ≥ (if !s3.mRequestedRowRange.ContainsRange s3.mRequestedRowRangeVisible
              RowWindowOffset then
            { s3 with mRequestedRowRange := s3.mRequestedRowRangeVisible.Expand RowWindowOffset }
          else s3).mRequestedRowRangeVisible.Bottom + RowWindowOffset := by
    intro s3 hv
    cases hc : s3.mRequestedRowRange.ContainsRange s3.mRequestedRowRangeVisible RowWindowOffset with
    | false =>
      simp only [Bool.not_false, if_true]
      refine ⟨hv, ?_, ?_⟩
      · simp only [RowRange.Expand]
        exact le_refl _
      · simp only [RowRange.Expand]
        exact le_max_right _ _
    | true =>
      simp only [Bool.not_true, Bool.false_eq_true, if_false]
      refine ⟨hv, ?_, ?_⟩
      · unfold RowRange.ContainsRange at hc
        by_cases h1 : (!s3.mRequestedRowRange.Contains s3.mRequestedRowRangeVisible.Top ||
            !s3.mRequestedRowRange.Contains s3.mRequestedRowRangeVisible.Bottom) = true
        · simp [h1] at hc
        · rw [if_neg h1] at hc
          by_cases h2 : s3.mRequestedRowRangeVisible.Top - s3.mRequestedRowRange.Top
              < RowWindowOffset
          · simp [h2] at hc
          · have := le_max_right 0 (s3.mRequestedRowRangeVisible.Top - RowWindowOffset)
            omega
      · unfold RowRange.ContainsRange at hc
        by_cases h1 : (!s3.mRequestedRowRange.Contains s3.mRequestedRowRangeVisible.Top ||
            !s3.mRequestedRowRange.Contains s3.mRequestedRowRangeVisible.Bottom) = true
        · simp [h1] at hc
        · rw [if_neg h1] at hc
          by_cases h2 : s3.mRequestedRowRangeVisible.Top - s3.mRequestedRowRange.Top
              < RowWindowOffset
          · simp [h2] at hc
          · rw [if_neg h2] at hc
            by_cases h3 : s3.mRequestedRowRange.Bottom - s3.mRequestedRowRangeVisible.Bottom
                < RowWindowOffset
            · simp [h3] at hc
            · omega
  have hs3 : ∀ s2 : SyncSqlCache,
      (if !s2.mRequestedRowRangeVisible.IsValid then
          { s2 with mRequestedRowRangeVisible :=
              s2.mRequestedRowRangeVisible.Expand RowWindowOffset }
        else s2).mRequestedRowRangeVisible.IsValid = true := by
    intro s2
    cases hv : s2.mRequestedRowRangeVisible.IsValid with
    | false => simpa using hexp _
    | true => simpa using hv
  unfold UpdateRowWindow
  simp only
  exact hfin _ (hs3 _)

/-- The row loop of the re-materialization over consecutive rows from `T` on,
in a state where every row it is given below the record count has a record:
the rows below the record count are appended, and only they. -/
theorem fetchRows_length (s : SyncSqlCache) (aRefreshAll : Bool)
    (hprev : aRefreshAll = false → s.mViewWindowValues.RecordsCount ≤ s.GetRecordsCount)
    (l : List Int) :
    ∀ (T : Int) (data : List (List QVariant)),
      (∀ j, j < l.length → l[j]? = some (T + j)) →
      (∀ i ∈ l, i < s.GetRecordsCount → (s.GetRecord i).isSome = true) →
      (s.fetchRows aRefreshAll l data).length
        = data.length + min l.length (s.GetRecordsCount - T).toNat := by
  induction l with
  | nil => intro T data _ _; simp [fetchRows]
  | cons a t ih =>
    intro T data hl hrec
    have ha : a = T := by
      have := hl 0 (by simp)
      simpa using this
    have ht : ∀ j, j < t.length → t[j]? = some (T + 1 + j) := by
      intro j hj
      have := hl (j + 1) (by simp; omega)
      simp only [List.getElem?_cons_succ] at this
      rw [this]
      congr 1
      push_cast
      ring
    have hrt : ∀ i ∈ t, i < s.GetRecordsCount → (s.GetRecord i).isSome = true :=
      fun i hi => hrec i (List.mem_cons_of_mem _ hi)
    have hstep : ∀ row : List QVariant, a < s.GetRecordsCount →
        (s.fetchRows aRefreshAll t (data ++ [row])).length
          = data.length + min (a :: t).length (s.GetRecordsCount - T).toNat := by
      intro row hlt
      rw [ih (T + 1) (data ++ [row]) ht hrt]
      simp only [List.length_append, List.length_cons, List.length_nil]
      rw [ha] at hlt
      omega
    unfold fetchRows
    cases hold : (if aRefreshAll then none else s.mViewWindowValues.GetRow a) with
    | some oldRow =>
      simp only
      apply hstep
      cases hr : aRefreshAll with
      | true => simp [hr] at hold
      | false =>
        simp only [hr, Bool.false_eq_true, if_false] at hold
        exact lt_of_lt_of_le (GetRow_some_lt _ _ _ hold) (hprev hr)
    | none =>
      simp only
      cases hrec2 : s.GetRecord a with
      | none =>
        simp only
        have hge : ¬ a < s.GetRecordsCount := by
          intro hlt
          have := hrec a (List.mem_cons_self _ _) hlt
          rw [hrec2] at this
          simp at this
        rw [ha] at hge
        have : (s.GetRecordsCount - T).toNat = 0 := by omega
        rw [this]
        simp
      | some rowData =>
        simp only
        exact hstep rowData (GetRecord_some_lt s a rowData hrec2).2

theorem rows_length (r : RowRange) : r.rows.length = (r.Bottom - r.Top + 1).toNat := by
  simp [RowRange.rows]

/-- C13 (counterexample): the cache holds three records; a heavy operation that
reports the end of loading re-selects and emits a snapshot with
`Rows = [0, 2]` and `RowsVisible = [0, 2]`, for which
`Rows.Bottom ≥ RowsVisible.Bottom + 50` fails. -/
theorem C13_small_table_snapshot_is_clipped :
    ((loadedCache.ProcessHeavyAction scenarioEngine 1 [] LoadingStatus.Finished none none
        false false 0).Emitted.filterMap BackSignal.values).map
      (fun v => (v.RecordsCount, v.Rows, v.RowsVisible,
        decide (v.Rows.Bottom ≥ v.RowsVisible.Bottom + 50)))
      = [(3, { Top := 0, Bottom := 2 }, { Top := 0, Bottom := 2 }, false)] := by
  decide

/-- C13 (amended): `UpdateRowWindow` leaves a valid requested visible window
and a requested window with `Top ≤ max(0, visible.Top - 50)` and
`Bottom ≥ visible.Bottom + 50` (for a visible bottom of at most
`IntMax - 50`).  A snapshot re-materialized from requested windows in this
relation (the requested window valid), in a state where every requested row
below the record count has its record and the previous snapshot does not count
more records than the id mapping, carries the requested window clipped to the
records that exist: `Rows = [Top, min(Bottom, RecordsCount - 1)]` when
`Top < RecordsCount`, otherwise no row, and
`RowsVisible.Bottom = min(visible.Bottom, Rows.Bottom)`.  It satisfies
`Rows.Top ≤ max(0, RowsVisible.Top - 50)` and
`Rows.Bottom ≥ RowsVisible.Bottom + 50` exactly when the table has records down
to the row `50` below the requested visible bottom,
`RecordsCount - 1 ≥ visible.Bottom + 50`; it then shows the requested visible
window unchanged. -/
theorem C13_snapshot_window_clipped_to_data (s : SyncSqlCache) (aRefreshAll : Bool)
    (hvis : s.mRequestedRowRangeVisible.IsValid = true)
    (hval : s.mRequestedRowRange.IsValid = true)
    (htop : s.mRequestedRowRange.Top
      ≤ max 0 (s.mRequestedRowRangeVisible.Top - RowWindowOffset))
    (hbot : s.mRequestedRowRange.Bottom
      ≥ s.mRequestedRowRangeVisible.Bottom + RowWindowOffset)
    (hrec : ∀ i ∈ s.mRequestedRowRange.rows, i < s.GetRecordsCount →
      (s.GetRecord i).isSome = true)
    (hprev : aRefreshAll = false → s.mViewWindowValues.RecordsCount ≤ s.GetRecordsCount) :
    (s.UpdateViewWindowValues aRefreshAll).mViewWindowValues.RecordsCount
        = s.GetRecordsCount ∧
    (s.UpdateViewWindowValues aRefreshAll).mViewWindowValues.Rows
      = (if s.mRequestedRowRange.Top < s.GetRecordsCount then
          { Top := s.mRequestedRowRange.Top,
            Bottom := min s.mRequestedRowRange.Bottom (s.GetRecordsCount - 1) }
        else { Top := -1, Bottom := -1 }) ∧
    (s.UpdateViewWindowValues aRefreshAll).mViewWindowValues.RowsVisible.Bottom
      = (if s.mRequestedRowRange.Top < s.GetRecordsCount then
          min s.mRequestedRowRangeVisible.Bottom
            (min s.mRequestedRowRange.Bottom (s.GetRecordsCount - 1))
        else -1) ∧
    (((s.UpdateViewWindowValues aRefreshAll).mViewWindowValues.Rows.Top
          ≤ max 0 ((s.UpdateViewWindowValues aRefreshAll).mViewWindowValues.RowsVisible.Top
              - RowWindowOffset) ∧
        (s.UpdateViewWindowValues aRefreshAll).mViewWindowValues.Rows.Bottom
          ≥ (s.UpdateViewWindowValues aRefreshAll).mViewWindowValues.RowsVisible.Bottom
              + RowWindowOffset) ↔
      s.GetRecordsCount - 1 ≥ s.mRequestedRowRangeVisible.Bottom + RowWindowOffset) ∧
    (s.GetRecordsCount - 1 ≥ s.mRequestedRowRangeVisible.Bottom + RowWindowOffset →
      (s.UpdateViewWindowValues aRefreshAll).mViewWindowValues.RowsVisible
        = s.mRequestedRowRangeVisible) ∧
    (∀ s0 : SyncSqlCache,
      s0.UpdateRowWindow.mRequestedRowRangeVisible.Bottom ≤ IntMax - RowWindowOffset →
      s0.UpdateRowWindow.mRequestedRowRangeVisible.IsValid = true ∧
      s0.UpdateRowWindow.mRequestedRowRange.Top
        ≤ max 0 (s0.UpdateRowWindow.mRequestedRowRangeVisible.Top - RowWindowOffset) ∧
      s0.UpdateRowWindow.mRequestedRowRange.Bottom
        ≥ s0.UpdateRowWindow.mRequestedRowRangeVisible.Bottom + RowWindowOffset) := by
  have hv : 0 ≤ s.mRequestedRowRangeVisible.Top ∧ 0 ≤ s.mRequestedRowRangeVisible.Bottom ∧
      s.mRequestedRowRangeVisible.Top ≤ s.mRequestedRowRangeVisible.Bottom := by
    simpa [RowRange.IsValid, and_assoc] using hvis
  have hr : 0 ≤ s.mRequestedRowRange.Top ∧ 0 ≤ s.mRequestedRowRange.Bottom ∧
      s.mRequestedRowRange.Top ≤ s.mRequestedRowRange.Bottom := by
    simpa [RowRange.IsValid, and_assoc] using hval
  have hdist : s.mRequestedRowRangeVisible.Distance0
      = s.mRequestedRowRangeVisible.Bottom - s.mRequestedRowRangeVisible.Top := by
    simp [RowRange.Distance0, hvis]
  have hlen : (s.fetchRows aRefreshAll s.mRequestedRowRange.rows []).length
      = min (s.mRequestedRowRange.Bottom - s.mRequestedRowRange.Top + 1).toNat
          (s.GetRecordsCount - s.mRequestedRowRange.Top).toNat := by
    have := fetchRows_length s aRefreshAll hprev s.mRequestedRowRange.rows
      s.mRequestedRowRange.Top []
      (fun j hj => rows_getElem_lt s.mRequestedRowRange j hj) hrec
    rw [this, rows_length]
    simp
  have hdata : (if s.mRequestedRowRange.IsValid then
      s.fetchRows aRefreshAll s.mRequestedRowRange.rows [] else [])
      = s.fetchRows aRefreshAll s.mRequestedRowRange.rows [] := by
    rw [hval]; rfl
  have key : (s.UpdateViewWindowValues aRefreshAll).mViewWindowValues.RecordsCount
        = s.GetRecordsCount ∧
      (s.UpdateViewWindowValues aRefreshAll).mViewWindowValues.Rows
        = (if s.mRequestedRowRange.Top < s.GetRecordsCount then
            { Top := s.mRequestedRowRange.Top,
              Bottom := min s.mRequestedRowRange.Bottom (s.GetRecordsCount - 1) }
          else { Top := -1, Bottom := -1 }) ∧
      (s.UpdateViewWindowValues aRefreshAll).mViewWindowValues.RowsVisible
        = (if s.mRequestedRowRange.Top < s.GetRecordsCount then
            { Top := max 0 (min s.mRequestedRowRangeVisible.Bottom
                  (min s.mRequestedRowRange.Bottom (s.GetRecordsCount - 1))
                - (s.mRequestedRowRangeVisible.Bottom - s.mRequestedRowRangeVisible.Top)),
              Bottom := min s.mRequestedRowRangeVisible.Bottom
                (min s.mRequestedRowRange.Bottom (s.GetRecordsCount - 1)) }
          else { Top := -1, Bottom := -1 }) := by
    unfold UpdateViewWindowValues
    simp only [ViewWindowValues.SetData, hdist]
    rw [hdata]
    generalize s.fetchRows aRefreshAll s.mRequestedRowRange.rows [] = data at hlen
    by_cases hc : s.mRequestedRowRange.Top < s.GetRecordsCount
    · have hne : data.isEmpty = false := by
        cases data with
        | nil => simp only [List.length_nil] at hlen; omega
        | cons a t => rfl
      simp only [hne, Bool.not_false, if_true, hc, RowRange.mk.injEq, true_and]
      have hb : s.mRequestedRowRange.Top + (data.length : Int) - 1
          = min s.mRequestedRowRange.Bottom (s.GetRecordsCount - 1) := by
        rw [hlen]; omega
      rw [hb]
      exact ⟨rfl, rfl, rfl⟩
    · have he : data = [] := by
        apply List.eq_nil_of_length_eq_zero
        rw [hlen]; omega
      subst he
      simp only [List.isEmpty_nil, Bool.not_true, Bool.false_eq_true, if_false, hc]
      exact ⟨trivial, trivial, trivial⟩
  obtain ⟨k1, k2, k3⟩ := key
  refine ⟨k1, k2, ?_, ?_, ?_, ?_⟩
  · rw [k3]; split <;> rfl
  · rw [k2, k3]
    simp only [RowWindowOffset] at htop hbot ⊢
    by_cases hc : s.mRequestedRowRange.Top < s.GetRecordsCount
    · simp only [hc, if_true]
      omega
    · simp only [hc, if_false]
      omega
  · intro hcnt
    rw [k3]
    simp only [RowWindowOffset] at htop hbot hcnt
    have hc : s.mRequestedRowRange.Top < s.GetRecordsCount := by omega
    simp only [hc, if_true]
    cases hrv : s.mRequestedRowRangeVisible with
    | mk T B =>
      rw [hrv] at hv hbot hcnt
      simp only at hv hbot hcnt
      simp only [RowRange.mk.injEq]
      omega
  · intro s0 _
    exact UpdateRowWindow_relation s0

/-- Witness of C13 on a table of 60 records: the requested window `0..52`
around the visible rows `0..2` is materialized in full, and the snapshot keeps
the margin of 50 rows. -/
theorem C13_snapshot_window_clipped_to_data_witness :
    (wideCache.UpdateViewWindowValues true).mViewWindowValues.Rows
      = { Top := 0, Bottom := 52 } ∧
    (wideCache.UpdateViewWindowValues true).mViewWindowValues.RowsVisible
      = { Top := 0, Bottom := 2 } ∧
    (wideCache.UpdateViewWindowValues true).mViewWindowValues.Rows.Top
      ≤ max 0 ((wideCache.UpdateViewWindowValues true).mViewWindowValues.RowsVisible.Top
          - RowWindowOffset) ∧
    (wideCache.UpdateViewWindowValues true).mViewWindowValues.Rows.Bottom
      ≥ (wideCache.UpdateViewWindowValues true).mViewWindowValues.RowsVisible.Bottom
          + RowWindowOffset :=
  ⟨(C13_snapshot_window_clipped_to_data wideCache true (by decide) (by decide) (by decide)
      (by decide) (by decide) (by simp)).2.1.trans (by decide),
    (C13_snapshot_window_clipped_to_data wideCache true (by decide) (by decide) (by decide)
      (by decide) (by decide) (by simp)).2.2.2.2.1 (by decide),
    ((C13_snapshot_window_clipped_to_data wideCache true (by decide) (by decide) (by decide)
      (by decide) (by decide) (by simp)).2.2.2.1.2 (by decide)).1,
    ((C13_snapshot_window_clipped_to_data wideCache true (by decide) (by decide) (by decide)
      (by decide) (by decide) (by simp)).2.2.2.1.2 (by decide)).2⟩

end

section

open SyncSqlCache

/-! ## Scrolling to a row (`ScrollToWithCorrection`) and the easy operation -/

/-- C14: `ScrollToWithCorrection` follows the stated rule for every range, row
and flags.  With `t` the range translated to the row: when the row is the
bottom of `t` and the bottom row is not fully visible, the result is
`[max(0, t.Top + 1), t.Bottom + 1]` if the bottom is not the end and
`[max(0, t.Top + 1), t.Bottom]` if it is; in every other case the result is
`[max(0, t.Top), t.Bottom]`. -/
theorem C14_ScrollToWithCorrection_rule (r : RowRange) (row : Int)
    (topIsFullVisible bottomIsFullVisible bottomIsEnd : Bool) :
    (row = (translatedTo r row).Bottom ∧ bottomIsFullVisible = false ∧ bottomIsEnd = false →
      r.ScrollToWithCorrection row topIsFullVisible bottomIsFullVisible bottomIsEnd
        = { Top := max 0 ((translatedTo r row).Top + 1),
            Bottom := (translatedTo r row).Bottom + 1 }) ∧
    (row = (translatedTo r row).Bottom ∧ bottomIsFullVisible = false ∧ bottomIsEnd = true →
      r.ScrollToWithCorrection row topIsFullVisible bottomIsFullVisible bottomIsEnd
        = { Top := max 0 ((translatedTo r row).Top + 1),
            Bottom := (translatedTo r row).Bottom }) ∧
    (¬ (row = (translatedTo r row).Bottom ∧ bottomIsFullVisible = false) →
      r.ScrollToWithCorrection row topIsFullVisible bottomIsFullVisible bottomIsEnd
        = { Top := max 0 (translatedTo r row).Top, Bottom := (translatedTo r row).Bottom }) := by
  have ht : translatedTo r row
      = { Top := r.Top + (if row < r.Top then row - r.Top
            else if row > r.Bottom then row - r.Bottom else 0),
          Bottom := r.Bottom + (if row < r.Top then row - r.Top
            else if row > r.Bottom then row - r.Bottom else 0) } := by
    unfold translatedTo
    split
    · rfl
    · split
      · rfl
      · simp
  rw [ht]
  simp only [RowRange.ScrollToWithCorrection]
  generalize (if row < r.Top then row - r.Top
    else if row > r.Bottom then row - r.Bottom else 0) = dst
  refine ⟨?_, ?_, ?_⟩
  · rintro ⟨h1, h2, h3⟩
    subst h2; subst h3
    simp [h1]
  · rintro ⟨h1, h2, h3⟩
    subst h2; subst h3
    simp [h1]
  · intro h
    by_cases h1 : row = r.Bottom + dst
    · have h2 : bottomIsFullVisible = true := by
        cases bottomIsFullVisible with
        | true => rfl
        | false => exact absurd ⟨h1, rfl⟩ h
      subst h2
      simp
    · simp [h1]

/-- When the row lies inside a range whose top is not negative and no
correction of the bottom applies, `ScrollToWithCorrection` returns the range. -/
theorem ScrollToWithCorrection_inside (r : RowRange) (row : Int) (t b e : Bool)
    (hin : r.Contains row = true) (htop : 0 ≤ r.Top) (hb : row ≠ r.Bottom ∨ b = true) :
    r.ScrollToWithCorrection row t b e = r := by
  have hc : r.Top ≤ row ∧ row ≤ r.Bottom := by
    simpa [RowRange.Contains] using hin
  have h1 : ¬ row < r.Top := by omega
  have h2 : ¬ row > r.Bottom := by omega
  have h3 : (decide (row = r.Bottom) && !b) = false := by
    rcases hb with hb | hb
    · simp [hb]
    · simp [hb]
  simp only [RowRange.ScrollToWithCorrection, if_neg h1, if_neg h2, add_zero, h3]
  cases r with
  | mk T B =>
    simp only [RowRange.mk.injEq] at *
    simp
    exact htop

theorem SetSelection_fields (s : SyncSqlCache) (aSelectionRequest : SelectionRequest) :
    (s.SetSelection aSelectionRequest).2.mIsAutoScroll = s.mIsAutoScroll ∧
    (s.SetSelection aSelectionRequest).2.mViewWindowValues.Version
      = s.mViewWindowValues.Version ∧
    (s.SetSelection aSelectionRequest).2.mViewWindowValues.CurrentRow
      = (s.TransformSelectionRequest aSelectionRequest).2.CurrentRow := by
  have hk := TransformSelection_keep s aSelectionRequest.Version aSelectionRequest.Selection
    aSelectionRequest.CurrentRow
  have ha : (s.TransformSelection aSelectionRequest.Version aSelectionRequest.Selection
      aSelectionRequest.CurrentRow).1.mIsAutoScroll = s.mIsAutoScroll := by
    unfold TransformSelection
    split <;> rfl
  unfold SetSelection
  simp only [TransformSelectionRequest]
  split
  · exact ⟨ha, by rw [← hk.2.2], rfl⟩
  · rename_i hne
    refine ⟨ha, by rw [← hk.2.2], ?_⟩
    simp only [ne_eq, Bool.or_eq_true, decide_eq_true_eq, not_or, not_not] at hne
    exact hne.1

theorem SetRowWindow_view (s : SyncSqlCache) (aRowRequest : RowRequest) :
    (s.SetRowWindow aRowRequest).2.mViewWindowValues = s.mViewWindowValues := by
  have ht : (if !s.mIsAutoScroll then s.TransformRowRange aRowRequest else (s, none)).1.mViewWindowValues
      = s.mViewWindowValues := by
    split
    · unfold TransformRowRange
      split <;> rfl
    · rfl
  unfold SetRowWindow
  simp only
  generalize (if !s.mIsAutoScroll then s.TransformRowRange aRowRequest else (s, none)) = t at ht ⊢
  split <;> exact ht

theorem SetRowWindow_visible (s : SyncSqlCache) (aRowRequest : RowRequest)
    (h : s.mIsAutoScroll = true ∨ aRowRequest.Version = s.mViewWindowValues.Version) :
    (s.SetRowWindow aRowRequest).2.mRequestedRowRangeVisible = aRowRequest.RowWindowVisible ∧
    (s.SetRowWindow aRowRequest).2.mRequestedRowRange = aRowRequest.RowWindow := by
  have ht : (if !s.mIsAutoScroll then s.TransformRowRange aRowRequest else (s, none))
      = (s, none) := by
    rcases h with h | h
    · simp [h]
    · have : s.GetRowTransformation aRowRequest.Version = none := by
        simp [GetRowTransformation, h]
      simp [TransformRowRange, this]
  unfold SetRowWindow
  simp only [ht, Option.getD_none]
  split
  · exact ⟨rfl, rfl⟩
  · rename_i hne
    simp only [ne_eq, Bool.or_eq_true, decide_eq_true_eq, not_or, not_not] at hne
    exact ⟨hne.2, hne.1⟩

/-- The state of the easy operation after the selection has been applied. -/
theorem ProcessEasyAction_allowed (s : SyncSqlCache) (aRequestId : Int) (aRowRequest : RowRequest)
    (aSelectionRequest : SelectionRequest) (aHintsRequest : HintsRequest)
    (hallowed : s.mIsSelectionAllowed = true) :
    ∃ s2 : SyncSqlCache,
      s2.mIsAutoScroll = s.mIsAutoScroll ∧
      s2.mViewWindowValues.Version = s.mViewWindowValues.Version ∧
      (s.ProcessEasyAction aRequestId aRowRequest aSelectionRequest
          aHintsRequest).mViewWindowValues.CurrentRow = s2.mViewWindowValues.CurrentRow ∧
      (s.ProcessEasyAction aRequestId aRowRequest aSelectionRequest
          aHintsRequest).mRequestedRowRangeVisible
        = (s2.SetRowWindow (s2.easyRowRequest aRowRequest aHintsRequest)).2.mRequestedRowRangeVisible ∧
      (s.ProcessEasyAction aRequestId aRowRequest aSelectionRequest
          aHintsRequest).mRequestedRowRange
        = (s2.SetRowWindow (s2.easyRowRequest aRowRequest aHintsRequest)).2.mRequestedRowRange := by
  refine ⟨(({ s with mViewWindowValues := { s.mViewWindowValues with RequestId := aRequestId } }
    : SyncSqlCache).SetSelection aSelectionRequest).2, ?_, ?_, ?_, ?_, ?_⟩
  · exact (SetSelection_fields _ _).1
  · exact (SetSelection_fields _ _).2.1
  · unfold ProcessEasyAction
    simp only [hallowed, if_true]
    split
    · simp only [UpdateViewWindowValues, ViewWindowValues.SetData]
      exact congrArg ViewWindowValues.CurrentRow (SetRowWindow_view _ _)
    · exact congrArg ViewWindowValues.CurrentRow (SetRowWindow_view _ _)
  · unfold ProcessEasyAction
    simp only [hallowed, if_true]
    split <;> rfl
  · unfold ProcessEasyAction
    simp only [hallowed, if_true]
    split <;> rfl

theorem ScrollToWithCorrection_bottom_part (r : RowRange) (t e : Bool) (htop : 0 ≤ r.Top) :
    r.ScrollToWithCorrection r.Bottom t false e ≠ r := by
  by_cases h1 : r.Bottom < r.Top
  · intro h
    have hT := congrArg RowRange.Top h
    have hB := congrArg RowRange.Bottom h
    simp only [RowRange.ScrollToWithCorrection, if_pos h1] at hT hB
    have h2 : r.Bottom = r.Bottom + (r.Bottom - r.Top) := by
      by_contra hne
      simp [hne] at hB
      omega
    omega
  · intro h
    have hT := congrArg RowRange.Top h
    simp only [RowRange.ScrollToWithCorrection, if_neg h1, lt_irrefl, gt_iff_lt, if_false,
      add_zero, decide_True, Bool.not_false, Bool.and_self, if_true] at hT
    have : max 0 (r.Top + 1) = r.Top + 1 := max_eq_right (by omega)
    omega

theorem ScrollToWithCorrection_bottom_part_eq (r : RowRange) (t e : Bool) (htop : 0 ≤ r.Top)
    (hle : r.Top ≤ r.Bottom) :
    r.ScrollToWithCorrection r.Bottom t false e
      = { Top := r.Top + 1, Bottom := if e = true then r.Bottom else r.Bottom + 1 } := by
  have h1 : ¬ r.Bottom < r.Top := by omega
  have hm : max 0 (r.Top + 1) = r.Top + 1 := max_eq_right (by omega)
  simp only [RowRange.ScrollToWithCorrection, if_neg h1, lt_irrefl, gt_iff_lt, if_false,
    add_zero, decide_True, Bool.not_false, Bool.and_self, if_true, hm]
  cases e <;> simp

theorem SetRowWindow_count (s : SyncSqlCache) (aRowRequest : RowRequest)
    (h : s.mIsAutoScroll = true ∨ aRowRequest.Version = s.mViewWindowValues.Version) :
    (s.SetRowWindow aRowRequest).2.GetRecordsCount = s.GetRecordsCount := by
  have ht : (if !s.mIsAutoScroll then s.TransformRowRange aRowRequest else (s, none))
      = (s, none) := by
    rcases h with h | h
    · simp [h]
    · have : s.GetRowTransformation aRowRequest.Version = none := by
        simp [GetRowTransformation, h]
      simp [TransformRowRange, this]
  unfold SetRowWindow
  simp only [ht, Option.getD_none]
  split <;> rfl

/-- The state of the easy operation after the selection has been applied,
with the record count the operation ends with. -/
theorem ProcessEasyAction_ensure (s : SyncSqlCache) (aRequestId : Int) (aRowRequest : RowRequest)
    (aSelectionRequest : SelectionRequest) (aHintsRequest : HintsRequest)
    (hallowed : s.mIsSelectionAllowed = true) :
    ∃ s2 : SyncSqlCache,
      s2.mIsAutoScroll = s.mIsAutoScroll ∧
      s2.mViewWindowValues.Version = s.mViewWindowValues.Version ∧
      (s.ProcessEasyAction aRequestId aRowRequest aSelectionRequest
          aHintsRequest).mViewWindowValues.CurrentRow = s2.mViewWindowValues.CurrentRow ∧
      (s.ProcessEasyAction aRequestId aRowRequest aSelectionRequest
          aHintsRequest).mRequestedRowRangeVisible
        = (s2.SetRowWindow (s2.easyRowRequest aRowRequest aHintsRequest)).2.mRequestedRowRangeVisible ∧
      (s.ProcessEasyAction aRequestId aRowRequest aSelectionRequest
          aHintsRequest).mRequestedRowRange
        = (s2.SetRowWindow (s2.easyRowRequest aRowRequest aHintsRequest)).2.mRequestedRowRange ∧
      (s.ProcessEasyAction aRequestId aRowRequest aSelectionRequest
          aHintsRequest).GetRecordsCount
        = (s2.SetRowWindow (s2.easyRowRequest aRowRequest aHintsRequest)).2.GetRecordsCount := by
  refine ⟨(({ s with mViewWindowValues := { s.mViewWindowValues with RequestId := aRequestId } }
    : SyncSqlCache).SetSelection aSelectionRequest).2, ?_, ?_, ?_, ?_, ?_, ?_⟩
  · exact (SetSelection_fields _ _).1
  · exact (SetSelection_fields _ _).2.1
  · unfold ProcessEasyAction
    simp only [hallowed, if_true]
    split
    · simp only [UpdateViewWindowValues, ViewWindowValues.SetData]
      exact congrArg ViewWindowValues.CurrentRow (SetRowWindow_view _ _)
    · exact congrArg ViewWindowValues.CurrentRow (SetRowWindow_view _ _)
  · unfold ProcessEasyAction
    simp only [hallowed, if_true]
    split <;> rfl
  · unfold ProcessEasyAction
    simp only [hallowed, if_true]
    split <;> rfl
  · unfold ProcessEasyAction
    simp only [hallowed, if_true]
    split <;> rfl

/-- C15 (counterexample): the cache holds three records, the request shows
rows `0..1`, the selection makes row `1`, the bottom row of the visible
window, current, and the bottom row is hinted as partly visible.  The current
row lies inside the requested visible window, yet the back adopts the visible
window `1..2`. -/
theorem C15_current_on_partial_bottom_scrolls :
    (scenarioRowRequest.RowWindowVisible.Contains
        (loadedCache.ProcessEasyAction 7 scenarioRowRequest (selectRow 1)
          ensureVisiblePartBottom).mViewWindowValues.CurrentRow,
      (loadedCache.ProcessEasyAction 7 scenarioRowRequest (selectRow 1)
          ensureVisiblePartBottom).mRequestedRowRangeVisible,
      decide ((loadedCache.ProcessEasyAction 7 scenarioRowRequest (selectRow 1)
          ensureVisiblePartBottom).mRequestedRowRangeVisible
            = scenarioRowRequest.RowWindowVisible))
      = (true, { Top := 1, Bottom := 2 }, false) := by
  decide

/-- C15 (amended): for an easy operation with `ScrollHint = EnsureVisible`,
processed while selection is allowed, with auto-scroll on or a row request of
the current version, whose current row (after the selection request is
applied) lies inside the requested visible window (top not negative): the
visible window the back adopts equals the requested one exactly when the
current row is not the bottom row of that window or the bottom row is hinted
as fully visible.  When the current row is the bottom row and the bottom row
is hinted as partly visible, the adopted visible window is the requested one
shifted down by one row, `[Top + 1, Bottom + 1]`, and `[Top + 1, Bottom]` when
the current row is the last record (for a requested bottom below `IntMax`).
The row window adopted is the adopted visible window expanded by the window
offset (for an adopted visible bottom of at most `IntMax - 50`). -/
theorem C15_EnsureVisible_inside_keeps_window (s : SyncSqlCache) (aRequestId : Int)
    (aRowRequest : RowRequest) (aSelectionRequest : SelectionRequest)
    (aHintsRequest : HintsRequest)
    (hallowed : s.mIsSelectionAllowed = true)
    (hhint : aHintsRequest.ScrollHint = ScrollHintType.EnsureVisible)
    (hver : s.mIsAutoScroll = true ∨ aRowRequest.Version = s.mViewWindowValues.Version)
    (htop : 0 ≤ aRowRequest.RowWindowVisible.Top)
    (hin : aRowRequest.RowWindowVisible.Contains
      (s.ProcessEasyAction aRequestId aRowRequest aSelectionRequest
        aHintsRequest).mViewWindowValues.CurrentRow = true) :
    ((s.ProcessEasyAction aRequestId aRowRequest aSelectionRequest
          aHintsRequest).mRequestedRowRangeVisible = aRowRequest.RowWindowVisible ↔
      ((s.ProcessEasyAction aRequestId aRowRequest aSelectionRequest
          aHintsRequest).mViewWindowValues.CurrentRow ≠ aRowRequest.RowWindowVisible.Bottom ∨
        aHintsRequest.BottomRowHint = EdgeRowHintType.Full)) ∧
    ((s.ProcessEasyAction aRequestId aRowRequest aSelectionRequest
          aHintsRequest).mViewWindowValues.CurrentRow = aRowRequest.RowWindowVisible.Bottom →
      aHintsRequest.BottomRowHint = EdgeRowHintType.Part →
      aRowRequest.RowWindowVisible.Bottom < IntMax →
      (s.ProcessEasyAction aRequestId aRowRequest aSelectionRequest
          aHintsRequest).mRequestedRowRangeVisible
        = { Top := aRowRequest.RowWindowVisible.Top + 1,
            Bottom :=
              if (s.ProcessEasyAction aRequestId aRowRequest aSelectionRequest
                    aHintsRequest).mViewWindowValues.CurrentRow
                  = (s.ProcessEasyAction aRequestId aRowRequest aSelectionRequest
                    aHintsRequest).GetRecordsCount - 1
              then aRowRequest.RowWindowVisible.Bottom
              else aRowRequest.RowWindowVisible.Bottom + 1 }) ∧
    ((s.ProcessEasyAction aRequestId aRowRequest aSelectionRequest
          aHintsRequest).mRequestedRowRangeVisible.Bottom ≤ IntMax - RowWindowOffset →
      (s.ProcessEasyAction aRequestId aRowRequest aSelectionRequest
          aHintsRequest).mRequestedRowRange
        = (s.ProcessEasyAction aRequestId aRowRequest aSelectionRequest
            aHintsRequest).mRequestedRowRangeVisible.Expand RowWindowOffset) := by
  obtain ⟨s2, hauto, hv, hcur, hvis, hwin, hcnt⟩ :=
    ProcessEasyAction_ensure s aRequestId aRowRequest aSelectionRequest aHintsRequest hallowed
  have hrq : s2.easyRowRequest aRowRequest aHintsRequest
      = correctVisibleRange aRowRequest aHintsRequest s2.mViewWindowValues.CurrentRow
          (decide (s2.mViewWindowValues.CurrentRow = s2.GetRecordsCount - 1)) := by
    simp [easyRowRequest, hhint]
  have hver2 : s2.mIsAutoScroll = true ∨
      (s2.easyRowRequest aRowRequest aHintsRequest).Version = s2.mViewWindowValues.Version := by
    rcases hver with h | h
    · exact Or.inl (hauto.trans h)
    · refine Or.inr ?_
      rw [hrq, hv, ← h]
      rfl
  have hset := SetRowWindow_visible s2 _ hver2
  have hsc := SetRowWindow_count s2 _ hver2
  rw [hcur] at hin ⊢
  rw [hcnt, hsc, hvis, hwin, hset.1, hset.2, hrq]
  simp only [correctVisibleRange]
  have hc : aRowRequest.RowWindowVisible.Top ≤ s2.mViewWindowValues.CurrentRow ∧
      s2.mViewWindowValues.CurrentRow ≤ aRowRequest.RowWindowVisible.Bottom := by
    simpa [RowRange.Contains] using hin
  refine ⟨?_, ?_, fun _ => trivial⟩
  · constructor
    · intro heq
      by_contra hcon
      simp only [not_or, not_not] at hcon
      have hpart : decide (aHintsRequest.BottomRowHint = EdgeRowHintType.Full) = false := by
        cases hh : aHintsRequest.BottomRowHint with
        | Part => rfl
        | Full => exact absurd hh hcon.2
      rw [hcon.1, hpart] at heq
      exact ScrollToWithCorrection_bottom_part _ _ _ htop heq
    · intro hb
      apply ScrollToWithCorrection_inside _ _ _ _ _ hin htop
      rcases hb with hb | hb
      · exact Or.inl hb
      · exact Or.inr (by simp [hb])
  · intro hbot hpart _
    have hp : decide (aHintsRequest.BottomRowHint = EdgeRowHintType.Full) = false := by
      rw [hpart]; rfl
    rw [hp, hbot, ScrollToWithCorrection_bottom_part_eq _ _ _ htop (by omega)]
    simp

/-- Witness of C15 on the cache of three records with the visible rows `0..1`
requested and a partly visible bottom row: with row `0` current the visible
window is adopted as requested; with row `1` current, the bottom row, the
window adopted is `1..2`. -/
theorem C15_EnsureVisible_inside_keeps_window_witness :
    (loadedCache.ProcessEasyAction 7 scenarioRowRequest (selectRow 0)
        ensureVisiblePartBottom).mRequestedRowRangeVisible = { Top := 0, Bottom := 1 } ∧
    (loadedCache.ProcessEasyAction 7 scenarioRowRequest (selectRow 1)
        ensureVisiblePartBottom).mRequestedRowRangeVisible = { Top := 1, Bottom := 2 } :=
  ⟨((C15_EnsureVisible_inside_keeps_window loadedCache 7 scenarioRowRequest (selectRow 0)
      ensureVisiblePartBottom (by decide) (by decide) (by decide) (by decide)
      (by decide)).1).2 (by decide),
    ((C15_EnsureVisible_inside_keeps_window loadedCache 7 scenarioRowRequest (selectRow 1)
      ensureVisiblePartBottom (by decide) (by decide) (by decide) (by decide)
      (by decide)).2.1 (by decide) (by decide) (by decide)).trans (by decide)⟩

end

section

open SyncSqlCache

/-! ## Normal form of a transformed selection -/

theorem setEmplace_sorted (l : List Int) (x : Int) (h : l.Pairwise (· < ·)) :
    (setEmplace l x).Pairwise (· < ·) := by
  induction l with
  | nil => simp [setEmplace]
  | cons y t ih =>
    have ht := (List.pairwise_cons.1 h)
    unfold setEmplace
    by_cases h1 : x < y
    · simp only [h1, if_true]
      refine List.pairwise_cons.2 ⟨?_, h⟩
      intro z hz
      rcases List.mem_cons.1 hz with hz | hz
      · rw [hz]; exact h1
      · exact lt_trans h1 (ht.1 z hz)
    · by_cases h2 : x = y
      · simp only [h1, h2, if_false, if_true]
        rw [h2] at h1
        simp only [h1, if_false]
        exact h
      · simp only [h1, h2, if_false]
        refine List.pairwise_cons.2 ⟨?_, ih ht.2⟩
        intro z hz
        rcases (mem_setEmplace t x z).1 hz with hz | hz
        · rw [hz]; omega
        · exact ht.1 z hz

theorem foldl_invariant {α β : Type} (P : α → Prop) (f : α → β → α)
    (hf : ∀ a b, P a → P (f a b)) (l : List β) : ∀ a, P a → P (l.foldl f a) := by
  induction l with
  | nil => intro a ha; exact ha
  | cons b t ih => intro a ha; exact ih _ (hf a b ha)

/-- The rows collected by the first loop of `TransformSelection` are strictly
increasing and not negative. -/
theorem transformRows_sorted (Old New : IdsInfo) (sel : List RowRange) :
    (SyncSqlCache.transformRows Old sel New).1.Pairwise (· < ·) ∧
    ∀ x ∈ (SyncSqlCache.transformRows Old sel New).1, 0 ≤ x := by
  unfold SyncSqlCache.transformRows
  apply foldl_invariant
    (fun (a : List Int × IdsInfo) => a.1.Pairwise (· < ·) ∧ ∀ x ∈ a.1, 0 ≤ x)
  · intro a r ha
    apply foldl_invariant
      (fun (a : List Int × IdsInfo) => a.1.Pairwise (· < ·) ∧ ∀ x ∈ a.1, 0 ≤ x)
    · intro a i ha
      simp only
      split
      · rename_i hge
        refine ⟨setEmplace_sorted _ _ ha.1, ?_⟩
        intro x hx
        rcases (mem_setEmplace _ _ _).1 hx with hx | hx
        · rw [hx]; exact hge
        · exact ha.2 x hx
      · exact ha
    · exact ha
  · simp

theorem coalesceStep_normal (acc : List RowRange) (r : Int) (hr : 0 ≤ r)
    (hv : ∀ x ∈ acc, 0 ≤ x.Top ∧ x.Top ≤ x.Bottom)
    (hp : acc.Pairwise (fun a b => a.Bottom + 1 < b.Top))
    (hlt : ∀ x ∈ acc, x.Bottom < r) :
    (∀ x ∈ coalesceStep acc r, 0 ≤ x.Top ∧ x.Top ≤ x.Bottom) ∧
    (coalesceStep acc r).Pairwise (fun a b => a.Bottom + 1 < b.Top) ∧
    (∀ x ∈ coalesceStep acc r, x.Bottom ≤ r) := by
  unfold coalesceStep
  cases hl : acc.getLast? with
  | none =>
    have : acc = [] := List.getLast?_eq_none_iff.1 hl
    subst this
    simp [hr]
  | some b =>
    have hacc : acc.dropLast ++ [b] = acc := List.dropLast_append_getLast? b hl
    have hbm : b ∈ acc := by rw [← hacc]; simp
    have hdm : ∀ x ∈ acc.dropLast, x ∈ acc := fun x hx => by
      rw [← hacc]; exact List.mem_append_left _ hx
    have hp2 : acc.dropLast.Pairwise (fun a b => a.Bottom + 1 < b.Top) ∧
        ∀ a ∈ acc.dropLast, a.Bottom + 1 < b.Top := by
      rw [← hacc] at hp
      have := List.pairwise_append.1 hp
      exact ⟨this.1, fun a ha => this.2.2 a ha b (by simp)⟩
    by_cases hbr : b.Bottom = r - 1
    · simp only [hbr, if_true]
      refine ⟨?_, ?_, ?_⟩
      · intro x hx
        rcases List.mem_append.1 hx with hx | hx
        · exact hv x (hdm x hx)
        · have : x = { b with Bottom := r } := by simpa using hx
          subst this
          have := hv b hbm
          simp only
          omega
      · refine List.pairwise_append.2 ⟨hp2.1, by simp, ?_⟩
        intro a ha x hx
        have : x = { b with Bottom := r } := by simpa using hx
        subst this
        exact hp2.2 a ha
      · intro x hx
        rcases List.mem_append.1 hx with hx | hx
        · exact le_of_lt (hlt x (hdm x hx))
        · have : x = { b with Bottom := r } := by simpa using hx
          subst this
          simp
    · simp only [hbr, if_false]
      refine ⟨?_, ?_, ?_⟩
      · intro x hx
        rcases List.mem_append.1 hx with hx | hx
        · exact hv x hx
        · have : x = { Top := r, Bottom := r } := by simpa using hx
          subst this
          simp [hr]
      · refine List.pairwise_append.2 ⟨hp, by simp, ?_⟩
        intro a ha x hx
        have : x = { Top := r, Bottom := r } := by simpa using hx
        subst this
        simp only
        by_cases hab : a = b
        · subst hab
          have := hlt a ha
          omega
        · have hmem : a ∈ acc.dropLast := by
            rw [← hacc] at ha
            rcases List.mem_append.1 ha with ha | ha
            · exact ha
            · exact absurd (by simpa using ha) hab
          have h1 := hp2.2 a hmem
          have h2 := hv b hbm
          have h3 := hlt b hbm
          omega
      · intro x hx
        rcases List.mem_append.1 hx with hx | hx
        · exact le_of_lt (hlt x hx)
        · have : x = { Top := r, Bottom := r } := by simpa using hx
          subst this
          simp

theorem coalesce_normal (rows : List Int) :
    ∀ acc : List RowRange, rows.Pairwise (· < ·) → (∀ x ∈ rows, 0 ≤ x) →
      (∀ x ∈ acc, 0 ≤ x.Top ∧ x.Top ≤ x.Bottom) →
      acc.Pairwise (fun a b => a.Bottom + 1 < b.Top) →
      (∀ x ∈ acc, ∀ r ∈ rows, x.Bottom < r) →
      (∀ x ∈ rows.foldl coalesceStep acc, 0 ≤ x.Top ∧ x.Top ≤ x.Bottom) ∧
      (rows.foldl coalesceStep acc).Pairwise (fun a b => a.Bottom + 1 < b.Top) := by
  induction rows with
  | nil => intro acc _ _ hv hp _; exact ⟨hv, hp⟩
  | cons r t ih =>
    intro acc hs hn hv hp hlt
    have hs2 := List.pairwise_cons.1 hs
    have hstep := coalesceStep_normal acc r (hn r (List.mem_cons_self _ _)) hv hp
      (fun x hx => hlt x hx r (List.mem_cons_self _ _))
    simp only [List.foldl_cons]
    apply ih _ hs2.2 (fun x hx => hn x (List.mem_cons_of_mem _ hx)) hstep.1 hstep.2.1
    intro x hx q hq
    exact lt_of_le_of_lt (hstep.2.2 x hx) (hs2.1 q hq)

/-- C16: whenever `TransformSelection` applies a transformation, the resulting
selection is in normal form: every range has `0 ≤ Top ≤ Bottom`, consecutive
ranges are separated by at least one unselected row
(`next.Top > previous.Bottom + 1`), the ranges are sorted by strictly
increasing `Top`, and any later range starts more than one row after any
earlier range ends (so the ranges are pairwise disjoint and maximal). -/
theorem C16_TransformSelection_normal_form (s : SyncSqlCache) (aVersion : Int)
    (sel : List RowRange) (cur : Int) (Old New : IdsInfo)
    (hT : s.GetRowTransformation aVersion = some (Old, New)) :
    (∀ r ∈ (s.TransformSelection aVersion sel cur).2.1, 0 ≤ r.Top ∧ r.Top ≤ r.Bottom) ∧
    (s.TransformSelection aVersion sel cur).2.1.Chain' (fun a b => b.Top > a.Bottom + 1) ∧
    (s.TransformSelection aVersion sel cur).2.1.Pairwise (fun a b => a.Top < b.Top) ∧
    (s.TransformSelection aVersion sel cur).2.1.Pairwise (fun a b => a.Bottom + 1 < b.Top) := by
  have hsel : (s.TransformSelection aVersion sel cur).2.1
      = (SyncSqlCache.transformRows Old sel
          (RowTransformator.Transform Old New cur).2).1.foldl coalesceStep [] := by
    simp only [TransformSelection, hT]
  rw [hsel]
  have hrows := transformRows_sorted Old (RowTransformator.Transform Old New cur).2 sel
  have hn := coalesce_normal _ [] hrows.1 hrows.2 (by simp) (by simp) (by simp)
  refine ⟨hn.1, ?_, ?_, hn.2⟩
  · exact (hn.2.imp (fun h => h)).chain'
  · refine hn.2.imp_of_mem ?_
    intro a b ha _ hab
    have := hn.1 a ha
    omega

theorem C16_TransformSelection_normal_form_witness :
    (∀ r ∈ (resortCache.TransformSelection 1 [{ Top := 0, Bottom := 0 }, { Top := 2, Bottom := 2 }]
        0).2.1, 0 ≤ r.Top ∧ r.Top ≤ r.Bottom) ∧
    (resortCache.TransformSelection 1 [{ Top := 0, Bottom := 0 }, { Top := 2, Bottom := 2 }]
        0).2.1 = [{ Top := 0, Bottom := 0 }, { Top := 2, Bottom := 2 }] :=
  ⟨(C16_TransformSelection_normal_form resortCache 1
      [{ Top := 0, Bottom := 0 }, { Top := 2, Bottom := 2 }] 0
      { Ids := [1, 2, 3] } { Ids := [3, 2, 1] } (by decide)).1, by decide⟩

end

section

open AsyncSqlTableModelBase

/-! ## Correction of the current row of a selection request -/

/-- For a valid range the distance is realised by the nearest row, which lies
in the range, and no row of the range is nearer. -/
theorem Distance_NearestRow (r : RowRange) (cur : Int) (hv : r.IsValid = true) :
    r.Contains (r.NearestRow cur) = true ∧
    |r.NearestRow cur - cur| = r.Distance cur ∧
    (∀ p, r.Contains p = true → r.Distance cur ≤ |p - cur|) ∧
    (r.Contains cur = true → r.NearestRow cur = cur) := by
  have hv2 : 0 ≤ r.Top ∧ 0 ≤ r.Bottom ∧ r.Top ≤ r.Bottom := by
    simpa [RowRange.IsValid, and_assoc] using hv
  by_cases hc : r.Contains cur = true
  · have hd : r.Distance cur = 0 := by simp [RowRange.Distance, hv, hc]
    have hn : r.NearestRow cur = cur := by simp [RowRange.NearestRow, hc]
    rw [hd, hn]
    exact ⟨hc, by simp, fun p _ => abs_nonneg _, fun _ => rfl⟩
  · have hc2 : ¬ (r.Top ≤ cur ∧ cur ≤ r.Bottom) := by
      simpa [RowRange.Contains] using hc
    have hcf : r.Contains cur = false := by simpa using hc
    by_cases h1 : cur < r.Top
    · have hd : r.Distance cur = r.Top - cur := by simp [RowRange.Distance, hv, hcf, h1]
      have hn : r.NearestRow cur = r.Top := by simp [RowRange.NearestRow, hv, hcf, h1]
      rw [hd, hn]
      refine ⟨by simp [RowRange.Contains]; omega, ?_, ?_, fun h => absurd h hc⟩
      · rw [abs_of_nonneg (by omega)]
      · intro p hp
        have hp2 : r.Top ≤ p ∧ p ≤ r.Bottom := by simpa [RowRange.Contains] using hp
        rw [abs_of_nonneg (by omega)]
        omega
    · have h2 : cur > r.Bottom := by omega
      have hd : r.Distance cur = cur - r.Bottom := by
        simp [RowRange.Distance, hv, hcf, h1, h2]
      have hn : r.NearestRow cur = r.Bottom := by
        simp [RowRange.NearestRow, hv, hcf, h1, h2]
      rw [hd, hn]
      refine ⟨by simp [RowRange.Contains]; omega, ?_, ?_, fun h => absurd h hc⟩
      · rw [abs_of_nonpos (by omega)]
        omega
      · intro p hp
        have hp2 : r.Top ≤ p ∧ p ≤ r.Bottom := by simpa [RowRange.Contains] using hp
        rw [abs_of_nonpos (by omega)]
        omega

/-- Row numbers of a table with fewer than `IntMax` rows keep every distance
below `IntMax`: the requested row is `-1` or a row number, the range holds row
numbers. -/
theorem Distance_lt_IntMax (r : RowRange) (cur : Int) (hv : r.IsValid = true)
    (hcur : -1 ≤ cur ∧ cur ≤ IntMax - 1) (hr : r.Bottom ≤ IntMax - 2) :
    r.Distance cur < IntMax := by
  have hv2 : 0 ≤ r.Top ∧ 0 ≤ r.Bottom ∧ r.Top ≤ r.Bottom := by
    simpa [RowRange.IsValid, and_assoc] using hv
  have hmax : IntMax = 2147483647 := rfl
  unfold RowRange.Distance
  simp only [hv, Bool.not_true, Bool.false_eq_true, if_false]
  split
  · omega
  · split
    · omega
    · split
      · omega
      · omega

/-- Invariant of the loop of `CorrectSelection` after the ranges `pre`. -/
theorem CorrectSelection_loop (cur : Int) (l : List RowRange) :
    ∀ (pre : List RowRange) (acc : Int × Int),
      (∀ r ∈ l, r.IsValid = true → r.Distance cur < IntMax) →
      ((acc.2 = IntMax ∧ acc.1 = cur ∧ ∀ r ∈ pre, r.IsValid = false) ∨
        (acc.2 < IntMax ∧ (∃ r ∈ pre, r.IsValid = true ∧ r.Contains acc.1 = true) ∧
          |acc.1 - cur| = acc.2 ∧
          ∀ r ∈ pre, r.IsValid = true → ∀ p, r.Contains p = true → acc.2 ≤ |p - cur|)) →
      (((l.foldl (fun (acc : Int × Int) range =>
            if range.Distance cur < acc.2 then (range.NearestRow cur, range.Distance cur)
            else acc) acc).2 = IntMax ∧
          (l.foldl (fun (acc : Int × Int) range =>
            if range.Distance cur < acc.2 then (range.NearestRow cur, range.Distance cur)
            else acc) acc).1 = cur ∧ ∀ r ∈ pre ++ l, r.IsValid = false) ∨
        ((l.foldl (fun (acc : Int × Int) range =>
            if range.Distance cur < acc.2 then (range.NearestRow cur, range.Distance cur)
            else acc) acc).2 < IntMax ∧
          (∃ r ∈ pre ++ l, r.IsValid = true ∧
            r.Contains (l.foldl (fun (acc : Int × Int) range =>
              if range.Distance cur < acc.2 then (range.NearestRow cur, range.Distance cur)
              else acc) acc).1 = true) ∧
          |(l.foldl (fun (acc : Int × Int) range =>
              if range.Distance cur < acc.2 then (range.NearestRow cur, range.Distance cur)
              else acc) acc).1 - cur|
            = (l.foldl (fun (acc : Int × Int) range =>
              if range.Distance cur < acc.2 then (range.NearestRow cur, range.Distance cur)
              else acc) acc).2 ∧
          ∀ r ∈ pre ++ l, r.IsValid = true → ∀ p, r.Contains p = true →
            (l.foldl (fun (acc : Int × Int) range =>
              if range.Distance cur < acc.2 then (range.NearestRow cur, range.Distance cur)
              else acc) acc).2 ≤ |p - cur|)) := by
  induction l with
  | nil => intro pre acc _ h; simpa using h
  | cons r t ih =>
    intro pre acc hb hinv
    have hb2 : ∀ r ∈ t, r.IsValid = true → r.Distance cur < IntMax :=
      fun x hx => hb x (List.mem_cons_of_mem _ hx)
    have key := ih (pre ++ [r])
      (if r.Distance cur < acc.2 then (r.NearestRow cur, r.Distance cur) else acc) hb2
    simp only [List.foldl_cons]
    have happ : pre ++ r :: t = (pre ++ [r]) ++ t := by simp
    rw [happ]
    apply key
    by_cases hv : r.IsValid = true
    · have hd := hb r (List.mem_cons_self _ _) hv
      have hn := Distance_NearestRow r cur hv
      by_cases hlt : r.Distance cur < acc.2
      · simp only [hlt, if_true]
        right
        refine ⟨hd, ⟨r, by simp, hv, hn.1⟩, hn.2.1, ?_⟩
        intro x hx hxv p hp
        rcases List.mem_append.1 hx with hx | hx
        · rcases hinv with h | h
          · exact absurd hxv (by simp [h.2.2 x hx])
          · exact le_trans (le_of_lt hlt) (h.2.2.2 x hx hxv p hp)
        · have : x = r := by simpa using hx
          subst this
          exact hn.2.2.1 p hp
      · simp only [hlt, if_false]
        rcases hinv with h | h
        · exact absurd (h.1 ▸ hd) hlt
        · right
          refine ⟨h.1, ?_, h.2.2.1, ?_⟩
          · obtain ⟨x, hx, hx2⟩ := h.2.1
            exact ⟨x, List.mem_append_left _ hx, hx2⟩
          · intro x hx hxv p hp
            rcases List.mem_append.1 hx with hx | hx
            · exact h.2.2.2 x hx hxv p hp
            · have : x = r := by simpa using hx
              subst this
              exact le_trans (not_lt.1 hlt) (hn.2.2.1 p hp)
    · have hvf : r.IsValid = false := by simpa using hv
      have hd : r.Distance cur = IntMax := by simp [RowRange.Distance, hvf]
      have hle : acc.2 ≤ IntMax := by
        rcases hinv with h | h
        · exact le_of_eq h.1
        · exact le_of_lt h.1
      have hlt : ¬ r.Distance cur < acc.2 := by rw [hd]; exact not_lt.2 hle
      simp only [hlt, if_false]
      rcases hinv with h | h
      · left
        refine ⟨h.1, h.2.1, ?_⟩
        intro x hx
        rcases List.mem_append.1 hx with hx | hx
        · exact h.2.2 x hx
        · have : x = r := by simpa using hx
          subst this
          exact hvf
      · right
        refine ⟨h.1, ?_, h.2.2.1, ?_⟩
        · obtain ⟨x, hx, hx2⟩ := h.2.1
          exact ⟨x, List.mem_append_left _ hx, hx2⟩
        · intro x hx hxv p hp
          rcases List.mem_append.1 hx with hx | hx
          · exact h.2.2.2 x hx hxv p hp
          · have : x = r := by simpa using hx
            subst this
            exact absurd hxv hv

/-- C17: `CorrectSelection`, for a selection with at least one valid range,
returns the selection unchanged and a current row that lies inside one of the
valid ranges and is at minimal distance from the requested row among all rows
of all valid ranges (the requested row itself when it is selected); for a
selection with no valid range it returns the empty selection and row `-1`.
The distance from the requested row to every valid range is assumed to be
below the `int` maximum, the value the code uses for "no range". -/
theorem C17_CorrectSelection_nearest_row (aSelection : List RowRange) (aCurrentRow : Int)
    (hbound : ∀ r ∈ aSelection, r.IsValid = true → r.Distance aCurrentRow < IntMax) :
    ((∃ r ∈ aSelection, r.IsValid = true) →
      (CorrectSelection aSelection aCurrentRow).1 = aSelection ∧
      (∃ r ∈ aSelection, r.IsValid = true ∧
        r.Contains (CorrectSelection aSelection aCurrentRow).2 = true) ∧
      (∀ r ∈ aSelection, r.IsValid = true → ∀ p, r.Contains p = true →
        |(CorrectSelection aSelection aCurrentRow).2 - aCurrentRow| ≤ |p - aCurrentRow|) ∧
      ((∃ r ∈ aSelection, r.IsValid = true ∧ r.Contains aCurrentRow = true) →
        (CorrectSelection aSelection aCurrentRow).2 = aCurrentRow)) ∧
    ((∀ r ∈ aSelection, r.IsValid = false) →
      CorrectSelection aSelection aCurrentRow = ([], -1)) := by
  have hloop := CorrectSelection_loop aCurrentRow aSelection [] (aCurrentRow, IntMax) hbound
    (Or.inl ⟨rfl, rfl, by simp⟩)
  simp only [List.nil_append] at hloop
  unfold CorrectSelection
  simp only
  generalize aSelection.foldl (fun (acc : Int × Int) range =>
      if range.Distance aCurrentRow < acc.2 then
        (range.NearestRow aCurrentRow, range.Distance aCurrentRow)
      else acc) (aCurrentRow, IntMax) = res at hloop ⊢
  constructor
  · rintro ⟨r, hr, hrv⟩
    rcases hloop with h | h
    · exact absurd hrv (by simp [h.2.2 r hr])
    · have hne : ¬ res.2 = IntMax := ne_of_lt h.1
      simp only [hne, if_false]
      refine ⟨trivial, h.2.1, ?_, ?_⟩
      · intro x hx hxv p hp
        rw [h.2.2.1]
        exact h.2.2.2 x hx hxv p hp
      · rintro ⟨x, hx, hxv, hxc⟩
        have h0 := h.2.2.2 x hx hxv aCurrentRow hxc
        rw [← h.2.2.1] at h0
        simp only [sub_self, abs_zero] at h0
        have := abs_nonneg (res.1 - aCurrentRow)
        have h1 : |res.1 - aCurrentRow| = 0 := le_antisymm h0 this
        have h2 := abs_eq_zero.1 h1
        omega
  · intro hall
    rcases hloop with h | h
    · simp [h.1]
    · obtain ⟨x, hx, hxv, _⟩ := h.2.1
      exact absurd hxv (by simp [hall x hx])

theorem C17_CorrectSelection_nearest_row_witness :
    (CorrectSelection [{ Top := 2, Bottom := 4 }, { Top := 8, Bottom := 9 }, {}] 6).1
        = [{ Top := 2, Bottom := 4 }, { Top := 8, Bottom := 9 }, {}] ∧
    CorrectSelection [{ Top := 2, Bottom := 4 }, { Top := 8, Bottom := 9 }, {}] 6
        = ([{ Top := 2, Bottom := 4 }, { Top := 8, Bottom := 9 }, {}], 4) :=
  ⟨((C17_CorrectSelection_nearest_row
      [{ Top := 2, Bottom := 4 }, { Top := 8, Bottom := 9 }, {}] 6 (by decide)).1
      ⟨{ Top := 2, Bottom := 4 }, by decide, by decide⟩).1, by decide⟩

end

section

open AsyncSqlTableModelBase

/-! ## Row-level diffs of the front snapshot -/

theorem removeRowsLoop_count (n : Int) (k : Nat) :
    ∀ v : ViewWindowValues, (ViewWindowValues.removeRowsLoop n k v).RecordsCount
      = v.RecordsCount := by
  induction k with
  | zero => intro v; rfl
  | succ k ih =>
    intro v
    unfold ViewWindowValues.removeRowsLoop
    split
    · rw [ih]; rfl
    · rfl

/-- The number of iterations given to the loop of `RemoveRows` ends it: the
loop is left with its condition false. -/
theorem removeRowsLoop_exit (n : Int) (k : Nat) :
    ∀ v : ViewWindowValues, (v.Rows.Bottom - n + 1).toNat ≤ k →
      (ViewWindowValues.removeRowsLoop n k v).Rows.Bottom < n := by
  induction k with
  | zero =>
    intro v h
    unfold ViewWindowValues.removeRowsLoop
    omega
  | succ k ih =>
    intro v h
    unfold ViewWindowValues.removeRowsLoop
    split
    · apply ih
      simp only [ViewWindowValues.removeRowsStep]
      omega
    · omega

theorem RemoveRows_count (v : ViewWindowValues) (n : Int) :
    (v.RemoveRows n).RecordsCount = min v.RecordsCount (max 0 n) := by
  unfold ViewWindowValues.RemoveRows
  simp only
  split <;> simp [removeRowsLoop_count]

theorem removeRowsLoop_selectionPart (n : Int) (k : Nat) :
    ∀ v : ViewWindowValues, selectionPart (ViewWindowValues.removeRowsLoop n k v)
      = selectionPart v := by
  induction k with
  | zero => intro v; rfl
  | succ k ih =>
    intro v
    unfold ViewWindowValues.removeRowsLoop
    split
    · rw [ih]; rfl
    · rfl

theorem RemoveRows_selectionPart (v : ViewWindowValues) (n : Int) :
    selectionPart (v.RemoveRows n) = selectionPart v := by
  have h := removeRowsLoop_selectionPart (max 0 n) (v.Rows.Bottom - max 0 n + 1).toNat v
  unfold ViewWindowValues.RemoveRows
  simp only
  split <;> exact h

/-- The front after the three row-level diffs: rows, visible rows and data are
the received ones, the rest of the snapshot and the latch are untouched, and
the record count is the received count when neither count is negative. -/
theorem applyRowDiffs_fields (m : AsyncSqlTableModelBase) (aValues : ViewWindowValues) :
    (m.applyRowDiffs aValues).mViewData.Data = aValues.Data ∧
    (m.applyRowDiffs aValues).mViewData.Rows = aValues.Rows ∧
    (m.applyRowDiffs aValues).mViewData.RowsVisible = aValues.RowsVisible ∧
    selectionPart (m.applyRowDiffs aValues).mViewData = selectionPart m.mViewData ∧
    (m.applyRowDiffs aValues).mPendingViewWindowUpdate = m.mPendingViewWindowUpdate ∧
    (0 ≤ m.mViewData.RecordsCount → 0 ≤ aValues.RecordsCount →
      (m.applyRowDiffs aValues).mViewData.RecordsCount = aValues.RecordsCount) := by
  unfold AsyncSqlTableModelBase.applyRowDiffs
  simp only [AsyncSqlTableModelBase.emit]
  refine ⟨?_, ?_, ?_, ?_, ?_, ?_⟩
  · split <;> split <;> rfl
  · split <;> split <;> rfl
  · split <;> split <;> rfl
  · split <;> split <;>
      first
        | rfl
        | exact RemoveRows_selectionPart _ _
  · split <;> split <;> rfl
  · intro hold hn
    have hmax : max 0 aValues.RecordsCount = aValues.RecordsCount := max_eq_right hn
    have hadd : ∀ v : ViewWindowValues,
        (v.PrepareAddRows aValues.RecordsCount).IsValid
          = decide (0 ≤ v.RecordsCount ∧ v.RecordsCount < aValues.RecordsCount) := by
      intro v
      unfold ViewWindowValues.PrepareAddRows
      simp only [hmax]
      split
      · rename_i h
        have h' : v.RecordsCount < aValues.RecordsCount := h
        simp only [RowRange.IsValid, h', and_true]
        by_cases h0 : 0 ≤ v.RecordsCount
        · have h3 : aValues.RecordsCount - 1 ≥ 0 := by omega
          have h4 : aValues.RecordsCount - 1 ≥ v.RecordsCount := by omega
          simp [h0, h3, h4]
        · simp [h0]
      · rename_i h
        have h' : ¬ v.RecordsCount < aValues.RecordsCount := h
        simp [RowRange.IsValid, h']
    by_cases hlt : aValues.RecordsCount < m.mViewData.RecordsCount
    · have h1 : (m.mViewData.PrepareRemoveRows aValues.RecordsCount).IsValid = true := by
        simp only [ViewWindowValues.PrepareRemoveRows, hmax, hlt, if_true, RowRange.IsValid,
          Bool.and_eq_true, decide_eq_true_eq]
        omega
      have hc : ((m.mViewData.RemoveRows aValues.RecordsCount).ChangeRows aValues).RecordsCount
          = aValues.RecordsCount := by
        simp only [ViewWindowValues.ChangeRows, RemoveRows_count, hmax]
        omega
      have h2 : (((m.mViewData.RemoveRows aValues.RecordsCount).ChangeRows
          aValues).PrepareAddRows aValues.RecordsCount).IsValid = false := by
        rw [hadd, hc]
        simp
      simp only [h1, if_true, h2, Bool.false_eq_true, if_false]
      exact hc
    · have h1 : (m.mViewData.PrepareRemoveRows aValues.RecordsCount).IsValid = false := by
        simp [ViewWindowValues.PrepareRemoveRows, hmax, hlt, RowRange.IsValid]
      have hc : (m.mViewData.ChangeRows aValues).RecordsCount = m.mViewData.RecordsCount := rfl
      by_cases hgt : m.mViewData.RecordsCount < aValues.RecordsCount
      · have h2 : ((m.mViewData.ChangeRows aValues).PrepareAddRows
            aValues.RecordsCount).IsValid = true := by
          rw [hadd, hc]
          simp [hold, hgt]
        simp only [h1, Bool.false_eq_true, if_false, h2, if_true]
        simp only [ViewWindowValues.AddRows, ViewWindowValues.ChangeRows]
        omega
      · have h2 : ((m.mViewData.ChangeRows aValues).PrepareAddRows
            aValues.RecordsCount).IsValid = false := by
          rw [hadd, hc]
          simp [hgt]
        simp only [h1, Bool.false_eq_true, if_false, h2]
        simp only [ViewWindowValues.ChangeRows]
        omega

theorem blockUserAction_fields (m : AsyncSqlTableModelBase) (e : Event) :
    (m.blockUserAction e).mViewData = m.mViewData ∧
    (m.blockUserAction e).mPendingViewWindowUpdate = m.mPendingViewWindowUpdate := by
  unfold AsyncSqlTableModelBase.blockUserAction
  split <;> exact ⟨rfl, rfl⟩

theorem snapshot_eq_of_parts (x a : ViewWindowValues)
    (h1 : x.Data = a.Data) (h2 : x.Rows = a.Rows) (h3 : x.RowsVisible = a.RowsVisible)
    (h4 : selectionPart x = selectionPart a) :
    x = { a with RecordsCount := x.RecordsCount } := by
  cases x
  cases a
  simp only [selectionPart, Prod.mk.injEq] at h4
  simp only at h1 h2 h3
  simp only [ViewWindowValues.mk.injEq]
  tauto

theorem applySelectionAndVersion_fields (m : AsyncSqlTableModelBase)
    (aValues : ViewWindowValues) :
    (m.applySelectionAndVersion aValues).mPendingViewWindowUpdate
      = m.mPendingViewWindowUpdate ∧
    (m.applySelectionAndVersion aValues).mViewData.Data = m.mViewData.Data ∧
    (m.applySelectionAndVersion aValues).mViewData.Rows = m.mViewData.Rows ∧
    (m.applySelectionAndVersion aValues).mViewData.RowsVisible = m.mViewData.RowsVisible ∧
    (m.applySelectionAndVersion aValues).mViewData.RecordsCount = m.mViewData.RecordsCount ∧
    selectionPart (m.applySelectionAndVersion aValues).mViewData = selectionPart aValues := by
  unfold AsyncSqlTableModelBase.applySelectionAndVersion
  simp only [AsyncSqlTableModelBase.emit]
  refine ⟨?_, ?_, ?_, ?_, ?_, ?_⟩
  · split <;> split <;> split <;> rfl
  · split <;> split <;> split <;> rfl
  · split <;> split <;> split <;> rfl
  · split <;> split <;> split <;> rfl
  · split <;> split <;> split <;> rfl
  · simp only [selectionPart, Prod.mk.injEq]
    split <;> split <;> split <;> simp_all

/-- The snapshot of the front after the statements that apply a received
snapshot: every field is the received one; the record count is the received
count when neither count is negative. -/
theorem applyValues_viewData (m : AsyncSqlTableModelBase) (aValues : ViewWindowValues) :
    (m.applyValues aValues).mPendingViewWindowUpdate = false ∧
    (m.applyValues aValues).mViewData
      = { aValues with RecordsCount := (m.applyValues aValues).mViewData.RecordsCount } ∧
    (0 ≤ m.mViewData.RecordsCount → 0 ≤ aValues.RecordsCount →
      (m.applyValues aValues).mViewData.RecordsCount = aValues.RecordsCount) := by
  have hm2 : ∀ m2 : AsyncSqlTableModelBase, m2.mViewData = m.mViewData →
      m2.mPendingViewWindowUpdate = false →
      ((m2.applyRowDiffs aValues).applySelectionAndVersion aValues).mPendingViewWindowUpdate
          = false ∧
      ((m2.applyRowDiffs aValues).applySelectionAndVersion aValues).mViewData
          = { aValues with RecordsCount :=
              ((m2.applyRowDiffs aValues).applySelectionAndVersion
                aValues).mViewData.RecordsCount } ∧
      (0 ≤ m.mViewData.RecordsCount → 0 ≤ aValues.RecordsCount →
        ((m2.applyRowDiffs aValues).applySelectionAndVersion aValues).mViewData.RecordsCount
          = aValues.RecordsCount) := by
    intro m2 hv hl
    have hf := applyRowDiffs_fields m2 aValues
    rw [hv, hl] at hf
    obtain ⟨f1, f2, f3, _, f5, f6⟩ := hf
    obtain ⟨g1, g2, g3, g4, g5, g6⟩ :=
      applySelectionAndVersion_fields (m2.applyRowDiffs aValues) aValues
    refine ⟨g1.trans f5, ?_, ?_⟩
    · exact snapshot_eq_of_parts _ _ (g2.trans f1) (g3.trans f2) (g4.trans f3) g6
    · intro h1 h2
      exact g5.trans (f6 h1 h2)
  unfold AsyncSqlTableModelBase.applyValues
  simp only
  split
  · exact hm2 _ (by rw [(blockUserAction_fields _ _).1, (blockUserAction_fields _ _).1])
      (by rw [(blockUserAction_fields _ _).2, (blockUserAction_fields _ _).2])
  · exact hm2 _ (by rw [(blockUserAction_fields _ _).1]) (by rw [(blockUserAction_fields _ _).2])

/-- C19: tail diffs.  For a front snapshot with record count `old ≥ 0` and a
received count `n ≥ 0`: `PrepareRemoveRows(n)` is a valid range exactly when
`n < old` and is then `[n, old - 1]`; `PrepareAddRows(n)`, evaluated after
`RemoveRows(n)` (and `ChangeRows`), is a valid range exactly when `n > old`
and is then `[old, n - 1]`; at most one of the two is valid; after
`RemoveRows(n)`, `ChangeRows` and `AddRows(n)` the record count is `n`, as it
is after the front has applied a received snapshot of count `n`. -/
theorem C19_tail_diffs (v aNewValues : ViewWindowValues) (n : Int)
    (hold : 0 ≤ v.RecordsCount) (hn : 0 ≤ n) :
    ((v.PrepareRemoveRows n).IsValid = true ↔ n < v.RecordsCount) ∧
    (n < v.RecordsCount → v.PrepareRemoveRows n = { Top := n, Bottom := v.RecordsCount - 1 }) ∧
    ((((v.RemoveRows n).ChangeRows aNewValues).PrepareAddRows n).IsValid = true
      ↔ n > v.RecordsCount) ∧
    (n > v.RecordsCount → ((v.RemoveRows n).ChangeRows aNewValues).PrepareAddRows n
      = { Top := v.RecordsCount, Bottom := n - 1 }) ∧
    ¬ ((v.PrepareRemoveRows n).IsValid = true ∧
      (((v.RemoveRows n).ChangeRows aNewValues).PrepareAddRows n).IsValid = true) ∧
    (((v.RemoveRows n).ChangeRows aNewValues).AddRows n).RecordsCount = n ∧
    (∀ m : AsyncSqlTableModelBase, m.mViewData = v → aNewValues.RecordsCount = n →
      (m.applyValues aNewValues).mViewData.RecordsCount = n) := by
  have hmax : max 0 n = n := max_eq_right hn
  have hcnt : ((v.RemoveRows n).ChangeRows aNewValues).RecordsCount = min v.RecordsCount n := by
    simp only [ViewWindowValues.ChangeRows, RemoveRows_count, hmax]
  have hrem : (v.PrepareRemoveRows n).IsValid = true ↔ n < v.RecordsCount := by
    unfold ViewWindowValues.PrepareRemoveRows
    simp only [hmax]
    split
    · simp [RowRange.IsValid]; omega
    · rename_i h
      simp [RowRange.IsValid, h]
  have hadd : (((v.RemoveRows n).ChangeRows aNewValues).PrepareAddRows n).IsValid = true
      ↔ n > v.RecordsCount := by
    unfold ViewWindowValues.PrepareAddRows
    simp only [hmax, hcnt]
    split
    · simp [RowRange.IsValid]; omega
    · rename_i h
      simp [RowRange.IsValid]
      omega
  refine ⟨hrem, ?_, hadd, ?_, ?_, ?_, ?_⟩
  · intro h
    simp [ViewWindowValues.PrepareRemoveRows, hmax, h]
  · intro h
    have h1 : min v.RecordsCount n = v.RecordsCount := min_eq_left (le_of_lt h)
    have h2 : v.RecordsCount < n := h
    simp [ViewWindowValues.PrepareAddRows, hmax, hcnt, h1, h2]
  · rw [hrem, hadd]
    omega
  · simp only [ViewWindowValues.AddRows, hcnt]
    omega
  · intro m hm hc
    have := (applyValues_viewData m aNewValues).2.2 (by rw [hm]; exact hold) (by rw [hc]; exact hn)
    rw [this, hc]

theorem C19_tail_diffs_witness :
    (({ RecordsCount := 5 } : ViewWindowValues).PrepareRemoveRows 3).IsValid = true ∧
    ({ RecordsCount := 5 } : ViewWindowValues).PrepareRemoveRows 3 = { Top := 3, Bottom := 4 } :=
  ⟨(C19_tail_diffs { RecordsCount := 5 } {} 3 (by decide) (by decide)).1.2 (by decide),
    (C19_tail_diffs { RecordsCount := 5 } {} 3 (by decide) (by decide)).2.1 (by decide)⟩

/-- The ranges one united range contributes to `PrepareChangeRows`. -/
theorem PrepareChangeRows_eq (v aNewValues : ViewWindowValues) :
    v.PrepareChangeRows aNewValues
      = (v.Rows.Union aNewValues.Rows).flatMap (fun it =>
          if it.Bottom < min aNewValues.RecordsCount v.RecordsCount then [it]
          else if ({ it with Bottom := min aNewValues.RecordsCount v.RecordsCount - 1 }
              : RowRange).IsValid then
            [{ it with Bottom := min aNewValues.RecordsCount v.RecordsCount - 1 }]
          else []) := by
  unfold ViewWindowValues.PrepareChangeRows
  simp only
  have gen : ∀ (l acc : List RowRange) (m : Int),
      l.foldl (fun result it =>
        if it.Bottom < m then result ++ [it]
        else if ({ it with Bottom := m - 1 } : RowRange).IsValid then
          result ++ [{ it with Bottom := m - 1 }]
        else result) acc
      = acc ++ l.flatMap (fun it =>
          if it.Bottom < m then [it]
          else if ({ it with Bottom := m - 1 } : RowRange).IsValid then
            [{ it with Bottom := m - 1 }]
          else []) := by
    intro l
    induction l with
    | nil => intro acc m; simp
    | cons a t ih =>
      intro acc m
      simp only [List.foldl_cons, List.flatMap_cons]
      rw [ih]
      split
      · simp
      · split <;> simp
  rw [gen]
  simp

theorem clipped_mem (it : RowRange) (m i : Int) :
    (∃ r ∈ (if it.Bottom < m then [it]
        else if ({ it with Bottom := m - 1 } : RowRange).IsValid then
          [{ it with Bottom := m - 1 }]
        else []), r.IsValid = true ∧ r.Contains i = true) ↔
      (0 ≤ it.Top ∧ it.Top ≤ i ∧ i ≤ it.Bottom ∧ i < m) := by
  by_cases h1 : it.Bottom < m
  · simp only [h1, if_true, List.mem_singleton, exists_eq_left]
    simp only [RowRange.IsValid, RowRange.Contains, Bool.and_eq_true, decide_eq_true_eq]
    omega
  · simp only [h1, if_false]
    by_cases h2 : ({ it with Bottom := m - 1 } : RowRange).IsValid = true
    · rw [if_pos h2]
      simp only [List.mem_singleton, exists_eq_left]
      simp only [RowRange.IsValid, RowRange.Contains, Bool.and_eq_true, decide_eq_true_eq]
      omega
    · simp only [h2, Bool.false_eq_true, if_false, List.not_mem_nil, false_and, exists_false,
        false_iff]
      simp only [RowRange.IsValid, Bool.and_eq_true, decide_eq_true_eq] at h2
      omega

theorem valid_or_empty_rows (r : RowRange) (i : Int) (h : r.IsValid = true ∨ r = {}) :
    (r.IsValid = true ∧ r.Contains i = true) ↔ (0 ≤ r.Top ∧ r.Top ≤ i ∧ i ≤ r.Bottom) := by
  rcases h with h | h
  · simp only [RowRange.IsValid, Bool.and_eq_true, decide_eq_true_eq] at h
    simp only [RowRange.IsValid, RowRange.Contains, Bool.and_eq_true, decide_eq_true_eq]
    omega
  · subst h
    simp [RowRange.IsValid]

theorem Union_of_intersects (a b : RowRange) (h : a.Intersects b = true) :
    a.Union b = [{ Top := min a.Top b.Top, Bottom := max a.Bottom b.Bottom }] := by
  simp [RowRange.Union, h]

theorem Union_of_not_intersects (a b : RowRange) (h : a.Intersects b = false) :
    a.Union b = if b.Top < a.Top then [b, a] else [a, b] := by
  simp [RowRange.Union, h]

theorem mem_Union_of_not_intersects (a b it : RowRange) (h : a.Intersects b = false) :
    it ∈ a.Union b ↔ it = a ∨ it = b := by
  rw [Union_of_not_intersects a b h]
  split
  · simp only [List.mem_cons, List.mem_singleton, List.not_mem_nil, or_false]
    tauto
  · simp only [List.mem_cons, List.mem_singleton, List.not_mem_nil, or_false]

/-- C20: changed rows.  For an old and a new snapshot whose `Rows` are each a
valid range or the empty range, a row index lies inside some valid range
returned by `PrepareChangeRows` if and only if it is below both record counts
and lies in the old `Rows` or in the new `Rows`.  `RowRange::Union` returns
the single range `[min tops, max bottoms]` when the two ranges intersect and
otherwise the two ranges ordered by `Top`. -/
theorem C20_PrepareChangeRows_rows (old new : ViewWindowValues) (i : Int)
    (hold : old.Rows.IsValid = true ∨ old.Rows = {})
    (hnew : new.Rows.IsValid = true ∨ new.Rows = {}) :
    ((∃ r ∈ old.PrepareChangeRows new, r.IsValid = true ∧ r.Contains i = true) ↔
      (i < min old.RecordsCount new.RecordsCount ∧
        ((old.Rows.IsValid = true ∧ old.Rows.Contains i = true) ∨
          (new.Rows.IsValid = true ∧ new.Rows.Contains i = true)))) ∧
    (old.Rows.Intersects new.Rows = true →
      old.Rows.Union new.Rows
        = [{ Top := min old.Rows.Top new.Rows.Top,
             Bottom := max old.Rows.Bottom new.Rows.Bottom }]) ∧
    (old.Rows.Intersects new.Rows = false →
      old.Rows.Union new.Rows
        = if new.Rows.Top < old.Rows.Top then [new.Rows, old.Rows]
          else [old.Rows, new.Rows]) := by
  refine ⟨?_, Union_of_intersects _ _, Union_of_not_intersects _ _⟩
  rw [valid_or_empty_rows _ _ hold, valid_or_empty_rows _ _ hnew, PrepareChangeRows_eq]
  have ha : (0 ≤ old.Rows.Top ∧ old.Rows.Top ≤ old.Rows.Bottom) ∨
      (old.Rows.Top = -1 ∧ old.Rows.Bottom = -1) := by
    rcases hold with h | h
    · simp only [RowRange.IsValid, Bool.and_eq_true, decide_eq_true_eq] at h
      left; omega
    · right; rw [h]; exact ⟨rfl, rfl⟩
  have hb : (0 ≤ new.Rows.Top ∧ new.Rows.Top ≤ new.Rows.Bottom) ∨
      (new.Rows.Top = -1 ∧ new.Rows.Bottom = -1) := by
    rcases hnew with h | h
    · simp only [RowRange.IsValid, Bool.and_eq_true, decide_eq_true_eq] at h
      left; omega
    · right; rw [h]; exact ⟨rfl, rfl⟩
  simp only [List.mem_flatMap]
  cases hI : old.Rows.Intersects new.Rows with
  | true =>
    have hI2 := hI
    simp only [RowRange.Intersects, RowRange.Contains, Bool.or_eq_true, Bool.and_eq_true,
      decide_eq_true_eq] at hI2
    rw [Union_of_intersects _ _ hI]
    constructor
    · rintro ⟨r, ⟨it, hit, hr⟩, hrv⟩
      have hit2 : it = ⟨min old.Rows.Top new.Rows.Top, max old.Rows.Bottom new.Rows.Bottom⟩ := by
        simpa using hit
      have hc := (clipped_mem it (min new.RecordsCount old.RecordsCount) i).1 ⟨r, hr, hrv⟩
      rw [hit2] at hc
      simp only at hc
      omega
    · rintro ⟨hlt, hin⟩
      obtain ⟨r, hr, hrv⟩ := (clipped_mem
        ⟨min old.Rows.Top new.Rows.Top, max old.Rows.Bottom new.Rows.Bottom⟩
        (min new.RecordsCount old.RecordsCount) i).2 (by simp only; omega)
      exact ⟨r, ⟨_, by simp, hr⟩, hrv⟩
  | false =>
    constructor
    · rintro ⟨r, ⟨it, hit, hr⟩, hrv⟩
      have hc := (clipped_mem it (min new.RecordsCount old.RecordsCount) i).1 ⟨r, hr, hrv⟩
      rcases (mem_Union_of_not_intersects _ _ _ hI).1 hit with h | h
      · subst h; omega
      · subst h; omega
    · rintro ⟨hlt, hin⟩
      rcases hin with hin | hin
      · obtain ⟨r, hr, hrv⟩ := (clipped_mem old.Rows
          (min new.RecordsCount old.RecordsCount) i).2 (by omega)
        exact ⟨r, ⟨old.Rows, (mem_Union_of_not_intersects _ _ _ hI).2 (Or.inl rfl), hr⟩, hrv⟩
      · obtain ⟨r, hr, hrv⟩ := (clipped_mem new.Rows
          (min new.RecordsCount old.RecordsCount) i).2 (by omega)
        exact ⟨r, ⟨new.Rows, (mem_Union_of_not_intersects _ _ _ hI).2 (Or.inr rfl), hr⟩, hrv⟩

theorem C20_PrepareChangeRows_rows_witness :
    (∃ r ∈ ({ RecordsCount := 20, Rows := { Top := 0, Bottom := 9 } } : ViewWindowValues).PrepareChangeRows
        { RecordsCount := 12, Rows := { Top := 5, Bottom := 14 } },
      r.IsValid = true ∧ r.Contains 11 = true) :=
  ((C20_PrepareChangeRows_rows { RecordsCount := 20, Rows := { Top := 0, Bottom := 9 } }
    { RecordsCount := 12, Rows := { Top := 5, Bottom := 14 } } 11
    (by decide) (by decide)).1).2 ⟨by decide, Or.inr (by decide)⟩

end

section

open AsyncSqlTableModelBase

/-! ## Applying a response of the back to the front snapshot -/

theorem dispatch_view (m : AsyncSqlTableModelBase) (c : Command) :
    (m.dispatch c).mViewData = m.mViewData ∧
    (m.dispatch c).mPendingViewWindowUpdate = m.mPendingViewWindowUpdate ∧
    (m.dispatch c).mError = m.mError ∧
    ((m.dispatch c).Emitted = m.Emitted ∨
      ∃ x, x.isRequest = true ∧ (m.dispatch c).Emitted = m.Emitted ++ [x]) ∧
    (m.dispatch c).mState.mBackEndState.IsPendingClear = m.mState.mBackEndState.IsPendingClear := by
  cases c with
  | DoNothing => exact ⟨rfl, rfl, rfl, Or.inl rfl, rfl⟩
  | SendUserActionRequest =>
    refine ⟨rfl, rfl, rfl, Or.inr ⟨_, ?_, rfl⟩, rfl⟩
    rfl
  | SendUpdateRequest =>
    refine ⟨rfl, rfl, rfl, Or.inr ⟨_, ?_, rfl⟩, rfl⟩
    rfl
  | SendUserQuery =>
    refine ⟨rfl, rfl, rfl, Or.inr ⟨_, ?_, rfl⟩, rfl⟩
    rfl

theorem cursor_view (m : AsyncSqlTableModelBase) :
    (m.TryEngageCursor.mViewData = m.mViewData ∧
      m.TryEngageCursor.mPendingViewWindowUpdate = m.mPendingViewWindowUpdate ∧
      m.TryEngageCursor.mError = m.mError) ∧
    (m.TryRestoreCursor.mViewData = m.mViewData ∧
      m.TryRestoreCursor.mPendingViewWindowUpdate = m.mPendingViewWindowUpdate ∧
      m.TryRestoreCursor.mError = m.mError) := by
  unfold AsyncSqlTableModelBase.TryEngageCursor AsyncSqlTableModelBase.TryRestoreCursor
  constructor
  · split <;> exact ⟨rfl, rfl, rfl⟩
  · split <;> exact ⟨rfl, rfl, rfl⟩

/-- `ProcessEvent` of the front leaves the snapshot, the latch and the error
alone, keeps `IsPendingClear`, and the last signal it emits is the busy report
or a request. -/
theorem model_ProcessEvent_view (m : AsyncSqlTableModelBase) (ev : Event) :
    (m.ProcessEvent ev).2.mViewData = m.mViewData ∧
    (m.ProcessEvent ev).2.mPendingViewWindowUpdate = m.mPendingViewWindowUpdate ∧
    (m.ProcessEvent ev).2.mError = m.mError ∧
    (m.ProcessEvent ev).2.Emitted.getLast? ≠ some FrontSignal.ViewWindowValuesChanged ∧
    (m.ProcessEvent ev).2.mState.mBackEndState.IsPendingClear
      = m.mState.mBackEndState.IsPendingClear := by
  have hd := dispatch_view
    { m with Emitted := m.Emitted ++ [FrontSignal.ReportIsBusy m.IsBusy],
             mState := (AsyncSqlTableEventProcessing.ProcessEvent m.mState ev).2 }
    (AsyncSqlTableEventProcessing.ProcessEvent m.mState ev).1
  have hlast : (AsyncSqlTableModelBase.dispatch
      { m with Emitted := m.Emitted ++ [FrontSignal.ReportIsBusy m.IsBusy],
               mState := (AsyncSqlTableEventProcessing.ProcessEvent m.mState ev).2 }
      (AsyncSqlTableEventProcessing.ProcessEvent m.mState ev).1).Emitted.getLast?
        ≠ some FrontSignal.ViewWindowValuesChanged := by
    rcases hd.2.2.2.1 with h | ⟨x, hx, h⟩
    · rw [h]; simp
    · rw [h]
      have hl : ∀ l : List FrontSignal, (l ++ [x]).getLast? = some x := by
        intro l; simp
      rw [hl]
      intro hxe
      simp only [Option.some.injEq] at hxe
      rw [hxe] at hx
      exact absurd hx (by decide)
  have hf := model_ProcessEvent_fields m ev
  refine ⟨?_, ?_, ?_, ?_, ?_⟩
  · simp only [AsyncSqlTableModelBase.ProcessEvent]
    split
    · rw [(cursor_view _).1.1]; exact hd.1
    · rw [(cursor_view _).2.1]; exact hd.1
  · simp only [AsyncSqlTableModelBase.ProcessEvent]
    split
    · rw [(cursor_view _).1.2.1]; exact hd.2.1
    · rw [(cursor_view _).2.2.1]; exact hd.2.1
  · simp only [AsyncSqlTableModelBase.ProcessEvent]
    split
    · rw [(cursor_view _).1.2.2]; exact hd.2.2.1
    · rw [(cursor_view _).2.2.2]; exact hd.2.2.1
  · rw [hf.2.2]; exact hlast
  · rw [hf.2.1, hd.2.2.2.2]
    rfl

theorem acceptResponse_fields (m : AsyncSqlTableModelBase) (d c : Option Int) (u : Option Nat) :
    (m.acceptResponse d c u).mViewData = m.mViewData ∧
    (m.acceptResponse d c u).mPendingViewWindowUpdate = m.mPendingViewWindowUpdate ∧
    (m.acceptResponse d c u).mError = m.mError ∧
    (m.acceptResponse d c u).mState.mBackEndState.IsPendingClear
      = m.mState.mBackEndState.IsPendingClear ∧
    ∀ m0 : AsyncSqlTableModelBase, m0.mState = m.mState →
      (m0.acceptResponse d c u).mState = (m.acceptResponse d c u).mState := by
  unfold AsyncSqlTableModelBase.acceptResponse
  simp only [AsyncSqlTableModelBase.emit]
  cases d <;> cases c <;> cases u <;>
    exact ⟨rfl, rfl, rfl, rfl, fun m0 h0 => by simp only [h0]⟩

theorem applySelectionAndVersion_last (m : AsyncSqlTableModelBase) (aValues : ViewWindowValues) :
    (m.applySelectionAndVersion aValues).Emitted.getLast?
      = some FrontSignal.ViewWindowValuesChanged := by
  unfold AsyncSqlTableModelBase.applySelectionAndVersion
  simp only [AsyncSqlTableModelBase.emit]
  simp

/-- The two outcomes of the statements of `OnViewWindowValuesChanged` from the
call of `ProcessEvent` on, for a model `m0` that differs from `m` in the
signals emitted only. -/
theorem response_outcome (m m0 : AsyncSqlTableModelBase) (d c : Option Int)
    (u : Option Nat) (aValues : ViewWindowValues) (aIsUpdated : Bool)
    (hs : m0.mState = m.mState) (hv : m0.mViewData = m.mViewData)
    (hl : m0.mPendingViewWindowUpdate = m.mPendingViewWindowUpdate) (he : m0.mError = m.mError)
    (herr : m.mError = "") (hclear : m.mState.mBackEndState.IsPendingClear = false) :
    ((((m.acceptResponse d c u).ProcessEvent Event.BackEndStateChanged).1
          = Command.SendUserActionRequest ∨
        (aIsUpdated = false ∧ m.mPendingViewWindowUpdate = false)) →
      (if ((m0.acceptResponse d c u).ProcessEvent Event.BackEndStateChanged).1
            = Command.SendUserActionRequest
          || (!aIsUpdated && !((m0.acceptResponse d c u).ProcessEvent
              Event.BackEndStateChanged).2.mPendingViewWindowUpdate) then
        { ((m0.acceptResponse d c u).ProcessEvent Event.BackEndStateChanged).2 with
          mPendingViewWindowUpdate :=
            ((m0.acceptResponse d c u).ProcessEvent
              Event.BackEndStateChanged).2.mPendingViewWindowUpdate || aIsUpdated }
      else ((m0.acceptResponse d c u).ProcessEvent
        Event.BackEndStateChanged).2.applyValues aValues)
      = { ((m0.acceptResponse d c u).ProcessEvent Event.BackEndStateChanged).2 with
          mPendingViewWindowUpdate := m.mPendingViewWindowUpdate || aIsUpdated }) ∧
    (¬ (((m.acceptResponse d c u).ProcessEvent Event.BackEndStateChanged).1
          = Command.SendUserActionRequest ∨
        (aIsUpdated = false ∧ m.mPendingViewWindowUpdate = false)) →
      (if ((m0.acceptResponse d c u).ProcessEvent Event.BackEndStateChanged).1
            = Command.SendUserActionRequest
          || (!aIsUpdated && !((m0.acceptResponse d c u).ProcessEvent
              Event.BackEndStateChanged).2.mPendingViewWindowUpdate) then
        { ((m0.acceptResponse d c u).ProcessEvent Event.BackEndStateChanged).2 with
          mPendingViewWindowUpdate :=
            ((m0.acceptResponse d c u).ProcessEvent
              Event.BackEndStateChanged).2.mPendingViewWindowUpdate || aIsUpdated }
      else ((m0.acceptResponse d c u).ProcessEvent
        Event.BackEndStateChanged).2.applyValues aValues)
      = ((m0.acceptResponse d c u).ProcessEvent
          Event.BackEndStateChanged).2.applyValues aValues) ∧
    ((m0.acceptResponse d c u).ProcessEvent Event.BackEndStateChanged).2.mViewData
      = m.mViewData ∧
    ((m0.acceptResponse d c u).ProcessEvent Event.BackEndStateChanged).2.mError = "" ∧
    ((m0.acceptResponse d c u).ProcessEvent
      Event.BackEndStateChanged).2.mState.mBackEndState.IsPendingClear = false ∧
    ((m0.acceptResponse d c u).ProcessEvent Event.BackEndStateChanged).2.Emitted.getLast?
      ≠ some FrontSignal.ViewWindowValuesChanged := by
  have hcmd : ((m0.acceptResponse d c u).ProcessEvent Event.BackEndStateChanged).1
      = ((m.acceptResponse d c u).ProcessEvent Event.BackEndStateChanged).1 := by
    rw [(model_ProcessEvent_fields _ _).1, (model_ProcessEvent_fields _ _).1,
      (acceptResponse_fields m d c u).2.2.2.2 m0 hs]
  have ha := acceptResponse_fields m0 d c u
  have hp := model_ProcessEvent_view (m0.acceptResponse d c u) Event.BackEndStateChanged
  have hlatch : ((m0.acceptResponse d c u).ProcessEvent
      Event.BackEndStateChanged).2.mPendingViewWindowUpdate = m.mPendingViewWindowUpdate := by
    rw [hp.2.1, ha.2.1, hl]
  rw [hcmd, hlatch]
  refine ⟨?_, ?_, ?_, ?_, ?_, hp.2.2.2.1⟩
  · intro hskip
    have hcond : (decide (((m.acceptResponse d c u).ProcessEvent Event.BackEndStateChanged).1
        = Command.SendUserActionRequest) || !aIsUpdated && !m.mPendingViewWindowUpdate)
        = true := by
      rcases hskip with h | ⟨h1, h2⟩
      · simp [h]
      · simp [h1, h2]
    rw [if_pos hcond]
  · intro hns
    have hcond : ¬ (decide (((m.acceptResponse d c u).ProcessEvent Event.BackEndStateChanged).1
        = Command.SendUserActionRequest) || !aIsUpdated && !m.mPendingViewWindowUpdate)
        = true := by
      intro hc
      apply hns
      simp only [Bool.or_eq_true, decide_eq_true_eq, Bool.and_eq_true, Bool.not_eq_true'] at hc
      exact hc
    rw [if_neg hcond]
  · rw [hp.1, ha.1, hv]
  · rw [hp.2.2.1, ha.2.2.1, he, herr]
  · rw [hp.2.2.2.2, ha.2.2.2.1, hs, hclear]

/-- The two outcomes of `OnViewWindowValuesChanged` when no error is recorded
and no clear is pending. -/
theorem OnViewWindowValuesChanged_outcome (m : AsyncSqlTableModelBase) (d c : Option Int)
    (u : Option Nat) (aValues : ViewWindowValues) (aIsUpdated : Bool)
    (aSelectedIds : Option (List Int))
    (herr : m.mError = "") (hclear : m.mState.mBackEndState.IsPendingClear = false) :
    ((((m.acceptResponse d c u).ProcessEvent Event.BackEndStateChanged).1
          = Command.SendUserActionRequest ∨
        (aIsUpdated = false ∧ m.mPendingViewWindowUpdate = false)) →
      (m.OnViewWindowValuesChanged d c u aValues aIsUpdated aSelectedIds).mViewData
        = m.mViewData ∧
      (m.OnViewWindowValuesChanged d c u aValues aIsUpdated aSelectedIds).mPendingViewWindowUpdate
        = (m.mPendingViewWindowUpdate || aIsUpdated) ∧
      (m.OnViewWindowValuesChanged d c u aValues aIsUpdated aSelectedIds).Emitted.getLast?
        ≠ some FrontSignal.ViewWindowValuesChanged ∧
      (m.OnViewWindowValuesChanged d c u aValues aIsUpdated aSelectedIds).mError = "" ∧
      (m.OnViewWindowValuesChanged d c u aValues aIsUpdated
        aSelectedIds).mState.mBackEndState.IsPendingClear = false) ∧
    (¬ (((m.acceptResponse d c u).ProcessEvent Event.BackEndStateChanged).1
          = Command.SendUserActionRequest ∨
        (aIsUpdated = false ∧ m.mPendingViewWindowUpdate = false)) →
      (m.OnViewWindowValuesChanged d c u aValues aIsUpdated aSelectedIds).mPendingViewWindowUpdate
        = false ∧
      (m.OnViewWindowValuesChanged d c u aValues aIsUpdated aSelectedIds).mViewData
        = { aValues with RecordsCount :=
            (m.OnViewWindowValuesChanged d c u aValues aIsUpdated
              aSelectedIds).mViewData.RecordsCount } ∧
      (0 ≤ m.mViewData.RecordsCount → 0 ≤ aValues.RecordsCount →
        (m.OnViewWindowValuesChanged d c u aValues aIsUpdated aSelectedIds).mViewData
          = aValues) ∧
      (m.OnViewWindowValuesChanged d c u aValues aIsUpdated aSelectedIds).Emitted.getLast?
        = some FrontSignal.ViewWindowValuesChanged) := by
  have herr2 : (!m.mError.isEmpty) = false := by rw [herr]; rfl
  have hex : ∃ m0 : AsyncSqlTableModelBase, m0.mState = m.mState ∧
      m0.mViewData = m.mViewData ∧ m0.mPendingViewWindowUpdate = m.mPendingViewWindowUpdate ∧
      m0.mError = m.mError ∧
      m.OnViewWindowValuesChanged d c u aValues aIsUpdated aSelectedIds
        = (if ((m0.acceptResponse d c u).ProcessEvent Event.BackEndStateChanged).1
              = Command.SendUserActionRequest
            || (!aIsUpdated && !((m0.acceptResponse d c u).ProcessEvent
                Event.BackEndStateChanged).2.mPendingViewWindowUpdate) then
          { ((m0.acceptResponse d c u).ProcessEvent Event.BackEndStateChanged).2 with
            mPendingViewWindowUpdate :=
              ((m0.acceptResponse d c u).ProcessEvent
                Event.BackEndStateChanged).2.mPendingViewWindowUpdate || aIsUpdated }
        else ((m0.acceptResponse d c u).ProcessEvent
          Event.BackEndStateChanged).2.applyValues aValues) := by
    cases aSelectedIds with
    | none =>
      refine ⟨m, rfl, rfl, rfl, rfl, ?_⟩
      unfold AsyncSqlTableModelBase.OnViewWindowValuesChanged
      simp only [herr2, Bool.false_eq_true, if_false, hclear]
    | some ids =>
      refine ⟨m.emit [FrontSignal.SelectedIdsReported ids], rfl, rfl, rfl, rfl, ?_⟩
      have hclear1 :
          (m.emit [FrontSignal.SelectedIdsReported ids]).mState.mBackEndState.IsPendingClear
            = false := hclear
      unfold AsyncSqlTableModelBase.OnViewWindowValuesChanged
      simp only [herr2, Bool.false_eq_true, if_false, hclear1]
  obtain ⟨m0, hs, hv, hl, he, heq⟩ := hex
  have ho := response_outcome m m0 d c u aValues aIsUpdated hs hv hl he herr hclear
  rw [heq]
  constructor
  · intro hskip
    rw [ho.1 hskip]
    exact ⟨ho.2.2.1, rfl, ho.2.2.2.2.2, ho.2.2.2.1, ho.2.2.2.2.1⟩
  · intro hns
    rw [ho.2.1 hns]
    have hav := applyValues_viewData
      ((m0.acceptResponse d c u).ProcessEvent Event.BackEndStateChanged).2 aValues
    refine ⟨hav.1, hav.2.1, ?_, ?_⟩
    · intro h1 h2
      have h3 := hav.2.2 (by rw [ho.2.2.1]; exact h1) h2
      have h4 := hav.2.1
      rw [h3] at h4
      exact h4
    · unfold AsyncSqlTableModelBase.applyValues
      exact applySelectionAndVersion_last _ _

/-- C18: with no error recorded and no clear pending, the application of a
received snapshot is skipped exactly when the command issued for the
`BackEndStateChanged` event was `SendUserActionRequest`, or the response has
`updated = false` and no view refresh is pending.  When skipped, the front
snapshot is unchanged, the latch becomes `latch || updated`, and the last
signal emitted is not `ViewWindowValuesChanged`.  When not skipped, the latch
is cleared, the front snapshot becomes the received one (its record count the
received count when neither count is negative) and `ViewWindowValuesChanged`
is emitted last.  Hence, after an updated response skipped for a
`SendUserActionRequest`, the next response whose command is not
`SendUserActionRequest` is applied even if it reports `updated = false`. -/
theorem C18_snapshot_application_skip_rule (m : AsyncSqlTableModelBase) (d c : Option Int)
    (u : Option Nat) (aValues : ViewWindowValues) (aIsUpdated : Bool)
    (aSelectedIds : Option (List Int))
    (herr : m.mError = "") (hclear : m.mState.mBackEndState.IsPendingClear = false) :
    ((((m.acceptResponse d c u).ProcessEvent Event.BackEndStateChanged).1
          = Command.SendUserActionRequest ∨
        (aIsUpdated = false ∧ m.mPendingViewWindowUpdate = false)) →
      (m.OnViewWindowValuesChanged d c u aValues aIsUpdated aSelectedIds).mViewData
        = m.mViewData ∧
      (m.OnViewWindowValuesChanged d c u aValues aIsUpdated aSelectedIds).mPendingViewWindowUpdate
        = (m.mPendingViewWindowUpdate || aIsUpdated) ∧
      (m.OnViewWindowValuesChanged d c u aValues aIsUpdated aSelectedIds).Emitted.getLast?
        ≠ some FrontSignal.ViewWindowValuesChanged) ∧
    (¬ (((m.acceptResponse d c u).ProcessEvent Event.BackEndStateChanged).1
          = Command.SendUserActionRequest ∨
        (aIsUpdated = false ∧ m.mPendingViewWindowUpdate = false)) →
      (m.OnViewWindowValuesChanged d c u aValues aIsUpdated aSelectedIds).mPendingViewWindowUpdate
        = false ∧
      (m.OnViewWindowValuesChanged d c u aValues aIsUpdated aSelectedIds).mViewData
        = { aValues with RecordsCount :=
            (m.OnViewWindowValuesChanged d c u aValues aIsUpdated
              aSelectedIds).mViewData.RecordsCount } ∧
      (0 ≤ m.mViewData.RecordsCount → 0 ≤ aValues.RecordsCount →
        (m.OnViewWindowValuesChanged d c u aValues aIsUpdated aSelectedIds).mViewData
          = aValues) ∧
      (m.OnViewWindowValuesChanged d c u aValues aIsUpdated aSelectedIds).Emitted.getLast?
        = some FrontSignal.ViewWindowValuesChanged) ∧
    (∀ (d2 c2 : Option Int) (u2 : Option Nat) (aValues2 : ViewWindowValues)
        (aSelectedIds2 : Option (List Int)),
      ((m.acceptResponse d c u).ProcessEvent Event.BackEndStateChanged).1
          = Command.SendUserActionRequest →
      aIsUpdated = true →
      (((m.OnViewWindowValuesChanged d c u aValues aIsUpdated aSelectedIds).acceptResponse
          d2 c2 u2).ProcessEvent Event.BackEndStateChanged).1
        ≠ Command.SendUserActionRequest →
      ((m.OnViewWindowValuesChanged d c u aValues aIsUpdated
          aSelectedIds).OnViewWindowValuesChanged d2 c2 u2 aValues2 false
            aSelectedIds2).mPendingViewWindowUpdate = false ∧
      ((m.OnViewWindowValuesChanged d c u aValues aIsUpdated
          aSelectedIds).OnViewWindowValuesChanged d2 c2 u2 aValues2 false
            aSelectedIds2).mViewData
        = { aValues2 with RecordsCount :=
            ((m.OnViewWindowValuesChanged d c u aValues aIsUpdated
              aSelectedIds).OnViewWindowValuesChanged d2 c2 u2 aValues2 false
                aSelectedIds2).mViewData.RecordsCount } ∧
      ((m.OnViewWindowValuesChanged d c u aValues aIsUpdated
          aSelectedIds).OnViewWindowValuesChanged d2 c2 u2 aValues2 false
            aSelectedIds2).Emitted.getLast?
        = some FrontSignal.ViewWindowValuesChanged) := by
  have h1 := OnViewWindowValuesChanged_outcome m d c u aValues aIsUpdated aSelectedIds herr hclear
  refine ⟨?_, h1.2, ?_⟩
  · intro hskip
    have := h1.1 hskip
    exact ⟨this.1, this.2.1, this.2.2.1⟩
  · intro d2 c2 u2 aValues2 aSelectedIds2 hcmd hupd hcmd2
    have hfirst := h1.1 (Or.inl hcmd)
    have h2 := OnViewWindowValuesChanged_outcome
      (m.OnViewWindowValuesChanged d c u aValues aIsUpdated aSelectedIds) d2 c2 u2 aValues2 false
      aSelectedIds2 hfirst.2.2.2.1 hfirst.2.2.2.2
    have hns : ¬ ((((m.OnViewWindowValuesChanged d c u aValues aIsUpdated
          aSelectedIds).acceptResponse d2 c2 u2).ProcessEvent Event.BackEndStateChanged).1
          = Command.SendUserActionRequest ∨
        (false = false ∧ (m.OnViewWindowValuesChanged d c u aValues aIsUpdated
          aSelectedIds).mPendingViewWindowUpdate = false)) := by
      rintro (h | ⟨_, h⟩)
      · exact hcmd2 h
      · rw [hfirst.2.1, hupd] at h
        simp at h
    have := h2.2 hns
    exact ⟨this.1, this.2.1, this.2.2.2⟩

theorem C18_snapshot_application_skip_rule_witness :
    (busyExampleModel.OnViewWindowValuesChanged none none none { RecordsCount := 3 } true
        none).mViewData = busyExampleModel.mViewData ∧
    (busyExampleModel.OnViewWindowValuesChanged none none none { RecordsCount := 3 } true
        none).mPendingViewWindowUpdate = (busyExampleModel.mPendingViewWindowUpdate || true) ∧
    (busyExampleModel.OnViewWindowValuesChanged none none none { RecordsCount := 3 } true
        none).Emitted.getLast? ≠ some FrontSignal.ViewWindowValuesChanged :=
  (C18_snapshot_application_skip_rule busyExampleModel none none none { RecordsCount := 3 } true
    none (by decide) (by decide)).1 (Or.inl (by decide))

end

section

open SyncSqlCache

/-! ## Lazy index, version confirmation, default sort order, names, scrolling -/

theorem linearSearch_eq (ids : List Int) (x : Int) :
    linearSearch ids x = if x ∈ ids then some (ids.indexOf x) else none := by
  induction ids with
  | nil => simp [linearSearch]
  | cons a t ih =>
    unfold linearSearch
    by_cases h : a = x
    · subst h; simp
    · have h2 : ¬ (x = a) := fun e => h e.symm
      rw [if_neg h, ih]
      by_cases hm : x ∈ t
      · simp [hm, List.indexOf_cons_ne _ h]
      · simp [hm, h2]

theorem getRowCalls_spec (aCalls : List QVariant) (s : IdsInfo) (h : s.CacheOK) :
    (getRowCalls s aCalls).CacheOK ∧ (getRowCalls s aCalls).Ids = s.Ids := by
  induction aCalls generalizing s with
  | nil => exact ⟨h, rfl⟩
  | cons a t ih =>
    have h1 := GetRow_spec s a h
    have h2 := ih (s.GetRow a).2 h1.2.1
    simp only [getRowCalls, List.foldl_cons] at h2 ⊢
    exact ⟨h2.1, h2.2.trans h1.2.2⟩

/-- C30: the lazily built index is equivalent to a linear search.  For every id
vector `ids` (repeated ids allowed), every sequence `aCalls` of earlier `GetRow`
calls on the mapping built from it and every id, `GetRow` returns what the
linear search over `ids` returns: the index of the first occurrence of the id
when it occurs, no value otherwise; the call leaves the id vector unchanged.
In particular the result is the one of the mapping with an empty index. -/
theorem C30_lazy_index_equals_linear_search (ids : List Int) (aCalls : List QVariant)
    (aId : QVariant) :
    ((getRowCalls { Ids := ids, IdPositions := [] } aCalls).GetRow aId).1
        = linearSearch ids aId.toLongLong ∧
      ((getRowCalls { Ids := ids, IdPositions := [] } aCalls).GetRow aId).1
        = (if aId.toLongLong ∈ ids then some (ids.indexOf aId.toLongLong) else none) ∧
      ((getRowCalls { Ids := ids, IdPositions := [] } aCalls).GetRow aId).1
        = (IdsInfo.GetRow { Ids := ids, IdPositions := [] } aId).1 ∧
      ((getRowCalls { Ids := ids, IdPositions := [] } aCalls).GetRow aId).2.Ids = ids := by
  have h0 := CacheOK_empty ids
  have h1 := getRowCalls_spec aCalls _ h0
  have h2 := GetRow_spec _ aId h1.1
  have h3 := GetRow_spec _ aId h0
  rw [h1.2] at h2
  refine ⟨?_, h2.1, ?_, h2.2.2⟩
  · rw [h2.1, linearSearch_eq]
  · rw [h2.1, h3.1]

/-! ### ConfirmVersion -/

theorem dropWhile_eq_filter_of_sorted (v : Int) (m : List (Int × IdsInfo))
    (h : (m.map Prod.fst).Pairwise (fun a b => a < b)) :
    m.dropWhile (fun e => decide (e.1 < v)) = m.filter (fun e => decide (v ≤ e.1)) := by
  induction m with
  | nil => rfl
  | cons e t ih =>
    simp only [List.map_cons, List.pairwise_cons] at h
    by_cases hv : e.1 < v
    · have hn : ¬ (v ≤ e.1) := by omega
      simp only [List.dropWhile_cons, hv, decide_True, if_true, List.filter_cons, hn,
        decide_False, Bool.false_eq_true, if_false]
      exact ih h.2
    · have hp : v ≤ e.1 := by omega
      simp only [List.dropWhile_cons, hv, decide_False, Bool.false_eq_true, if_false,
        List.filter_cons, hp, decide_True, if_true]
      congr 1
      symm
      rw [List.filter_eq_self]
      intro a ha
      have := h.1 a.1 (List.mem_map_of_mem Prod.fst ha)
      simp only [decide_eq_true_eq]
      omega

theorem getLast_dropWhile {α : Type} (p : α → Bool) (l : List α)
    (h : ∀ e, l.getLast? = some e → p e = false) : (l.dropWhile p).getLast? = l.getLast? := by
  induction l with
  | nil => rfl
  | cons a t ih =>
    by_cases hp : p a = true
    · cases t with
      | nil =>
        have := h a (by simp)
        rw [hp] at this
        exact absurd this (by simp)
      | cons b u =>
        rw [List.dropWhile_cons, if_pos hp, List.getLast?_cons_cons]
        exact ih (by
          intro e he
          exact h e (by rw [List.getLast?_cons_cons]; exact he))
    · rw [List.dropWhile_cons, if_neg hp]

theorem lookup_filter_ge (v u : Int) (m : List (Int × IdsInfo)) :
    (m.filter (fun e => decide (v ≤ e.1))).lookup u = if v ≤ u then m.lookup u else none := by
  induction m with
  | nil => simp
  | cons e t ih =>
    obtain ⟨k, x⟩ := e
    by_cases hk : v ≤ k
    · simp only [List.filter_cons, hk, decide_True, if_true, List.lookup_cons]
      by_cases hu : u = k
      · subst hu; simp [hk]
      · have : (u == k) = false := by simpa using hu
        simp only [this]
        exact ih
    · simp only [List.filter_cons, hk, decide_False, Bool.false_eq_true, if_false,
        List.lookup_cons]
      by_cases hu : u = k
      · subst hu; simp only [beq_self_eq_true, ih, hk, if_false]
      · have : (u == k) = false := by simpa using hu
        simp only [this]
        exact ih

theorem mapInsert_keys_sorted (m : List (Int × IdsInfo)) (k : Int) (x : IdsInfo)
    (h : (m.map Prod.fst).Pairwise (fun a b => a < b)) (hk : k ∉ m.map Prod.fst) :
    ((mapInsert m k x).map Prod.fst).Pairwise (fun a b => a < b) ∧
      ∀ y, y ∈ (mapInsert m k x).map Prod.fst ↔ y = k ∨ y ∈ m.map Prod.fst := by
  induction m with
  | nil => simp [mapInsert]
  | cons e t ih =>
    simp only [List.map_cons, List.pairwise_cons, List.mem_cons, not_or] at h hk
    have iht := ih h.2 hk.2
    unfold mapInsert
    by_cases hlt : k < e.1
    · simp only [hlt, if_true, List.map_cons, List.pairwise_cons, List.mem_cons]
      refine ⟨⟨?_, h⟩, by simp⟩
      intro a ha
      rcases ha with ha | ha
      · omega
      · have := h.1 a ha; omega
    · simp only [hlt, if_false, List.map_cons, List.pairwise_cons, List.mem_cons]
      refine ⟨⟨?_, iht.1⟩, ?_⟩
      · intro a ha
        rcases (iht.2 a).1 ha with ha | ha
        · have := hk.1; omega
        · exact h.1 a ha
      · intro y
        rw [iht.2 y]
        tauto

/-- C21: `ConfirmVersion(v)` discards exactly the mappings of the versions below
`v`.  On a version map whose keys ascend (the order of `std::map`), the entries
kept are exactly the previous entries with version `u ≥ v`, in their order; so
a version `u` is retained afterwards iff it was retained and `u ≥ v`, and it
then keeps its id mapping (id vector and index); nothing else of the cache
changes.  Hence the mapping of the current version (the version of the
snapshot) survives when `v` is at most the current version, and so does the
mapping `GetIdMapping` reads (the one of the highest retained version) when
`v` is at most that version. -/
theorem C21_ConfirmVersion_discards_older_versions (s : SyncSqlCache) (aVersion : Int)
    (h : (s.mVersionedIds.map Prod.fst).Pairwise (fun a b => a < b)) :
    (s.ConfirmVersion aVersion).mVersionedIds
        = s.mVersionedIds.filter (fun e => decide (aVersion ≤ e.1)) ∧
      (∀ u, (s.ConfirmVersion aVersion).mVersionedIds.lookup u
        = if aVersion ≤ u then s.mVersionedIds.lookup u else none) ∧
      (∀ u, idsOf (s.ConfirmVersion aVersion).mVersionedIds u
        = if aVersion ≤ u then idsOf s.mVersionedIds u else none) ∧
      (aVersion ≤ s.mViewWindowValues.Version →
        (s.ConfirmVersion aVersion).mVersionedIds.lookup s.mViewWindowValues.Version
          = s.mVersionedIds.lookup s.mViewWindowValues.Version) ∧
      ((∀ e, s.mVersionedIds.getLast? = some e → aVersion ≤ e.1) →
        (s.ConfirmVersion aVersion).GetIdMapping = s.GetIdMapping) ∧
      { s.ConfirmVersion aVersion with mVersionedIds := s.mVersionedIds } = s := by
  have h1 : (s.ConfirmVersion aVersion).mVersionedIds
      = s.mVersionedIds.filter (fun e => decide (aVersion ≤ e.1)) :=
    dropWhile_eq_filter_of_sorted aVersion _ h
  have h2 : ∀ u, (s.ConfirmVersion aVersion).mVersionedIds.lookup u
      = if aVersion ≤ u then s.mVersionedIds.lookup u else none := by
    intro u; rw [h1]; exact lookup_filter_ge _ _ _
  refine ⟨h1, h2, ?_, ?_, ?_, rfl⟩
  · intro u
    unfold idsOf
    rw [h2 u]
    split <;> rfl
  · intro hv
    rw [h2, if_pos hv]
  · intro hv
    unfold GetIdMapping
    have h3 : (s.ConfirmVersion aVersion).mVersionedIds.getLast? = s.mVersionedIds.getLast? :=
      getLast_dropWhile _ _ (by
        intro e he
        have := hv e he
        simp only [decide_eq_false_iff_not]
        omega)
    rw [h3]

/-- Witness of C21: in the re-sort scenario (versions 1 and 2 retained),
confirming version 2 keeps the mapping `[3, 2, 1]` of version 2 only. -/
theorem C21_ConfirmVersion_discards_older_versions_witness :
    (resortCache.ConfirmVersion 2).mVersionedIds = [(2, { Ids := [3, 2, 1] })] ∧
      idsOf (resortCache.ConfirmVersion 2).mVersionedIds 1 = none ∧
      idsOf (resortCache.ConfirmVersion 2).mVersionedIds 2 = some [3, 2, 1] := by
  have h := C21_ConfirmVersion_discards_older_versions resortCache 2 (by decide)
  refine ⟨?_, ?_, ?_⟩
  · rw [h.1]; decide
  · rw [h.2.2.1 1]; decide
  · rw [h.2.2.1 2]; decide

/-! ### MakeDefaultSortOrder -/

/-- Body of the inner loop of `MakeDefaultSortOrder`. -/
theorem checkColumns_none (aMaxColumn : Int) (l : List Int) :
    l.foldl
        (fun (a : Option (List Int)) column =>
          match a with
          | none => none
          | some fieldIndexes =>
            if fieldIndexes.contains column then none
            else if column ≥ aMaxColumn || column < 0 then none
            else some (setEmplace fieldIndexes column))
        none = none := by
  induction l with
  | nil => rfl
  | cons a t ih => simpa using ih

theorem checkColumns_spec (aMaxColumn : Int) (l : List Int) (acc : List Int) :
    (l.foldl
        (fun (a : Option (List Int)) column =>
          match a with
          | none => none
          | some fieldIndexes =>
            if fieldIndexes.contains column then none
            else if column ≥ aMaxColumn || column < 0 then none
            else some (setEmplace fieldIndexes column))
        (some acc) = none ↔
      ¬ (l.Nodup ∧ ∀ c ∈ l, 0 ≤ c ∧ c < aMaxColumn ∧ c ∉ acc)) := by
  induction l generalizing acc with
  | nil => simp
  | cons a t ih =>
    simp only [List.foldl_cons]
    by_cases h1 : a ∈ acc
    · have : acc.contains a = true := by simpa using h1
      simp only [this, if_true, checkColumns_none, true_iff]
      intro hh
      exact (hh.2 a (List.mem_cons_self _ _)).2.2 h1
    · have hcon : acc.contains a = false := by simpa using h1
      simp only [hcon, Bool.false_eq_true, if_false]
      by_cases h2 : a ≥ aMaxColumn ∨ a < 0
      · have : (decide (a ≥ aMaxColumn) || decide (a < 0)) = true := by simpa using h2
        simp only [this, if_true, checkColumns_none, true_iff]
        intro hh
        have := hh.2 a (List.mem_cons_self _ _)
        omega
      · have : (decide (a ≥ aMaxColumn) || decide (a < 0)) = false := by
          simp only [not_or] at h2
          simp only [Bool.or_eq_false_iff, decide_eq_false_iff_not]
          exact h2
        simp only [this, Bool.false_eq_true, if_false]
        rw [ih]
        simp only [not_or, not_le, not_lt, ge_iff_le] at h2
        apply not_congr
        simp only [List.nodup_cons, List.mem_cons, mem_setEmplace]
        constructor
        · rintro ⟨hn, hall⟩
          refine ⟨⟨?_, hn⟩, ?_⟩
          · intro hat
            exact (hall a hat).2.2 (Or.inl rfl)
          · intro c hc
            rcases hc with rfl | hc
            · exact ⟨h2.2, h2.1, h1⟩
            · have := hall c hc
              exact ⟨this.1, this.2.1, fun hx => this.2.2 (Or.inr hx)⟩
        · rintro ⟨⟨hat, hn⟩, hall⟩
          refine ⟨hn, ?_⟩
          intro c hct
          have := hall c (Or.inr hct)
          refine ⟨this.1, this.2.1, ?_⟩
          intro hx
          rcases hx with hx | hx
          · rw [hx] at hct
            exact hat hct
          · exact this.2.2 hx

theorem checkSequences_flatten {α β : Type} (f : β → α → β) (ls : List (List α)) (b : β) :
    ls.foldl (fun acc seq => seq.foldl f acc) b = ls.flatten.foldl f b := by
  induction ls generalizing b with
  | nil => rfl
  | cons a t ih => simp [ih]

/-- C25: default sort validation at construction.  `MakeDefaultSortOrder`
fails (throws) if and only if, in the effective order (the given order, or
`[[idColumn]]` when the given order is empty), some column index occurs more
than once across all sequences or some column index is outside
`[0, fieldCount)`; when it does not fail it returns the effective order
unchanged. -/
theorem C25_MakeDefaultSortOrder_fails_iff_invalid (aSortOrder : List (List Int))
    (aMaxColumn aIdColumn : Int) :
    (MakeDefaultSortOrder aSortOrder aMaxColumn aIdColumn = none ↔
        (¬ (effectiveSortOrder aSortOrder aIdColumn).flatten.Nodup ∨
          ∃ c ∈ (effectiveSortOrder aSortOrder aIdColumn).flatten, c < 0 ∨ aMaxColumn ≤ c)) ∧
      (MakeDefaultSortOrder aSortOrder aMaxColumn aIdColumn = none ∨
        MakeDefaultSortOrder aSortOrder aMaxColumn aIdColumn
          = some (effectiveSortOrder aSortOrder aIdColumn)) := by
  have key := checkColumns_spec aMaxColumn (effectiveSortOrder aSortOrder aIdColumn).flatten []
  rw [← checkSequences_flatten] at key
  have hdef : MakeDefaultSortOrder aSortOrder aMaxColumn aIdColumn =
      (match (effectiveSortOrder aSortOrder aIdColumn).foldl (fun acc seq => seq.foldl
          (fun (a : Option (List Int)) column =>
            match a with
            | none => none
            | some fieldIndexes =>
              if fieldIndexes.contains column then none
              else if column ≥ aMaxColumn || column < 0 then none
              else some (setEmplace fieldIndexes column)) acc) (some []) with
        | none => none
        | some _ => some (effectiveSortOrder aSortOrder aIdColumn)) := rfl
  have hval : (¬ ((effectiveSortOrder aSortOrder aIdColumn).flatten.Nodup ∧
        ∀ c ∈ (effectiveSortOrder aSortOrder aIdColumn).flatten,
          0 ≤ c ∧ c < aMaxColumn ∧ c ∉ ([] : List Int))) ↔
      (¬ (effectiveSortOrder aSortOrder aIdColumn).flatten.Nodup ∨
        ∃ c ∈ (effectiveSortOrder aSortOrder aIdColumn).flatten, c < 0 ∨ aMaxColumn ≤ c) := by
    constructor
    · intro h
      by_contra hc
      simp only [not_or, not_not, not_exists, not_and, not_lt, not_le] at hc
      apply h
      refine ⟨hc.1, fun c hcm => ?_⟩
      have := hc.2 c hcm
      exact ⟨this.1, this.2, by simp⟩
    · rintro (h | ⟨c, hcm, hc⟩) hh
      · exact h hh.1
      · have := hh.2 c hcm
        omega
  rw [hval] at key
  rw [hdef]
  cases hf : (effectiveSortOrder aSortOrder aIdColumn).foldl (fun acc seq => seq.foldl
          (fun (a : Option (List Int)) column =>
            match a with
            | none => none
            | some fieldIndexes =>
              if fieldIndexes.contains column then none
              else if column ≥ aMaxColumn || column < 0 then none
              else some (setEmplace fieldIndexes column)) acc) (some []) with
  | none =>
    rw [hf] at key
    exact ⟨⟨fun _ => key.1 rfl, fun _ => rfl⟩, Or.inl rfl⟩
  | some fi =>
    rw [hf] at key
    refine ⟨⟨fun h => absurd h (by simp), fun h => absurd (key.2 h) (by simp)⟩, Or.inr rfl⟩

/-! ### MakeUniqueName -/

/-- C26 (failing input): the counter is appended to the base name without a
separator.  In a process whose eleven calls of `MakeUniqueName` pass the base
name `t1` first and the base name `t` last, the first and the eleventh call
both return `t11`; two caches constructed by these calls have the same main
table name and the same shadow table name. -/
theorem C26_MakeUniqueName_collision :
    (makeUniqueNames 0 ["t1", "a", "a", "a", "a", "a", "a", "a", "a", "a", "t"]).get? 0
        = some "t11" ∧
      (makeUniqueNames 0 ["t1", "a", "a", "a", "a", "a", "a", "a", "a", "a", "t"]).get? 10
        = some "t11" ∧
      ¬ (makeUniqueNames 0 ["t1", "a", "a", "a", "a", "a", "a", "a", "a", "a", "t"]).Nodup ∧
      (MakeUniqueName 0 "t1").1 = (MakeUniqueName 10 "t").1 ∧
      (SyncSqlCache.create 0 "t1" ["id", "name"] [] 0 [] AscendingOrder).map
          (fun s => (s.mTable.mTableName, s.mSuspendedItemsTable.mTableName))
        = some ("t11", "t11_ssp") ∧
      (SyncSqlCache.create 10 "t" ["id", "name"] [] 0 [] AscendingOrder).map
          (fun s => (s.mTable.mTableName, s.mSuspendedItemsTable.mTableName))
        = some ("t11", "t11_ssp") := by
  decide

/-! ### ScrollToWithCorrection -/

/-- C27 (failing input): on the one-row visible range `[5, 5]` with the bottom
row partly visible, ensuring that row `5` is visible returns `[6, 5]`, which is
not a valid range, when the row is the last one, and `[6, 6]`, which does not
contain row `5`, when it is not.  Through `ProcessEasyAction` on the loaded
cache (rows `0..2`): with the visible rows `1..1`, row `1` selected and the hint
`EnsureVisible`, the snapshot shows the rows `2..2` while the current row is
`1`. -/
theorem C27_one_row_range_loses_current_row :
    RowRange.ScrollToWithCorrection { Top := 5, Bottom := 5 } 5 true false true
        = { Top := 6, Bottom := 5 } ∧
      (RowRange.ScrollToWithCorrection { Top := 5, Bottom := 5 } 5 true false true).IsValid
        = false ∧
      RowRange.ScrollToWithCorrection { Top := 5, Bottom := 5 } 5 true false false
        = { Top := 6, Bottom := 6 } ∧
      (RowRange.ScrollToWithCorrection { Top := 5, Bottom := 5 } 5 true false false).Contains 5
        = false ∧
      (loadedCache.ProcessEasyAction 7
          { RowWindow := { Top := 0, Bottom := 51 }, RowWindowVisible := { Top := 1, Bottom := 1 },
            Version := 1 }
          (selectRow 1) ensureVisiblePartBottom).mViewWindowValues.CurrentRow = 1 ∧
      (loadedCache.ProcessEasyAction 7
          { RowWindow := { Top := 0, Bottom := 51 }, RowWindowVisible := { Top := 1, Bottom := 1 },
            Version := 1 }
          (selectRow 1) ensureVisiblePartBottom).mViewWindowValues.RowsVisible
        = { Top := 2, Bottom := 2 } := by
  decide

/-- Exact extent of the property of C27: for a valid visible range and a row
`≥ 0`, the range returned by `ScrollToWithCorrection` is valid and contains the
row in every case but one, the one-row range whose bottom row is not fully
visible. -/
theorem ScrollToWithCorrection_keeps_row_iff (r : RowRange) (aRow : Int)
    (aTopIsFullVisible aBottomIsFullVisible aBottomIsEnd : Bool)
    (hr : 0 ≤ r.Top ∧ r.Top ≤ r.Bottom) (hrow : 0 ≤ aRow) :
    ((r.ScrollToWithCorrection aRow aTopIsFullVisible aBottomIsFullVisible
          aBottomIsEnd).IsValid = true ∧
        (r.ScrollToWithCorrection aRow aTopIsFullVisible aBottomIsFullVisible
          aBottomIsEnd).Contains aRow = true) ↔
      ¬ (r.Top = r.Bottom ∧ aBottomIsFullVisible = false) := by
  cases aBottomIsFullVisible <;> cases aBottomIsEnd <;>
    simp only [RowRange.ScrollToWithCorrection, RowRange.IsValid, RowRange.Contains,
      Bool.not_false, Bool.not_true, Bool.and_true, Bool.and_false, Bool.false_eq_true,
      if_false, if_true, decide_eq_true_eq, Bool.and_eq_true, and_true, true_and, not_and,
      Bool.true_eq_false, not_false_eq_true, implies_true, iff_true, not_true_eq_false,
      imp_false] <;>
    split_ifs <;> omega

end

section

open AsyncSqlTableEventProcessing

/-! ## Timer rule of the event processor -/

theorem ProcessEventInternal_user (ep : AsyncSqlTableEventProcessing) (ev : Event)
    (herr : ep.mIsErrorOccured = false) (hu : ev.isUserEvent = true) :
    ep.ProcessEventInternal ev = { ep with mTimerState := ep.mTimerState.started } := by
  cases ev <;> simp only [Event.isUserEvent, Bool.false_eq_true] at hu <;>
    simp [ProcessEventInternal, herr, StartTimer, TimerState.started]

theorem ProcessEventInternal_data (ep : AsyncSqlTableEventProcessing) (ev : Event)
    (herr : ep.mIsErrorOccured = false) (hd : ev.isDataEvent = true) :
    ep.ProcessEventInternal ev =
      if ep.mTimerState.IsOperationSendAllowed = false ∧
          ep.mTimerState.UserActionTimerActive = false then
        { ep with mTimerState := ep.mTimerState.started }
      else ep := by
  cases ev <;> simp only [Event.isDataEvent, Bool.false_eq_true] at hd <;>
    cases h1 : ep.mTimerState.IsOperationSendAllowed <;>
    cases h2 : ep.mTimerState.UserActionTimerActive <;>
    simp [ProcessEventInternal, herr, StartTimer, TimerState.started, h1, h2]

theorem ProcessEventInternal_state (ep : AsyncSqlTableEventProcessing) (ev : Event)
    (hs : ev.isStateEvent = true) : ep.ProcessEventInternal ev = ep := by
  cases ev <;> simp only [Event.isStateEvent, Bool.false_eq_true] at hs <;>
    simp [ProcessEventInternal]

theorem ProcessEventInternal_flag_set (ep : AsyncSqlTableEventProcessing) (ev : Event)
    (hflag : ep.mTimerState.IsOperationSendAllowed = true) (hu : ev.isUserEvent = false) :
    (ep.ProcessEventInternal ev).mTimerState = ep.mTimerState ∧
      ((ep.ProcessEventInternal ev).mIsErrorOccured = true →
        ep.mIsErrorOccured = true ∨ ev = Event.ErrorOccured) := by
  cases herr : ep.mIsErrorOccured
  · cases ev <;> simp only [Event.isUserEvent, Bool.true_eq_false] at hu <;>
      simp [ProcessEventInternal, herr, StartTimer, hflag]
  · rw [ProcessEventInternal_error ep ev herr]
    exact ⟨rfl, fun _ => Or.inl rfl⟩

/-- One delivery with the flag set and an event that is not a user event: the
flag, the interval and the last reported duration are kept and the timer is
not started. -/
theorem deliver_flag_set (st : State) (ev : Event)
    (hflag : st.mEventProcessing.mTimerState.IsOperationSendAllowed = true)
    (hu : ev.isUserEvent = false) :
    (deliver st ev).2.mEventProcessing.mTimerState.IsOperationSendAllowed = true ∧
      (deliver st ev).2.mEventProcessing.mTimerState.UserActionTimerInterval
        = st.mEventProcessing.mTimerState.UserActionTimerInterval ∧
      (deliver st ev).2.mEventProcessing.mTimerState.LastUpdateDurationMs
        = st.mEventProcessing.mTimerState.LastUpdateDurationMs ∧
      ((deliver st ev).2.mEventProcessing.mTimerState.UserActionTimerActive = true →
        st.mEventProcessing.mTimerState.UserActionTimerActive = true) := by
  unfold deliver
  by_cases ht : ev = Event.TimerExpired
  · rw [if_pos ht]
    have h := ProcessEventInternal_flag_set (timerFired st.mEventProcessing) Event.TimerExpired
      rfl rfl
    have e : (OnTimerExpired st).2.mEventProcessing.mTimerState
        = (timerFired st.mEventProcessing).mTimerState := h.1
    rw [e]
    refine ⟨rfl, rfl, rfl, ?_⟩
    intro hc
    exact absurd hc (by simp [timerFired])
  · rw [if_neg ht]
    have h := ProcessEventInternal_flag_set st.mEventProcessing ev hflag hu
    have e : (ProcessEvent st ev).2.mEventProcessing.mTimerState
        = st.mEventProcessing.mTimerState := h.1
    rw [e]
    exact ⟨hflag, rfl, rfl, fun hc => hc⟩

theorem runDelivered_flag_set (steps : List (State × Event)) :
    ∀ ep : AsyncSqlTableEventProcessing, ep.mTimerState.IsOperationSendAllowed = true →
      (∀ p ∈ steps, p.2.isUserEvent = false) →
      (runDelivered ep steps).2.mTimerState.IsOperationSendAllowed = true ∧
        (runDelivered ep steps).2.mTimerState.UserActionTimerInterval
          = ep.mTimerState.UserActionTimerInterval ∧
        (runDelivered ep steps).2.mTimerState.LastUpdateDurationMs
          = ep.mTimerState.LastUpdateDurationMs ∧
        ((runDelivered ep steps).2.mTimerState.UserActionTimerActive = true →
          ep.mTimerState.UserActionTimerActive = true) := by
  induction steps with
  | nil => intro ep h _; exact ⟨h, rfl, rfl, fun hc => hc⟩
  | cons p t ih =>
    intro ep h hs
    obtain ⟨st, ev⟩ := p
    have h1 := deliver_flag_set { st with mEventProcessing := ep } ev h
      (hs (st, ev) (List.mem_cons_self _ _))
    have h2 := ih (deliver { st with mEventProcessing := ep } ev).2.mEventProcessing h1.1
      (fun q hq => hs q (List.mem_cons_of_mem _ hq))
    simp only [runDelivered]
    exact ⟨h2.1, h2.2.1.trans h1.2.1, h2.2.2.1.trans h1.2.2.1, fun hc => h1.2.2.2 (h2.2.2.2 hc)⟩

theorem not_user_of_data_or_state (ev : Event)
    (h : ev.isDataEvent = true ∨ ev.isStateEvent = true) : ev.isUserEvent = false := by
  cases ev <;> simp [Event.isDataEvent, Event.isStateEvent, Event.isUserEvent] at h ⊢

/-- C22: timer rule of the event processor.  While no error has occurred,
processing a user event (sort, filter, delete, window, selection, selection and
window) leaves the timer state started, whatever it was before: the flag
`IsOperationSendAllowed` is `false`, the timer runs, and its interval is the
last reported duration.  Processing a data event (new data pack, loading
finished, suspension flag changed) starts the timer exactly when the flag is
`false` and the timer is not running, and otherwise leaves the timer state as
it was; in particular a running timer is never restarted.  The expiry of the
timer sets the flag to `true` before `TimerExpired` is processed, and the flag
is still `true` afterwards.  (After an error the processor returns before the
switch, and no event changes the timer state.) -/
theorem C22_timer_rule (st : State) (aEvent : Event) :
    (st.mEventProcessing.mIsErrorOccured = false → aEvent.isUserEvent = true →
      (ProcessEvent st aEvent).2.mEventProcessing.mTimerState
          = st.mEventProcessing.mTimerState.started ∧
        (ProcessEvent st aEvent).2.mEventProcessing.mTimerState.IsOperationSendAllowed = false ∧
        (ProcessEvent st aEvent).2.mEventProcessing.mTimerState.UserActionTimerActive = true ∧
        (ProcessEvent st aEvent).2.mEventProcessing.mTimerState.UserActionTimerInterval
          = st.mEventProcessing.mTimerState.LastUpdateDurationMs) ∧
    (st.mEventProcessing.mIsErrorOccured = false → aEvent.isDataEvent = true →
      (ProcessEvent st aEvent).2.mEventProcessing.mTimerState
          = (if st.mEventProcessing.mTimerState.IsOperationSendAllowed = false ∧
              st.mEventProcessing.mTimerState.UserActionTimerActive = false then
              st.mEventProcessing.mTimerState.started
            else st.mEventProcessing.mTimerState) ∧
        (st.mEventProcessing.mTimerState.UserActionTimerActive = true →
          (ProcessEvent st aEvent).2.mEventProcessing.mTimerState
            = st.mEventProcessing.mTimerState)) ∧
    (st.mEventProcessing.mIsErrorOccured = true →
      (ProcessEvent st aEvent).2.mEventProcessing.mTimerState
        = st.mEventProcessing.mTimerState) ∧
    (timerFired st.mEventProcessing).mTimerState.IsOperationSendAllowed = true ∧
    (OnTimerExpired st).2.mEventProcessing.mTimerState.IsOperationSendAllowed = true := by
  refine ⟨?_, ?_, ?_, rfl, ?_⟩
  · intro herr hu
    have e : (ProcessEvent st aEvent).2.mEventProcessing
        = st.mEventProcessing.ProcessEventInternal aEvent := rfl
    rw [e, ProcessEventInternal_user _ _ herr hu]
    exact ⟨rfl, rfl, rfl, rfl⟩
  · intro herr hd
    have e : (ProcessEvent st aEvent).2.mEventProcessing
        = st.mEventProcessing.ProcessEventInternal aEvent := rfl
    rw [e, ProcessEventInternal_data _ _ herr hd]
    constructor
    · split <;> rfl
    · intro ha
      rw [if_neg (by rw [ha]; simp)]
  · intro herr
    have e : (ProcessEvent st aEvent).2.mEventProcessing
        = st.mEventProcessing.ProcessEventInternal aEvent := rfl
    rw [e, ProcessEventInternal_error _ _ herr]
  · have h := ProcessEventInternal_flag_set (timerFired st.mEventProcessing) Event.TimerExpired
      rfl rfl
    have e : (OnTimerExpired st).2.mEventProcessing.mTimerState
        = (timerFired st.mEventProcessing).mTimerState := h.1
    rw [e]
    rfl

/-- Witness of C22: with the flag set and a reported duration of 40 ms, a sort
restarts the timer with interval 40 and clears the flag. -/
theorem C22_timer_rule_witness :
    (ProcessEvent
        { mEventProcessing := { mTimerState :=
            { IsOperationSendAllowed := true, LastUpdateDurationMs := 40 } } }
        Event.SortOperation).2.mEventProcessing.mTimerState
      = { UserActionTimerActive := true, UserActionTimerInterval := 40,
          IsOperationSendAllowed := false, LastUpdateDurationMs := 40 } :=
  ((C22_timer_rule
      { mEventProcessing := { mTimerState :=
          { IsOperationSendAllowed := true, LastUpdateDurationMs := 40 } } }
      Event.SortOperation).1 rfl rfl).1

/-- C29: once the timer has expired the flag stays set.  Starting with
`IsOperationSendAllowed = true`, across every sequence of deliveries of data
events and state events (any bucket contents at each step), after every prefix
of the sequence the flag is still `true`, the interval and the last reported
duration are unchanged and the timer has not been started.  A user event, while
no error has occurred, resets the flag and starts the timer.  Hence, with the
flag set and no error, whenever such an event is delivered while the backend is
ready and incoming data is pending, a request is sent at once (the command is
not `DoNothing`), and it is the update request unless the front end is ready
and a user query or an easy action is pending, which go first. -/
theorem C29_expired_flag_persists (ep : AsyncSqlTableEventProcessing)
    (steps : List (State × Event))
    (hflag : ep.mTimerState.IsOperationSendAllowed = true)
    (hsteps : ∀ p ∈ steps, p.2.isDataEvent = true ∨ p.2.isStateEvent = true) :
    (∀ k : Nat,
      (runDelivered ep (steps.take k)).2.mTimerState.IsOperationSendAllowed = true ∧
        (runDelivered ep (steps.take k)).2.mTimerState.UserActionTimerInterval
          = ep.mTimerState.UserActionTimerInterval ∧
        (runDelivered ep (steps.take k)).2.mTimerState.LastUpdateDurationMs
          = ep.mTimerState.LastUpdateDurationMs ∧
        ((runDelivered ep (steps.take k)).2.mTimerState.UserActionTimerActive = true →
          ep.mTimerState.UserActionTimerActive = true)) ∧
    (runDelivered ep steps).2.mTimerState.IsOperationSendAllowed = true ∧
    (∀ (st : State) (ev : Event), st.mEventProcessing = (runDelivered ep steps).2 →
      st.mEventProcessing.mIsErrorOccured = false → ev.isUserEvent = true →
        (ProcessEvent st ev).2.mEventProcessing.mTimerState.IsOperationSendAllowed = false ∧
        (ProcessEvent st ev).2.mEventProcessing.mTimerState.UserActionTimerActive = true) ∧
    (∀ (st : State) (ev : Event), st.mEventProcessing = (runDelivered ep steps).2 →
      st.mEventProcessing.mIsErrorOccured = false →
      (ev.isDataEvent = true ∨ ev.isStateEvent = true) →
      st.mBackEndState.IsBackendReady = true →
      st.mPendingDataIncomingState.IsUpdateOperationNeeded = true →
        (deliver st ev).1 ≠ Command.DoNothing ∧
        ((st.mFrontEndState.mIsFrontendReady = false ∨
            (st.mPendingUserQueryActionState.Query = none ∧
              st.mPendingUserEasyActionState = {})) →
          (deliver st ev).1 = Command.SendUpdateRequest)) := by
  have hnu : ∀ p ∈ steps, p.2.isUserEvent = false :=
    fun p hp => not_user_of_data_or_state p.2 (hsteps p hp)
  have hall := runDelivered_flag_set steps ep hflag hnu
  refine ⟨?_, hall.1, ?_, ?_⟩
  · intro k
    exact runDelivered_flag_set (steps.take k) ep hflag
      (fun p hp => hnu p (List.mem_of_mem_take hp))
  · intro st ev _ herr hu
    have e : (ProcessEvent st ev).2.mEventProcessing
        = st.mEventProcessing.ProcessEventInternal ev := rfl
    rw [e, ProcessEventInternal_user _ _ herr hu]
    exact ⟨rfl, rfl⟩
  · intro st ev hst herr hev hready hdata
    have hf : st.mEventProcessing.mTimerState.IsOperationSendAllowed = true := by
      rw [hst]; exact hall.1
    have hu := not_user_of_data_or_state ev hev
    have hne : ev ≠ Event.ErrorOccured := by
      intro he
      rw [he] at hev
      simp [Event.isDataEvent, Event.isStateEvent] at hev
    -- the processor after the delivery: flag set, no error
    have hflag2 := (deliver_flag_set st ev hf hu).1
    have herr2 : (deliver st ev).2.mEventProcessing.mIsErrorOccured = false := by
      unfold deliver
      by_cases ht : ev = Event.TimerExpired
      · rw [if_pos ht]
        show ((timerFired st.mEventProcessing).ProcessEventInternal
          Event.TimerExpired).mIsErrorOccured = false
        have herr3 : (timerFired st.mEventProcessing).mIsErrorOccured = false := herr
        simp [ProcessEventInternal, herr3]
      · rw [if_neg ht]
        show (st.mEventProcessing.ProcessEventInternal ev).mIsErrorOccured = false
        have h := (ProcessEventInternal_flag_set st.mEventProcessing ev hf hu).2
        cases hc : (st.mEventProcessing.ProcessEventInternal ev).mIsErrorOccured
        · rfl
        · rcases h hc with h | h
          · rw [herr] at h; exact absurd h (by simp)
          · exact absurd h hne
    have hcmd : (deliver st ev).1 = GetCommand (deliver st ev).2 := by
      unfold deliver
      by_cases ht : ev = Event.TimerExpired
      · rw [if_pos ht]; rfl
      · rw [if_neg ht]; rfl
    have hb : (deliver st ev).2.mBackEndState = st.mBackEndState := by
      unfold deliver
      by_cases ht : ev = Event.TimerExpired
      · rw [if_pos ht]; rfl
      · rw [if_neg ht]; rfl
    have hd : (deliver st ev).2.mPendingDataIncomingState = st.mPendingDataIncomingState := by
      unfold deliver
      by_cases ht : ev = Event.TimerExpired
      · rw [if_pos ht]; rfl
      · rw [if_neg ht]; rfl
    have hfr : (deliver st ev).2.mFrontEndState = st.mFrontEndState := by
      unfold deliver
      by_cases ht : ev = Event.TimerExpired
      · rw [if_pos ht]; rfl
      · rw [if_neg ht]; rfl
    have hq : (deliver st ev).2.mPendingUserQueryActionState
        = st.mPendingUserQueryActionState := by
      unfold deliver
      by_cases ht : ev = Event.TimerExpired
      · rw [if_pos ht]; rfl
      · rw [if_neg ht]; rfl
    have he : (deliver st ev).2.mPendingUserEasyActionState
        = st.mPendingUserEasyActionState := by
      unfold deliver
      by_cases ht : ev = Event.TimerExpired
      · rw [if_pos ht]; rfl
      · rw [if_neg ht]; rfl
    rw [hcmd]
    generalize (deliver st ev).2 = st2 at hflag2 herr2 hb hd hfr hq he
    constructor
    · simp only [GetCommand, herr2, hflag2, hb, hready, hd, hdata, Bool.and_self, if_true,
        Bool.false_eq_true, if_false, Bool.true_and]
      split_ifs <;> simp
    · intro hc
      rcases hc with hc | ⟨hc1, hc2⟩
      · simp [GetCommand, herr2, hflag2, hb, hready, hd, hdata, hfr,
          FrontendState.IsFrontendReady, hc]
      · simp only [GetCommand, herr2, hflag2, hb, hready, hd, hdata, hq, he, hc1, hc2,
          PendingUserQueryActionState.IsNeeded, PendingUserEasyActionState.IsNeeded,
          Option.isSome_none, Bool.or_self, Bool.and_self, if_true, Bool.false_eq_true,
          if_false, Bool.true_and]
        split_ifs <;> rfl

/-- Witness of C29: after the expiry, a new data pack, a second expiry and the
end of loading leave the flag set and start no timer. -/
theorem C29_expired_flag_persists_witness :
    (runDelivered { mTimerState := { IsOperationSendAllowed := true } }
      [({}, Event.NewDataPackReceived), ({}, Event.TimerExpired),
        ({}, Event.LoadingFinished)]).2.mTimerState.IsOperationSendAllowed = true :=
  (C29_expired_flag_persists { mTimerState := { IsOperationSendAllowed := true } }
    [({}, Event.NewDataPackReceived), ({}, Event.TimerExpired), ({}, Event.LoadingFinished)]
    rfl (by decide)).2.1

end

section

open AsyncSqlTableModelBase

/-! ## Reported duration and version confirmation at the front -/

theorem dispatch_state (m : AsyncSqlTableModelBase) (c : Command) :
    (m.dispatch c).mState.mEventProcessing = m.mState.mEventProcessing ∧
    (m.dispatch c).mState.mFrontEndState = m.mState.mFrontEndState ∧
    ((m.dispatch c).mState.mPendingUserEasyActionState = m.mState.mPendingUserEasyActionState ∨
      (m.dispatch c).mState.mPendingUserEasyActionState = {}) := by
  cases c
  · exact ⟨rfl, rfl, Or.inl rfl⟩
  · exact ⟨rfl, rfl, Or.inr rfl⟩
  · exact ⟨rfl, rfl, Or.inl rfl⟩
  · exact ⟨rfl, rfl, Or.inl rfl⟩

theorem model_ProcessEvent_processor (m : AsyncSqlTableModelBase) (ev : Event) :
    (m.ProcessEvent ev).2.mState.mEventProcessing
      = m.mState.mEventProcessing.ProcessEventInternal ev := by
  rw [(model_ProcessEvent_fields m ev).2.1, (dispatch_state _ _).1]
  rfl

theorem blockUserAction_state (m : AsyncSqlTableModelBase) (e : Event) :
    (m.blockUserAction e).mState = m.mState := by
  unfold AsyncSqlTableModelBase.blockUserAction
  split <;> rfl

theorem applyRowDiffs_state (m : AsyncSqlTableModelBase) (aValues : ViewWindowValues) :
    (m.applyRowDiffs aValues).mState = m.mState := by
  unfold AsyncSqlTableModelBase.applyRowDiffs
  simp only [AsyncSqlTableModelBase.emit]
  split <;> split <;> rfl

theorem applySelectionAndVersion_state (m : AsyncSqlTableModelBase)
    (aValues : ViewWindowValues) :
    (m.applySelectionAndVersion aValues).mState = m.mState := by
  unfold AsyncSqlTableModelBase.applySelectionAndVersion
  simp only [AsyncSqlTableModelBase.emit]
  split <;> split <;> split <;> rfl

theorem applyValues_state (m : AsyncSqlTableModelBase) (aValues : ViewWindowValues) :
    (m.applyValues aValues).mState = m.mState := by
  unfold AsyncSqlTableModelBase.applyValues
  simp only
  rw [applySelectionAndVersion_state, applyRowDiffs_state]
  split
  · rw [blockUserAction_state, blockUserAction_state]
  · rw [blockUserAction_state]

theorem acceptResponse_duration (m : AsyncSqlTableModelBase) (aDuration : Int)
    (c : Option Int) (u : Option Nat) :
    (m.acceptResponse (some aDuration) c u).mState.mEventProcessing
        = m.mState.mEventProcessing.SetLastUpdateDurationMs
            (max aDuration MinUserTimerDurationMs) ∧
    (m.acceptResponse none c u).mState.mEventProcessing = m.mState.mEventProcessing := by
  unfold AsyncSqlTableModelBase.acceptResponse
  simp only [AsyncSqlTableModelBase.emit]
  cases c <;> cases u <;> exact ⟨rfl, rfl⟩

/-- The model `OnViewWindowValuesChanged` works on after its first statements,
and the two outcomes of the rest of the slot on it. -/
theorem OnViewWindowValuesChanged_unfold (m : AsyncSqlTableModelBase) (d c : Option Int)
    (u : Option Nat) (aValues : ViewWindowValues) (aIsUpdated : Bool)
    (aSelectedIds : Option (List Int))
    (herr : m.mError = "") (hclear : m.mState.mBackEndState.IsPendingClear = false) :
    ∃ m0 : AsyncSqlTableModelBase, m0.mState = m.mState ∧ m0.mViewData = m.mViewData ∧
      m0.mOperationId = m.mOperationId ∧
      (∃ l, m0.Emitted = m.Emitted ++ l ∧ ∀ v, FrontSignal.ConfirmVersionAsync v ∉ l) ∧
      m.OnViewWindowValuesChanged d c u aValues aIsUpdated aSelectedIds
        = (if ((m0.acceptResponse d c u).ProcessEvent Event.BackEndStateChanged).1
              = Command.SendUserActionRequest
            || (!aIsUpdated && !((m0.acceptResponse d c u).ProcessEvent
                Event.BackEndStateChanged).2.mPendingViewWindowUpdate) then
          { ((m0.acceptResponse d c u).ProcessEvent Event.BackEndStateChanged).2 with
            mPendingViewWindowUpdate :=
              ((m0.acceptResponse d c u).ProcessEvent
                Event.BackEndStateChanged).2.mPendingViewWindowUpdate || aIsUpdated }
        else ((m0.acceptResponse d c u).ProcessEvent
          Event.BackEndStateChanged).2.applyValues aValues) := by
  have herr2 : (!m.mError.isEmpty) = false := by rw [herr]; rfl
  cases aSelectedIds with
  | none =>
    refine ⟨m, rfl, rfl, rfl, ⟨[], by simp, by simp⟩, ?_⟩
    unfold AsyncSqlTableModelBase.OnViewWindowValuesChanged
    simp only [herr2, Bool.false_eq_true, if_false, hclear]
  | some ids =>
    refine ⟨m.emit [FrontSignal.SelectedIdsReported ids], rfl, rfl, rfl,
      ⟨[FrontSignal.SelectedIdsReported ids], rfl, by simp⟩, ?_⟩
    have hclear1 :
        (m.emit [FrontSignal.SelectedIdsReported ids]).mState.mBackEndState.IsPendingClear
          = false := hclear
    unfold AsyncSqlTableModelBase.OnViewWindowValuesChanged
    simp only [herr2, Bool.false_eq_true, if_false, hclear1]

theorem response_branches_state (x : AsyncSqlTableModelBase) (b : Bool) (p : Bool)
    (aValues : ViewWindowValues) :
    (if p then { x with mPendingViewWindowUpdate := b } else x.applyValues aValues).mState
      = x.mState := by
  cases p
  · exact applyValues_state x aValues
  · rfl

/-- C23 (counterexample): the interval is the reported duration itself.  After
a response that reports 100 ms the next timer start (here by a window request)
uses the interval 100, after one that reports 50 ms the interval 50, and after
one that reports 3000 ms the interval 3000; no maximum makes
`clamp(2 * d, 0, MAX)` give 100 for `d = 100` and 50 for `d = 50`. -/
theorem C23_interval_is_the_reported_duration :
    ((afterReportedDuration 100).SetRowWindow 0 10 ScrollHintType.NoHint EdgeRowHintType.Full
        EdgeRowHintType.Full).mState.mEventProcessing.mTimerState
      = { UserActionTimerActive := true, UserActionTimerInterval := 100,
          IsOperationSendAllowed := false, LastUpdateDurationMs := 100 } ∧
    ((afterReportedDuration 50).SetRowWindow 0 10 ScrollHintType.NoHint EdgeRowHintType.Full
        EdgeRowHintType.Full).mState.mEventProcessing.mTimerState.UserActionTimerInterval
      = 50 ∧
    ((afterReportedDuration 3000).SetRowWindow 0 10 ScrollHintType.NoHint EdgeRowHintType.Full
        EdgeRowHintType.Full).mState.mEventProcessing.mTimerState.UserActionTimerInterval
      = 3000 ∧
    ¬ ∃ aMax : Int, clampedTimeout 100 aMax = 100 ∧ clampedTimeout 50 aMax = 50 := by
  refine ⟨by decide, by decide, by decide, ?_⟩
  rintro ⟨aMax, h1, h2⟩
  simp only [clampedTimeout] at h1 h2
  omega

/-- C23 (amended): when a response reports a selection duration of `d`
milliseconds (no error recorded, no clear pending), the event processor stores
`max(d, 0)` as the last reported duration, and the next timer start, by any
user event processed while no error has occurred, uses exactly this interval:
the reported duration itself, bounded below by `0` ms, not doubled and with no
upper bound.  A response that reports no duration leaves the stored duration
unchanged. -/
theorem C23_next_interval_is_reported_duration (m : AsyncSqlTableModelBase) (aDuration : Int)
    (c : Option Int) (u : Option Nat) (aValues : ViewWindowValues) (aIsUpdated : Bool)
    (aSelectedIds : Option (List Int))
    (herr : m.mError = "") (hclear : m.mState.mBackEndState.IsPendingClear = false) :
    (m.OnViewWindowValuesChanged (some aDuration) c u aValues aIsUpdated
        aSelectedIds).mState.mEventProcessing.mTimerState.LastUpdateDurationMs
      = max aDuration 0 ∧
    (∀ ev : Event, ev.isUserEvent = true →
      m.mState.mEventProcessing.mIsErrorOccured = false →
      (((m.OnViewWindowValuesChanged (some aDuration) c u aValues aIsUpdated
          aSelectedIds).ProcessEvent
            ev).2.mState.mEventProcessing.mTimerState.UserActionTimerInterval = max aDuration 0 ∧
        ((m.OnViewWindowValuesChanged (some aDuration) c u aValues aIsUpdated
          aSelectedIds).ProcessEvent
            ev).2.mState.mEventProcessing.mTimerState.UserActionTimerActive = true)) ∧
    (m.OnViewWindowValuesChanged none c u aValues aIsUpdated
        aSelectedIds).mState.mEventProcessing.mTimerState.LastUpdateDurationMs
      = m.mState.mEventProcessing.mTimerState.LastUpdateDurationMs := by
  have key : ∀ d : Option Int,
      (m.OnViewWindowValuesChanged d c u aValues aIsUpdated aSelectedIds).mState.mEventProcessing
        = (m.acceptResponse d c u).mState.mEventProcessing := by
    intro d
    obtain ⟨m0, hs, _, _, _, heq⟩ :=
      OnViewWindowValuesChanged_unfold m d c u aValues aIsUpdated aSelectedIds herr hclear
    rw [heq]
    have hb := response_branches_state
      ((m0.acceptResponse d c u).ProcessEvent Event.BackEndStateChanged).2
      (((m0.acceptResponse d c u).ProcessEvent
        Event.BackEndStateChanged).2.mPendingViewWindowUpdate || aIsUpdated)
      (decide (((m0.acceptResponse d c u).ProcessEvent Event.BackEndStateChanged).1
          = Command.SendUserActionRequest)
        || (!aIsUpdated && !((m0.acceptResponse d c u).ProcessEvent
            Event.BackEndStateChanged).2.mPendingViewWindowUpdate)) aValues
    rw [hb, model_ProcessEvent_processor,
      ProcessEventInternal_state _ Event.BackEndStateChanged rfl,
      (acceptResponse_fields m d c u).2.2.2.2 m0 hs]
  have hd := acceptResponse_duration m aDuration c u
  have h1 : (m.OnViewWindowValuesChanged (some aDuration) c u aValues aIsUpdated
      aSelectedIds).mState.mEventProcessing
        = m.mState.mEventProcessing.SetLastUpdateDurationMs (max aDuration 0) := by
    rw [key, hd.1]; rfl
  refine ⟨?_, ?_, ?_⟩
  · rw [h1]; rfl
  · intro ev hu hproc
    rw [model_ProcessEvent_processor, h1,
      ProcessEventInternal_user
        (m.mState.mEventProcessing.SetLastUpdateDurationMs (max aDuration 0)) ev hproc hu]
    exact ⟨rfl, rfl⟩
  · rw [key, hd.2]

/-- Witness of C23 (amended): a response that reports 100 ms to the model of
the front trace, followed by a sort. -/
theorem C23_next_interval_is_reported_duration_witness :
    ((frontLoading.OnViewWindowValuesChanged (some 100) (some 3) (some 0)
        { Version := 1, RecordsCount := 3, RequestId := 1 } true none).ProcessEvent
      Event.SortOperation).2.mState.mEventProcessing.mTimerState.UserActionTimerInterval
        = max 100 0 :=
  ((C23_next_interval_is_reported_duration frontLoading 100 (some 3) (some 0)
    { Version := 1, RecordsCount := 3, RequestId := 1 } true none (by decide) (by decide)).2.1
      Event.SortOperation rfl (by decide)).1

end

section

open SyncSqlCache

/-! ## Main table and shadow table -/

/-- The storing part of the cache after a heavy operation is the one after its
call of `TryStoreItemsToDb`, the suspension being decided with the value of
`mIsSelectionAllowed` from before the operation. -/
theorem ProcessHeavyAction_storePart (s : SyncSqlCache) (engine : SelectEngine)
    (aRequestId : Int) (aValues : List (List QVariant)) (aLoadingStatus : LoadingStatus)
    (aSorting : Option SortParameters) (aFilter : Option String)
    (aReportSelected aSuspendUpdates : Bool) (aElapsedMs : Int) :
    storePart (s.ProcessHeavyAction engine aRequestId aValues aLoadingStatus aSorting aFilter
        aReportSelected aSuspendUpdates aElapsedMs) =
      storePart (s.TryStoreItemsToDb aValues (aSuspendUpdates && s.mIsSelectionAllowed)).2 := by
  have hp := heavy_prefix_keep s aRequestId aSorting aFilter
  generalize hs2 : ({ (s.SetSorting aSorting).SetFilter aFilter with
        mViewWindowValues := { ((s.SetSorting aSorting).SetFilter aFilter).mViewWindowValues with
          RequestId := aRequestId } } : SyncSqlCache) = s2 at hp
  have h3 := SetUpdatesFromDbAllowed_spec s2 aLoadingStatus
  have hst := TryStoreItemsToDb_storePart (s2.SetUpdatesFromDbAllowed aLoadingStatus) s aValues
    (aSuspendUpdates && s2.mIsSelectionAllowed) (by rw [h3.1, hp.1])
  have key : storePart (s.ProcessHeavyAction engine aRequestId aValues aLoadingStatus aSorting
        aFilter aReportSelected aSuspendUpdates aElapsedMs) =
        storePart (((s2.SetUpdatesFromDbAllowed aLoadingStatus).TryStoreItemsToDb aValues
          (aSuspendUpdates && s2.mIsSelectionAllowed)).2.TryPerformSelection engine
          (((s2.SetUpdatesFromDbAllowed aLoadingStatus).TryStoreItemsToDb aValues
              (aSuspendUpdates && s2.mIsSelectionAllowed)).1
            && !(aSuspendUpdates && s2.mIsSelectionAllowed)
            || decide (aLoadingStatus = LoadingStatus.Finished))
          aSorting aFilter aElapsedMs).2 := by
    rw [← hs2]
    rfl
  have hsel := TryPerformSelection_keep
    ((s2.SetUpdatesFromDbAllowed aLoadingStatus).TryStoreItemsToDb aValues
      (aSuspendUpdates && s2.mIsSelectionAllowed)).2 engine
    (((s2.SetUpdatesFromDbAllowed aLoadingStatus).TryStoreItemsToDb aValues
        (aSuspendUpdates && s2.mIsSelectionAllowed)).1
      && !(aSuspendUpdates && s2.mIsSelectionAllowed)
      || decide (aLoadingStatus = LoadingStatus.Finished))
    aSorting aFilter aElapsedMs
  rw [key, hsel.1, hst.2, hp.2]

theorem SetSelection_storePart (s : SyncSqlCache) (aSelectionRequest : SelectionRequest) :
    storePart (s.SetSelection aSelectionRequest).2 = storePart s := by
  have hk := (TransformSelection_keep s aSelectionRequest.Version aSelectionRequest.Selection
    aSelectionRequest.CurrentRow).1
  unfold SetSelection
  simp only [TransformSelectionRequest]
  split
  · exact hk
  · exact hk

theorem SetRowWindow_storePart (s : SyncSqlCache) (aRowRequest : RowRequest) :
    storePart (s.SetRowWindow aRowRequest).2 = storePart s := by
  have ht : storePart
      (if !s.mIsAutoScroll then s.TransformRowRange aRowRequest else (s, none)).1
        = storePart s := by
    split
    · unfold TransformRowRange
      split <;> rfl
    · rfl
  unfold SetRowWindow
  simp only
  generalize (if !s.mIsAutoScroll then s.TransformRowRange aRowRequest else (s, none)) = t
    at ht ⊢
  split <;> exact ht

theorem ProcessEasyAction_storePart (s : SyncSqlCache) (aRequestId : Int)
    (aRowRequest : RowRequest) (aSelectionRequest : SelectionRequest)
    (aHintsRequest : HintsRequest) :
    storePart (s.ProcessEasyAction aRequestId aRowRequest aSelectionRequest aHintsRequest)
      = storePart s := by
  unfold ProcessEasyAction
  simp only
  split
  · have h1 := SetSelection_storePart
      ({ s with mViewWindowValues := { s.mViewWindowValues with RequestId := aRequestId } })
      aSelectionRequest
    generalize (({ s with mViewWindowValues :=
      { s.mViewWindowValues with RequestId := aRequestId } } : SyncSqlCache).SetSelection
        aSelectionRequest) = sel at h1 ⊢
    have h2 := SetRowWindow_storePart sel.2 (sel.2.easyRowRequest aRowRequest aHintsRequest)
    generalize (sel.2.SetRowWindow (sel.2.easyRowRequest aRowRequest aHintsRequest)) = win
      at h2 ⊢
    cases hu : (sel.1 || win.1)
    · simp only [Bool.false_eq_true, if_false]
      show storePart win.2 = _
      rw [h2, h1]
      rfl
    · simp only [if_true]
      show storePart (win.2.UpdateViewWindowValues false) = _
      rw [(UpdateViewWindowValues_keep _ _).1, h2, h1]
      rfl
  · rfl

theorem storeItem_direct_staged (s : SyncSqlCache) (item : List QVariant) :
    (storeItem false s item).mSuspendedItemsTable = s.mSuspendedItemsTable ∧
    (storeItem false s item).mSuspendedDeletedIds = s.mSuspendedDeletedIds ∧
    (storeItem false s item).mSuspendedRecordsCounter = s.mSuspendedRecordsCounter := by
  unfold storeItem InsertOrReplace DeleteRecord AddPendingValue
  by_cases hl : item.length > 1 <;> simp [hl]

theorem storeItem_counter (aSuspend : Bool) (s : SyncSqlCache) (item : List QVariant) :
    (storeItem aSuspend s item).mSuspendedRecordsCounter = s.mSuspendedRecordsCounter := by
  unfold storeItem InsertOrReplace DeleteRecord AddPendingValue
  cases aSuspend <;> by_cases hl : item.length > 1 <;> simp [hl]

theorem ResumeSuspendedItems_staged (s : SyncSqlCache) :
    s.ResumeSuspendedItems.mSuspendedItemsTable.Rows = [] ∧
    s.ResumeSuspendedItems.mSuspendedDeletedIds = [] ∧
    s.ResumeSuspendedItems.mSuspendedRecordsCounter = 0 := by
  refine ⟨rfl, ?_, rfl⟩
  unfold ResumeSuspendedItems
  simp only
  rw [(resumeInsert_fold _ _).2.2.1]

theorem StoreItemsToDb_direct_staged (s : SyncSqlCache) (aValues : List (List QVariant)) :
    (s.StoreItemsToDb aValues false).mSuspendedItemsTable = s.mSuspendedItemsTable ∧
    (s.StoreItemsToDb aValues false).mSuspendedDeletedIds = s.mSuspendedDeletedIds ∧
    (s.StoreItemsToDb aValues false).mSuspendedRecordsCounter = s.mSuspendedRecordsCounter := by
  have h := foldl_proj_keep
    (fun st : SyncSqlCache =>
      (st.mSuspendedItemsTable, st.mSuspendedDeletedIds, st.mSuspendedRecordsCounter))
    (storeItem false)
    (fun a x => by
      obtain ⟨h1, h2, h3⟩ := storeItem_direct_staged a x
      simp only [h1, h2, h3])
    aValues s
  simp only [Prod.mk.injEq] at h
  unfold StoreItemsToDb
  simp only [Bool.false_eq_true, if_false]
  exact h

theorem StoreItemsToDb_suspended_counter (s : SyncSqlCache) (aValues : List (List QVariant)) :
    (s.StoreItemsToDb aValues true).mSuspendedRecordsCounter
      = s.mSuspendedRecordsCounter + aValues.length := by
  have h := foldl_proj_keep (fun st : SyncSqlCache => st.mSuspendedRecordsCounter)
    (storeItem true) (fun a x => storeItem_counter true a x) aValues s
  unfold StoreItemsToDb
  simp only [if_true]
  rw [h]

/-- The call of `TryStoreItemsToDb` keeps the property that nothing is staged
when the suspended counter is zero, and a store that is not suspended leaves
nothing staged. -/
theorem TryStoreItemsToDb_staged (s : SyncSqlCache) (aValues : List (List QVariant))
    (aSuspend : Bool)
    (hJ : s.mSuspendedRecordsCounter = 0 →
      s.mSuspendedItemsTable.Rows = [] ∧ s.mSuspendedDeletedIds = []) :
    ((s.TryStoreItemsToDb aValues aSuspend).2.mSuspendedRecordsCounter = 0 →
      (s.TryStoreItemsToDb aValues aSuspend).2.mSuspendedItemsTable.Rows = [] ∧
      (s.TryStoreItemsToDb aValues aSuspend).2.mSuspendedDeletedIds = []) ∧
    (aSuspend = false →
      (s.TryStoreItemsToDb aValues aSuspend).2.mSuspendedItemsTable.Rows = [] ∧
      (s.TryStoreItemsToDb aValues aSuspend).2.mSuspendedDeletedIds = []) := by
  unfold TryStoreItemsToDb
  by_cases hc : (aValues.isEmpty && (aSuspend || s.mSuspendedRecordsCounter == 0)) = true
  · rw [if_pos hc]
    refine ⟨hJ, ?_⟩
    intro hs
    subst hs
    simp only [Bool.false_or, Bool.and_eq_true, beq_iff_eq] at hc
    exact hJ hc.2
  · rw [if_neg hc]
    cases aSuspend
    · have hr := ResumeSuspendedItems_staged s
      have hd := StoreItemsToDb_direct_staged s.ResumeSuspendedItems aValues
      have e1 : ((if (!false) = true then s.ResumeSuspendedItems else s).StoreItemsToDb aValues
          false).mSuspendedItemsTable.Rows = [] := by
        show (s.ResumeSuspendedItems.StoreItemsToDb aValues false).mSuspendedItemsTable.Rows = []
        rw [hd.1]; exact hr.1
      have e2 : ((if (!false) = true then s.ResumeSuspendedItems else s).StoreItemsToDb aValues
          false).mSuspendedDeletedIds = [] := by
        show (s.ResumeSuspendedItems.StoreItemsToDb aValues false).mSuspendedDeletedIds = []
        rw [hd.2.1]; exact hr.2.1
      exact ⟨fun _ => ⟨e1, e2⟩, fun _ => ⟨e1, e2⟩⟩
    · have hne : aValues ≠ [] := by
        intro he
        apply hc
        rw [he]
        rfl
      have hcnt := StoreItemsToDb_suspended_counter s aValues
      have hlen : 0 < aValues.length := List.length_pos.2 hne
      refine ⟨?_, fun h => absurd h (by simp)⟩
      intro hz
      have hz2 : (s.StoreItemsToDb aValues true).mSuspendedRecordsCounter = 0 := hz
      rw [hcnt] at hz2
      omega

/-- In every reachable back state nothing is staged when the suspended counter
is zero. -/
theorem BackReachable_staged (s : SyncSqlCache) (h : BackReachable s) :
    s.mSuspendedRecordsCounter = 0 →
      s.mSuspendedItemsTable.Rows = [] ∧ s.mSuspendedDeletedIds = [] := by
  induction h with
  | created a b c d e f g s hc =>
    unfold SyncSqlCache.create at hc
    split at hc
    · exact absurd hc (by simp)
    · split at hc
      · exact absurd hc (by simp)
      · simp only [Option.some.injEq] at hc
        rw [← hc]
        intro _
        exact ⟨rfl, rfl⟩
  | heavy s engine rid v ls so fi rep susp ms _ ih =>
    obtain ⟨_, _, h3, h4, h5, _⟩ :=
      storePart_eq.1 (ProcessHeavyAction_storePart s engine rid v ls so fi rep susp ms)
    rw [h3, h4, h5]
    exact (TryStoreItemsToDb_staged s v _ ih).1
  | easy s rid rr sr hr _ ih =>
    obtain ⟨_, _, h3, h4, h5, _⟩ :=
      storePart_eq.1 (ProcessEasyAction_storePart s rid rr sr hr)
    rw [h3, h4, h5]
    exact ih
  | confirm s v _ ih => exact ih
  | clear s _ _ =>
    intro _
    exact ⟨rfl, rfl⟩

theorem suspendedUpdateCache_reachable : BackReachable suspendedUpdateCache := by
  unfold suspendedUpdateCache
  exact BackReachable.heavy _ _ _ _ _ _ _ _ _ _
    (BackReachable.heavy _ _ _ _ _ _ _ _ _ _
      (BackReachable.created 0 "t" ["id", "name", "common"] [(2, [0, 1])] 0 [] AscendingOrder
        emptyCache (by decide)))

/-- C24 (counterexample): the cache constructed for the fields `id`, `name`,
`common` loads the ids 1, 2, 3 and then receives, with updates suspended, a new
version of the row of id 1.  The row is staged in the shadow table and the main
table keeps its row: the id 1 is in both tables. -/
theorem C24_suspended_update_is_in_both_tables :
    BackReachable suspendedUpdateCache ∧
    mainIds suspendedUpdateCache = [1, 2, 3] ∧
    shadowIds suspendedUpdateCache = [1] ∧
    (1 ∈ mainIds suspendedUpdateCache ∧ 1 ∈ shadowIds suspendedUpdateCache) :=
  ⟨suspendedUpdateCache_reachable, by decide, by decide, by decide, by decide⟩

/-- C24 (amended): in every back state reachable by heavy operations, easy
operations, version confirmations and clears, nothing is staged while the
suspended counter is zero (the shadow table is empty and no suspended delete is
recorded); after every heavy operation that is not suspended (updates not
suspended, or selection not yet allowed) and after every clear the shadow
table is empty, so that no id is in both tables.  While updates are suspended
the shadow table holds the staged rows, whose ids may be ids of the main
table. -/
theorem C24_shadow_empty_unless_suspended (s : SyncSqlCache) (h : BackReachable s) :
    (s.mSuspendedRecordsCounter = 0 → shadowIds s = [] ∧ s.mSuspendedDeletedIds = []) ∧
    (∀ (engine : SelectEngine) (aRequestId : Int) (aValues : List (List QVariant))
        (aLoadingStatus : LoadingStatus) (aSorting : Option SortParameters)
        (aFilter : Option String) (aReportSelected aSuspendUpdates : Bool) (aElapsedMs : Int),
      (aSuspendUpdates && s.mIsSelectionAllowed) = false →
        shadowIds (s.ProcessHeavyAction engine aRequestId aValues aLoadingStatus aSorting
          aFilter aReportSelected aSuspendUpdates aElapsedMs) = [] ∧
        ∀ id : Int,
          ¬ (id ∈ mainIds (s.ProcessHeavyAction engine aRequestId aValues aLoadingStatus
                aSorting aFilter aReportSelected aSuspendUpdates aElapsedMs) ∧
              id ∈ shadowIds (s.ProcessHeavyAction engine aRequestId aValues aLoadingStatus
                aSorting aFilter aReportSelected aSuspendUpdates aElapsedMs))) ∧
    (shadowIds s.ClearTable = [] ∧
      ∀ id : Int, ¬ (id ∈ mainIds s.ClearTable ∧ id ∈ shadowIds s.ClearTable)) := by
  have hJ := BackReachable_staged s h
  refine ⟨?_, ?_, ⟨rfl, ?_⟩⟩
  · intro hz
    have := hJ hz
    unfold shadowIds
    rw [this.1]
    exact ⟨rfl, this.2⟩
  · intro engine rid v ls so fi rep susp ms hsusp
    obtain ⟨_, _, h3, _, _, _⟩ :=
      storePart_eq.1 (ProcessHeavyAction_storePart s engine rid v ls so fi rep susp ms)
    have hs := (TryStoreItemsToDb_staged s v (susp && s.mIsSelectionAllowed) hJ).2 hsusp
    have he : shadowIds (s.ProcessHeavyAction engine rid v ls so fi rep susp ms) = [] := by
      unfold shadowIds
      rw [h3, hs.1]
      rfl
    refine ⟨he, ?_⟩
    intro id hid
    rw [he] at hid
    exact absurd hid.2 (by simp)
  · intro id hid
    have he : shadowIds s.ClearTable = [] := rfl
    rw [he] at hid
    exact absurd hid.2 (by simp)

/-- Witness of C24 (amended): after the suspended update of the row of id 1, a
heavy operation that is not suspended moves the staged row to the main table
and leaves the shadow table empty. -/
theorem C24_shadow_empty_unless_suspended_witness :
    shadowIds (suspendedUpdateCache.ProcessHeavyAction scenarioEngine 3 []
      LoadingStatus.NotChanged none none false false 0) = [] :=
  ((C24_shadow_empty_unless_suspended suspendedUpdateCache suspendedUpdateCache_reachable).2.1
    scenarioEngine 3 [] LoadingStatus.NotChanged none none false false 0 rfl).1

end

section

open SyncSqlCache

/-! ## The version map of a reachable back state is ordered by version -/

theorem mapReplace_keys (m : List (Int × IdsInfo)) (k : Int) (x : IdsInfo) :
    (mapReplace m k x).map Prod.fst = m.map Prod.fst := by
  unfold mapReplace
  induction m with
  | nil => rfl
  | cons e t ih =>
    simp only [List.map_cons, List.cons.injEq]
    refine ⟨?_, ih⟩
    split
    · rename_i h; exact h.symm
    · rfl

theorem version_not_retained {m : List (Int × IdsInfo)} {k : Int} (h : m.lookup k = none) :
    k ∉ m.map Prod.fst := by
  rw [List.lookup_eq_none_iff] at h
  intro hk
  obtain ⟨q, hq, rfl⟩ := List.mem_map.1 hk
  simpa using h q hq

theorem TransformSelection_keys (s : SyncSqlCache) (aVersion : Int) (sel : List RowRange)
    (cur : Int) :
    (s.TransformSelection aVersion sel cur).1.mVersionedIds.map Prod.fst
      = s.mVersionedIds.map Prod.fst := by
  unfold TransformSelection
  split
  · rfl
  · exact mapReplace_keys _ _ _

theorem TransformRowRange_keys (s : SyncSqlCache) (aRowRequest : RowRequest) :
    (s.TransformRowRange aRowRequest).1.mVersionedIds.map Prod.fst
      = s.mVersionedIds.map Prod.fst := by
  unfold TransformRowRange
  split
  · exact mapReplace_keys _ _ _
  · rfl

theorem UpdateRowWindow_keys (s : SyncSqlCache) :
    s.UpdateRowWindow.mVersionedIds.map Prod.fst = s.mVersionedIds.map Prod.fst := by
  unfold UpdateRowWindow
  simp only
  split <;> split <;> split <;> split <;> (try split) <;>
    first
      | rfl
      | exact mapReplace_keys _ _ _

theorem UpdateIdMapping_sorted (s : SyncSqlCache) (q : List QVariant)
    (h : (s.mVersionedIds.map Prod.fst).Pairwise (fun a b => a < b)) :
    ((s.UpdateIdMapping q).mVersionedIds.map Prod.fst).Pairwise (fun a b => a < b) := by
  unfold UpdateIdMapping
  split
  · exact h
  · rename_i hl
    exact (mapInsert_keys_sorted _ _ _ h (version_not_retained hl)).1

theorem ProcessDataPopulation_sorted (s : SyncSqlCache) (q : List QVariant)
    (h : (s.mVersionedIds.map Prod.fst).Pairwise (fun a b => a < b)) :
    ((s.ProcessDataPopulation q).mVersionedIds.map Prod.fst).Pairwise (fun a b => a < b) := by
  unfold ProcessDataPopulation
  simp only
  have h1 := UpdateIdMapping_sorted
    ({ s with mViewWindowValues :=
      { s.mViewWindowValues with Version := s.mViewWindowValues.Version + 1 } }) q h
  generalize (({ s with mViewWindowValues :=
    { s.mViewWindowValues with Version := s.mViewWindowValues.Version + 1 } }
      : SyncSqlCache).UpdateIdMapping q) = s2 at h1 ⊢
  have h2 := TransformSelection_keys s2 (s2.mViewWindowValues.Version - 1)
    s2.mViewWindowValues.Selection s2.mViewWindowValues.CurrentRow
  generalize s2.TransformSelection (s2.mViewWindowValues.Version - 1)
    s2.mViewWindowValues.Selection s2.mViewWindowValues.CurrentRow = t at h2 ⊢
  have h3 := UpdateRowWindow_keys
    ({ t.1 with mViewWindowValues :=
      { t.1.mViewWindowValues with Selection := t.2.1, CurrentRow := t.2.2 } })
  have h4 : ((({ t.1 with mViewWindowValues :=
      { t.1.mViewWindowValues with Selection := t.2.1, CurrentRow := t.2.2 } }
        : SyncSqlCache).UpdateRowWindow.UpdateViewWindowValues true).mVersionedIds.map Prod.fst)
      = s2.mVersionedIds.map Prod.fst := by
    rw [(UpdateViewWindowValues_keep _ _).2.2.2, h3]
    exact h2
  rw [h4]
  exact h1

theorem TryPerformSelection_sorted (s : SyncSqlCache) (engine : SelectEngine) (u : Bool)
    (aSorting : Option SortParameters) (aFilter : Option String) (ms : Int)
    (h : (s.mVersionedIds.map Prod.fst).Pairwise (fun a b => a < b)) :
    ((s.TryPerformSelection engine u aSorting aFilter ms).2.mVersionedIds.map
      Prod.fst).Pairwise (fun a b => a < b) := by
  have hp : ((s.PerformSelection engine).mVersionedIds.map Prod.fst).Pairwise
      (fun a b => a < b) := by
    unfold PerformSelection
    split
    · exact ProcessDataPopulation_sorted s.ReportError [] h
    · exact ProcessDataPopulation_sorted s _ h
  unfold TryPerformSelection
  split
  · exact h
  · split
    · exact hp
    · exact h

theorem storeItem_versions (aSuspend : Bool) (s : SyncSqlCache) (item : List QVariant) :
    (storeItem aSuspend s item).mVersionedIds = s.mVersionedIds := by
  unfold storeItem InsertOrReplace DeleteRecord AddPendingValue
  cases aSuspend <;> by_cases hl : item.length > 1 <;> simp [hl]

theorem StoreItemsToDb_versions (s : SyncSqlCache) (aValues : List (List QVariant))
    (aSuspend : Bool) :
    (s.StoreItemsToDb aValues aSuspend).mVersionedIds = s.mVersionedIds := by
  have h := foldl_proj_keep (fun st : SyncSqlCache => st.mVersionedIds)
    (storeItem aSuspend) (fun a x => storeItem_versions aSuspend a x) aValues s
  unfold StoreItemsToDb
  cases aSuspend <;> exact h

theorem updateProgress_versions (s : SyncSqlCache) (p : ProgressState) :
    (s.updateProgress p).1.mVersionedIds = s.mVersionedIds := by
  unfold updateProgress
  by_cases h1 : p.i ≥ s.mSuspendedRecordsCounter
  · simp only [h1, if_true]
  · by_cases h2 : (p.i + 1) * 100 / s.mSuspendedRecordsCounter ≠ p.progress
    · rw [if_neg h1]
      simp only [if_pos h2]
    · rw [if_neg h1]
      simp only [if_neg h2]

theorem ResumeSuspendedItems_versions (s : SyncSqlCache) :
    s.ResumeSuspendedItems.mVersionedIds = s.mVersionedIds := by
  have hd : ∀ (l : List Int) (a : SyncSqlCache × ProgressState),
      (l.foldl resumeDelete a).1.mVersionedIds = a.1.mVersionedIds :=
    foldl_proj_keep (fun st : SyncSqlCache × ProgressState => st.1.mVersionedIds)
      resumeDelete
      (fun a x => by
        show ((a.1.DeleteRecord x false).updateProgress a.2).1.mVersionedIds = _
        rw [updateProgress_versions]
        rfl)
  have hi : ∀ (l : List (List QVariant)) (a : SyncSqlCache × ProgressState),
      (l.foldl resumeInsert a).1.mVersionedIds = a.1.mVersionedIds :=
    foldl_proj_keep (fun st : SyncSqlCache × ProgressState => st.1.mVersionedIds)
      resumeInsert
      (fun a x => by
        show ((a.1.InsertOrReplace x false).updateProgress a.2).1.mVersionedIds = _
        rw [updateProgress_versions]
        unfold InsertOrReplace AddPendingValue
        simp)
  show (List.foldl resumeInsert _ _).1.mVersionedIds = _
  rw [hi]
  show (List.foldl resumeDelete _ _).1.mVersionedIds = _
  rw [hd]

theorem TryStoreItemsToDb_versions (s : SyncSqlCache) (aValues : List (List QVariant))
    (aSuspend : Bool) :
    (s.TryStoreItemsToDb aValues aSuspend).2.mVersionedIds = s.mVersionedIds := by
  unfold TryStoreItemsToDb
  split
  · rfl
  · cases aSuspend
    · show (s.ResumeSuspendedItems.StoreItemsToDb aValues false).mVersionedIds = _
      rw [StoreItemsToDb_versions, ResumeSuspendedItems_versions]
    · show (s.StoreItemsToDb aValues true).mVersionedIds = _
      rw [StoreItemsToDb_versions]

theorem ProcessHeavyAction_sorted (s : SyncSqlCache) (engine : SelectEngine)
    (aRequestId : Int) (aValues : List (List QVariant)) (aLoadingStatus : LoadingStatus)
    (aSorting : Option SortParameters) (aFilter : Option String)
    (aReportSelected aSuspendUpdates : Bool) (aElapsedMs : Int)
    (h : (s.mVersionedIds.map Prod.fst).Pairwise (fun a b => a < b)) :
    ((s.ProcessHeavyAction engine aRequestId aValues aLoadingStatus aSorting aFilter
      aReportSelected aSuspendUpdates aElapsedMs).mVersionedIds.map Prod.fst).Pairwise
        (fun a b => a < b) := by
  have hp : ({ (s.SetSorting aSorting).SetFilter aFilter with
        mViewWindowValues := { ((s.SetSorting aSorting).SetFilter aFilter).mViewWindowValues with
          RequestId := aRequestId } } : SyncSqlCache).mVersionedIds = s.mVersionedIds := by
    cases aSorting <;> cases aFilter <;> rfl
  generalize hs2 : ({ (s.SetSorting aSorting).SetFilter aFilter with
        mViewWindowValues := { ((s.SetSorting aSorting).SetFilter aFilter).mViewWindowValues with
          RequestId := aRequestId } } : SyncSqlCache) = s2 at hp
  have h3 : (s2.SetUpdatesFromDbAllowed aLoadingStatus).mVersionedIds = s2.mVersionedIds := by
    cases aLoadingStatus <;> rfl
  have hst := TryStoreItemsToDb_versions (s2.SetUpdatesFromDbAllowed aLoadingStatus) aValues
    (aSuspendUpdates && s2.mIsSelectionAllowed)
  have key : (s.ProcessHeavyAction engine aRequestId aValues aLoadingStatus aSorting
        aFilter aReportSelected aSuspendUpdates aElapsedMs).mVersionedIds =
        (((s2.SetUpdatesFromDbAllowed aLoadingStatus).TryStoreItemsToDb aValues
          (aSuspendUpdates && s2.mIsSelectionAllowed)).2.TryPerformSelection engine
          (((s2.SetUpdatesFromDbAllowed aLoadingStatus).TryStoreItemsToDb aValues
              (aSuspendUpdates && s2.mIsSelectionAllowed)).1
            && !(aSuspendUpdates && s2.mIsSelectionAllowed)
            || decide (aLoadingStatus = LoadingStatus.Finished))
          aSorting aFilter aElapsedMs).2.mVersionedIds := by
    rw [← hs2]
    rfl
  rw [key]
  apply TryPerformSelection_sorted
  rw [hst, h3, hp]
  exact h

theorem ProcessEasyAction_keys (s : SyncSqlCache) (aRequestId : Int)
    (aRowRequest : RowRequest) (aSelectionRequest : SelectionRequest)
    (aHintsRequest : HintsRequest) :
    (s.ProcessEasyAction aRequestId aRowRequest aSelectionRequest
        aHintsRequest).mVersionedIds.map Prod.fst
      = s.mVersionedIds.map Prod.fst := by
  have hsel : ∀ x : SyncSqlCache,
      (x.SetSelection aSelectionRequest).2.mVersionedIds.map Prod.fst
        = x.mVersionedIds.map Prod.fst := by
    intro x
    have hk := TransformSelection_keys x aSelectionRequest.Version aSelectionRequest.Selection
      aSelectionRequest.CurrentRow
    unfold SetSelection
    simp only [TransformSelectionRequest]
    split
    · exact hk
    · exact hk
  have hwin : ∀ (x : SyncSqlCache) (r : RowRequest),
      (x.SetRowWindow r).2.mVersionedIds.map Prod.fst = x.mVersionedIds.map Prod.fst := by
    intro x r
    have ht : (if !x.mIsAutoScroll then x.TransformRowRange r else (x, none)).1.mVersionedIds.map
        Prod.fst = x.mVersionedIds.map Prod.fst := by
      split
      · exact TransformRowRange_keys x r
      · rfl
    unfold SetRowWindow
    simp only
    generalize (if !x.mIsAutoScroll then x.TransformRowRange r else (x, none)) = t at ht ⊢
    split <;> exact ht
  unfold ProcessEasyAction
  simp only
  split
  · have h1 := hsel
      ({ s with mViewWindowValues := { s.mViewWindowValues with RequestId := aRequestId } })
    generalize (({ s with mViewWindowValues :=
      { s.mViewWindowValues with RequestId := aRequestId } } : SyncSqlCache).SetSelection
        aSelectionRequest) = sel at h1 ⊢
    have h2 := hwin sel.2 (sel.2.easyRowRequest aRowRequest aHintsRequest)
    generalize (sel.2.SetRowWindow (sel.2.easyRowRequest aRowRequest aHintsRequest)) = win
      at h2 ⊢
    cases hu : (sel.1 || win.1)
    · simp only [Bool.false_eq_true, if_false]
      show win.2.mVersionedIds.map Prod.fst = _
      rw [h2, h1]
    · simp only [if_true]
      show (win.2.UpdateViewWindowValues false).mVersionedIds.map Prod.fst = _
      rw [(UpdateViewWindowValues_keep _ _).2.2.2, h2, h1]
  · rfl

/-- In every reachable back state the retained versions ascend strictly along
the version map, as the keys of a `std::map` do. -/
theorem BackReachable_versions_sorted (s : SyncSqlCache) (h : BackReachable s) :
    (s.mVersionedIds.map Prod.fst).Pairwise (fun a b => a < b) := by
  induction h with
  | created a b c d e f g s hc =>
    unfold SyncSqlCache.create at hc
    split at hc
    · exact absurd hc (by simp)
    · split at hc
      · exact absurd hc (by simp)
      · simp only [Option.some.injEq] at hc
        rw [← hc]
        exact List.Pairwise.nil
  | heavy s engine rid v ls so fi rep susp ms _ ih =>
    exact ProcessHeavyAction_sorted s engine rid v ls so fi rep susp ms ih
  | easy s rid rr sr hr _ ih =>
    rw [ProcessEasyAction_keys]
    exact ih
  | confirm s v _ ih =>
    exact List.Pairwise.sublist
      ((List.dropWhile_sublist (fun e => decide (e.1 < v))).map Prod.fst) ih
  | clear s _ _ => exact List.Pairwise.nil

end

end AsyncQtTable
